import Mathlib

/-!
# OperationCiftiMath: the aligner and the evaluation loop

A shallow embedding of `OperationCiftiMath::useParameters`
(`src/Operations/OperationCiftiMath.cxx`).  The operation has three phases:

* lines 102-232: one pass over the `-var` options that parses the `-select`
  options, binds files to the variables of the expression and resolves the
  output dimensions (`alignVars`);
* lines 233-263: the final checks and the output header (`finalize`);
* lines 264-302: the row streaming loop (`stream`).

The scalar type `α` stands for `float`.  The collaborators whose code is not
part of the operation (the expression evaluator, the table of named
constants, `approximateMatch` of the mapping classes, the NaN test) are
parameters of the embedding.
-/

namespace CiftiMath

/-! ## Data model -/

/-- One axis mapping of a CIFTI header: its kind and structure are opaque to
the operation, which only reads the length and asks `approximateMatch`. -/
structure CiftiMap where
  kind : Nat
  length : Int
deriving DecidableEq, Repr

/-- An input file as the operation sees it.  Lines 118-129 read the axes
`ALONG_ROW` and `ALONG_COLUMN` of every input without a test, so a file has
these two maps and a list of `higher` ones.  The maps are the header as
`tempXML.readXML` yields it (a series length that CIFTI-1 does not record is
below 1); `numberOfColumns` and `numberOfRows` are what the file's own
`getCiftiXMLOld()` reports (`getDimensionLength(ALONG_ROW)` is the length of a
row, that is the number of columns); `data r c` is element `c` of the row that
`getRow(_, r)` delivers. -/
structure CiftiFile (α : Type) where
  alongRow : CiftiMap
  alongColumn : CiftiMap
  higher : List CiftiMap
  numberOfColumns : Nat
  numberOfRows : Nat
  data : Nat → Nat → α

/-- One `-select <dim> <index> [-repeat]` option, both numbers 1-based as the
user gives them.  `dim` is the `int` that line 136 casts the option's integer
to: the cast itself is not part of the embedding, the dimension number is
taken to fit an `int`. -/
structure SelectOpt where
  dim : Int
  index : Int
  rep : Bool
deriving DecidableEq, Repr

/-- One `-var <name> <cifti> [-select ...]...` option. -/
structure VarOpt (α : Type) where
  name : String
  cifti : CiftiFile α
  selects : List SelectOpt

/-- The parameters of one invocation.  `varNames` is `myExpr.getVarNames()`
and `evaluate values` is `(float)myExpr.evaluate(values)`. -/
structure Params (α : Type) where
  varNames : List String
  evaluate : List α → α
  vars : List (VarOpt α)
  fixnan : Option α
  overrideMapCheck : Bool

/-- Collaborators of the operation whose code lies outside it:
`CaretMathExpression::getNamedConstant` (only whether the name is one),
`CiftiMappingType::approximateMatch`, the test `x != x` on a float, and the
float `0` that fills a freshly sized row buffer. -/
structure Env (α : Type) where
  getNamedConstant : String → Bool
  approximateMatch : CiftiMap → CiftiMap → Bool
  isNaN : α → Bool
  zero : α

/-- The `OperationException`s the operation throws, one constructor per
`throw` of `useParameters`; axes are zero-based. -/
inductive OperationException where
  | noInput
  | namedConstant (varName : String)
  | selectNonexistent (varName : String)
  | duplicateVariable (varName : String)
  | lengthMismatch (varName : String) (axis : Nat)
  | mappingMismatch (varName : String) (axis : Nat)
  | lowerDimensionality (varName : String) (axis : Nat)
  | selectConflict (varName : String) (axis : Nat)
  | missingVariable (varName : String)
  | unknownLength (axis : Nat)
  | notTwoDimensions
deriving DecidableEq, Repr

/-- How a run can end badly: a fatal `OperationException`, an access to a
`std::vector` outside its bounds (undefined in the source), or a `getRow` for
a row the file does not have. -/
inductive Failure where
  | fatal (e : OperationException)
  | badVectorIndex
  | badRowIndex
deriving DecidableEq, Repr

/-- The observable actions of a run, in order. -/
inductive Event (α : Type) where
  | warning (varName : String)
  | setCiftiXML (maps : List CiftiMap)
  | getRow (v : Nat) (row : Int)
  | setRow (row : Nat) (values : List α)

/-- A variable of the expression once a `-var` option is bound to it:
`varCiftiFiles[j]` and `selectInfo[j]`. -/
structure BoundVar (α : Type) where
  file : CiftiFile α
  selectInfo : List Int

/-- The running state of the pass over the `-var` options: `varCiftiFiles`
with `selectInfo` (entry `none` while `varCiftiFiles[j] == NULL`), `outDims`
(`-1` is an unknown length) and the maps of `outXML` (`none` is `NULL`). -/
structure AlignState (α : Type) where
  bound : List (Option (BoundVar α))
  outDims : List Int
  outXML : List (Option CiftiMap)

/-- What the streaming loop works from after validation. -/
structure Plan (α : Type) where
  vars : List (BoundVar α)
  outDims : List Int
  outXML : List CiftiMap

/-! ## Lines 116-129: the transitional series-length shim -/

/-- One `if (tempXML.getDimensionLength(dir) < 1)` block of lines 118-129:
a map whose length is below 1 takes the length `len` that the file `first`
has in that direction. -/
def shimLength (m : CiftiMap) (len : Nat) : CiftiMap :=
  if m.length < 1 then { m with length := (len : Int) } else m

/-- The header `tempXML` of a file after lines 116-129. -/
def readTempXML {α : Type} (first f : CiftiFile α) : List CiftiMap :=
  shimLength f.alongRow first.numberOfColumns ::
    shimLength f.alongColumn first.numberOfRows :: f.higher

/-- The call `tempXML.getDimensionLength(j)` for an axis the header has. -/
def getDimensionLength (xml : List CiftiMap) (j : Nat) : Int :=
  match xml[j]? with
  | some m => m.length
  | none => 0

/-! ## Lines 130-146: the `-select` options of one `-var` -/

/-- The call `v.resize(n, d)` of `std::vector`. -/
def resize {β : Type} (l : List β) (n : Nat) (d : β) : List β :=
  l.take n ++ List.replicate (n - l.length) d

/-- The body of the loop of lines 134-146 for one `-select` option, on
`(thisSelectInfo, thisRepeat)`. -/
def applySelect (varName : String) (st : List Int × List Bool) (s : SelectOpt) :
    Except Failure (List Int × List Bool) :=
  let dim : Int := s.dim - 1
  let thisIndex : Int := s.index - 1
  if dim ≥ (st.1.length : Int) then
    if thisIndex ≠ 0 then
      .error (.fatal (.selectNonexistent varName))
    else
      .ok ((resize st.1 (dim.toNat + 1) (-1)).set dim.toNat thisIndex,
           (resize st.2 (dim.toNat + 1) false).set dim.toNat s.rep)
  else if dim < 0 then
    .error .badVectorIndex
  else
    .ok (st.1.set dim.toNat thisIndex, st.2.set dim.toNat s.rep)

/-- The loop of lines 134-146. -/
def applySelects (varName : String) :
    List SelectOpt → List Int × List Bool → Except Failure (List Int × List Bool)
  | [], st => .ok st
  | s :: rest, st =>
    match applySelect varName st s with
    | .error e => .error e
    | .ok st' => applySelects varName rest st'

/-! ## Lines 147-158: binding the file to a variable of the expression -/

/-- The loop of lines 148-158: the first `j` with `varName == myVarNames[j]`
receives the file and the selection; the flag is `found`. -/
def bindVariable {α : Type} (varNames : List String) (varName : String)
    (b : BoundVar α) (bound : List (Option (BoundVar α))) :
    Except Failure (Bool × List (Option (BoundVar α))) :=
  let j := varNames.indexOf varName
  if j < varNames.length then
    match bound[j]? with
    | some (some _) => .error (.fatal (.duplicateVariable varName))
    | _ => .ok (true, bound.set j (some b))
  else
    .ok (false, bound)

/-! ## Lines 163-231: the output dimensions -/

/-- The body of the loop over `j` (lines 176-230) once `outDims` and
`thisSelectInfo` reach index `j`: from `outDims[j]`, `outXML.getMap(j)`,
`thisSelectInfo[j]` and `thisRepeat[j]` to the new `outDims[j]` and map. -/
def dimBody {α : Type} (env : Env α) (overrideMapCheck : Bool) (varName : String)
    (tempXML : List CiftiMap) (j : Nat) (outDim : Int) (outMap : Option CiftiMap)
    (sel : Int) (rep : Bool) : Except Failure (Int × Option CiftiMap) :=
  if outDim = -1 then
    if sel = -1 then
      match tempXML[j]? with
      | some m => .ok (m.length, some m)
      | none => .ok (1, outMap)
    else
      if !rep then .ok (1, outMap) else .ok (outDim, outMap)
  else
    if sel = -1 then
      match tempXML[j]? with
      | some m =>
        if outDim ≠ m.length then
          .error (.fatal (.lengthMismatch varName j))
        else
          match outMap with
          | none => .ok (outDim, some m)
          | some om =>
            if !overrideMapCheck && !env.approximateMatch om m then
              .error (.fatal (.mappingMismatch varName j))
            else .ok (outDim, outMap)
      | none =>
        if outDim ≠ 1 then .error (.fatal (.lowerDimensionality varName j))
        else .ok (outDim, outMap)
    else
      if !rep then
        if outDim ≠ 1 then .error (.fatal (.selectConflict varName j))
        else .ok (outDim, outMap)
      else .ok (outDim, outMap)

/-- The loop of lines 164-231, from index `j` for `fuel` more indices.  The
two `push_back`s of lines 171-175 only make index `j` of `thisSelectInfo` and
`thisRepeat` readable with the values `-1` and `false`, and these vectors are
not used after the loop, so they are read with those defaults. -/
def dimLoop {α : Type} (env : Env α) (overrideMapCheck : Bool) (varName : String)
    (tempXML : List CiftiMap) (thisSelectInfo : List Int) (thisRepeat : List Bool) :
    Nat → Nat → List Int → List (Option CiftiMap) →
    Except Failure (List Int × List (Option CiftiMap))
  | 0, _, outDims, outXML => .ok (outDims, outXML)
  | fuel + 1, j, outDims, outXML =>
    let outDims1 := if j ≥ outDims.length then outDims ++ [-1] else outDims
    let outXML1 := if j ≥ outDims.length then resize outXML (j + 1) none else outXML
    match dimBody env overrideMapCheck varName tempXML j (outDims1.getD j (-1))
        (outXML1.getD j none) (thisSelectInfo.getD j (-1)) (thisRepeat.getD j false) with
    | .error e => .error e
    | .ok (d, m) =>
      dimLoop env overrideMapCheck varName tempXML thisSelectInfo thisRepeat fuel (j + 1)
        (outDims1.set j d) (outXML1.set j m)

/-! ## Lines 108-232: one `-var` option, and the pass over all of them -/

/-- The body of the loop of lines 108-232 for one `-var` option; the events
are the warnings it logs. -/
def alignVar {α : Type} (env : Env α) (p : Params α) (first : CiftiFile α)
    (vo : VarOpt α) (st : AlignState α) :
    List (Event α) × Except Failure (AlignState α) :=
  if env.getNamedConstant vo.name then
    ([], .error (.fatal (.namedConstant vo.name)))
  else
    let tempXML := readTempXML first vo.cifti
    let thisNumDims := tempXML.length
    match applySelects vo.name vo.selects
        (List.replicate thisNumDims (-1), List.replicate thisNumDims false) with
    | .error e => ([], .error e)
    | .ok (thisSelectInfo, thisRepeat) =>
      match bindVariable p.varNames vo.name ⟨vo.cifti, thisSelectInfo⟩ st.bound with
      | .error e => ([], .error e)
      | .ok (found, bound1) =>
        let w : List (Event α) :=
          if !found && (p.varNames.length != 0 || p.vars.length != 1) then
            [Event.warning vo.name]
          else []
        let newNumDims := max thisSelectInfo.length st.outDims.length
        match dimLoop env p.overrideMapCheck vo.name tempXML thisSelectInfo thisRepeat
            newNumDims 0 st.outDims st.outXML with
        | .error e => (w, .error e)
        | .ok (outDims1, outXML1) =>
          (w, .ok { bound := bound1, outDims := outDims1, outXML := outXML1 })

/-- The loop of lines 108-232. -/
def alignVars {α : Type} (env : Env α) (p : Params α) (first : CiftiFile α) :
    List (VarOpt α) → AlignState α → List (Event α) × Except Failure (AlignState α)
  | [], st => ([], .ok st)
  | vo :: rest, st =>
    match alignVar env p first vo st with
    | (w, .error e) => (w, .error e)
    | (w, .ok st1) =>
      match alignVars env p first rest st1 with
      | (t, r) => (w ++ t, r)

/-! ## Lines 233-252: the final checks -/

/-- The loop of lines 234-237: every variable of the expression has a file. -/
def checkBound {α : Type} :
    List String → List (Option (BoundVar α)) → Except Failure (List (BoundVar α))
  | [], _ => .ok []
  | n :: ns, bound =>
    match bound.head? with
    | some (some b) =>
      match checkBound ns bound.tail with
      | .error e => .error e
      | .ok bs => .ok (b :: bs)
    | _ => .error (.fatal (.missingVariable n))

/-- The empty length-1 scalar map `dummyMap` of lines 238-239. -/
def dummyMap : CiftiMap := { kind := 0, length := 1 }

/-- The loop of lines 240-248, from axis `i`. -/
def fillMaps : Nat → List Int → List (Option CiftiMap) → Except Failure (List CiftiMap)
  | _, _, [] => .ok []
  | i, outDims, m :: ms =>
    if outDims.head? = some (-1) then .error (.fatal (.unknownLength i))
    else
      match fillMaps (i + 1) outDims.tail ms with
      | .error e => .error e
      | .ok rest => .ok ((m.getD dummyMap) :: rest)

/-- Lines 233-252. -/
def finalize {α : Type} (p : Params α) (st : AlignState α) : Except Failure (Plan α) :=
  match checkBound p.varNames st.bound with
  | .error e => .error e
  | .ok vars =>
    match fillMaps 0 st.outDims st.outXML with
    | .error e => .error e
    | .ok maps =>
      if maps.length ≠ 2 then .error (.fatal .notTwoDimensions)
      else .ok { vars := vars, outDims := st.outDims, outXML := maps }

/-- The start of the pass: `varCiftiFiles(numVars, NULL)`, empty `outDims`,
empty `outXML`. -/
def initState {α : Type} (p : Params α) : AlignState α :=
  { bound := List.replicate p.varNames.length none, outDims := [], outXML := [] }

/-- Lines 102-252: everything before the output header is set.  The events
are the warnings logged on the way. -/
def validate {α : Type} (env : Env α) (p : Params α) :
    List (Event α) × Except Failure (Plan α) :=
  match p.vars with
  | [] => ([], .error (.fatal .noInput))
  | v0 :: _ =>
    match alignVars env p v0.cifti p.vars (initState p) with
    | (w, .error e) => (w, .error e)
    | (w, .ok st) => (w, finalize p st)

/-! ## Lines 264-302: the streaming loop -/

/-- The call `varCiftiFiles[v]->getRow(inputRows[v].data(), row)`: the row
as a buffer of `numberOfColumns` floats, or no such row. -/
def getRow {α : Type} (f : CiftiFile α) (row : Int) : Except Failure (List α) :=
  if 0 ≤ row ∧ row < (f.numberOfRows : Int) then
    .ok ((List.range f.numberOfColumns).map (f.data row.toNat))
  else .error .badRowIndex

/-- The read `v[k]` of a `std::vector` at a signed index. -/
def vectorAt {β : Type} (v : List β) (k : Int) : Except Failure β :=
  if k < 0 then .error .badVectorIndex
  else
    match v[k.toNat]? with
    | some x => .ok x
    | none => .error .badVectorIndex

/-- The loop of lines 267-274 from variable `v` on: the row buffers, and the
one read of each variable that has a `-select` on dimension 2. -/
def readFixedRows {α : Type} (env : Env α) :
    Nat → List (BoundVar α) → List (Event α) × Except Failure (List (List α))
  | _, [] => ([], .ok [])
  | v, b :: bs =>
    match vectorAt b.selectInfo 1 with
    | .error e => ([], .error e)
    | .ok s =>
      if s ≠ -1 then
        match getRow b.file s with
        | .error e => ([Event.getRow v s], .error e)
        | .ok row =>
          match readFixedRows env (v + 1) bs with
          | (t, .error e) => (Event.getRow v s :: t, .error e)
          | (t, .ok rows) => (Event.getRow v s :: t, .ok (row :: rows))
      else
        match readFixedRows env (v + 1) bs with
        | (t, .error e) => (t, .error e)
        | (t, .ok rows) => (t, .ok (List.replicate b.file.numberOfColumns env.zero :: rows))

/-- The loop of lines 277-283 for output row `i`, from variable `v` on: each
variable without a `-select` on dimension 2 reads its row `i`. -/
def readRows {α : Type} (i : Nat) :
    Nat → List (BoundVar α) → List (List α) →
    List (Event α) × Except Failure (List (List α))
  | _, [], _ => ([], .ok [])
  | v, b :: bs, inputRows =>
    match vectorAt b.selectInfo 1 with
    | .error e => ([], .error e)
    | .ok s =>
      if s = -1 then
        match getRow b.file (i : Int) with
        | .error e => ([Event.getRow v (i : Int)], .error e)
        | .ok row =>
          match readRows i (v + 1) bs inputRows.tail with
          | (t, .error e) => (Event.getRow v (i : Int) :: t, .error e)
          | (t, .ok rows) => (Event.getRow v (i : Int) :: t, .ok (row :: rows))
      else
        match readRows i (v + 1) bs inputRows.tail with
        | (t, .error e) => (t, .error e)
        | (t, .ok rows) => (t, .ok (inputRows.headD [] :: rows))

/-- The loop of lines 286-294 for output column `j`: the tuple `values`. -/
def gatherValues {α : Type} (j : Nat) :
    List (BoundVar α) → List (List α) → Except Failure (List α)
  | [], _ => .ok []
  | b :: bs, inputRows =>
    match vectorAt b.selectInfo 0 with
    | .error e => .error e
    | .ok s =>
      match vectorAt (inputRows.headD []) (if s = -1 then (j : Int) else s) with
      | .error e => .error e
      | .ok x =>
        match gatherValues j bs inputRows.tail with
        | .error e => .error e
        | .ok xs => .ok (x :: xs)

/-- Lines 296-299: the NaN replacement of one result. -/
def fixNaN {α : Type} (env : Env α) (fixnan : Option α) (x : α) : α :=
  match fixnan with
  | some nanfixval => if env.isNaN x then nanfixval else x
  | none => x

/-- The loop of lines 284-300 over the output columns in `cols`: the part of
`scratchRow` they fill. -/
def computeRow {α : Type} (env : Env α) (p : Params α) (vars : List (BoundVar α))
    (inputRows : List (List α)) : List Nat → Except Failure (List α)
  | [] => .ok []
  | j :: js =>
    match gatherValues j vars inputRows with
    | .error e => .error e
    | .ok values =>
      match computeRow env p vars inputRows js with
      | .error e => .error e
      | .ok rest => .ok (fixNaN env p.fixnan (p.evaluate values) :: rest)

/-- The loop of lines 275-302 over the output rows in `rows`. -/
def streamRows {α : Type} (env : Env α) (p : Params α) (vars : List (BoundVar α))
    (numOutCols : Nat) : List Nat → List (List α) → List (Event α) × Except Failure Unit
  | [], _ => ([], .ok ())
  | i :: is, inputRows =>
    match readRows i 0 vars inputRows with
    | (t, .error e) => (t, .error e)
    | (t, .ok inputRows1) =>
      match computeRow env p vars inputRows1 (List.range numOutCols) with
      | .error e => (t, .error e)
      | .ok scratchRow =>
        match streamRows env p vars numOutCols is inputRows1 with
        | (t2, r) => (t ++ Event.setRow i scratchRow :: t2, r)

/-- Lines 264-302: `numRows` and `numOutCols` are the lengths of the output
header along the column and along the row. -/
def stream {α : Type} (env : Env α) (p : Params α) (plan : Plan α) :
    List (Event α) × Except Failure Unit :=
  let numRows := (getDimensionLength plan.outXML 1).toNat
  let numOutCols := (getDimensionLength plan.outXML 0).toNat
  match readFixedRows env 0 plan.vars with
  | (t, .error e) => (t, .error e)
  | (t, .ok inputRows) =>
    match streamRows env p plan.vars numOutCols (List.range numRows) inputRows with
    | (t2, r) => (t ++ t2, r)

/-- The whole of `OperationCiftiMath::useParameters`: the events of the run in
order, and how it ends. -/
def useParameters {α : Type} (env : Env α) (p : Params α) :
    List (Event α) × Except Failure Unit :=
  match validate env p with
  | (w, .error e) => (w, .error e)
  | (w, .ok plan) =>
    match stream env p plan with
    | (t, r) => (w ++ Event.setCiftiXML plan.outXML :: t, r)

/-- The rows an event trace writes, in order, each with its row index. -/
def writtenRows {α : Type} : List (Event α) → List (Nat × List α)
  | [] => []
  | Event.setRow i values :: t => (i, values) :: writtenRows t
  | _ :: t => writtenRows t

/-! ## The resolution of one axis, and the selection a variable makes -/

/-- The vectors `thisSelectInfo` and `thisRepeat` of a `-var` option after
lines 130-146 (the start vectors when the loop throws). -/
def selectVectors {α : Type} (vo : VarOpt α) : List Int × List Bool :=
  let thisNumDims := 2 + vo.cifti.higher.length
  match applySelects vo.name vo.selects
      (List.replicate thisNumDims (-1), List.replicate thisNumDims false) with
  | .ok r => r
  | .error _ => (List.replicate thisNumDims (-1), List.replicate thisNumDims false)

/-- The entry `thisSelectInfo[j]` of a `-var` option when the loop over the
axes reads it: the zero-based selected index, or `-1` for no selection. -/
def selOf {α : Type} (vo : VarOpt α) (j : Nat) : Int :=
  (selectVectors vo).1.getD j (-1)

/-- The entry `thisRepeat[j]` of a `-var` option when the loop over the axes
reads it. -/
def repOf {α : Type} (vo : VarOpt α) (j : Nat) : Bool :=
  (selectVectors vo).2.getD j false

/-- The length of axis `j` of a file as the pass reads it, after lines
116-129 with `first` as the reference file. -/
def axisLength {α : Type} (first f : CiftiFile α) (j : Nat) : Int :=
  getDimensionLength (readTempXML first f) j

/-- The map of axis `j` of a file as the pass reads it, after lines
116-129 with `first` as the reference file. -/
def axisMap {α : Type} (first f : CiftiFile α) (j : Nat) : CiftiMap :=
  (readTempXML first f).getD j dummyMap

/-- The loop nest of lines 108-231 cut along axis `j`: the body of lines
176-230, for this one `j`, over the `-var` options in declaration order, on
the pair of `outDims[j]` and `outXML.getMap(j)`.  It is what the pass does to
axis `j` whenever every `-var` option reaches index `j`, as all do for the
axes 0 and 1. -/
def alignAxis {α : Type} (env : Env α) (overrideMapCheck : Bool) (first : CiftiFile α)
    (j : Nat) : List (VarOpt α) → Int × Option CiftiMap →
    Except Failure (Int × Option CiftiMap)
  | [], s => .ok s
  | vo :: rest, s =>
    match dimBody env overrideMapCheck vo.name (readTempXML first vo.cifti) j s.1 s.2
        (selOf vo j) (repOf vo j) with
    | .error e => .error e
    | .ok s1 => alignAxis env overrideMapCheck first j rest s1

/-- The `-var` option that carries the variable name `n`: the first such
option in declaration order. -/
def varOptFor {α : Type} (p : Params α) (n : String) : Option (VarOpt α) :=
  p.vars.find? (fun vo => decide (vo.name = n))

/-- The `-var` options of the variables of the expression, in the order of
the expression. -/
def boundOpts {α : Type} (p : Params α) : List (VarOpt α) :=
  p.varNames.filterMap (varOptFor p)

/-! ## The cell formula of the specification -/

/-- The last `-select` of a list that names the 1-based dimension `d`. -/
def lastSelect : List SelectOpt → Int → Option SelectOpt
  | [], _ => none
  | s :: rest, d =>
    match lastSelect rest d with
    | some t => some t
    | none => if s.dim = d then some s else none

/-- The zero-based index a `-var` option selects on the 1-based dimension `d`
(of its last `-select` for `d`), or `none` when it has no `-select` for `d`. -/
def selectedIndex {α : Type} (vo : VarOpt α) (d : Int) : Option Int :=
  (lastSelect vo.selects d).map (fun s => s.index - 1)

/-- The row `r` of the cell formula: the selected row of the variable if it
has a `-select` on dimension 2, the output row `i` otherwise. -/
def specRow {α : Type} (vo : VarOpt α) (i : Nat) : Int :=
  match selectedIndex vo 2 with
  | some r => r
  | none => (i : Int)

/-- The column `c` of the cell formula: the selected column of the variable
if it has a `-select` on dimension 1, the output column `j` otherwise. -/
def specCol {α : Type} (vo : VarOpt α) (j : Nat) : Int :=
  match selectedIndex vo 1 with
  | some c => c
  | none => (j : Int)

/-- The entry `file_v[r][c]` of the cell formula. -/
def specCell {α : Type} (vo : VarOpt α) (i j : Nat) : α :=
  vo.cifti.data (specRow vo i).toNat (specCol vo j).toNat

/-- The expression applied to the tuple of the cell formula, with the NaN
replacement applied afterwards. -/
def specValue {α : Type} (env : Env α) (p : Params α) (i j : Nat) : α :=
  fixNaN env p.fixnan (p.evaluate ((boundOpts p).map (fun vo => specCell vo i j)))

/-- Every row and column at which the cell formula reads the file of a
`-var` option, for an output of `R` rows and `C` columns, exists in the file. -/
def InFile {α : Type} (vo : VarOpt α) (R C : Nat) : Prop :=
  (match selectedIndex vo 2 with
    | some r => 0 ≤ r ∧ r < (vo.cifti.numberOfRows : Int)
    | none => R ≤ vo.cifti.numberOfRows) ∧
  (match selectedIndex vo 1 with
    | some c => 0 ≤ c ∧ c < (vo.cifti.numberOfColumns : Int)
    | none => C ≤ vo.cifti.numberOfColumns)

/-- The number of rows of the output, as line 264 reads it. -/
def Plan.numRows {α : Type} (plan : Plan α) : Nat :=
  (getDimensionLength plan.outXML 1).toNat

/-- The number of columns of the output, as line 264 reads it. -/
def Plan.numOutCols {α : Type} (plan : Plan α) : Nat :=
  (getDimensionLength plan.outXML 0).toNat

/-! ## The I/O trace of the specification -/

/-- The reads before the loop over the rows, as the specification has them:
each variable with a `-select` on dimension 2, from variable number `v` on in
the order of the expression, reads its selected row once. -/
def specFixedReads {α : Type} : Nat → List (VarOpt α) → List (Event α)
  | _, [] => []
  | v, vo :: rest =>
    match selectedIndex vo 2 with
    | some r => Event.getRow v r :: specFixedReads (v + 1) rest
    | none => specFixedReads (v + 1) rest

/-- The reads for output row `i`, as the specification has them: each
variable without a `-select` on dimension 2, from variable number `v` on in
the order of the expression, reads its row `i`. -/
def specRowReads {α : Type} (i : Nat) : Nat → List (VarOpt α) → List (Event α)
  | _, [] => []
  | v, vo :: rest =>
    match selectedIndex vo 2 with
    | some _ => specRowReads i (v + 1) rest
    | none => Event.getRow v (i : Int) :: specRowReads i (v + 1) rest

/-- The loop over the output rows, as the specification has it: for each
output row in turn, the reads of that row and then the one write of the row. -/
def specRowLoop {α : Type} (vars : List (VarOpt α)) : List (Nat × List α) → List (Event α)
  | [] => []
  | (i, row) :: rest => specRowReads i 0 vars ++ Event.setRow i row :: specRowLoop vars rest

/-- The rows that variable number `k` reads in an event trace, in order. -/
def readsOf {α : Type} (k : Nat) : List (Event α) → List Int
  | [] => []
  | Event.getRow v r :: t => if v = k then r :: readsOf k t else readsOf k t
  | _ :: t => readsOf k t

/-! ## Conditions on an invocation -/

/-- Every input file has just the two axes of a matrix, and every `-select`
names dimension 1 or 2. -/
def TwoAxes {α : Type} (p : Params α) : Prop :=
  ∀ vo ∈ p.vars, vo.cifti.higher = [] ∧ ∀ s ∈ vo.selects, s.dim = 1 ∨ s.dim = 2

/-- The names of the invocation are in order: no `-var` name is a named
constant, the variable names of the expression are distinct, and each of
them is the name of exactly one `-var` option. -/
def NamesOK {α : Type} (env : Env α) (p : Params α) : Prop :=
  (∀ vo ∈ p.vars, env.getNamedConstant vo.name = false) ∧
  p.varNames.Nodup ∧
  ∀ n ∈ p.varNames, (p.vars.map (fun vo => vo.name)).count n = 1

/-- The maps of the `-var` options that leave axis `j` unselected match in
declaration order: each one approximately matches every later one. -/
def MapsMatch {α : Type} (env : Env α) (first : CiftiFile α) (j : Nat)
    (vars : List (VarOpt α)) : Prop :=
  vars.Pairwise (fun a b => selOf a j = -1 → selOf b j = -1 →
    env.approximateMatch (axisMap first a.cifti j) (axisMap first b.cifti j) = true)

/-- Validation of axis `j` succeeds: the pass along axis `j` raises nothing
and leaves a known length. -/
def AxisResolves {α : Type} (env : Env α) (p : Params α) (j : Nat) : Prop :=
  ∃ v0 rest d m, p.vars = v0 :: rest ∧
    alignAxis env p.overrideMapCheck v0.cifti j p.vars (-1, none) = .ok (d, m) ∧ d ≠ -1

/-! ## Auxiliary definitions of the proofs -/

/-- The start vectors of lines 131-132. -/
def startVectors {α : Type} (vo : VarOpt α) : List Int × List Bool :=
  (List.replicate (2 + vo.cifti.higher.length) (-1),
   List.replicate (2 + vo.cifti.higher.length) false)

/-- The row of its file that a bound variable contributes to output row `i`. -/
def rowOf {α : Type} (b : BoundVar α) (i : Nat) : Int :=
  if b.selectInfo.getD 1 (-1) = -1 then (i : Int) else b.selectInfo.getD 1 (-1)

/-- The column of its file that a bound variable contributes to column `j`. -/
def colOf {α : Type} (b : BoundVar α) (j : Nat) : Int :=
  if b.selectInfo.getD 0 (-1) = -1 then (j : Int) else b.selectInfo.getD 0 (-1)

/-- The rows and columns a bound variable is read at, for an output of `R`
rows and `C` columns, all exist in its file. -/
def Readable {α : Type} (b : BoundVar α) (R C : Nat) : Prop :=
  2 ≤ b.selectInfo.length ∧
  (b.selectInfo.getD 1 (-1) ≠ -1 →
    0 ≤ b.selectInfo.getD 1 (-1) ∧ b.selectInfo.getD 1 (-1) < (b.file.numberOfRows : Int)) ∧
  (b.selectInfo.getD 1 (-1) = -1 → R ≤ b.file.numberOfRows) ∧
  (b.selectInfo.getD 0 (-1) ≠ -1 →
    0 ≤ b.selectInfo.getD 0 (-1) ∧
      b.selectInfo.getD 0 (-1) < (b.file.numberOfColumns : Int)) ∧
  (b.selectInfo.getD 0 (-1) = -1 → C ≤ b.file.numberOfColumns)

/-- The buffer of a variable while output row `i` is computed. -/
def bufferAt {α : Type} (b : BoundVar α) (i : Nat) : List α :=
  (List.range b.file.numberOfColumns).map (b.file.data (rowOf b i).toNat)

/-- The buffer of a variable before the loop over the rows. -/
def bufferInit {α : Type} (env : Env α) (b : BoundVar α) : List α :=
  if b.selectInfo.getD 1 (-1) = -1 then List.replicate b.file.numberOfColumns env.zero
  else (List.range b.file.numberOfColumns).map (b.file.data (b.selectInfo.getD 1 (-1)).toNat)

/-- The value a bound variable contributes to the output cell `(i, j)`. -/
def cellOf {α : Type} (b : BoundVar α) (i j : Nat) : α :=
  b.file.data (rowOf b i).toNat (colOf b j).toNat

/-- What a `-var` option binds to its variable. -/
def boundVarOf {α : Type} (vo : VarOpt α) : BoundVar α :=
  ⟨vo.cifti, (selectVectors vo).1⟩

/-- The loop nest of lines 108-158 cut along the binding: lines 147-158 over
the `-var` options in declaration order. -/
def bindAll {α : Type} (names : List String) :
    List (VarOpt α) → List (Option (BoundVar α)) → Except Failure (List (Option (BoundVar α)))
  | [], bound => .ok bound
  | vo :: rest, bound =>
    match bindVariable names vo.name (boundVarOf vo) bound with
    | .error e => .error e
    | .ok (_, bound1) => bindAll names rest bound1

/-- How a `-var` option stores its selection on dimension 2 when each of its
`-select` options has an index other than 0. -/
def RowSelectionStored {α : Type} (vo : VarOpt α) : Prop :=
  (selectVectors vo).1.getD 1 (-1) = (selectedIndex vo 2).getD (-1) ∧
  selectedIndex vo 2 ≠ some (-1)

/-- The length `d` fits axis `j` of the `-var` options: every option that
leaves the axis unselected has the length `d` there, every option that selects
on it without `-repeat` asks for the length 1, and some option does one of the
two. -/
def AxisFits {α : Type} (first : CiftiFile α) (j : Nat) (d : Int)
    (vars : List (VarOpt α)) : Prop :=
  (∀ vo ∈ vars, (selOf vo j = -1 → axisLength first vo.cifti j = d) ∧
    (selOf vo j ≠ -1 → repOf vo j = false → d = 1)) ∧
  ∃ vo ∈ vars, selOf vo j = -1 ∨ repOf vo j = false

/-! ## Concrete inputs -/

/-- Collaborators over the integers: no name is a named constant, two maps
match when their kinds agree, and no integer is a NaN. -/
def intEnv : Env Int :=
  { getNamedConstant := fun _ => false
    approximateMatch := fun a b => a.kind == b.kind
    isNaN := fun _ => false
    zero := 0 }

/-- A two-axis file holding the given rows of `cols` integers each, with the
lengths recorded in its header. -/
def matrixFile (rows : List (List Int)) (cols : Nat) : CiftiFile Int :=
  { alongRow := ⟨1, (cols : Int)⟩
    alongColumn := ⟨2, (rows.length : Int)⟩
    higher := []
    numberOfColumns := cols
    numberOfRows := rows.length
    data := fun r c => (rows.getD r []).getD c 0 }

/-- The expression `A+B` on the files `A=[1,2,3,4,5]` and
`B=[10,20,30,40,50]`. -/
def sumParams : Params Int :=
  { varNames := ["A", "B"]
    evaluate := fun v => v.getD 0 0 + v.getD 1 0
    vars := [⟨"A", matrixFile [[1, 2, 3, 4, 5]] 5, []⟩,
             ⟨"B", matrixFile [[10, 20, 30, 40, 50]] 5, []⟩]
    fixnan := none
    overrideMapCheck := false }

/-- The plan validation reaches on `sumParams`. -/
def sumPlan : Plan Int :=
  { vars := [⟨matrixFile [[1, 2, 3, 4, 5]] 5, [-1, -1]⟩,
             ⟨matrixFile [[10, 20, 30, 40, 50]] 5, [-1, -1]⟩]
    outDims := [5, 1]
    outXML := [⟨1, 5⟩, ⟨2, 1⟩] }

/-- The identity expression on one file of the two rows `[1,2]` and `[3,4]`. -/
def identityParams : Params Int :=
  { varNames := ["A"]
    evaluate := fun v => v.getD 0 0
    vars := [⟨"A", matrixFile [[1, 2], [3, 4]] 2, []⟩]
    fixnan := none
    overrideMapCheck := false }

/-- Collaborators over the integers with one more value, `none`, that is the
NaN. -/
def nanEnv : Env (Option Int) :=
  { getNamedConstant := fun _ => false
    approximateMatch := fun a b => a.kind == b.kind
    isNaN := fun x => x.isNone
    zero := some 0 }

/-- The identity expression, with `-fixnan 0`, on a file of the one row
`[7, NaN]`. -/
def nanParams : Params (Option Int) :=
  { varNames := ["A"]
    evaluate := fun v => v.getD 0 none
    vars := [⟨"A", { alongRow := ⟨1, 2⟩, alongColumn := ⟨2, 1⟩, higher := [],
                     numberOfColumns := 2, numberOfRows := 1,
                     data := fun _ c => if c = 0 then some 7 else none }, []⟩]
    fixnan := some (some 0)
    overrideMapCheck := false }

/-- The identity expression on a 3-row file `A`, with a second `-var` option
`C` for a 1-row file that the expression does not use. -/
def conflictParams : Params Int :=
  { varNames := ["A"]
    evaluate := fun v => v.getD 0 0
    vars := [⟨"A", matrixFile [[1, 2], [3, 4], [5, 6]] 2, []⟩,
             ⟨"C", matrixFile [[10, 20]] 2, []⟩]
    fixnan := none
    overrideMapCheck := false }

/-- The identity expression on a two-axis file with `-select 3 1`. -/
def thirdAxisParams : Params Int :=
  { varNames := ["A"]
    evaluate := fun v => v.getD 0 0
    vars := [⟨"A", matrixFile [[1, 2], [3, 4]] 2, [⟨3, 1, false⟩]⟩]
    fixnan := none
    overrideMapCheck := false }

/-- The expression `A+B` on a 3-row file `A` with `-select 2 1` and a 1-row
file `B`. -/
def selectParams : Params Int :=
  { varNames := ["A", "B"]
    evaluate := fun v => v.getD 0 0 + v.getD 1 0
    vars := [⟨"A", matrixFile [[1, 2], [3, 4], [5, 6]] 2, [⟨2, 1, false⟩]⟩,
             ⟨"B", matrixFile [[10, 20]] 2, []⟩]
    fixnan := none
    overrideMapCheck := false }

/-- The expression `A+B` on a 3-row file `A` with `-select 2 3 -repeat` and
the same 3-row file as `B`, unselected. -/
def repeatParams : Params Int :=
  { varNames := ["A", "B"]
    evaluate := fun v => v.getD 0 0 + v.getD 1 0
    vars := [⟨"A", matrixFile [[1, 2], [3, 4], [5, 6]] 2, [⟨2, 3, true⟩]⟩,
             ⟨"B", matrixFile [[1, 2], [3, 4], [5, 6]] 2, []⟩]
    fixnan := none
    overrideMapCheck := false }

/-- The expression `A+B` on a 3-row file `A` with `-select 2 1` (no
`-repeat`) and a 3-row file `B`, unselected, in this declaration order. -/
def pinParams : Params Int :=
  { varNames := ["A", "B"]
    evaluate := fun v => v.getD 0 0 + v.getD 1 0
    vars := [⟨"A", matrixFile [[1, 2], [3, 4], [5, 6]] 2, [⟨2, 1, false⟩]⟩,
             ⟨"B", matrixFile [[1, 2], [3, 4], [5, 6]] 2, []⟩]
    fixnan := none
    overrideMapCheck := false }

/-- The invocation `pinParams` with its two `-var` options in the other
declaration order. -/
def pinParamsSwapped : Params Int :=
  { pinParams with vars := pinParams.vars.reverse }

/-- A two-axis file like `matrixFile` whose map along the column has the
given kind. -/
def matrixFileOfKind (kind : Nat) (rows : List (List Int)) (cols : Nat) : CiftiFile Int :=
  { matrixFile rows cols with alongColumn := ⟨kind, (rows.length : Int)⟩ }

/-- The expression `A+B` on two 2-row files whose maps along the column have
different kinds, so that they do not match. -/
def mismatchParams : Params Int :=
  { varNames := ["A", "B"]
    evaluate := fun v => v.getD 0 0 + v.getD 1 0
    vars := [⟨"A", matrixFileOfKind 2 [[1, 2], [3, 4]] 2, []⟩,
             ⟨"B", matrixFileOfKind 7 [[10, 20], [30, 40]] 2, []⟩]
    fixnan := none
    overrideMapCheck := false }

/-- The expression `A+B` on two 3-row files that both carry a `-select` on
dimension 2 with `-repeat`. -/
def allRepeatParams : Params Int :=
  { varNames := ["A", "B"]
    evaluate := fun v => v.getD 0 0 + v.getD 1 0
    vars := [⟨"A", matrixFile [[1, 2], [3, 4], [5, 6]] 2, [⟨2, 1, true⟩]⟩,
             ⟨"B", matrixFile [[1, 2], [3, 4], [5, 6]] 2, [⟨2, 3, true⟩]⟩]
    fixnan := none
    overrideMapCheck := false }

/-- The identity expression on a 3-row file with `-select 2 1` followed by
`-select 2 3`. -/
def doubleSelectParams : Params Int :=
  { varNames := ["A"]
    evaluate := fun v => v.getD 0 0
    vars := [⟨"A", matrixFile [[1, 2], [3, 4], [5, 6]] 2,
              [⟨2, 1, false⟩, ⟨2, 3, false⟩]⟩]
    fixnan := none
    overrideMapCheck := false }

/-- The identity expression on a two-axis file with the given `-select`
options. -/
def beyondAxisParams (sels : List SelectOpt) : Params Int :=
  { varNames := ["A"]
    evaluate := fun v => v.getD 0 0
    vars := [⟨"A", matrixFile [[1, 2], [3, 4]] 2, sels⟩]
    fixnan := none
    overrideMapCheck := false }

/-- The identity expression on the file `A`, with two more `-var` options
that both carry the name `C`, which the expression does not use. -/
def duplicateUnusedParams : Params Int :=
  { varNames := ["A"]
    evaluate := fun v => v.getD 0 0
    vars := [⟨"A", matrixFile [[1, 2]] 2, []⟩,
             ⟨"C", matrixFile [[10, 20]] 2, []⟩,
             ⟨"C", matrixFile [[30, 40]] 2, []⟩]
    fixnan := none
    overrideMapCheck := false }

/-- The identity expression with two `-var` options that both carry the name
`A` of its variable. -/
def duplicateUsedParams : Params Int :=
  { varNames := ["A"]
    evaluate := fun v => v.getD 0 0
    vars := [⟨"A", matrixFile [[1, 2]] 2, []⟩,
             ⟨"A", matrixFile [[10, 20]] 2, []⟩]
    fixnan := none
    overrideMapCheck := false }

/-- The constant expression `7` with no `-var` option. -/
def noVarParams : Params Int :=
  { varNames := []
    evaluate := fun _ => 7
    vars := []
    fixnan := none
    overrideMapCheck := false }

/-- The expression `A+B` with a `-var` option for `A` only. -/
def missingVarParams : Params Int :=
  { varNames := ["A", "B"]
    evaluate := fun v => v.getD 0 0 + v.getD 1 0
    vars := [⟨"A", matrixFile [[1, 2]] 2, []⟩]
    fixnan := none
    overrideMapCheck := false }

/-- The identity expression on a file of 3 rows and 2 columns with the given
`-select` options. -/
def selectIndexParams (sels : List SelectOpt) : Params Int :=
  { varNames := ["A"]
    evaluate := fun v => v.getD 0 0
    vars := [⟨"A", matrixFile [[1, 2], [3, 4], [5, 6]] 2, sels⟩]
    fixnan := none
    overrideMapCheck := false }

/-- A two-axis file like `matrixFile` whose header does not record the
length along the row (a series of unset length). -/
def seriesFile (rows : List (List Int)) (cols : Nat) : CiftiFile Int :=
  { matrixFile rows cols with alongRow := ⟨1, 0⟩ }

/-- The expression `A+B` on a file `A` of one row of 5 columns and a series
file `B` of unset length with the given row. -/
def seriesParams (row : List Int) : Params Int :=
  { varNames := ["A", "B"]
    evaluate := fun v => v.getD 0 0 + v.getD 1 0
    vars := [⟨"A", matrixFile [[1, 2, 3, 4, 5]] 5, []⟩,
             ⟨"B", seriesFile [row] row.length, []⟩]
    fixnan := none
    overrideMapCheck := false }

/-- The invocation `repeatParams` with the mapping check overridden. -/
def overrideParams : Params Int :=
  { repeatParams with overrideMapCheck := true }

/-- The invocation `overrideParams` with its two `-var` options in the other
declaration order. -/
def overrideParamsSwapped : Params Int :=
  { overrideParams with vars := overrideParams.vars.reverse }

/-- The expression `A+B` on the files `a` and `b`, declared in this order as
`-var A` and `-var B`, with the given `-select` options on each and the given
flag of the mapping check. -/
def pairParams (a b : CiftiFile Int) (selsA selsB : List SelectOpt)
    (overrideMapCheck : Bool) : Params Int :=
  { varNames := ["A", "B"]
    evaluate := fun v => v.getD 0 0 + v.getD 1 0
    vars := [⟨"A", a, selsA⟩, ⟨"B", b, selsB⟩]
    fixnan := none
    overrideMapCheck := overrideMapCheck }

/-- The invocation with its `-var` options in the reverse declaration
order. -/
def swapVars (p : Params Int) : Params Int :=
  { p with vars := p.vars.reverse }

end CiftiMath

/-!
# `OperationConvertAffine::useParameters`

`Operations/OperationConvertAffine.cxx`, lines 70-100.  The class `AffineFile`
that reads and writes the affine is not part of the sources: its four calls
are parameters, each of which returns or throws.  An event trace records the
calls in order.
-/

namespace ConvertAffine

/-- The three strings of a `-from-flirt` option or of one `-to-flirt`
instance: the affine file, the source volume and the target volume. -/
structure FlirtOpt where
  file : String
  sourceVolume : String
  targetVolume : String
deriving DecidableEq, Repr

/-- The parameters of an invocation as `useParameters` reads them: the
optional parameters 1, 2 and 3 (`none` when `m_present` is false) and the
instances of the repeatable parameter 4, in order. -/
structure Params where
  fromWorld : Option String
  fromFlirt : Option FlirtOpt
  toWorld : Option String
  toFlirt : List FlirtOpt

/-- The calls of `AffineFile` on `myAffine`, over a type `A` of affines: a
read gives the affine the object then holds, or `none` when the call throws;
a write returns whether the call returns normally. -/
structure AffineFile (A : Type) where
  readWorld : String → Option A
  readFlirt : FlirtOpt → Option A
  writeWorld : A → String → Bool
  writeFlirt : A → FlirtOpt → Bool

/-- How a run ends when it does not return: the `OperationException` of line
84, the one of line 88, or an exception out of a call of `AffineFile`. -/
inductive Failure where
  | onlyOneFrom
  | noFrom
  | affineFile
deriving DecidableEq, Repr

/-- The calls of `AffineFile` a run makes. -/
inductive Event (A : Type) where
  | readWorld (path : String)
  | readFlirt (opt : FlirtOpt)
  | writeWorld (affine : A) (path : String)
  | writeFlirt (affine : A) (opt : FlirtOpt)

/-- Whether an event is a call that writes an output affine. -/
def Event.isWrite {A : Type} : Event A → Bool
  | .writeWorld _ _ => true
  | .writeFlirt _ _ => true
  | _ => false

/-- Lines 73-88: the input affine.  With both `-from` options present the
world affine is read before line 84 throws. -/
def readInput {A : Type} (env : AffineFile A) (p : Params) :
    List (Event A) × Except Failure A :=
  match p.fromWorld with
  | some path =>
    match env.readWorld path with
    | none => ([.readWorld path], .error .affineFile)
    | some a =>
      match p.fromFlirt with
      | some _ => ([.readWorld path], .error .onlyOneFrom)
      | none => ([.readWorld path], .ok a)
  | none =>
    match p.fromFlirt with
    | some opt =>
      match env.readFlirt opt with
      | none => ([.readFlirt opt], .error .affineFile)
      | some a => ([.readFlirt opt], .ok a)
    | none => ([], .error .noFrom)

/-- The loop of lines 96-99 over the `-to-flirt` instances. -/
def writeFlirts {A : Type} (env : AffineFile A) (a : A) :
    List FlirtOpt → List (Event A) × Except Failure Unit
  | [] => ([], .ok ())
  | opt :: rest =>
    if env.writeFlirt a opt then
      match writeFlirts env a rest with
      | (t, r) => (.writeFlirt a opt :: t, r)
    else ([.writeFlirt a opt], .error .affineFile)

/-- Lines 89-99: the outputs. -/
def writeOutputs {A : Type} (env : AffineFile A) (p : Params) (a : A) :
    List (Event A) × Except Failure Unit :=
  match p.toWorld with
  | some path =>
    if env.writeWorld a path then
      match writeFlirts env a p.toFlirt with
      | (t, r) => (.writeWorld a path :: t, r)
    else ([.writeWorld a path], .error .affineFile)
  | none => writeFlirts env a p.toFlirt

/-- The whole of `OperationConvertAffine::useParameters`: the calls of
`AffineFile` in order, and how the run ends. -/
def useParameters {A : Type} (env : AffineFile A) (p : Params) :
    List (Event A) × Except Failure Unit :=
  match readInput env p with
  | (t, .error e) => (t, .error e)
  | (t, .ok a) =>
    match writeOutputs env p a with
    | (t2, r) => (t ++ t2, r)

/-- The number of `-from` options present. -/
def fromCount (p : Params) : Nat :=
  (if p.fromWorld.isSome then 1 else 0) + (if p.fromFlirt.isSome then 1 else 0)

/-- The writes a run with the input affine `a` is to make: the world affine
when `-to-world` is present, then one flirt matrix per `-to-flirt` instance,
in order. -/
def expectedWrites {A : Type} (p : Params) (a : A) : List (Event A) :=
  p.toWorld.toList.map (Event.writeWorld a) ++ p.toFlirt.map (Event.writeFlirt a)

/-- An `AffineFile` whose affines are strings: a read gives the name of the
file read, and no call throws. -/
def nameAffine : AffineFile String :=
  { readWorld := fun path => some path
    readFlirt := fun opt => some opt.file
    writeWorld := fun _ _ => true
    writeFlirt := fun _ _ => true }

/-- An invocation with `-from-world`, `-to-world` and two `-to-flirt`
instances. -/
def worldParams : Params :=
  { fromWorld := some "in.world"
    fromFlirt := none
    toWorld := some "out.world"
    toFlirt := [⟨"a.mat", "src1", "trg1"⟩, ⟨"b.mat", "src2", "trg2"⟩] }

/-- The invocation `worldParams` with a `-from-flirt` option too. -/
def bothFromParams : Params :=
  { worldParams with fromFlirt := some ⟨"in.mat", "src", "trg"⟩ }

/-- The invocation `worldParams` without its `-from-world` option. -/
def noFromParams : Params :=
  { worldParams with fromWorld := none }

end ConvertAffine

/-!
# `CiftiFiberOrientationFile`

`Files/CiftiFiberOrientationFile.cxx`: `isEmpty` (lines 121-125),
`initializeWithTestData` (168-281), `getNumberOfFiberOrientations` (286-290),
`getFiberOrientationNearestCoordinate` (314-337) and `readFile` (429-508).
A `float` is a rational number here, so the arithmetic is exact.  The classes
`FiberOrientation`, `Fiber` and `MathFunctions` are not part of the sources.
-/

namespace FiberOrientationFile

/-- The members of a `FiberOrientation` that the file class reads: the
coordinate `m_xyz` and the flag `m_valid`; `numberOfFibers` and `data` stand
for the rest of the object. -/
structure FiberOrientation where
  m_xyz : ℚ × ℚ × ℚ
  m_valid : Bool
  numberOfFibers : Int
  data : List ℚ
deriving DecidableEq

/-- The member of a `CiftiFiberOrientationFile` that the functions below read
and write: the vector `m_fiberOrientations`. -/
structure CiftiFiberOrientationFile where
  m_fiberOrientations : List FiberOrientation
deriving DecidableEq

/-- The `CiftiFile` that `readFile` has opened: the numbers `getNumberOfRows`
and `getNumberOfColumns` return, and the floats `getRow` puts into the row
buffer. -/
structure CiftiFile where
  numberOfRows : Int
  numberOfColumns : Int
  getRow : Int → List ℚ

/-- The collaborators that are not part of the sources: the constructor
`FiberOrientation(numberOfFibers, data)` and `MathFunctions::toRadians`. -/
structure Env where
  newFiberOrientation : Int → List ℚ → FiberOrientation
  toRadians : ℚ → ℚ

/-- The `DataFileException`s of `readFile`: the file cannot be read or opened
(lines 434-439), it has no rows (443), no columns (448), or the validation of
the column count fails (461). -/
inductive DataFileException where
  | notReadable
  | noRows
  | noColumns
  | columnCount (expectedNumberOfColumns numCols : Int)
deriving DecidableEq, Repr

/-- What `readFile` does row by row: the call of the constructor of line 476
with its number of fibers, for row `i`, and the message of line 482. -/
inductive Event where
  | newFiberOrientation (numberOfFibers : Int) (i : Nat)
  | logSevere (i : Nat)
deriving DecidableEq, Repr

/-- Modelled from the spec: the constant `FiberOrientation::NUMBER_OF_ELEMENTS_IN_FILE`,
whose header is not part of the sources: the 3 XYZ elements at the start of a
row, as the comment of lines 453-454 and the offsets of
`initializeWithTestData` have it. -/
def NUMBER_OF_ELEMENTS_IN_FILE : Int := 3

/-- Modelled from the spec: the constant `Fiber::NUMBER_OF_ELEMENTS_PER_FIBER_IN_FILE`,
whose header is not part of the sources: the 7 elements of one fiber, as the
offsets of `initializeWithTestData` have it. -/
def NUMBER_OF_ELEMENTS_PER_FIBER_IN_FILE : Int := 7

/-- Modelled from the spec: the helper `MathFunctions::distanceSquared3D`,
which is not part of the sources: as its name has it, the square of the
Euclidean distance of two coordinates. -/
def distanceSquared3D (p q : ℚ × ℚ × ℚ) : ℚ :=
  (p.1 - q.1) * (p.1 - q.1) + (p.2.1 - q.2.1) * (p.2.1 - q.2.1)
    + (p.2.2 - q.2.2) * (p.2.2 - q.2.2)

/-- The value `std::numeric_limits<float>::max()` of an IEEE single. -/
def FLT_MAX : ℚ := 340282346638528859811704183484516925440

/-- The function `clearPrivate`, lines 100-115, on `m_fiberOrientations`. -/
def clear (_self : CiftiFiberOrientationFile) : CiftiFiberOrientationFile :=
  { m_fiberOrientations := [] }

/-- The function `isEmpty`, lines 121-125. -/
def isEmpty (_self : CiftiFiberOrientationFile) : Bool :=
  true

/-- The function `getNumberOfFiberOrientations`, lines 286-290. -/
def getNumberOfFiberOrientations (self : CiftiFiberOrientationFile) : Int :=
  (self.m_fiberOrientations.length : Int)

/-- The array `fiberData` of lines 174-219. -/
def testData1 (env : Env) : List ℚ :=
  [12.8, 125.8, 2.4,
   0.3, 2.0, env.toRadians 90.0, 0.0, env.toRadians 50.0, env.toRadians 10.0, 0.0,
   0.6, 2.0, env.toRadians 90.0, env.toRadians 90.0, env.toRadians 50.0, env.toRadians 10.0,
     env.toRadians 20.0,
   1.0, 2.0, 0.0, 0.0, env.toRadians 20.0, env.toRadians 10.0, env.toRadians 70.0]

/-- The array `fiberData` of lines 229-274. -/
def testData2 (env : Env) : List ℚ :=
  [-60.8, -55.8, -2.4,
   0.3, 2.0, env.toRadians 45.0, env.toRadians 45.0, env.toRadians 40.0, env.toRadians 10.0,
     0.0,
   0.6, 2.0, env.toRadians 45.0, env.toRadians 135.0, env.toRadians 20.0, env.toRadians 15.0,
     0.0,
   1.0, 2.0, env.toRadians 45.0, env.toRadians (-45.0), env.toRadians 40.0,
     env.toRadians 20.0, env.toRadians 25.0]

/-- The function `initializeWithTestData`, lines 168-281: two fiber
orientations of 3 fibers each are appended. -/
def initializeWithTestData (env : Env) (self : CiftiFiberOrientationFile) :
    CiftiFiberOrientationFile :=
  { m_fiberOrientations :=
      self.m_fiberOrientations ++
        [env.newFiberOrientation 3 (testData1 env), env.newFiberOrientation 3 (testData2 env)] }

/-- The loop of lines 322-334 on the pair of `nearestDistance` and
`nearestFiberOrientation`. -/
def nearestLoop (xyz : ℚ × ℚ × ℚ) (maximumDistance : ℚ) :
    List FiberOrientation → ℚ × Option FiberOrientation → ℚ × Option FiberOrientation
  | [], st => st
  | fo :: rest, st =>
    let distance := distanceSquared3D xyz fo.m_xyz
    if distance < st.1 then
      if maximumDistance > 0 ∧ distance > maximumDistance then
        nearestLoop xyz maximumDistance rest st
      else
        nearestLoop xyz maximumDistance rest (distance, some fo)
    else
      nearestLoop xyz maximumDistance rest st

/-- The function `getFiberOrientationNearestCoordinate`, lines 314-337;
`none` is `NULL`. -/
def getFiberOrientationNearestCoordinate (self : CiftiFiberOrientationFile)
    (xyz : ℚ × ℚ × ℚ) (maximumDistance : ℚ) : Option FiberOrientation :=
  (nearestLoop xyz maximumDistance self.m_fiberOrientations (FLT_MAX, none)).2

/-- The loop of lines 474-488 over the rows in `rows`, on
`m_fiberOrientations`. -/
def loadRows (env : Env) (ciftiFile : CiftiFile) (numberOfFibers : Int) :
    List Nat → List FiberOrientation → List Event × List FiberOrientation
  | [], fiberOrientations => ([], fiberOrientations)
  | i :: rest, fiberOrientations =>
    let fiberOrient := env.newFiberOrientation numberOfFibers (ciftiFile.getRow (i : Int))
    if fiberOrient.m_valid then
      match loadRows env ciftiFile numberOfFibers rest (fiberOrientations ++ [fiberOrient]) with
      | (t, r) => (Event.newFiberOrientation numberOfFibers i :: t, r)
    else
      match loadRows env ciftiFile numberOfFibers rest fiberOrientations with
      | (t, r) => (Event.newFiberOrientation numberOfFibers i :: Event.logSevere i :: t, r)

/-- The function `readFile`, lines 429-508, on `m_fiberOrientations`:
`opened` is the file that lines 434-439 open, or `none` when they throw.  The
division of line 456 is the division of `int64_t`, which truncates towards
zero; with `numCols > 0` none of the operations overflows. -/
def readFile (env : Env) (self : CiftiFiberOrientationFile) (opened : Option CiftiFile) :
    List Event × CiftiFiberOrientationFile × Except DataFileException Unit :=
  let self1 := clear self
  match opened with
  | none => ([], self1, .error .notReadable)
  | some ciftiFile =>
    let numRows := ciftiFile.numberOfRows
    if numRows ≤ 0 then ([], clear self1, .error .noRows)
    else
      let numCols := ciftiFile.numberOfColumns
      if numCols ≤ 0 then ([], clear self1, .error .noColumns)
      else
        let numberOfFibers :=
          Int.tdiv (numCols - NUMBER_OF_ELEMENTS_IN_FILE) NUMBER_OF_ELEMENTS_PER_FIBER_IN_FILE
        let expectedNumberOfColumns :=
          numberOfFibers * NUMBER_OF_ELEMENTS_PER_FIBER_IN_FILE + NUMBER_OF_ELEMENTS_IN_FILE
        if expectedNumberOfColumns ≠ numCols then
          ([], clear self1, .error (.columnCount expectedNumberOfColumns numCols))
        else
          match loadRows env ciftiFile numberOfFibers (List.range numRows.toNat)
              self1.m_fiberOrientations with
          | (t, fiberOrientations) => (t, { m_fiberOrientations := fiberOrientations }, .ok ())

/-- The constructor calls of an event trace, in order: the number of fibers
and the row of each. -/
def constructorCalls : List Event → List (Int × Nat)
  | [] => []
  | Event.newFiberOrientation n i :: t => (n, i) :: constructorCalls t
  | _ :: t => constructorCalls t

/-- A constructor that takes the coordinate from the first three floats of
the row and accepts a row when its first float is not negative; `toRadians`
is the identity. -/
def simpleEnv : Env :=
  { newFiberOrientation := fun n data =>
      { m_xyz := (data.getD 0 0, data.getD 1 0, data.getD 2 0)
        m_valid := decide (0 ≤ data.getD 0 0)
        numberOfFibers := n
        data := data }
    toRadians := fun x => x }

/-- A file without fiber orientations. -/
def emptyFile : CiftiFiberOrientationFile :=
  { m_fiberOrientations := [] }

/-- A file that holds one fiber orientation, at the coordinate `(2, 0, 0)`. -/
def oneFiberFile : CiftiFiberOrientationFile :=
  { m_fiberOrientations := [simpleEnv.newFiberOrientation 0 [2, 0, 0]] }

/-- An opened file of 3 rows and 10 columns, one fiber per row; the second
row starts with a negative float. -/
def tenColumnFile : CiftiFile :=
  { numberOfRows := 3
    numberOfColumns := 10
    getRow := fun i =>
      if i = 1 then [-1, 0, 0, 1, 1, 1, 1, 1, 1, 1] else [(i : ℚ), 0, 0, 1, 1, 1, 1, 1, 1, 1] }

end FiberOrientationFile

/-!
# `AnnotationOneDimensionalShape::applySpatialModificationTabOrWindowSpace`

`Annotations/AnnotationOneDimensionalShape.cxx`, lines 526-654.  The function
computes in the C type `float`, which is read as the IEEE 754 binary32
format: every operation gives the `float` nearest to the exact result, the
one with the even mantissa when two are equally near, and an operation is
rounded on its own.  The branch of the rotation handle (lines 580-629) works
through `std::atan2` and classes that are not part of the sources: the
coordinates it computes are a parameter.
-/

namespace AnnotationOneDimensionalShape

/-- The values of `AnnotationSizingHandleTypeEnum` that the switch of lines
546-630 lists. -/
inductive AnnotationSizingHandleTypeEnum where
  | ANNOTATION_SIZING_HANDLE_BOX_BOTTOM
  | ANNOTATION_SIZING_HANDLE_BOX_BOTTOM_LEFT
  | ANNOTATION_SIZING_HANDLE_BOX_BOTTOM_RIGHT
  | ANNOTATION_SIZING_HANDLE_BOX_LEFT
  | ANNOTATION_SIZING_HANDLE_BOX_RIGHT
  | ANNOTATION_SIZING_HANDLE_BOX_TOP
  | ANNOTATION_SIZING_HANDLE_BOX_TOP_LEFT
  | ANNOTATION_SIZING_HANDLE_BOX_TOP_RIGHT
  | ANNOTATION_SIZING_HANDLE_LINE_END
  | ANNOTATION_SIZING_HANDLE_LINE_START
  | ANNOTATION_SIZING_HANDLE_NONE
  | ANNOTATION_SIZING_HANDLE_ROTATION
deriving DecidableEq, Repr

/-! ## The type `float` -/

/-- A value of the C type `float`, read as an IEEE 754 binary32 number.  A
finite value is `(-1)^negative * mantissa * 2^exponent` in its one normal
form: `mantissa < 2^24`, `-149 ≤ exponent ≤ 104`, and `2^23 ≤ mantissa` unless
`exponent = -149` (a subnormal number or a zero, which has its sign).  The
payload of a NaN is not kept. -/
inductive float where
  | finite (negative : Bool) (mantissa : Nat) (exponent : Int)
  | infinite (negative : Bool)
  | nan
deriving DecidableEq, Repr

/-- The number of binary digits of `n`, counted in at most `steps` steps;
`n` steps are enough for `n`. -/
def binaryDigits : Nat → Nat → Nat
  | 0, _ => 0
  | steps + 1, n => if n = 0 then 0 else binaryDigits steps (n / 2) + 1

/-- The `float` nearest to `(-1)^negative * m * 2^e`, the even mantissa of
the two when they are equally near, and the infinity when that is beyond the
largest `float`: the rounding of every operation on `float`. -/
def float.round (negative : Bool) (m : Nat) (e : Int) : float :=
  if m = 0 then .finite negative 0 (-149)
  else
    let ulp : Int := max (e + (binaryDigits m m : Int) - 24) (-149)
    let kept : Nat :=
      if ulp ≤ e then m * 2 ^ (e - ulp).toNat
      else
        let d := (ulp - e).toNat
        let q := m / 2 ^ d
        let r := m % 2 ^ d
        if 2 ^ (d - 1) < r ∨ (2 ^ (d - 1) = r ∧ q % 2 = 1) then q + 1 else q
    let mantissa : Nat := if kept = 2 ^ 24 then 2 ^ 23 else kept
    let exponent : Int := if kept = 2 ^ 24 then ulp + 1 else ulp
    if 104 < exponent then .infinite negative else .finite negative mantissa exponent

/-- The finite value `(-1)^negative * m * 2^e` as a multiple of `2^g`, for
`g ≤ e`. -/
def float.units (negative : Bool) (m : Nat) (e g : Int) : Int :=
  (if negative then -1 else 1) * ((m * 2 ^ (e - g).toNat : Nat) : Int)

/-- The operator `+` of `float`. -/
def float.add : float → float → float
  | .nan, _ => .nan
  | _, .nan => .nan
  | .infinite s, .infinite t => if s = t then .infinite s else .nan
  | .infinite s, .finite _ _ _ => .infinite s
  | .finite _ _ _, .infinite t => .infinite t
  | .finite s m e, .finite t n f =>
    let g := min e f
    let sum := float.units s m e g + float.units t n f g
    if sum = 0 then .finite (s && t) 0 (-149)
    else float.round (decide (sum < 0)) sum.natAbs g

/-- The operator `*` of `float`. -/
def float.mul : float → float → float
  | .nan, _ => .nan
  | _, .nan => .nan
  | .infinite s, .infinite t => .infinite (xor s t)
  | .infinite s, .finite t n _ => if n = 0 then .nan else .infinite (xor s t)
  | .finite s m _, .infinite t => if m = 0 then .nan else .infinite (xor s t)
  | .finite s m e, .finite t n f => float.round (xor s t) (m * n) (e + f)

/-- The operator `/` of `float`.  The quotient of two finite values is
rounded from its first 51 binary digits and the fact whether more follow. -/
def float.div : float → float → float
  | .nan, _ => .nan
  | _, .nan => .nan
  | .infinite _, .infinite _ => .nan
  | .infinite s, .finite t _ _ => .infinite (xor s t)
  | .finite s _ _, .infinite t => .finite (xor s t) 0 (-149)
  | .finite s m e, .finite t n f =>
    if n = 0 then (if m = 0 then .nan else .infinite (xor s t))
    else
      float.round (xor s t)
        (2 * (m * 2 ^ 50 / n) + (if m * 2 ^ 50 % n = 0 then 0 else 1)) (e - f - 51)

/-- The operator `<=` of `float`; `a >= b` is `b <= a`.  It is false when an
operand is a NaN. -/
def float.le : float → float → Bool
  | .nan, _ => false
  | _, .nan => false
  | .infinite s, .infinite t => s || !t
  | .infinite s, .finite _ _ _ => s
  | .finite _ _ _, .infinite t => !t
  | .finite s m e, .finite t n f =>
    decide (float.units s m e (min e f) ≤ float.units t n f (min e f))

/-- The operator `!=` of `float`: true unless the operands are equal numbers,
so true when an operand is a NaN, and false for the two zeros. -/
def float.ne (a b : float) : Bool :=
  !(float.le a b && float.le b a)

/-- Whether the `float` is one of the two zeros. -/
def float.isZero : float → Bool
  | .finite _ mantissa _ => decide (mantissa = 0)
  | _ => false

/-- The constant `0.0f`. -/
def float.zero : float := .finite false 0 (-149)

/-- The constant `100.0f`, which is `13107200 * 2^-17`. -/
def float.hundred : float := .finite false 13107200 (-17)

/-- The number that a `float` is; 0 for an infinity and a NaN. -/
def float.toRat : float → ℚ
  | .finite negative mantissa exponent =>
    (if negative then -1 else 1) * (mantissa : ℚ) * (2 : ℚ) ^ exponent
  | _ => 0

/-! ## The function -/

/-- The members of an `AnnotationSpatialModification` that the function
reads. -/
structure AnnotationSpatialModification where
  m_sizingHandleType : AnnotationSizingHandleTypeEnum
  m_viewportWidth : float
  m_viewportHeight : float
  m_mouseX : float
  m_mouseY : float
  m_mouseDX : float
  m_mouseDY : float

/-- Modelled from the spec: the class `AnnotationCoordinate`, which is not
part of the sources: it holds one XYZ. -/
structure AnnotationCoordinate where
  m_xyz : float × float × float
deriving DecidableEq

/-- Modelled from the spec: `AnnotationCoordinate::getXYZ`, which is not part
of the sources: it gives the XYZ that the coordinate holds. -/
def AnnotationCoordinate.getXYZ (c : AnnotationCoordinate) : float × float × float := c.m_xyz

/-- Modelled from the spec: `AnnotationCoordinate::setXYZ`, which is not part
of the sources: it replaces the XYZ that the coordinate holds. -/
def AnnotationCoordinate.setXYZ (_c : AnnotationCoordinate) (xyz : float × float × float) :
    AnnotationCoordinate := ⟨xyz⟩

/-- The two members of the shape that the function reads and writes. -/
structure Shape where
  m_startCoordinate : AnnotationCoordinate
  m_endCoordinate : AnnotationCoordinate
deriving DecidableEq

/-- The values `newX1`, `newY1`, `newX2`, `newY2` of the function. -/
structure NewXY where
  newX1 : float
  newY1 : float
  newX2 : float
  newY2 : float
deriving DecidableEq

/-- The constant `spaceDX` of lines 539-541. -/
def spaceDX (spatialModification : AnnotationSpatialModification) : float :=
  float.mul float.hundred
    (if float.ne spatialModification.m_viewportWidth float.zero
      then float.div spatialModification.m_mouseDX spatialModification.m_viewportWidth
      else float.zero)

/-- The constant `spaceDY` of lines 542-544. -/
def spaceDY (spatialModification : AnnotationSpatialModification) : float :=
  float.mul float.hundred
    (if float.ne spatialModification.m_viewportHeight float.zero
      then float.div spatialModification.m_mouseDY spatialModification.m_viewportHeight
      else float.zero)

/-- The switch of lines 546-630: `validFlag` and the new coordinates;
`rotated` is what lines 582-626 compute for the rotation handle. -/
def moveHandle (rotated : Shape → AnnotationSpatialModification → NewXY) (self : Shape)
    (spatialModification : AnnotationSpatialModification) : Bool × NewXY :=
  let xyz1 := self.m_startCoordinate.getXYZ
  let xyz2 := self.m_endCoordinate.getXYZ
  let start : NewXY :=
    { newX1 := xyz1.1
      newY1 := xyz1.2.1
      newX2 := xyz2.1
      newY2 := xyz2.2.1 }
  let dx := spaceDX spatialModification
  let dy := spaceDY spatialModification
  match spatialModification.m_sizingHandleType with
  | .ANNOTATION_SIZING_HANDLE_LINE_END =>
    (true, { start with newX2 := float.add start.newX2 dx, newY2 := float.add start.newY2 dy })
  | .ANNOTATION_SIZING_HANDLE_LINE_START =>
    (true, { start with newX1 := float.add start.newX1 dx, newY1 := float.add start.newY1 dy })
  | .ANNOTATION_SIZING_HANDLE_NONE =>
    (true, { newX1 := float.add start.newX1 dx, newY1 := float.add start.newY1 dy,
             newX2 := float.add start.newX2 dx, newY2 := float.add start.newY2 dy })
  | .ANNOTATION_SIZING_HANDLE_ROTATION => (true, rotated self spatialModification)
  | _ => (false, start)

/-- The test of lines 633-640 on one new coordinate: `(x >= 0.0) && (x <=
100.0)`.  The two `double` constants are values of `float`, so the comparison
of the converted `float` is the comparison in `float`. -/
def inRange (x : float) : Bool :=
  float.le float.zero x && float.le x float.hundred

/-- The whole of `applySpatialModificationTabOrWindowSpace`: the value it
returns and the shape it leaves. -/
def applySpatialModificationTabOrWindowSpace
    (rotated : Shape → AnnotationSpatialModification → NewXY) (self : Shape)
    (spatialModification : AnnotationSpatialModification) : Bool × Shape :=
  match moveHandle rotated self spatialModification with
  | (false, _) => (false, self)
  | (true, n) =>
    if inRange n.newX1 && inRange n.newY1 && inRange n.newX2 && inRange n.newY2 then
      (true,
        { m_startCoordinate := self.m_startCoordinate.setXYZ
            (n.newX1, n.newY1, self.m_startCoordinate.getXYZ.2.2)
          m_endCoordinate := self.m_endCoordinate.setXYZ
            (n.newX2, n.newY2, self.m_endCoordinate.getXYZ.2.2) })
    else (false, self)

/-! ## The words of the specification -/

/-- The percentage that the specification gives over exact arithmetic for a
move of the mouse by `mouseD` in a viewport of size `viewport`. -/
def exactDelta (mouseD viewport : ℚ) : ℚ :=
  if viewport = 0 then 0 else 100 * mouseD / viewport

/-- The percentage in `float` arithmetic: `100.0f * (mouseD / viewport)`, and
0 when `viewport` is 0. -/
def specDelta (mouseD viewport : float) : float :=
  if float.ne viewport float.zero then float.mul float.hundred (float.div mouseD viewport)
  else float.zero

/-- Whether the handle moves the start of the line, in the words of the
specification: the handle of the start, and no handle. -/
def movesStart : AnnotationSizingHandleTypeEnum → Bool
  | .ANNOTATION_SIZING_HANDLE_LINE_START => true
  | .ANNOTATION_SIZING_HANDLE_NONE => true
  | _ => false

/-- Whether the handle moves the end of the line, in the words of the
specification: the handle of the end, and no handle. -/
def movesEnd : AnnotationSizingHandleTypeEnum → Bool
  | .ANNOTATION_SIZING_HANDLE_LINE_END => true
  | .ANNOTATION_SIZING_HANDLE_NONE => true
  | _ => false

/-- The shape that the specification describes, in `float` arithmetic: the
old XYZ of both end points, with the percentages added to the x and y of the
start when `moveStart` holds and to those of the end when `moveEnd` holds. -/
def specMoved (moveStart moveEnd : Bool) (self : Shape)
    (spatialModification : AnnotationSpatialModification) : Shape :=
  let dx := specDelta spatialModification.m_mouseDX spatialModification.m_viewportWidth
  let dy := specDelta spatialModification.m_mouseDY spatialModification.m_viewportHeight
  { m_startCoordinate :=
      ⟨(if moveStart then float.add self.m_startCoordinate.m_xyz.1 dx
          else self.m_startCoordinate.m_xyz.1,
        if moveStart then float.add self.m_startCoordinate.m_xyz.2.1 dy
          else self.m_startCoordinate.m_xyz.2.1,
        self.m_startCoordinate.m_xyz.2.2)⟩
    m_endCoordinate :=
      ⟨(if moveEnd then float.add self.m_endCoordinate.m_xyz.1 dx
          else self.m_endCoordinate.m_xyz.1,
        if moveEnd then float.add self.m_endCoordinate.m_xyz.2.1 dy
          else self.m_endCoordinate.m_xyz.2.1,
        self.m_endCoordinate.m_xyz.2.2)⟩ }

/-- The `float` is a finite number of `[0, 100]`. -/
def float.InPercentRange (x : float) : Prop :=
  (∃ negative mantissa exponent, x = float.finite negative mantissa exponent) ∧
    0 ≤ x.toRat ∧ x.toRat ≤ 100

/-- The x and y of both end points of the shape are finite numbers of
`[0, 100]`. -/
def InRange (s : Shape) : Prop :=
  s.m_startCoordinate.m_xyz.1.InPercentRange ∧ s.m_startCoordinate.m_xyz.2.1.InPercentRange ∧
  s.m_endCoordinate.m_xyz.1.InPercentRange ∧ s.m_endCoordinate.m_xyz.2.1.InPercentRange

/-! ## Concrete inputs -/

/-- A rotation that leaves the coordinates as they are. -/
def noRotation (self : Shape) (_spatialModification : AnnotationSpatialModification) : NewXY :=
  { newX1 := self.m_startCoordinate.getXYZ.1
    newY1 := self.m_startCoordinate.getXYZ.2.1
    newX2 := self.m_endCoordinate.getXYZ.1
    newY2 := self.m_endCoordinate.getXYZ.2.1 }

/-- The `float` of a natural number. -/
def float.ofNat (n : Nat) : float := float.round false n 0

/-- A line from `(10, 20)` to `(60, 80)`. -/
def lineShape : Shape :=
  { m_startCoordinate := ⟨(float.ofNat 10, float.ofNat 20, float.zero)⟩
    m_endCoordinate := ⟨(float.ofNat 60, float.ofNat 80, float.zero)⟩ }

/-- A move of the mouse by `(50, 25)` in a viewport of width 200 and height
100 with the given handle. -/
def mouseMove (handle : AnnotationSizingHandleTypeEnum) : AnnotationSpatialModification :=
  { m_sizingHandleType := handle
    m_viewportWidth := float.ofNat 200
    m_viewportHeight := float.ofNat 100
    m_mouseX := float.zero
    m_mouseY := float.zero
    m_mouseDX := float.ofNat 50
    m_mouseDY := float.ofNat 25 }

/-- A line from `(10, 20)` to `(100, 80)`: its end is on the right border. -/
def borderShape : Shape :=
  { m_startCoordinate := ⟨(float.ofNat 10, float.ofNat 20, float.zero)⟩
    m_endCoordinate := ⟨(float.hundred, float.ofNat 80, float.zero)⟩ }

/-- A move of the end of the line to the right by `2^-15` of a pixel, in a
viewport of width 1024 and height 100. -/
def tinyMove : AnnotationSpatialModification :=
  { m_sizingHandleType := .ANNOTATION_SIZING_HANDLE_LINE_END
    m_viewportWidth := float.ofNat 1024
    m_viewportHeight := float.ofNat 100
    m_mouseX := float.zero
    m_mouseY := float.zero
    m_mouseDX := float.round false 1 (-15)
    m_mouseDY := float.zero }

end AnnotationOneDimensionalShape

/-! # Lemmas on `OperationCiftiMath::useParameters` -/

namespace CiftiMath

/-! ## Vectors read with a default -/

theorem getD_append_default {β : Type} (l : List β) (d : β) (k : Nat) :
    (l ++ [d]).getD k d = l.getD k d := by
  simp only [List.getD_eq_getElem?_getD]
  by_cases h : k < l.length
  · rw [List.getElem?_append_left h]
  · have h1 : l.length ≤ k := Nat.le_of_not_lt h
    rw [List.getElem?_append_right h1, List.getElem?_eq_none h1]
    cases hk : k - l.length with
    | zero => simp
    | succ n => simp

theorem getD_set {β : Type} (l : List β) (d x : β) (j k : Nat) (hj : j < l.length) :
    (l.set j x).getD k d = if k = j then x else l.getD k d := by
  simp only [List.getD_eq_getElem?_getD, List.getElem?_set]
  by_cases h : j = k
  · subst h; simp [hj]
  · have h' : ¬ k = j := fun e => h e.symm
    simp [h, h']

theorem resize_length {β : Type} (l : List β) (n : Nat) (d : β) :
    (resize l n d).length = n := by
  simp only [resize, List.length_append, List.length_take, List.length_replicate]
  omega

theorem resize_getD {β : Type} (l : List β) (n : Nat) (d : β) (k : Nat) :
    (resize l n d).getD k d = if k < n then l.getD k d else d := by
  simp only [resize, List.getD_eq_getElem?_getD]
  by_cases hk : k < n
  · simp only [hk, if_true]
    by_cases h : k < l.length
    · rw [List.getElem?_append_left (by simp; omega)]
      simp [List.getElem?_take, hk]
    · have h1 : l.length ≤ k := Nat.le_of_not_lt h
      rw [List.getElem?_append_right (by simp; omega)]
      rw [List.getElem?_eq_none h1]
      simp only [List.getElem?_replicate]
      split <;> rfl
  · simp only [hk, if_false]
    rw [List.getElem?_eq_none]
    · rfl
    · simp; omega

theorem resize_eq_append {β : Type} (l : List β) (d : β) :
    resize l (l.length + 1) d = l ++ [d] := by
  simp [resize, List.take_of_length_le]

/-! ## The loop over the axes of one `-var` option (lines 164-231) -/

theorem dimLoop_spec {α : Type} (env : Env α) (ov : Bool) (name : String)
    (tx : List CiftiMap) (tsi : List Int) (tr : List Bool) :
    ∀ (fuel j : Nat) (od : List Int) (ox : List (Option CiftiMap)),
      ox.length = od.length → j ≤ od.length →
      (∀ od1 ox1, dimLoop env ov name tx tsi tr fuel j od ox = .ok (od1, ox1) →
        od1.length = max (j + fuel) od.length ∧ ox1.length = od1.length ∧
        (∀ k, (k < j ∨ j + fuel ≤ k) →
          od1.getD k (-1) = od.getD k (-1) ∧ ox1.getD k none = ox.getD k none) ∧
        (∀ k, j ≤ k → k < j + fuel →
          dimBody env ov name tx k (od.getD k (-1)) (ox.getD k none)
            (tsi.getD k (-1)) (tr.getD k false) = .ok (od1.getD k (-1), ox1.getD k none))) ∧
      (∀ e, dimLoop env ov name tx tsi tr fuel j od ox = .error e →
        ∃ k, j ≤ k ∧ k < j + fuel ∧
          dimBody env ov name tx k (od.getD k (-1)) (ox.getD k none)
            (tsi.getD k (-1)) (tr.getD k false) = .error e) := by
  intro fuel
  induction fuel with
  | zero =>
    intro j od ox hlen hj
    constructor
    · intro od1 ox1 h
      simp only [dimLoop, Except.ok.injEq, Prod.mk.injEq] at h
      obtain ⟨h1, h2⟩ := h
      subst h1; subst h2
      refine ⟨by omega, hlen, fun k _ => ⟨rfl, rfl⟩, fun k h1 h2 => by omega⟩
    · intro e h
      simp [dimLoop] at h
  | succ n ih =>
    intro j od ox hlen hj
    -- the state once index `j` exists
    have hex : ∃ odx oxx, odx = (if j ≥ od.length then od ++ [-1] else od) ∧
        oxx = (if j ≥ od.length then resize ox (j + 1) none else ox) := ⟨_, _, rfl, rfl⟩
    obtain ⟨odx, oxx, hodx, hoxx⟩ := hex
    have hlx : odx.length = max (j + 1) od.length := by
      subst hodx; split
      · simp; omega
      · omega
    have hlx2 : oxx.length = odx.length := by
      subst hoxx; subst hodx; split
      · simp [resize_length]; omega
      · exact hlen
    have hgx : ∀ k, odx.getD k (-1) = od.getD k (-1) := by
      intro k; subst hodx; split
      · exact getD_append_default od (-1) k
      · rfl
    have hgx2 : ∀ k, oxx.getD k none = ox.getD k none := by
      intro k; subst hoxx; split
      · have : j = ox.length := by omega
        subst this
        rw [resize_eq_append]; exact getD_append_default ox none k
      · rfl
    have hjx : j < odx.length := by omega
    have hunf : dimLoop env ov name tx tsi tr (n + 1) j od ox =
        (match dimBody env ov name tx j (odx.getD j (-1)) (oxx.getD j none)
            (tsi.getD j (-1)) (tr.getD j false) with
        | .error e => .error e
        | .ok (d, m) => dimLoop env ov name tx tsi tr n (j + 1) (odx.set j d) (oxx.set j m)) := by
      subst hodx; subst hoxx; rfl
    rw [hunf, hgx j, hgx2 j]
    cases hb : dimBody env ov name tx j (od.getD j (-1)) (ox.getD j none)
        (tsi.getD j (-1)) (tr.getD j false) with
    | error e0 =>
      constructor
      · intro od1 ox1 h; simp at h
      · intro e h
        simp only [Except.error.injEq] at h
        subst h
        exact ⟨j, le_refl j, by omega, hb⟩
    | ok dm =>
      obtain ⟨d, m⟩ := dm
      simp only
      have ih1 := ih (j + 1) (odx.set j d) (oxx.set j m)
        (by simp [hlx2]) (by simp; omega)
      obtain ⟨ihok, iherr⟩ := ih1
      have hsetd : ∀ k, (odx.set j d).getD k (-1) = if k = j then d else od.getD k (-1) := by
        intro k; rw [getD_set _ _ _ _ _ hjx, hgx]
      have hsetm : ∀ k, (oxx.set j m).getD k none = if k = j then m else ox.getD k none := by
        intro k; rw [getD_set _ _ _ _ _ (by omega), hgx2]
      constructor
      · intro od1 ox1 h
        obtain ⟨h1, h2, h3, h4⟩ := ihok od1 ox1 h
        refine ⟨?_, h2, ?_, ?_⟩
        · rw [h1]; simp only [List.length_set]; omega
        · intro k hk
          have hkj : k ≠ j := by omega
          have := h3 k (by omega)
          rw [hsetd, hsetm] at this
          simpa [hkj] using this
        · intro k hk1 hk2
          by_cases hkj : k = j
          · subst hkj
            have := h3 k (Or.inl (Nat.lt_succ_self k))
            rw [hsetd, hsetm] at this
            simp only [if_true] at this
            rw [this.1, this.2]; exact hb
          · have := h4 k (by omega) (by omega)
            rw [hsetd, hsetm] at this
            simpa [hkj] using this
      · intro e h
        obtain ⟨k, hk1, hk2, hk3⟩ := iherr e h
        have hkj : k ≠ j := by omega
        rw [hsetd, hsetm] at hk3
        simp only [hkj, if_false] at hk3
        exact ⟨k, by omega, by omega, hk3⟩

/-! ## The `-select` options of one `-var` option -/

theorem getD_of_length_le {β : Type} (l : List β) (d : β) (k : Nat) (h : l.length ≤ k) :
    l.getD k d = d := by
  simp [List.getD_eq_getElem?_getD, List.getElem?_eq_none h]

theorem applySelect_ok {name : String} {st st1 : List Int × List Bool} {s : SelectOpt}
    (h : applySelect name st s = .ok st1) (hl : st.2.length = st.1.length) :
    1 ≤ s.dim ∧ st1.2.length = st1.1.length ∧
    st1.1.length = max st.1.length (s.dim.toNat) ∧
    (∀ k : Nat, st1.1.getD k (-1) =
      if (k : Int) = s.dim - 1 then s.index - 1 else st.1.getD k (-1)) ∧
    (∀ k : Nat, st1.2.getD k false =
      if (k : Int) = s.dim - 1 then s.rep else st.2.getD k false) := by
  unfold applySelect at h
  simp only at h
  split at h
  · rename_i hge
    split at h
    · simp at h
    · simp only [Except.ok.injEq] at h
      subst h
      have hd : (0 : Int) ≤ s.dim - 1 := by omega
      have htn : ((s.dim - 1).toNat : Int) = s.dim - 1 := Int.toNat_of_nonneg hd
      refine ⟨by omega, ?_, ?_, ?_, ?_⟩
      · simp [resize_length]
      · simp only [List.length_set, resize_length]; omega
      · intro k
        rw [getD_set _ _ _ _ _ (by simp [resize_length]), resize_getD]
        by_cases hk : k = (s.dim - 1).toNat
        · have : (k : Int) = s.dim - 1 := by omega
          rw [if_pos hk, if_pos this]
        · have : ¬ (k : Int) = s.dim - 1 := by omega
          rw [if_neg hk, if_neg this]
          split
          · rfl
          · rw [getD_of_length_le]; omega
      · intro k
        rw [getD_set _ _ _ _ _ (by simp [resize_length]), resize_getD]
        by_cases hk : k = (s.dim - 1).toNat
        · have : (k : Int) = s.dim - 1 := by omega
          rw [if_pos hk, if_pos this]
        · have : ¬ (k : Int) = s.dim - 1 := by omega
          rw [if_neg hk, if_neg this]
          split
          · rfl
          · rw [getD_of_length_le]; omega
  · rename_i hlt
    split at h
    · simp at h
    · rename_i hnn
      simp only [Except.ok.injEq] at h
      subst h
      have hd : (0 : Int) ≤ s.dim - 1 := by omega
      have htn : ((s.dim - 1).toNat : Int) = s.dim - 1 := Int.toNat_of_nonneg hd
      refine ⟨by omega, ?_, ?_, ?_, ?_⟩
      · simp [hl]
      · simp only [List.length_set]; omega
      · intro k
        rw [getD_set _ _ _ _ _ (by omega)]
        by_cases hk : k = (s.dim - 1).toNat
        · have : (k : Int) = s.dim - 1 := by omega
          rw [if_pos hk, if_pos this]
        · have : ¬ (k : Int) = s.dim - 1 := by omega
          rw [if_neg hk, if_neg this]
      · intro k
        rw [getD_set _ _ _ _ _ (by omega)]
        by_cases hk : k = (s.dim - 1).toNat
        · have : (k : Int) = s.dim - 1 := by omega
          rw [if_pos hk, if_pos this]
        · have : ¬ (k : Int) = s.dim - 1 := by omega
          rw [if_neg hk, if_neg this]

theorem applySelect_error {name : String} {st : List Int × List Bool} {s : SelectOpt}
    {e : Failure} (h : applySelect name st s = .error e) :
    (e = .fatal (.selectNonexistent name) ∧ (st.1.length : Int) < s.dim ∧ s.index ≠ 1) ∨
    (e = .badVectorIndex ∧ s.dim < 1) := by
  unfold applySelect at h
  simp only at h
  split at h
  · split at h
    · simp only [Except.error.injEq] at h
      left; refine ⟨h.symm, by omega, by omega⟩
    · simp at h
  · split at h
    · simp only [Except.error.injEq] at h
      right; exact ⟨h.symm, by omega⟩
    · simp at h

theorem applySelects_ok {name : String} :
    ∀ (sels : List SelectOpt) (st st1 : List Int × List Bool),
      applySelects name sels st = .ok st1 → st.2.length = st.1.length →
      (∀ s ∈ sels, 1 ≤ s.dim ∧ s.dim ≤ (st1.1.length : Int)) ∧
      st1.2.length = st1.1.length ∧ st.1.length ≤ st1.1.length ∧
      (∀ n : Nat, st.1.length ≤ n → (∀ s ∈ sels, s.dim ≤ (n : Int)) → st1.1.length ≤ n) ∧
      (∀ k : Nat, st1.1.getD k (-1) =
        match lastSelect sels ((k : Int) + 1) with
        | some s => s.index - 1
        | none => st.1.getD k (-1)) ∧
      (∀ k : Nat, st1.2.getD k false =
        match lastSelect sels ((k : Int) + 1) with
        | some s => s.rep
        | none => st.2.getD k false) := by
  intro sels
  induction sels with
  | nil =>
    intro st st1 h hl
    simp only [applySelects, Except.ok.injEq] at h
    subst h
    refine ⟨by simp, hl, le_refl _, fun n hn _ => hn, fun k => by simp [lastSelect],
      fun k => by simp [lastSelect]⟩
  | cons s rest ih =>
    intro st st1 h hl
    simp only [applySelects] at h
    cases hs : applySelect name st s with
    | error e => rw [hs] at h; simp at h
    | ok st2 =>
      rw [hs] at h
      simp only at h
      obtain ⟨a1, a2, a3, a4, a5⟩ := applySelect_ok hs hl
      obtain ⟨b1, b2, b3, b4, b5, b6⟩ := ih st2 st1 h a2
      refine ⟨?_, b2, by omega, ?_, ?_, ?_⟩
      · intro t ht
        rcases List.mem_cons.1 ht with rfl | ht
        · refine ⟨a1, ?_⟩
          have : t.dim.toNat ≤ st2.1.length := by omega
          omega
        · exact b1 t ht
      · intro n hn hall
        apply b4 n
        · have := hall s (List.mem_cons_self _ _)
          rw [a3]; omega
        · intro t ht; exact hall t (List.mem_cons_of_mem _ ht)
      · intro k
        rw [b5 k]
        simp only [lastSelect]
        cases hls : lastSelect rest ((k : Int) + 1) with
        | some t => rfl
        | none =>
          simp only
          rw [a4 k]
          by_cases hk : (k : Int) = s.dim - 1
          · have : s.dim = (k : Int) + 1 := by omega
            rw [if_pos hk, if_pos this]
          · have : ¬ s.dim = (k : Int) + 1 := by omega
            rw [if_neg hk, if_neg this]
      · intro k
        rw [b6 k]
        simp only [lastSelect]
        cases hls : lastSelect rest ((k : Int) + 1) with
        | some t => rfl
        | none =>
          simp only
          rw [a5 k]
          by_cases hk : (k : Int) = s.dim - 1
          · have : s.dim = (k : Int) + 1 := by omega
            rw [if_pos hk, if_pos this]
          · have : ¬ s.dim = (k : Int) + 1 := by omega
            rw [if_neg hk, if_neg this]

theorem applySelects_error {name : String} :
    ∀ (sels : List SelectOpt) (st : List Int × List Bool) (e : Failure),
      applySelects name sels st = .error e → st.2.length = st.1.length →
      (e = .fatal (.selectNonexistent name) ∧ ∃ s ∈ sels, (st.1.length : Int) < s.dim) ∨
      (e = .badVectorIndex ∧ ∃ s ∈ sels, s.dim < 1) := by
  intro sels
  induction sels with
  | nil => intro st e h; simp [applySelects] at h
  | cons s rest ih =>
    intro st e h hl
    simp only [applySelects] at h
    cases hs : applySelect name st s with
    | error e1 =>
      rw [hs] at h
      simp only [Except.error.injEq] at h
      subst h
      rcases applySelect_error hs with ⟨h1, h2, _⟩ | ⟨h1, h2⟩
      · left; exact ⟨h1, s, List.mem_cons_self _ _, h2⟩
      · right; exact ⟨h1, s, List.mem_cons_self _ _, h2⟩
    | ok st2 =>
      rw [hs] at h
      simp only at h
      obtain ⟨a1, a2, a3, _, _⟩ := applySelect_ok hs hl
      rcases ih st2 e h a2 with ⟨h1, t, ht, h2⟩ | ⟨h1, t, ht, h2⟩
      · left; exact ⟨h1, t, List.mem_cons_of_mem _ ht, by omega⟩
      · right; exact ⟨h1, t, List.mem_cons_of_mem _ ht, h2⟩

theorem applySelects_total (name : String) :
    ∀ (sels : List SelectOpt) (st : List Int × List Bool),
      st.2.length = st.1.length →
      (∀ s ∈ sels, 1 ≤ s.dim ∧ s.dim ≤ (st.1.length : Int)) →
      ∃ st1, applySelects name sels st = .ok st1 := by
  intro sels st hl hall
  cases h : applySelects name sels st with
  | ok st1 => exact ⟨st1, rfl⟩
  | error e =>
    rcases applySelects_error sels st e h hl with ⟨_, s, hs, h2⟩ | ⟨_, s, hs, h2⟩
    · have := hall s hs; omega
    · have := hall s hs; omega

/-! ## One `-var` option -/

theorem readTempXML_length {α : Type} (first f : CiftiFile α) :
    (readTempXML first f).length = 2 + f.higher.length := by
  simp [readTempXML]; omega

theorem selectVectors_of_ok {α : Type} {vo : VarOpt α} {r : List Int × List Bool}
    (h : applySelects vo.name vo.selects (startVectors vo) = .ok r) :
    selectVectors vo = r := by
  simp only [startVectors] at h
  simp only [selectVectors, h]

theorem selectVectors_length {α : Type} (vo : VarOpt α) :
    (selectVectors vo).2.length = (selectVectors vo).1.length ∧
    2 + vo.cifti.higher.length ≤ (selectVectors vo).1.length := by
  cases h : applySelects vo.name vo.selects (startVectors vo) with
  | ok r =>
    rw [selectVectors_of_ok h]
    obtain ⟨_, h2, h3, _⟩ := applySelects_ok vo.selects _ r h (by simp [startVectors])
    refine ⟨h2, ?_⟩
    simpa [startVectors] using h3
  | error e =>
    simp only [startVectors] at h
    simp [selectVectors, h]

/-- What one `-var` option does when it raises nothing. -/
theorem alignVar_ok {α : Type} {env : Env α} {p : Params α} {first : CiftiFile α}
    {vo : VarOpt α} {st st1 : AlignState α} {w : List (Event α)}
    (h : alignVar env p first vo st = (w, .ok st1))
    (hl : st.outXML.length = st.outDims.length) :
    env.getNamedConstant vo.name = false ∧
    applySelects vo.name vo.selects (startVectors vo) = .ok (selectVectors vo) ∧
    (∃ found, bindVariable p.varNames vo.name ⟨vo.cifti, (selectVectors vo).1⟩ st.bound
        = .ok (found, st1.bound) ∧
      w = if !found && (p.varNames.length != 0 || p.vars.length != 1) then
            [Event.warning vo.name] else []) ∧
    st1.outXML.length = st1.outDims.length ∧
    st1.outDims.length = max (selectVectors vo).1.length st.outDims.length ∧
    (∀ k, max (selectVectors vo).1.length st.outDims.length ≤ k →
      st1.outDims.getD k (-1) = st.outDims.getD k (-1) ∧
      st1.outXML.getD k none = st.outXML.getD k none) ∧
    (∀ k, k < max (selectVectors vo).1.length st.outDims.length →
      dimBody env p.overrideMapCheck vo.name (readTempXML first vo.cifti) k
        (st.outDims.getD k (-1)) (st.outXML.getD k none)
        ((selectVectors vo).1.getD k (-1)) ((selectVectors vo).2.getD k false)
      = .ok (st1.outDims.getD k (-1), st1.outXML.getD k none)) := by
  unfold alignVar at h
  split at h
  · simp at h
  · rename_i hc
    simp only [readTempXML_length] at h
    cases hs : applySelects vo.name vo.selects (startVectors vo) with
    | error e =>
      simp only [startVectors] at hs
      rw [hs] at h; simp at h
    | ok r =>
      have hsv := selectVectors_of_ok hs
      subst hsv
      have hs' := hs
      simp only [startVectors] at hs'
      rw [hs'] at h
      simp only at h
      cases hb : bindVariable p.varNames vo.name ⟨vo.cifti, (selectVectors vo).1⟩ st.bound with
      | error e => rw [hb] at h; simp at h
      | ok fb =>
        obtain ⟨found, b1⟩ := fb
        rw [hb] at h
        simp only at h
        cases hd : dimLoop env p.overrideMapCheck vo.name (readTempXML first vo.cifti)
            (selectVectors vo).1 (selectVectors vo).2
            (max (selectVectors vo).1.length st.outDims.length) 0 st.outDims st.outXML with
        | error e => rw [hd] at h; simp at h
        | ok oo =>
          obtain ⟨od1, ox1⟩ := oo
          rw [hd] at h
          simp only [Prod.mk.injEq, Except.ok.injEq] at h
          obtain ⟨hw, hst⟩ := h
          subst hst
          obtain ⟨d1, d2, d3, d4⟩ :=
            (dimLoop_spec env p.overrideMapCheck vo.name (readTempXML first vo.cifti)
              (selectVectors vo).1 (selectVectors vo).2 _ 0 st.outDims st.outXML hl
              (Nat.zero_le _)).1 od1 ox1 hd
          simp only [Nat.zero_add] at d1 d3 d4
          refine ⟨by simpa using hc, rfl, ⟨found, rfl, hw.symm⟩, d2, ?_, ?_, ?_⟩
          · rw [d1]; omega
          · intro k hk; exact d3 k (Or.inr hk)
          · intro k hk; exact d4 k (Nat.zero_le _) hk

/-- How one `-var` option can raise. -/
theorem alignVar_error {α : Type} {env : Env α} {p : Params α} {first : CiftiFile α}
    {vo : VarOpt α} {st : AlignState α} {w : List (Event α)} {e : Failure}
    (h : alignVar env p first vo st = (w, .error e))
    (hl : st.outXML.length = st.outDims.length) :
    (env.getNamedConstant vo.name = true ∧ e = .fatal (.namedConstant vo.name)) ∨
    (applySelects vo.name vo.selects (startVectors vo) = .error e) ∨
    (bindVariable p.varNames vo.name ⟨vo.cifti, (selectVectors vo).1⟩ st.bound = .error e) ∨
    (∃ k, k < max (selectVectors vo).1.length st.outDims.length ∧
      dimBody env p.overrideMapCheck vo.name (readTempXML first vo.cifti) k
        (st.outDims.getD k (-1)) (st.outXML.getD k none)
        ((selectVectors vo).1.getD k (-1)) ((selectVectors vo).2.getD k false)
      = .error e) := by
  unfold alignVar at h
  split at h
  · rename_i hc
    simp only [Prod.mk.injEq, Except.error.injEq] at h
    left; exact ⟨hc, h.2.symm⟩
  · rename_i hc
    simp only [readTempXML_length] at h
    cases hs : applySelects vo.name vo.selects (startVectors vo) with
    | error e1 =>
      have hs' := hs
      simp only [startVectors] at hs'
      rw [hs'] at h
      simp only [Prod.mk.injEq, Except.error.injEq] at h
      right; left; rw [h.2]
    | ok r =>
      have hsv := selectVectors_of_ok hs
      subst hsv
      have hs' := hs
      simp only [startVectors] at hs'
      rw [hs'] at h
      simp only at h
      cases hb : bindVariable p.varNames vo.name ⟨vo.cifti, (selectVectors vo).1⟩ st.bound with
      | error e1 =>
        rw [hb] at h
        simp only [Prod.mk.injEq, Except.error.injEq] at h
        right; right; left; rw [h.2]
      | ok fb =>
        obtain ⟨found, b1⟩ := fb
        rw [hb] at h
        simp only at h
        cases hd : dimLoop env p.overrideMapCheck vo.name (readTempXML first vo.cifti)
            (selectVectors vo).1 (selectVectors vo).2
            (max (selectVectors vo).1.length st.outDims.length) 0 st.outDims st.outXML with
        | ok oo => rw [hd] at h; simp at h
        | error e1 =>
          rw [hd] at h
          simp only [Prod.mk.injEq, Except.error.injEq] at h
          obtain ⟨k, _, hk2, hk3⟩ :=
            (dimLoop_spec env p.overrideMapCheck vo.name (readTempXML first vo.cifti)
              (selectVectors vo).1 (selectVectors vo).2 _ 0 st.outDims st.outXML hl
              (Nat.zero_le _)).2 e1 hd
          simp only [Nat.zero_add] at hk2
          right; right; right
          rw [← h.2]
          exact ⟨k, hk2, hk3⟩

/-- The only events of the pass over one `-var` option are warnings. -/
theorem alignVar_trace {α : Type} (env : Env α) (p : Params α) (first : CiftiFile α)
    (vo : VarOpt α) (st : AlignState α) :
    ∀ ev ∈ (alignVar env p first vo st).1, ev = Event.warning vo.name := by
  have key : (alignVar env p first vo st).1 = [] ∨
      (alignVar env p first vo st).1 = [Event.warning vo.name] := by
    unfold alignVar
    split
    · left; rfl
    · dsimp only
      cases applySelects vo.name vo.selects
          (List.replicate (readTempXML first vo.cifti).length (-1),
            List.replicate (readTempXML first vo.cifti).length false) with
      | error e => left; rfl
      | ok r =>
        obtain ⟨si, rp⟩ := r
        simp only
        cases bindVariable p.varNames vo.name ⟨vo.cifti, si⟩ st.bound with
        | error e => left; rfl
        | ok fb =>
          obtain ⟨found, b1⟩ := fb
          simp only
          cases dimLoop env p.overrideMapCheck vo.name (readTempXML first vo.cifti) si rp
              (max si.length st.outDims.length) 0 st.outDims st.outXML with
          | error e =>
            simp only
            split
            · right; rfl
            · left; rfl
          | ok oo =>
            simp only
            split
            · right; rfl
            · left; rfl
  intro ev hev
  rcases key with h | h
  · rw [h] at hev; simp at hev
  · rw [h] at hev; simpa using hev

/-! ## The pass over all `-var` options -/

theorem alignVars_cons_ok {α : Type} {env : Env α} {p : Params α} {first : CiftiFile α}
    {vo : VarOpt α} {rest : List (VarOpt α)} {st st1 : AlignState α} {w : List (Event α)}
    (h : alignVars env p first (vo :: rest) st = (w, .ok st1)) :
    ∃ w1 w2 st2, alignVar env p first vo st = (w1, .ok st2) ∧
      alignVars env p first rest st2 = (w2, .ok st1) ∧ w = w1 ++ w2 := by
  simp only [alignVars] at h
  cases hv : alignVar env p first vo st with
  | mk w1 r =>
    cases r with
    | error e => rw [hv] at h; simp at h
    | ok st2 =>
      rw [hv] at h
      simp only at h
      cases hr : alignVars env p first rest st2 with
      | mk w2 r2 =>
        rw [hr] at h
        simp only [Prod.mk.injEq] at h
        obtain ⟨h1, h2⟩ := h
        subst h2
        exact ⟨w1, w2, st2, rfl, hr, h1.symm⟩

theorem alignVars_cons_error {α : Type} {env : Env α} {p : Params α} {first : CiftiFile α}
    {vo : VarOpt α} {rest : List (VarOpt α)} {st : AlignState α} {w : List (Event α)}
    {e : Failure} (h : alignVars env p first (vo :: rest) st = (w, .error e)) :
    alignVar env p first vo st = (w, .error e) ∨
    ∃ w1 w2 st2, alignVar env p first vo st = (w1, .ok st2) ∧
      alignVars env p first rest st2 = (w2, .error e) ∧ w = w1 ++ w2 := by
  simp only [alignVars] at h
  cases hv : alignVar env p first vo st with
  | mk w1 r =>
    cases r with
    | error e1 =>
      rw [hv] at h
      simp only [Prod.mk.injEq, Except.error.injEq] at h
      left; rw [h.1, h.2]
    | ok st2 =>
      rw [hv] at h
      simp only at h
      cases hr : alignVars env p first rest st2 with
      | mk w2 r2 =>
        rw [hr] at h
        simp only [Prod.mk.injEq] at h
        obtain ⟨h1, h2⟩ := h
        subst h2
        right
        exact ⟨w1, w2, st2, rfl, hr, h1.symm⟩

/-- The only events of the pass over the `-var` options are warnings. -/
theorem alignVars_trace {α : Type} (env : Env α) (p : Params α) (first : CiftiFile α) :
    ∀ (vars : List (VarOpt α)) (st : AlignState α),
      ∀ ev ∈ (alignVars env p first vars st).1, ∃ n, ev = Event.warning n := by
  intro vars
  induction vars with
  | nil => intro st ev hev; simp [alignVars] at hev
  | cons vo rest ih =>
    intro st ev hev
    simp only [alignVars] at hev
    have h1 := alignVar_trace env p first vo st
    cases hv : alignVar env p first vo st with
    | mk w1 r =>
      rw [hv] at hev h1
      cases r with
      | error e => exact ⟨vo.name, h1 ev hev⟩
      | ok st2 =>
        simp only at hev
        have h2 := ih st2
        cases hr : alignVars env p first rest st2 with
        | mk w2 r2 =>
          rw [hr] at hev h2
          simp only [List.mem_append] at hev
          rcases hev with hev | hev
          · exact ⟨vo.name, h1 ev hev⟩
          · exact h2 ev hev

/-- The lengths of `outDims` after the pass, and the slice of the pass along
an axis that every `-var` option reaches. -/
theorem alignVars_ok {α : Type} {env : Env α} {p : Params α} {first : CiftiFile α} :
    ∀ (vars : List (VarOpt α)) (st st1 : AlignState α) (w : List (Event α)),
      alignVars env p first vars st = (w, .ok st1) →
      st.outXML.length = st.outDims.length →
      st1.outXML.length = st1.outDims.length ∧
      st.outDims.length ≤ st1.outDims.length ∧
      (∀ vo ∈ vars, (selectVectors vo).1.length ≤ st1.outDims.length) ∧
      (∀ n, st.outDims.length ≤ n → (∀ vo ∈ vars, (selectVectors vo).1.length ≤ n) →
        st1.outDims.length ≤ n) ∧
      (∀ vo ∈ vars, env.getNamedConstant vo.name = false ∧
        applySelects vo.name vo.selects (startVectors vo) = .ok (selectVectors vo)) ∧
      (∀ j, (j < 2 ∨ j < st.outDims.length) →
        alignAxis env p.overrideMapCheck first j vars
          (st.outDims.getD j (-1), st.outXML.getD j none)
        = .ok (st1.outDims.getD j (-1), st1.outXML.getD j none)) := by
  intro vars
  induction vars with
  | nil =>
    intro st st1 w h hl
    simp only [alignVars, Prod.mk.injEq, Except.ok.injEq] at h
    obtain ⟨_, h2⟩ := h
    subst h2
    exact ⟨hl, le_refl _, by simp, fun n hn _ => hn, by simp, fun j _ => rfl⟩
  | cons vo rest ih =>
    intro st st1 w h hl
    obtain ⟨w1, w2, st2, hv, hr, _⟩ := alignVars_cons_ok h
    obtain ⟨a1, a2, _, a4, a5, a6, a7⟩ := alignVar_ok hv hl
    obtain ⟨b1, b2, b3, b4, b5, b6⟩ := ih st2 st1 w2 hr a4
    have hsv := (selectVectors_length vo).2
    refine ⟨b1, by omega, ?_, ?_, ?_, ?_⟩
    · intro vo1 hvo1
      rcases List.mem_cons.1 hvo1 with rfl | hvo1
      · omega
      · exact b3 vo1 hvo1
    · intro n hn hall
      apply b4 n
      · have := hall vo (List.mem_cons_self _ _)
        omega
      · intro vo1 hvo1; exact hall vo1 (List.mem_cons_of_mem _ hvo1)
    · intro vo1 hvo1
      rcases List.mem_cons.1 hvo1 with rfl | hvo1
      · exact ⟨a1, a2⟩
      · exact b5 vo1 hvo1
    · intro j hj
      simp only [alignAxis, selOf, repOf]
      have hjm : j < max (selectVectors vo).1.length st.outDims.length := by
        rcases hj with hj | hj <;> omega
      rw [a7 j hjm]
      simp only
      exact b6 j (by rcases hj with hj | hj; · left; exact hj
                     · right; omega)

/-! ## The final checks -/

theorem fillMaps_ok :
    ∀ (ox : List (Option CiftiMap)) (i : Nat) (od : List Int) (maps : List CiftiMap),
      fillMaps i od ox = .ok maps → ox.length = od.length →
      maps.length = ox.length ∧
      ∀ k, k < ox.length → od.getD k (-1) ≠ -1 ∧
        maps[k]? = some ((ox.getD k none).getD dummyMap) := by
  intro ox
  induction ox with
  | nil =>
    intro i od maps h _
    simp only [fillMaps, Except.ok.injEq] at h
    subst h
    simp
  | cons m ms ih =>
    intro i od maps h hl
    cases od with
    | nil => simp at hl
    | cons d ds =>
      simp only [fillMaps, List.head?_cons, Option.some.injEq, List.tail_cons] at h
      split at h
      · simp at h
      · rename_i hd
        cases hr : fillMaps (i + 1) ds ms with
        | error e => rw [hr] at h; simp at h
        | ok rest =>
          rw [hr] at h
          simp only [Except.ok.injEq] at h
          subst h
          obtain ⟨h1, h2⟩ := ih (i + 1) ds rest hr (by simpa using hl)
          refine ⟨by simp [h1], ?_⟩
          intro k hk
          cases k with
          | zero => exact ⟨by simpa using hd, by simp⟩
          | succ k =>
            have := h2 k (by simpa using hk)
            simpa using this

theorem fillMaps_error :
    ∀ (ox : List (Option CiftiMap)) (i : Nat) (od : List Int) (e : Failure),
      fillMaps i od ox = .error e → ∃ k, e = .fatal (.unknownLength k) := by
  intro ox
  induction ox with
  | nil => intro i od e h; simp [fillMaps] at h
  | cons m ms ih =>
    intro i od e h
    simp only [fillMaps] at h
    split at h
    · simp only [Except.error.injEq] at h
      exact ⟨i, h.symm⟩
    · cases hr : fillMaps (i + 1) od.tail ms with
      | error e1 =>
        rw [hr] at h
        simp only [Except.error.injEq] at h
        subst h
        exact ih _ _ _ hr
      | ok rest => rw [hr] at h; simp at h

theorem fillMaps_total :
    ∀ (ox : List (Option CiftiMap)) (i : Nat) (od : List Int),
      ox.length = od.length → (∀ k, k < ox.length → od.getD k (-1) ≠ -1) →
      ∃ maps, fillMaps i od ox = .ok maps := by
  intro ox
  induction ox with
  | nil => intro i od _ _; exact ⟨[], rfl⟩
  | cons m ms ih =>
    intro i od hl hall
    cases od with
    | nil => simp at hl
    | cons d ds =>
      have h0 := hall 0 (by simp)
      simp only [List.getD_cons_zero] at h0
      obtain ⟨rest, hr⟩ := ih (i + 1) ds (by simpa using hl) (by
        intro k hk
        have := hall (k + 1) (by simpa using hk)
        simpa using this)
      refine ⟨m.getD dummyMap :: rest, ?_⟩
      simp only [fillMaps, List.head?_cons, Option.some.injEq, List.tail_cons, h0, if_false, hr]

theorem checkBound_error {α : Type} :
    ∀ (names : List String) (bound : List (Option (BoundVar α))) (e : Failure),
      checkBound names bound = .error e → ∃ n, e = .fatal (.missingVariable n) := by
  intro names
  induction names with
  | nil => intro bound e h; simp [checkBound] at h
  | cons n ns ih =>
    intro bound e h
    simp only [checkBound] at h
    split at h
    · cases hr : checkBound ns bound.tail with
      | error e1 =>
        rw [hr] at h
        simp only [Except.error.injEq] at h
        subst h
        exact ih _ _ hr
      | ok bs => rw [hr] at h; simp at h
    · simp only [Except.error.injEq] at h
      exact ⟨n, h.symm⟩

theorem finalize_ok {α : Type} {p : Params α} {st : AlignState α} {plan : Plan α}
    (h : finalize p st = .ok plan) (hl : st.outXML.length = st.outDims.length) :
    checkBound p.varNames st.bound = .ok plan.vars ∧
    fillMaps 0 st.outDims st.outXML = .ok plan.outXML ∧
    plan.outDims = st.outDims ∧ st.outDims.length = 2 ∧ plan.outXML.length = 2 := by
  unfold finalize at h
  cases hc : checkBound p.varNames st.bound with
  | error e => rw [hc] at h; simp at h
  | ok vars =>
    rw [hc] at h
    simp only at h
    cases hf : fillMaps 0 st.outDims st.outXML with
    | error e => rw [hf] at h; simp at h
    | ok maps =>
      rw [hf] at h
      simp only at h
      split at h
      · simp at h
      · rename_i h2
        simp only [Except.ok.injEq] at h
        subst h
        have := (fillMaps_ok _ _ _ _ hf hl).1
        have h3 : maps.length = 2 := by omega
        refine ⟨rfl, rfl, rfl, by omega, h3⟩

theorem finalize_error {α : Type} {p : Params α} {st : AlignState α} {e : Failure}
    (h : finalize p st = .error e) : ∃ x, e = .fatal x := by
  unfold finalize at h
  cases hc : checkBound p.varNames st.bound with
  | error e1 =>
    rw [hc] at h
    simp only [Except.error.injEq] at h
    subst h
    obtain ⟨n, hn⟩ := checkBound_error _ _ _ hc
    exact ⟨_, hn⟩
  | ok vars =>
    rw [hc] at h
    simp only at h
    cases hf : fillMaps 0 st.outDims st.outXML with
    | error e1 =>
      rw [hf] at h
      simp only [Except.error.injEq] at h
      subst h
      obtain ⟨k, hk⟩ := fillMaps_error _ _ _ _ hf
      exact ⟨_, hk⟩
    | ok maps =>
      rw [hf] at h
      simp only at h
      split at h
      · simp only [Except.error.injEq] at h
        exact ⟨_, h.symm⟩
      · simp at h

/-! ## Validation as a whole -/

theorem validate_ok {α : Type} {env : Env α} {p : Params α} {w : List (Event α)}
    {plan : Plan α} (h : validate env p = (w, .ok plan)) :
    ∃ v0 rest st, p.vars = v0 :: rest ∧
      alignVars env p v0.cifti p.vars (initState p) = (w, .ok st) ∧
      finalize p st = .ok plan := by
  unfold validate at h
  split at h
  · simp at h
  · rename_i v0 rest hv
    cases ha : alignVars env p v0.cifti p.vars (initState p) with
    | mk w1 r =>
      rw [ha] at h
      cases r with
      | error e => simp at h
      | ok st =>
        simp only [Prod.mk.injEq] at h
        obtain ⟨h1, h2⟩ := h
        subst h1
        exact ⟨v0, rest, st, hv, ha, h2⟩

theorem validate_error {α : Type} {env : Env α} {p : Params α} {w : List (Event α)}
    {e : Failure} (h : validate env p = (w, .error e)) :
    (p.vars = [] ∧ e = .fatal .noInput) ∨
    (∃ v0 rest, p.vars = v0 :: rest ∧
      alignVars env p v0.cifti p.vars (initState p) = (w, .error e)) ∨
    (∃ v0 rest st, p.vars = v0 :: rest ∧
      alignVars env p v0.cifti p.vars (initState p) = (w, .ok st) ∧
      finalize p st = .error e) := by
  unfold validate at h
  split at h
  · rename_i hv
    simp only [Prod.mk.injEq, Except.error.injEq] at h
    left; exact ⟨hv, h.2.symm⟩
  · rename_i v0 rest hv
    cases ha : alignVars env p v0.cifti p.vars (initState p) with
    | mk w1 r =>
      rw [ha] at h
      cases r with
      | error e1 =>
        simp only [Prod.mk.injEq, Except.error.injEq] at h
        right; left
        exact ⟨v0, rest, hv, by rw [ha, h.1, h.2]⟩
      | ok st =>
        simp only [Prod.mk.injEq] at h
        obtain ⟨h1, h2⟩ := h
        subst h1
        right; right
        exact ⟨v0, rest, st, hv, ha, h2⟩

theorem validate_trace {α : Type} (env : Env α) (p : Params α) :
    ∀ ev ∈ (validate env p).1, ∃ n, ev = Event.warning n := by
  intro ev hev
  unfold validate at hev
  split at hev
  · simp at hev
  · rename_i v0 rest hv
    have := alignVars_trace env p v0.cifti p.vars (initState p)
    cases ha : alignVars env p v0.cifti p.vars (initState p) with
    | mk w1 r =>
      rw [ha] at hev this
      cases r with
      | error e => exact this ev hev
      | ok st => exact this ev hev

/-! ## The streaming loop -/

theorem vectorAt_ok {β : Type} (v : List β) (d : β) (k : Nat) (h : k < v.length) :
    vectorAt v (k : Int) = .ok (v.getD k d) := by
  unfold vectorAt
  have h1 : ¬ ((k : Int) < 0) := by omega
  simp only [h1, if_false, Int.toNat_ofNat, List.getD_eq_getElem?_getD]
  rw [List.getElem?_eq_getElem h]
  rfl

theorem vectorAt_int_ok {β : Type} (v : List β) (d : β) (k : Int) (h0 : 0 ≤ k)
    (h : k < (v.length : Int)) : vectorAt v k = .ok (v.getD k.toNat d) := by
  have hk : ((k.toNat : Nat) : Int) = k := Int.toNat_of_nonneg h0
  have := vectorAt_ok v d k.toNat (by omega)
  rw [hk] at this
  exact this

theorem readFixedRows_ok {α : Type} (env : Env α) (R C : Nat) :
    ∀ (vars : List (BoundVar α)) (v : Nat), (∀ b ∈ vars, Readable b R C) →
      ∃ t, readFixedRows env v vars = (t, .ok (vars.map (bufferInit env))) ∧
        writtenRows t = [] := by
  intro vars
  induction vars with
  | nil => intro v _; exact ⟨[], rfl, rfl⟩
  | cons b bs ih =>
    intro v hall
    obtain ⟨h2, hr1, _, _, _⟩ := hall b (List.mem_cons_self _ _)
    obtain ⟨t, ht, hw⟩ := ih (v + 1) (fun b1 hb1 => hall b1 (List.mem_cons_of_mem _ hb1))
    have hv : vectorAt b.selectInfo 1 = .ok (b.selectInfo.getD 1 (-1)) :=
      vectorAt_ok b.selectInfo (-1) 1 (by omega)
    simp only [readFixedRows, hv, ht, List.map_cons, bufferInit]
    by_cases hs : b.selectInfo.getD 1 (-1) = -1
    · simp only [hs, ne_eq, not_true_eq_false, if_false, if_true]
      exact ⟨t, rfl, hw⟩
    · have hg : getRow b.file (b.selectInfo.getD 1 (-1)) =
          .ok ((List.range b.file.numberOfColumns).map
            (b.file.data (b.selectInfo.getD 1 (-1)).toNat)) := by
        unfold getRow
        rw [if_pos (hr1 hs)]
      simp only [hs, ne_eq, not_false_eq_true, if_true, if_false, hg]
      exact ⟨_, rfl, by simpa [writtenRows] using hw⟩

theorem readRows_ok {α : Type} (i R C : Nat) (hi : i < R) :
    ∀ (vars : List (BoundVar α)) (v : Nat) (g : BoundVar α → List α),
      (∀ b ∈ vars, Readable b R C) →
      (∀ b ∈ vars, b.selectInfo.getD 1 (-1) ≠ -1 → g b = bufferAt b i) →
      ∃ t, readRows i v vars (vars.map g) = (t, .ok (vars.map (fun b => bufferAt b i))) ∧
        writtenRows t = [] := by
  intro vars
  induction vars with
  | nil => intro v g _ _; exact ⟨[], rfl, rfl⟩
  | cons b bs ih =>
    intro v g hall hg
    obtain ⟨h2, _, hr2, _, _⟩ := hall b (List.mem_cons_self _ _)
    obtain ⟨t, ht, hw⟩ := ih (v + 1) g (fun b1 hb1 => hall b1 (List.mem_cons_of_mem _ hb1))
      (fun b1 hb1 => hg b1 (List.mem_cons_of_mem _ hb1))
    have hv : vectorAt b.selectInfo 1 = .ok (b.selectInfo.getD 1 (-1)) :=
      vectorAt_ok b.selectInfo (-1) 1 (by omega)
    simp only [readRows, hv, List.map_cons, List.tail_cons, ht, List.headD_cons]
    by_cases hs : b.selectInfo.getD 1 (-1) = -1
    · have hrow : getRow b.file (i : Int) = .ok (bufferAt b i) := by
        unfold getRow
        have := hr2 hs
        rw [if_pos (by omega)]
        unfold bufferAt rowOf
        rw [if_pos hs]
      simp only [hs, if_true, hrow]
      exact ⟨_, rfl, by simpa [writtenRows] using hw⟩
    · simp only [hs, if_false]
      rw [hg b (List.mem_cons_self _ _) hs]
      exact ⟨t, rfl, hw⟩

theorem gatherValues_ok {α : Type} (i j R C : Nat) (hj : j < C) :
    ∀ (vars : List (BoundVar α)), (∀ b ∈ vars, Readable b R C) →
      gatherValues j vars (vars.map (fun b => bufferAt b i))
        = .ok (vars.map (fun b => cellOf b i j)) := by
  intro vars
  induction vars with
  | nil => intro _; rfl
  | cons b bs ih =>
    intro hall
    obtain ⟨h2, _, _, hc1, hc2⟩ := hall b (List.mem_cons_self _ _)
    have ht := ih (fun b1 hb1 => hall b1 (List.mem_cons_of_mem _ hb1))
    have hv : vectorAt b.selectInfo 0 = .ok (b.selectInfo.getD 0 (-1)) :=
      vectorAt_ok b.selectInfo (-1) 0 (by omega)
    have hcol : 0 ≤ colOf b j ∧ colOf b j < (b.file.numberOfColumns : Int) := by
      unfold colOf
      by_cases hs : b.selectInfo.getD 0 (-1) = -1
      · have := hc2 hs
        rw [if_pos hs]; omega
      · rw [if_neg hs]; exact hc1 hs
    have hbuf : vectorAt (bufferAt b i) (colOf b j) = .ok (cellOf b i j) := by
      rw [vectorAt_int_ok (bufferAt b i) (cellOf b i j) (colOf b j) hcol.1
        (by simp [bufferAt]; exact hcol.2)]
      have hn : (colOf b j).toNat < b.file.numberOfColumns := by omega
      simp [bufferAt, cellOf, List.getD_eq_getElem?_getD, List.getElem?_map,
        List.getElem?_range hn]
    have hcol' : (if b.selectInfo.getD 0 (-1) = -1 then (j : Int)
        else b.selectInfo.getD 0 (-1)) = colOf b j := rfl
    simp only [gatherValues, hv, List.map_cons, List.headD_cons, List.tail_cons, hcol',
      hbuf, ht]

theorem computeRow_ok {α : Type} (env : Env α) (p : Params α) (i R C : Nat)
    (vars : List (BoundVar α)) (hall : ∀ b ∈ vars, Readable b R C) :
    ∀ (cols : List Nat), (∀ j ∈ cols, j < C) →
      computeRow env p vars (vars.map (fun b => bufferAt b i)) cols
        = .ok (cols.map (fun j =>
            fixNaN env p.fixnan (p.evaluate (vars.map (fun b => cellOf b i j))))) := by
  intro cols
  induction cols with
  | nil => intro _; rfl
  | cons j js ih =>
    intro hc
    have h1 := gatherValues_ok i j R C (hc j (List.mem_cons_self _ _)) vars hall
    have h2 := ih (fun j1 hj1 => hc j1 (List.mem_cons_of_mem _ hj1))
    simp only [computeRow, h1, h2, List.map_cons]

theorem writtenRows_append {α : Type} (t1 t2 : List (Event α)) :
    writtenRows (t1 ++ t2) = writtenRows t1 ++ writtenRows t2 := by
  induction t1 with
  | nil => rfl
  | cons ev t ih =>
    cases ev <;> simp [writtenRows, ih]

theorem streamRows_ok {α : Type} (env : Env α) (p : Params α) (R C : Nat)
    (vars : List (BoundVar α)) (hall : ∀ b ∈ vars, Readable b R C) :
    ∀ (rows : List Nat) (g : BoundVar α → List α), (∀ i ∈ rows, i < R) →
      (∀ b ∈ vars, b.selectInfo.getD 1 (-1) ≠ -1 →
        g b = (List.range b.file.numberOfColumns).map
          (b.file.data (b.selectInfo.getD 1 (-1)).toNat)) →
      ∃ t, streamRows env p vars C rows (vars.map g) = (t, .ok ()) ∧
        writtenRows t = rows.map (fun i => (i, (List.range C).map (fun j =>
          fixNaN env p.fixnan (p.evaluate (vars.map (fun b => cellOf b i j)))))) := by
  intro rows
  induction rows with
  | nil => intro g _ _; exact ⟨[], rfl, rfl⟩
  | cons i is ih =>
    intro g hr hg
    have hfix : ∀ (k : Nat) (b : BoundVar α), b.selectInfo.getD 1 (-1) ≠ -1 →
        (List.range b.file.numberOfColumns).map
          (b.file.data (b.selectInfo.getD 1 (-1)).toNat) = bufferAt b k := by
      intro k b hs
      unfold bufferAt rowOf
      rw [if_neg hs]
    obtain ⟨t1, ht1, hw1⟩ := readRows_ok i R C (hr i (List.mem_cons_self _ _)) vars 0 g hall
      (fun b hb hs => by rw [hg b hb hs]; exact hfix i b hs)
    have hc := computeRow_ok env p i R C vars hall (List.range C)
      (fun j hj => List.mem_range.1 hj)
    obtain ⟨t2, ht2, hw2⟩ := ih (fun b => bufferAt b i)
      (fun i1 hi1 => hr i1 (List.mem_cons_of_mem _ hi1))
      (fun b hb hs => (hfix i b hs).symm)
    simp only [streamRows, ht1, hc, ht2]
    refine ⟨_, rfl, ?_⟩
    rw [writtenRows_append]
    simp [writtenRows, hw1, hw2]

/-! ## Binding files to the variables of the expression -/

theorem bindVariable_error {α : Type} {names : List String} {n : String} {b : BoundVar α}
    {bound : List (Option (BoundVar α))} {e : Failure}
    (h : bindVariable names n b bound = .error e) :
    e = .fatal (.duplicateVariable n) := by
  unfold bindVariable at h
  simp only at h
  split at h
  · split at h
    · simp only [Except.error.injEq] at h; exact h.symm
    · simp at h
  · simp at h

theorem alignVars_bindAll {α : Type} {env : Env α} {p : Params α} {first : CiftiFile α} :
    ∀ (vars : List (VarOpt α)) (st st1 : AlignState α) (w : List (Event α)),
      alignVars env p first vars st = (w, .ok st1) →
      st.outXML.length = st.outDims.length →
      bindAll p.varNames vars st.bound = .ok st1.bound := by
  intro vars
  induction vars with
  | nil =>
    intro st st1 w h _
    simp only [alignVars, Prod.mk.injEq, Except.ok.injEq] at h
    rw [← h.2]; rfl
  | cons vo rest ih =>
    intro st st1 w h hl
    obtain ⟨w1, w2, st2, hv, hr, _⟩ := alignVars_cons_ok h
    obtain ⟨_, _, ⟨found, hb, _⟩, a4, _⟩ := alignVar_ok hv hl
    simp only [bindAll, boundVarOf, hb]
    exact ih st2 st1 w2 hr a4

theorem bindVariable_ok {α : Type} {names : List String} {n : String} {b : BoundVar α}
    {bound bound1 : List (Option (BoundVar α))} {found : Bool}
    (h : bindVariable names n b bound = .ok (found, bound1)) :
    bound1.length = bound.length ∧
    (∀ x, bound[names.indexOf n]? ≠ some (some x) ∨ ¬ names.indexOf n < names.length) ∧
    (found = decide (n ∈ names)) ∧
    ∀ k, bound1[k]? =
      if k = names.indexOf n ∧ k < names.length ∧ k < bound.length then some (some b)
      else bound[k]? := by
  unfold bindVariable at h
  simp only at h
  split at h
  · rename_i hj
    have hmem : n ∈ names := List.indexOf_lt_length.1 hj
    split at h
    · simp at h
    · rename_i hne
      simp only [Except.ok.injEq, Prod.mk.injEq] at h
      obtain ⟨h1, h2⟩ := h
      subst h2
      refine ⟨by simp, fun x => Or.inl (fun hx => hne x hx), by simp [← h1, hmem], ?_⟩
      intro k
      rw [List.getElem?_set]
      by_cases hk : names.indexOf n = k
      · subst hk
        by_cases hb : names.indexOf n < bound.length
        · simp [hb, hj]
        · simp [hb, List.getElem?_eq_none (Nat.le_of_not_lt hb)]
      · have hk' : ¬ k = names.indexOf n := fun e => hk e.symm
        simp [hk, hk']
  · rename_i hj
    have hmem : ¬ n ∈ names := fun hm => hj (List.indexOf_lt_length.2 hm)
    simp only [Except.ok.injEq, Prod.mk.injEq] at h
    obtain ⟨h1, h2⟩ := h
    subst h2
    refine ⟨rfl, fun x => Or.inr hj, by simp [← h1, hmem], ?_⟩
    intro k
    have : ¬ (k = names.indexOf n ∧ k < names.length ∧ k < bound.length) := by
      rintro ⟨h1, h2, _⟩; omega
    rw [if_neg this]

theorem bindAll_ok {α : Type} {names : List String} :
    ∀ (vars : List (VarOpt α)) (bound b : List (Option (BoundVar α))),
      bindAll names vars bound = .ok b → bound.length = names.length →
      b.length = names.length ∧
      (∀ vo ∈ vars, names.indexOf vo.name < names.length →
        bound[names.indexOf vo.name]? = some none) ∧
      ∀ k, k < names.length → b[k]? =
        match vars.find? (fun vo => decide (names.indexOf vo.name = k)) with
        | some vo => some (some (boundVarOf vo))
        | none => bound[k]? := by
  intro vars
  induction vars with
  | nil =>
    intro bound b h hl
    simp only [bindAll, Except.ok.injEq] at h
    subst h
    exact ⟨hl, by simp, fun k _ => by simp⟩
  | cons vo rest ih =>
    intro bound b h hl
    simp only [bindAll] at h
    cases hb : bindVariable names vo.name (boundVarOf vo) bound with
    | error e => rw [hb] at h; simp at h
    | ok fb =>
      obtain ⟨found, bound1⟩ := fb
      rw [hb] at h
      simp only at h
      obtain ⟨a1, a2, _, a4⟩ := bindVariable_ok hb
      obtain ⟨b1, b2, b3⟩ := ih bound1 b h (by omega)
      have hfree : names.indexOf vo.name < names.length →
          bound[names.indexOf vo.name]? = some none := by
        intro hj
        have hlt : names.indexOf vo.name < bound.length := by omega
        have hget : bound[names.indexOf vo.name]? = some (bound[names.indexOf vo.name]) :=
          List.getElem?_eq_getElem hlt
        cases hx : bound[names.indexOf vo.name] with
        | none => rw [hget, hx]
        | some x =>
          rcases a2 x with h1 | h1
          · rw [hget, hx] at h1; exact absurd rfl h1
          · exact absurd hj h1
      refine ⟨b1, ?_, ?_⟩
      · intro vo1 hvo1 hj1
        rcases List.mem_cons.1 hvo1 with rfl | hvo1
        · exact hfree hj1
        · have := b2 vo1 hvo1 hj1
          rw [a4] at this
          split at this
          · simp at this
          · exact this
      · intro k hk
        rw [b3 k hk]
        simp only [List.find?_cons]
        by_cases hvk : names.indexOf vo.name = k
        · simp only [hvk, decide_True]
          cases hf : rest.find? (fun vo => decide (names.indexOf vo.name = k)) with
          | some vo1 =>
            exfalso
            have hmem := List.mem_of_find?_eq_some hf
            have hp := List.find?_some hf
            simp only [decide_eq_true_eq] at hp
            have := b2 vo1 hmem (by omega)
            rw [a4, hp] at this
            rw [if_pos ⟨hvk.symm, hk, by omega⟩] at this
            simp at this
          | none =>
            simp only
            rw [a4, if_pos ⟨hvk.symm, hk, by omega⟩]
        · simp only [hvk, decide_False]
          cases hf : rest.find? (fun vo => decide (names.indexOf vo.name = k)) with
          | some vo1 => rfl
          | none =>
            simp only
            rw [a4]
            have : ¬ (k = names.indexOf vo.name ∧ k < names.length ∧ k < bound.length) := by
              rintro ⟨h1, _, _⟩; exact hvk h1.symm
            rw [if_neg this]

theorem checkBound_ok {α : Type} :
    ∀ (names : List String) (bound : List (Option (BoundVar α))) (vars : List (BoundVar α)),
      checkBound names bound = .ok vars →
      vars.length = names.length ∧
      ∀ k, k < names.length → bound[k]? = some (vars[k]?) := by
  intro names
  induction names with
  | nil =>
    intro bound vars h
    simp only [checkBound, Except.ok.injEq] at h
    subst h
    simp
  | cons n ns ih =>
    intro bound vars h
    simp only [checkBound] at h
    split at h
    · rename_i b hb
      cases hr : checkBound ns bound.tail with
      | error e => rw [hr] at h; simp at h
      | ok bs =>
        rw [hr] at h
        simp only [Except.ok.injEq] at h
        subst h
        obtain ⟨h1, h2⟩ := ih _ _ hr
        refine ⟨by simp [h1], ?_⟩
        intro k hk
        cases bound with
        | nil => simp at hb
        | cons x xs =>
          simp only [List.head?_cons, Option.some.injEq] at hb
          cases k with
          | zero => simp [hb]
          | succ k =>
            have := h2 k (by simpa using hk)
            simpa using this
    · simp at h

/-! ## The variables bound by a successful validation -/

theorem find?_congr_mem {β : Type} (l : List β) (f g : β → Bool)
    (h : ∀ x ∈ l, f x = g x) : l.find? f = l.find? g := by
  induction l with
  | nil => rfl
  | cons x xs ih =>
    simp only [List.find?_cons]
    rw [h x (List.mem_cons_self _ _), ih (fun y hy => h y (List.mem_cons_of_mem _ hy))]

theorem map_eq_filterMap_map_some {β γ : Type} (l : List β) (f : β → Option γ)
    (h : ∀ x ∈ l, ∃ y, f x = some y) : l.map f = (l.filterMap f).map some := by
  induction l with
  | nil => rfl
  | cons x xs ih =>
    obtain ⟨y, hy⟩ := h x (List.mem_cons_self _ _)
    simp only [List.map_cons, List.filterMap_cons, hy]
    rw [ih (fun z hz => h z (List.mem_cons_of_mem _ hz))]

/-- After a successful validation every variable of the expression is bound
to the `-var` option with its name, with that option's file and selection. -/
theorem validate_bound {α : Type} {env : Env α} {p : Params α} {w : List (Event α)}
    {plan : Plan α} (h : validate env p = (w, .ok plan)) :
    p.varNames.map (varOptFor p) = (boundOpts p).map some ∧
    plan.vars = (boundOpts p).map boundVarOf := by
  obtain ⟨v0, rest, st, hv, ha, hf⟩ := validate_ok h
  have hl0 : (initState p).outXML.length = (initState p).outDims.length := rfl
  obtain ⟨hl1, _⟩ := alignVars_ok p.vars _ st w ha hl0
  have hb := alignVars_bindAll p.vars _ st w ha hl0
  obtain ⟨hc, _⟩ := finalize_ok hf hl1
  obtain ⟨c1, c2⟩ := checkBound_ok _ _ _ hc
  obtain ⟨b1, b2, b3⟩ := bindAll_ok p.vars _ _ hb (by simp [initState])
  -- per index
  have key : ∀ k (hk : k < p.varNames.length),
      ∃ vo, varOptFor p (p.varNames[k]) = some vo ∧ plan.vars[k]? = some (boundVarOf vo) := by
    intro k hk
    have h1 := c2 k hk
    have h2 := b3 k hk
    have hpk : plan.vars[k]? = some (plan.vars[k]) := List.getElem?_eq_getElem (by omega)
    rw [h1, hpk] at h2
    cases hfind : p.vars.find? (fun vo => decide (p.varNames.indexOf vo.name = k)) with
    | none =>
      rw [hfind] at h2
      simp only [initState] at h2
      rw [List.getElem?_replicate] at h2
      simp [hk] at h2
    | some vo =>
      rw [hfind] at h2
      simp only [Option.some.injEq] at h2
      have hidx := List.find?_some hfind
      simp only [decide_eq_true_eq] at hidx
      have hname : p.varNames[k] = vo.name := by
        have := List.getElem_indexOf (a := vo.name) (l := p.varNames) (by omega)
        simp only [hidx] at this
        exact this
      refine ⟨vo, ?_, by rw [hpk, h2]⟩
      unfold varOptFor
      rw [← hfind]
      apply find?_congr_mem
      intro vo1 _
      by_cases hn : vo1.name = p.varNames[k]
      · have : p.varNames.indexOf vo1.name = k := by rw [hn, hname]; exact hidx
        rw [decide_eq_true hn, decide_eq_true this]
      · have : ¬ p.varNames.indexOf vo1.name = k := by
          intro hi
          apply hn
          have := List.getElem_indexOf (a := vo1.name) (l := p.varNames) (by omega)
          simp only [hi] at this
          exact this.symm
        rw [decide_eq_false hn, decide_eq_false this]
  have hmap : p.varNames.map (varOptFor p) = (boundOpts p).map some := by
    apply map_eq_filterMap_map_some
    intro n hn
    obtain ⟨k, hk, rfl⟩ := List.getElem_of_mem hn
    obtain ⟨vo, hvo, _⟩ := key k hk
    exact ⟨vo, hvo⟩
  refine ⟨hmap, ?_⟩
  apply List.ext_getElem?
  intro k
  by_cases hk : k < p.varNames.length
  · obtain ⟨vo, hvo, hpv⟩ := key k hk
    rw [hpv, List.getElem?_map]
    have : (p.varNames.map (varOptFor p))[k]? = some (some vo) := by
      rw [List.getElem?_map, List.getElem?_eq_getElem hk]; simp [hvo]
    rw [hmap, List.getElem?_map] at this
    cases hbo : (boundOpts p)[k]? with
    | none => rw [hbo] at this; simp at this
    | some vo1 =>
      rw [hbo] at this
      simp only [Option.map_some', Option.some.injEq] at this
      rw [this]; rfl
  · have hlen : (boundOpts p).length = p.varNames.length := by
      have := congrArg List.length hmap
      simpa using this.symm
    rw [List.getElem?_eq_none (by omega), List.getElem?_eq_none (by simp; omega)]

/-! ## The run of a validated invocation -/

theorem stream_ok {α : Type} (env : Env α) (p : Params α) (plan : Plan α)
    (hall : ∀ b ∈ plan.vars, Readable b plan.numRows plan.numOutCols) :
    ∃ t, stream env p plan = (t, .ok ()) ∧
      writtenRows t = (List.range plan.numRows).map (fun i =>
        (i, (List.range plan.numOutCols).map (fun j =>
          fixNaN env p.fixnan (p.evaluate (plan.vars.map (fun b => cellOf b i j)))))) := by
  obtain ⟨t1, ht1, hw1⟩ := readFixedRows_ok env plan.numRows plan.numOutCols plan.vars 0 hall
  obtain ⟨t2, ht2, hw2⟩ := streamRows_ok env p plan.numRows plan.numOutCols plan.vars hall
    (List.range plan.numRows) (bufferInit env) (fun i hi => List.mem_range.1 hi)
    (fun b _ hs => by unfold bufferInit; rw [if_neg hs])
  refine ⟨t1 ++ t2, ?_, ?_⟩
  · unfold stream
    simp only [ht1]
    unfold Plan.numRows Plan.numOutCols at ht2
    rw [ht2]
  · rw [writtenRows_append, hw1, hw2]; rfl

theorem writtenRows_warnings {α : Type} (w : List (Event α))
    (h : ∀ ev ∈ w, ∃ n, ev = Event.warning n) : writtenRows w = [] := by
  induction w with
  | nil => rfl
  | cons ev t ih =>
    obtain ⟨n, hn⟩ := h ev (List.mem_cons_self _ _)
    subst hn
    simp only [writtenRows]
    exact ih (fun e he => h e (List.mem_cons_of_mem _ he))

theorem useParameters_of_validate {α : Type} {env : Env α} {p : Params α}
    {w : List (Event α)} {plan : Plan α} (h : validate env p = (w, .ok plan))
    (hall : ∀ b ∈ plan.vars, Readable b plan.numRows plan.numOutCols) :
    ∃ t, useParameters env p = (w ++ Event.setCiftiXML plan.outXML :: t, .ok ()) ∧
      writtenRows t = (List.range plan.numRows).map (fun i =>
        (i, (List.range plan.numOutCols).map (fun j =>
          fixNaN env p.fixnan (p.evaluate (plan.vars.map (fun b => cellOf b i j)))))) := by
  obtain ⟨t, ht, hw⟩ := stream_ok env p plan hall
  refine ⟨t, ?_, hw⟩
  unfold useParameters
  rw [h]
  simp only [ht]

theorem selectVectors_getD {α : Type} {vo : VarOpt α}
    (h : applySelects vo.name vo.selects (startVectors vo) = .ok (selectVectors vo))
    (k : Nat) :
    (selectVectors vo).1.getD k (-1) = (selectedIndex vo ((k : Int) + 1)).getD (-1) ∧
    (selectVectors vo).2.getD k false =
      ((lastSelect vo.selects ((k : Int) + 1)).map (fun s => s.rep)).getD false := by
  obtain ⟨_, _, _, _, h5, h6⟩ := applySelects_ok vo.selects _ _ h (by simp [startVectors])
  constructor
  · rw [h5 k]
    unfold selectedIndex
    cases lastSelect vo.selects ((k : Int) + 1) with
    | some s => rfl
    | none =>
      simp only [startVectors, Option.map_none', Option.getD_none]
      simp only [List.getD_eq_getElem?_getD, List.getElem?_replicate]
      split <;> rfl
  · rw [h6 k]
    cases lastSelect vo.selects ((k : Int) + 1) with
    | some s => rfl
    | none =>
      simp only [startVectors, Option.map_none', Option.getD_none]
      simp only [List.getD_eq_getElem?_getD, List.getElem?_replicate]
      split <;> rfl

/-- A `-var` option whose reads all fall inside its file is readable, and the
loop reads it at the row and column of the cell formula. -/
theorem boundVarOf_readable {α : Type} {vo : VarOpt α} {R C : Nat}
    (h : applySelects vo.name vo.selects (startVectors vo) = .ok (selectVectors vo))
    (hin : InFile vo R C) :
    Readable (boundVarOf vo) R C ∧
    ∀ i j, i < R → j < C → cellOf (boundVarOf vo) i j = specCell vo i j := by
  have h1 := (selectVectors_getD h 1).1
  have h0 := (selectVectors_getD h 0).1
  have hlen := (selectVectors_length vo).2
  simp only [Nat.cast_one, Nat.cast_zero, zero_add] at h1 h0
  have e2 : ((1 : Int) + 1) = 2 := by norm_num
  rw [e2] at h1
  obtain ⟨hr, hc⟩ := hin
  constructor
  · refine ⟨by simp only [boundVarOf]; omega, ?_, ?_, ?_, ?_⟩
    · simp only [boundVarOf]
      intro hne
      rw [h1] at hne ⊢
      cases hs : selectedIndex vo 2 with
      | none => rw [hs] at hne; simp at hne
      | some r => rw [hs] at hr; simpa using hr
    · simp only [boundVarOf]
      intro he
      rw [h1] at he
      cases hs : selectedIndex vo 2 with
      | none => rw [hs] at hr; exact hr
      | some r =>
        rw [hs] at hr he
        simp only [Option.getD_some] at he
        simp only at hr
        omega
    · simp only [boundVarOf]
      intro hne
      rw [h0] at hne ⊢
      cases hs : selectedIndex vo 1 with
      | none => rw [hs] at hne; simp at hne
      | some r => rw [hs] at hc; simpa using hc
    · simp only [boundVarOf]
      intro he
      rw [h0] at he
      cases hs : selectedIndex vo 1 with
      | none => rw [hs] at hc; exact hc
      | some r =>
        rw [hs] at hc he
        simp only [Option.getD_some] at he
        simp only at hc
        omega
  · intro i j _ _
    have hrow : rowOf (boundVarOf vo) i = specRow vo i := by
      unfold rowOf specRow
      simp only [boundVarOf]
      rw [h1]
      cases hs : selectedIndex vo 2 with
      | none => simp
      | some r =>
        rw [hs] at hr
        simp only at hr
        have : r ≠ -1 := by omega
        simp [this]
    have hcol : colOf (boundVarOf vo) j = specCol vo j := by
      unfold colOf specCol
      simp only [boundVarOf]
      rw [h0]
      cases hs : selectedIndex vo 1 with
      | none => simp
      | some r =>
        rw [hs] at hc
        simp only at hc
        have : r ≠ -1 := by omega
        simp [this]
    unfold cellOf specCell
    rw [hrow, hcol]
    rfl

theorem mem_boundOpts {α : Type} {p : Params α} {vo : VarOpt α} (h : vo ∈ boundOpts p) :
    vo ∈ p.vars := by
  unfold boundOpts at h
  obtain ⟨n, _, hn⟩ := List.mem_filterMap.1 h
  unfold varOptFor at hn
  exact List.mem_of_find?_eq_some hn

/-- The run of a validated invocation whose reads all fall inside the input
files: it ends well and writes, row by row, the values of the cell formula. -/
theorem useParameters_spec {α : Type} {env : Env α} {p : Params α}
    {w : List (Event α)} {plan : Plan α} (h : validate env p = (w, .ok plan))
    (hin : ∀ vo ∈ boundOpts p, InFile vo plan.numRows plan.numOutCols) :
    ∃ t, useParameters env p = (w ++ Event.setCiftiXML plan.outXML :: t, .ok ()) ∧
      writtenRows (w ++ Event.setCiftiXML plan.outXML :: t) =
        (List.range plan.numRows).map (fun i =>
          (i, (List.range plan.numOutCols).map (fun j => specValue env p i j))) := by
  obtain ⟨v0, rest, st, hv, ha, hf⟩ := validate_ok h
  have hl0 : (initState p).outXML.length = (initState p).outDims.length := rfl
  obtain ⟨_, _, _, _, hsel, _⟩ := alignVars_ok p.vars _ st w ha hl0
  obtain ⟨_, hvars⟩ := validate_bound h
  have hread : ∀ b ∈ plan.vars, Readable b plan.numRows plan.numOutCols := by
    intro b hb
    rw [hvars] at hb
    obtain ⟨vo, hvo, rfl⟩ := List.mem_map.1 hb
    exact (boundVarOf_readable (hsel vo (mem_boundOpts hvo)).2 (hin vo hvo)).1
  obtain ⟨t, ht, hw⟩ := useParameters_of_validate h hread
  refine ⟨t, ht, ?_⟩
  have hww : writtenRows w = [] := by
    apply writtenRows_warnings
    have := validate_trace env p
    rw [h] at this
    exact this
  rw [writtenRows_append, hww]
  simp only [writtenRows, List.nil_append]
  rw [hw]
  apply List.map_congr_left
  intro i hi
  congr 1
  apply List.map_congr_left
  intro j hj
  unfold specValue
  congr 2
  rw [hvars, List.map_map]
  apply List.map_congr_left
  intro vo hvo
  exact (boundVarOf_readable (hsel vo (mem_boundOpts hvo)).2 (hin vo hvo)).2 i j
    (List.mem_range.1 hi) (List.mem_range.1 hj)

/-! ## When validation succeeds -/

theorem bindVariable_total {α : Type} {names : List String} {n : String} {b : BoundVar α}
    {bound : List (Option (BoundVar α))}
    (h : n ∈ names → bound[names.indexOf n]? = some none) :
    ∃ found bound1, bindVariable names n b bound = .ok (found, bound1) := by
  unfold bindVariable
  simp only
  split
  · rename_i hj
    rw [h (List.indexOf_lt_length.1 hj)]
    exact ⟨_, _, rfl⟩
  · exact ⟨_, _, rfl⟩

theorem bindAll_total {α : Type} (names : List String) :
    ∀ (vars : List (VarOpt α)) (bound : List (Option (BoundVar α))),
      bound.length = names.length →
      (∀ n ∈ names, (vars.map (fun vo => vo.name)).count n ≤ 1) →
      (∀ vo ∈ vars, vo.name ∈ names → bound[names.indexOf vo.name]? = some none) →
      ∃ b, bindAll names vars bound = .ok b := by
  intro vars
  induction vars with
  | nil => intro bound _ _ _; exact ⟨bound, rfl⟩
  | cons vo rest ih =>
    intro bound hl hc hfree
    obtain ⟨found, bound1, hb⟩ := bindVariable_total (b := boundVarOf vo)
      (hfree vo (List.mem_cons_self _ _))
    obtain ⟨a1, _, _, a4⟩ := bindVariable_ok hb
    simp only [bindAll, hb]
    apply ih bound1 (by omega)
    · intro n hn
      have := hc n hn
      simp only [List.map_cons, List.count_cons] at this
      omega
    · intro vo1 hvo1 hmem1
      rw [a4]
      have hne : ¬ (names.indexOf vo1.name = names.indexOf vo.name ∧
          names.indexOf vo1.name < names.length ∧ names.indexOf vo1.name < bound.length) := by
        rintro ⟨he, hlt, _⟩
        have hmem : vo.name ∈ names := by
          apply List.indexOf_lt_length.1
          rw [← he]; exact hlt
        have hname : vo1.name = vo.name := (List.indexOf_inj hmem1 hmem).1 he
        have := hc vo.name hmem
        simp only [List.map_cons, List.count_cons, beq_self_eq_true, if_true] at this
        have hpos : 0 < (rest.map (fun vo => vo.name)).count vo.name := by
          apply List.count_pos_iff.2
          rw [← hname]
          exact List.mem_map.2 ⟨vo1, hvo1, rfl⟩
        omega
      rw [if_neg hne]
      exact hfree vo1 (List.mem_cons_of_mem _ hvo1) hmem1

theorem checkBound_total {α : Type} :
    ∀ (names : List String) (bound : List (Option (BoundVar α))),
      (∀ k, k < names.length → ∃ x, bound[k]? = some (some x)) →
      ∃ vars, checkBound names bound = .ok vars := by
  intro names
  induction names with
  | nil => intro bound _; exact ⟨[], rfl⟩
  | cons n ns ih =>
    intro bound h
    obtain ⟨x, hx⟩ := h 0 (by simp)
    cases bound with
    | nil => simp at hx
    | cons y ys =>
      simp only [List.getElem?_cons_zero, Option.some.injEq] at hx
      subst hx
      obtain ⟨vars, hv⟩ := ih ys (by
        intro k hk
        have := h (k + 1) (by simpa using hk)
        simpa using this)
      exact ⟨x :: vars, by simp [checkBound, hv]⟩

/-- With the names in order, the binding of all `-var` options and the check
that every variable is bound go through. -/
theorem names_total {α : Type} {env : Env α} {p : Params α} (h : NamesOK env p) :
    ∃ b vars, bindAll p.varNames p.vars (initState p).bound = .ok b ∧
      checkBound p.varNames b = .ok vars := by
  obtain ⟨_, hnd, hcount⟩ := h
  obtain ⟨b, hb⟩ := bindAll_total p.varNames p.vars (initState p).bound
    (by simp [initState]) (fun n hn => by rw [hcount n hn])
    (by
      intro vo _ hmem
      simp only [initState]
      rw [List.getElem?_replicate, if_pos (List.indexOf_lt_length.2 hmem)])
  obtain ⟨b1, _, b3⟩ := bindAll_ok p.vars _ _ hb (by simp [initState])
  obtain ⟨vars, hv⟩ := checkBound_total p.varNames b (by
    intro k hk
    rw [b3 k hk]
    have hmem : p.varNames[k] ∈ p.varNames := List.getElem_mem hk
    have hpos : 0 < (p.vars.map (fun vo => vo.name)).count p.varNames[k] := by
      rw [hcount _ hmem]; exact Nat.one_pos
    obtain ⟨vo, hvo, hname⟩ := List.mem_map.1 (List.count_pos_iff.1 hpos)
    have hidx : p.varNames.indexOf vo.name = k := by
      rw [hname]
      exact List.indexOf_getElem hnd k hk
    cases hf : p.vars.find? (fun vo => decide (p.varNames.indexOf vo.name = k)) with
    | some vo1 => exact ⟨_, rfl⟩
    | none =>
      have := List.find?_eq_none.1 hf vo hvo
      simp [hidx] at this)
  exact ⟨b, vars, hb, hv⟩

theorem alignAxis_cons_ok {α : Type} {env : Env α} {ov : Bool} {first : CiftiFile α}
    {j : Nat} {vo : VarOpt α} {rest : List (VarOpt α)} {s s1 : Int × Option CiftiMap}
    (h : alignAxis env ov first j (vo :: rest) s = .ok s1) :
    ∃ s2, dimBody env ov vo.name (readTempXML first vo.cifti) j s.1 s.2
        ((selectVectors vo).1.getD j (-1)) ((selectVectors vo).2.getD j false) = .ok s2 ∧
      alignAxis env ov first j rest s2 = .ok s1 := by
  simp only [alignAxis, selOf, repOf] at h
  cases hd : dimBody env ov vo.name (readTempXML first vo.cifti) j s.1 s.2
      ((selectVectors vo).1.getD j (-1)) ((selectVectors vo).2.getD j false) with
  | error e => rw [hd] at h; simp at h
  | ok s2 =>
    rw [hd] at h
    exact ⟨s2, rfl, h⟩

/-- In the two-axis setting, the pass over the `-var` options goes through
when the names bind and each of the two axes resolves. -/
theorem alignVars_total {α : Type} (env : Env α) (p : Params α) (first : CiftiFile α) :
    ∀ (vars : List (VarOpt α)) (st : AlignState α),
      st.outXML.length = st.outDims.length → st.outDims.length ≤ 2 →
      (∀ vo ∈ vars, env.getNamedConstant vo.name = false ∧ vo.cifti.higher = [] ∧
        ∀ s ∈ vo.selects, s.dim = 1 ∨ s.dim = 2) →
      (∃ b, bindAll p.varNames vars st.bound = .ok b) →
      (∀ j, j < 2 → ∃ s1, alignAxis env p.overrideMapCheck first j vars
        (st.outDims.getD j (-1), st.outXML.getD j none) = .ok s1) →
      ∃ w st1, alignVars env p first vars st = (w, .ok st1) := by
  intro vars
  induction vars with
  | nil => intro st _ _ _ _ _; exact ⟨[], st, rfl⟩
  | cons vo rest ih =>
    intro st hl hl2 hall hbind haxis
    obtain ⟨hconst, hhigh, hsel⟩ := hall vo (List.mem_cons_self _ _)
    have hstart : (startVectors vo).2.length = (startVectors vo).1.length := by
      simp [startVectors]
    obtain ⟨r, hr⟩ := applySelects_total vo.name vo.selects (startVectors vo)
      hstart (by
        intro s hs
        have := hsel s hs
        simp only [startVectors, List.length_replicate]
        rcases this with h1 | h1 <;> rw [h1] <;> omega)
    have hsv := selectVectors_of_ok hr
    obtain ⟨_, _, _, c4, _⟩ := applySelects_ok vo.selects _ r hr hstart
    have hlen2 : (selectVectors vo).1.length = 2 := by
      have h1 := (selectVectors_length vo).2
      have h2 : r.1.length ≤ 2 := by
        apply c4 2
        · simp [startVectors, hhigh]
        · intro s hs
          rcases hsel s hs with h1 | h1 <;> rw [h1] <;> norm_num
      rw [hsv]; rw [hsv] at h1; omega
    obtain ⟨b, hb⟩ := hbind
    simp only [bindAll] at hb
    cases hbv : bindVariable p.varNames vo.name (boundVarOf vo) st.bound with
    | error e => rw [hbv] at hb; simp at hb
    | ok fb =>
      obtain ⟨found, bound1⟩ := fb
      rw [hbv] at hb
      simp only at hb
      cases hv : alignVar env p first vo st with
      | mk w1 res =>
        cases res with
        | error e =>
          exfalso
          rcases alignVar_error hv hl with ⟨h1, _⟩ | h1 | h1 | ⟨k, hk, h1⟩
          · rw [hconst] at h1; simp at h1
          · rw [hr] at h1; simp at h1
          · simp only [boundVarOf] at hbv
            rw [hbv] at h1; simp at h1
          · have hk2 : k < 2 := by omega
            obtain ⟨s1, hs1⟩ := haxis k hk2
            obtain ⟨s2, hs2, _⟩ := alignAxis_cons_ok hs1
            simp only at hs2
            rw [hs2] at h1; simp at h1
        | ok st2 =>
          obtain ⟨_, _, ⟨found2, hb2, _⟩, a4, a5, _, a7⟩ := alignVar_ok hv hl
          simp only [boundVarOf] at hbv
          rw [hbv] at hb2
          simp only [Except.ok.injEq, Prod.mk.injEq] at hb2
          obtain ⟨w2, st1, hrest⟩ := ih st2 a4 (by omega)
            (fun vo1 hvo1 => hall vo1 (List.mem_cons_of_mem _ hvo1))
            ⟨b, by rw [← hb2.2]; exact hb⟩
            (by
              intro j hj
              obtain ⟨s1, hs1⟩ := haxis j hj
              obtain ⟨s2, hs2, hs3⟩ := alignAxis_cons_ok hs1
              simp only at hs2
              rw [a7 j (by omega)] at hs2
              simp only [Except.ok.injEq] at hs2
              rw [hs2]
              exact ⟨s1, hs3⟩)
          refine ⟨w1 ++ w2, st1, ?_⟩
          simp only [alignVars, hv, hrest]

theorem list_eq_of_length_two {β : Type} (l : List β) (d : β) (h : l.length = 2) :
    l = [l.getD 0 d, l.getD 1 d] := by
  match l, h with
  | [a, b], _ => rfl

/-- In the two-axis setting validation succeeds when the names are in order
and each of the two axes resolves to a known length; the plan then holds the
two resolved lengths and maps and the bound variables. -/
theorem validate_total {α : Type} {env : Env α} {p : Params α} {v0 : VarOpt α}
    {rest : List (VarOpt α)} {d0 d1 : Int} {m0 m1 : Option CiftiMap}
    (hvars : p.vars = v0 :: rest) (h2 : TwoAxes p) (hn : NamesOK env p)
    (hax0 : alignAxis env p.overrideMapCheck v0.cifti 0 p.vars (-1, none) = .ok (d0, m0))
    (hax1 : alignAxis env p.overrideMapCheck v0.cifti 1 p.vars (-1, none) = .ok (d1, m1))
    (hd0 : d0 ≠ -1) (hd1 : d1 ≠ -1) :
    ∃ w plan, validate env p = (w, .ok plan) ∧ plan.outDims = [d0, d1] ∧
      plan.outXML = [m0.getD dummyMap, m1.getD dummyMap] ∧
      plan.vars = (boundOpts p).map boundVarOf := by
  obtain ⟨b, vars, hb, hc⟩ := names_total hn
  have hl0 : (initState p).outXML.length = (initState p).outDims.length := rfl
  obtain ⟨w, st, ha⟩ := alignVars_total env p v0.cifti p.vars
    (initState p) hl0 (by simp [initState])
    (fun vo hvo => ⟨hn.1 vo hvo, (h2 vo hvo).1, (h2 vo hvo).2⟩) ⟨b, hb⟩
    (by
      intro j hj
      have : j = 0 ∨ j = 1 := by omega
      rcases this with rfl | rfl
      · exact ⟨_, hax0⟩
      · exact ⟨_, hax1⟩)
  obtain ⟨a1, _, a3, a4, _, a6⟩ := alignVars_ok p.vars _ st w ha hl0
  have hbs := alignVars_bindAll p.vars _ st w ha hl0
  rw [hb] at hbs
  simp only [Except.ok.injEq] at hbs
  have e0 := a6 0 (Or.inl (by norm_num))
  have e1 := a6 1 (Or.inl (by norm_num))
  simp only [initState, List.getD_nil] at e0 e1
  rw [hax0] at e0
  rw [hax1] at e1
  simp only [Except.ok.injEq, Prod.mk.injEq] at e0 e1
  have hlen : st.outDims.length = 2 := by
    have hge : 2 ≤ st.outDims.length := by
      have := a3 v0 (by rw [hvars]; exact List.mem_cons_self _ _)
      have := (selectVectors_length v0).2
      omega
    have hle : st.outDims.length ≤ 2 := by
      apply a4 2 (by simp [initState])
      intro vo hvo
      have hstart : (startVectors vo).2.length = (startVectors vo).1.length := by
        simp [startVectors]
      obtain ⟨r, hr⟩ := applySelects_total vo.name vo.selects (startVectors vo)
        hstart (by
          intro s hs
          have := (h2 vo hvo).2 s hs
          simp only [startVectors, List.length_replicate]
          rcases this with h1 | h1 <;> rw [h1] <;> omega)
      obtain ⟨_, _, _, c4, _⟩ := applySelects_ok vo.selects _ r hr hstart
      rw [selectVectors_of_ok hr]
      apply c4 2
      · simp [startVectors, (h2 vo hvo).1]
      · intro s hs
        rcases (h2 vo hvo).2 s hs with h1 | h1 <;> rw [h1] <;> norm_num
    omega
  have hod : st.outDims = [d0, d1] := by
    rw [list_eq_of_length_two st.outDims (-1) hlen, ← e0.1, ← e1.1]
  have hox : st.outXML = [m0, m1] := by
    rw [list_eq_of_length_two st.outXML none (by omega), ← e0.2, ← e1.2]
  obtain ⟨maps, hm⟩ := fillMaps_total st.outXML 0 st.outDims a1 (by
    intro k hk
    rw [hod]
    have : k = 0 ∨ k = 1 := by omega
    rcases this with rfl | rfl
    · simpa using hd0
    · simpa using hd1)
  have hmaps : maps = [m0.getD dummyMap, m1.getD dummyMap] := by
    rw [hox, hod] at hm
    simp only [fillMaps, List.head?_cons, Option.some.injEq, List.tail_cons] at hm
    rw [if_neg hd0, if_neg hd1] at hm
    simp only [Except.ok.injEq] at hm
    exact hm.symm
  have hfin : finalize p st = .ok ⟨vars, st.outDims, maps⟩ := by
    unfold finalize
    rw [← hbs, hc]
    simp only [hm]
    rw [if_neg (by rw [hmaps]; simp)]
  have hval : validate env p = (w, .ok ⟨vars, st.outDims, maps⟩) := by
    unfold validate
    rw [hvars]
    simp only
    rw [← hvars, ha]
    simp only [hfin]
  refine ⟨w, _, hval, hod, hmaps, ?_⟩
  exact (validate_bound hval).2

/-! ## The series-length substitution and variables without `-select` -/

theorem shimLength_length_ne (m : CiftiMap) (len : Nat) : (shimLength m len).length ≠ -1 := by
  unfold shimLength
  split
  · simp only; omega
  · omega

theorem shimLength_consistent (m : CiftiMap) (len : Nat)
    (h : m.length < 1 ∨ m.length = (len : Int)) : (shimLength m len).length = (len : Int) := by
  unfold shimLength
  split
  · rfl
  · rcases h with h | h
    · omega
    · exact h

/-- The vectors of a `-var` option without `-select`. -/
theorem selectVectors_nil {α : Type} (vo : VarOpt α) (h : vo.selects = []) :
    selectVectors vo = startVectors vo := by
  simp [selectVectors, startVectors, h, applySelects]

theorem startVectors_getD {α : Type} (vo : VarOpt α) (k : Nat) :
    (startVectors vo).1.getD k (-1) = -1 ∧ (startVectors vo).2.getD k false = false := by
  simp only [startVectors, List.getD_eq_getElem?_getD, List.getElem?_replicate]
  constructor <;> split <;> rfl

/-! ## What the traces of the streaming loop contain -/

theorem readFixedRows_trace {α : Type} (env : Env α) :
    ∀ (vars : List (BoundVar α)) (v : Nat),
      ∀ ev ∈ (readFixedRows env v vars).1, ∃ k r, ev = Event.getRow k r := by
  intro vars
  induction vars with
  | nil => intro v ev hev; simp [readFixedRows] at hev
  | cons b bs ih =>
    intro v ev hev
    have ih1 := ih (v + 1)
    simp only [readFixedRows] at hev
    cases hs : vectorAt b.selectInfo 1 with
    | error e => rw [hs] at hev; simp at hev
    | ok s =>
      rw [hs] at hev
      simp only at hev
      cases hr : readFixedRows env (v + 1) bs with
      | mk t res =>
        rw [hr] at hev ih1
        split at hev
        · cases hg : getRow b.file s with
          | error e =>
            rw [hg] at hev
            simp only [List.mem_singleton] at hev
            exact ⟨_, _, hev⟩
          | ok row =>
            rw [hg] at hev
            cases res with
            | error e =>
              simp only [List.mem_cons] at hev
              rcases hev with hev | hev
              · exact ⟨_, _, hev⟩
              · exact ih1 ev hev
            | ok rows =>
              simp only [List.mem_cons] at hev
              rcases hev with hev | hev
              · exact ⟨_, _, hev⟩
              · exact ih1 ev hev
        · cases res with
          | error e => exact ih1 ev hev
          | ok rows => exact ih1 ev hev

theorem readRows_trace {α : Type} (i : Nat) :
    ∀ (vars : List (BoundVar α)) (v : Nat) (inputRows : List (List α)),
      ∀ ev ∈ (readRows i v vars inputRows).1, ∃ k r, ev = Event.getRow k r := by
  intro vars
  induction vars with
  | nil => intro v inputRows ev hev; simp [readRows] at hev
  | cons b bs ih =>
    intro v inputRows ev hev
    have ih1 := ih (v + 1) inputRows.tail
    simp only [readRows] at hev
    cases hs : vectorAt b.selectInfo 1 with
    | error e => rw [hs] at hev; simp at hev
    | ok s =>
      rw [hs] at hev
      simp only at hev
      cases hr : readRows i (v + 1) bs inputRows.tail with
      | mk t res =>
        rw [hr] at hev ih1
        split at hev
        · cases hg : getRow b.file (i : Int) with
          | error e =>
            rw [hg] at hev
            simp only [List.mem_singleton] at hev
            exact ⟨_, _, hev⟩
          | ok row =>
            rw [hg] at hev
            cases res with
            | error e =>
              simp only [List.mem_cons] at hev
              rcases hev with hev | hev
              · exact ⟨_, _, hev⟩
              · exact ih1 ev hev
            | ok rows =>
              simp only [List.mem_cons] at hev
              rcases hev with hev | hev
              · exact ⟨_, _, hev⟩
              · exact ih1 ev hev
        · cases res with
          | error e => exact ih1 ev hev
          | ok rows => exact ih1 ev hev

theorem computeRow_values {α : Type} (env : Env α) (p : Params α)
    (vars : List (BoundVar α)) (inputRows : List (List α)) :
    ∀ (cols : List Nat) (row : List α),
      computeRow env p vars inputRows cols = .ok row →
      ∀ x ∈ row, ∃ values, x = fixNaN env p.fixnan (p.evaluate values) := by
  intro cols
  induction cols with
  | nil =>
    intro row h x hx
    simp only [computeRow, Except.ok.injEq] at h
    subst h; simp at hx
  | cons j js ih =>
    intro row h x hx
    simp only [computeRow] at h
    cases hg : gatherValues j vars inputRows with
    | error e => rw [hg] at h; simp at h
    | ok values =>
      rw [hg] at h
      simp only at h
      cases hc : computeRow env p vars inputRows js with
      | error e => rw [hc] at h; simp at h
      | ok rest =>
        rw [hc] at h
        simp only [Except.ok.injEq] at h
        subst h
        rcases List.mem_cons.1 hx with hx | hx
        · exact ⟨values, hx⟩
        · exact ih rest hc x hx

/-- Every event of the loop over the rows is a `getRow`, or a `setRow` of a
row whose values all are NaN-fixed results of the expression. -/
theorem streamRows_trace {α : Type} (env : Env α) (p : Params α)
    (vars : List (BoundVar α)) (numOutCols : Nat) :
    ∀ (rows : List Nat) (inputRows : List (List α)),
      ∀ ev ∈ (streamRows env p vars numOutCols rows inputRows).1,
        (∃ k r, ev = Event.getRow k r) ∨
        (∃ i row, ev = Event.setRow i row ∧
          ∀ x ∈ row, ∃ values, x = fixNaN env p.fixnan (p.evaluate values)) := by
  intro rows
  induction rows with
  | nil => intro inputRows ev hev; simp [streamRows] at hev
  | cons i is ih =>
    intro inputRows ev hev
    simp only [streamRows] at hev
    have h1 := readRows_trace i vars 0 inputRows
    cases hr : readRows i 0 vars inputRows with
    | mk t res =>
      rw [hr] at hev h1
      cases res with
      | error e => left; exact h1 ev hev
      | ok inputRows1 =>
        simp only at hev
        cases hc : computeRow env p vars inputRows1 (List.range numOutCols) with
        | error e => rw [hc] at hev; left; exact h1 ev hev
        | ok scratchRow =>
          rw [hc] at hev
          simp only at hev
          have h2 := ih inputRows1
          cases hs : streamRows env p vars numOutCols is inputRows1 with
          | mk t2 r2 =>
            rw [hs] at hev h2
            simp only [List.mem_append, List.mem_cons] at hev
            rcases hev with hev | hev | hev
            · left; exact h1 ev hev
            · right
              exact ⟨i, scratchRow, hev, computeRow_values env p vars inputRows1 _ _ hc⟩
            · exact h2 ev hev

theorem stream_trace {α : Type} (env : Env α) (p : Params α) (plan : Plan α) :
    ∀ ev ∈ (stream env p plan).1,
      (∃ k r, ev = Event.getRow k r) ∨
      (∃ i row, ev = Event.setRow i row ∧
        ∀ x ∈ row, ∃ values, x = fixNaN env p.fixnan (p.evaluate values)) := by
  intro ev hev
  unfold stream at hev
  simp only at hev
  have h1 := readFixedRows_trace env plan.vars 0
  cases hr : readFixedRows env 0 plan.vars with
  | mk t res =>
    rw [hr] at hev h1
    cases res with
    | error e => left; exact h1 ev hev
    | ok inputRows =>
      simp only at hev
      have h2 := streamRows_trace env p plan.vars (getDimensionLength plan.outXML 0).toNat
        (List.range (getDimensionLength plan.outXML 1).toNat) inputRows
      cases hs : streamRows env p plan.vars (getDimensionLength plan.outXML 0).toNat
          (List.range (getDimensionLength plan.outXML 1).toNat) inputRows with
      | mk t2 r2 =>
        rw [hs] at hev h2
        simp only [List.mem_append] at hev
        rcases hev with hev | hev
        · left; exact h1 ev hev
        · exact h2 ev hev

/-- The events of a whole run: warnings, the one header, row reads, and
writes of rows of NaN-fixed results. -/
theorem useParameters_trace {α : Type} (env : Env α) (p : Params α) :
    ∀ ev ∈ (useParameters env p).1,
      (∃ n, ev = Event.warning n) ∨ (∃ m, ev = Event.setCiftiXML m) ∨
      (∃ k r, ev = Event.getRow k r) ∨
      (∃ i row, ev = Event.setRow i row ∧
        ∀ x ∈ row, ∃ values, x = fixNaN env p.fixnan (p.evaluate values)) := by
  intro ev hev
  unfold useParameters at hev
  have h1 := validate_trace env p
  cases hv : validate env p with
  | mk w res =>
    rw [hv] at hev h1
    cases res with
    | error e => left; exact h1 ev hev
    | ok plan =>
      simp only at hev
      have h2 := stream_trace env p plan
      cases hs : stream env p plan with
      | mk t r =>
        rw [hs] at hev h2
        simp only [List.mem_append, List.mem_cons] at hev
        rcases hev with hev | hev | hev
        · left; exact h1 ev hev
        · right; left; exact ⟨_, hev⟩
        · right; right; exact h2 ev hev

/-! ## The kinds of failure -/

theorem dimBody_error {α : Type} {env : Env α} {ov : Bool} {name : String}
    {tx : List CiftiMap} {j : Nat} {od : Int} {om : Option CiftiMap} {sel : Int} {rep : Bool}
    {e : Failure} (h : dimBody env ov name tx j od om sel rep = .error e) :
    ∃ x, e = .fatal x := by
  unfold dimBody at h
  repeat' split at h
  all_goals first
    | (simp only [Except.error.injEq] at h; exact ⟨_, h.symm⟩)
    | simp at h

theorem alignVars_error_kind {α : Type} {env : Env α} {p : Params α} {first : CiftiFile α} :
    ∀ (vars : List (VarOpt α)) (st : AlignState α) (w : List (Event α)) (e : Failure),
      alignVars env p first vars st = (w, .error e) →
      st.outXML.length = st.outDims.length →
      (∃ x, e = .fatal x) ∨
      (e = .badVectorIndex ∧ ∃ vo ∈ vars, ∃ s ∈ vo.selects, s.dim < 1) := by
  intro vars
  induction vars with
  | nil => intro st w e h _; simp [alignVars] at h
  | cons vo rest ih =>
    intro st w e h hl
    rcases alignVars_cons_error h with hv | ⟨w1, w2, st2, hv, hr, _⟩
    · rcases alignVar_error hv hl with ⟨_, h1⟩ | h1 | h1 | ⟨k, _, h1⟩
      · left; exact ⟨_, h1⟩
      · rcases applySelects_error _ _ _ h1 (by simp [startVectors]) with
          ⟨h2, _⟩ | ⟨h2, s, hs, h3⟩
        · left; exact ⟨_, h2⟩
        · right; exact ⟨h2, vo, List.mem_cons_self _ _, s, hs, h3⟩
      · left; exact ⟨_, bindVariable_error h1⟩
      · left; exact dimBody_error h1
    · obtain ⟨_, _, _, a4, _⟩ := alignVar_ok hv hl
      rcases ih st2 w2 e hr a4 with h1 | ⟨h1, vo1, hvo1, h2⟩
      · left; exact h1
      · right; exact ⟨h1, vo1, List.mem_cons_of_mem _ hvo1, h2⟩

/-- A validation that fails does so with an `OperationException`, unless a
`-select` names a dimension below 1. -/
theorem validate_error_kind {α : Type} {env : Env α} {p : Params α} {w : List (Event α)}
    {e : Failure} (h : validate env p = (w, .error e)) :
    (∃ x, e = .fatal x) ∨
    (e = .badVectorIndex ∧ ∃ vo ∈ p.vars, ∃ s ∈ vo.selects, s.dim < 1) := by
  rcases validate_error h with ⟨_, h1⟩ | ⟨v0, rest, _, ha⟩ | ⟨v0, rest, st, _, _, hf⟩
  · left; exact ⟨_, h1⟩
  · exact alignVars_error_kind p.vars _ w e ha rfl
  · left; exact finalize_error hf

theorem vectorAt_error {β : Type} {v : List β} {k : Int} {e : Failure}
    (h : vectorAt v k = .error e) : e = .badVectorIndex := by
  unfold vectorAt at h
  split at h
  · simp only [Except.error.injEq] at h; exact h.symm
  · split at h
    · simp at h
    · simp only [Except.error.injEq] at h; exact h.symm

theorem getRow_error {α : Type} {f : CiftiFile α} {r : Int} {e : Failure}
    (h : getRow f r = .error e) : e = .badRowIndex := by
  unfold getRow at h
  split at h
  · simp at h
  · simp only [Except.error.injEq] at h; exact h.symm

theorem readFixedRows_error {α : Type} (env : Env α) :
    ∀ (vars : List (BoundVar α)) (v : Nat) (t : List (Event α)) (e : Failure),
      readFixedRows env v vars = (t, .error e) → e = .badVectorIndex ∨ e = .badRowIndex := by
  intro vars
  induction vars with
  | nil => intro v t e h; simp [readFixedRows] at h
  | cons b bs ih =>
    intro v t e h
    simp only [readFixedRows] at h
    cases hs : vectorAt b.selectInfo 1 with
    | error e1 =>
      rw [hs] at h
      simp only [Prod.mk.injEq, Except.error.injEq] at h
      left; rw [← h.2]; exact vectorAt_error hs
    | ok s =>
      rw [hs] at h
      simp only at h
      cases hr : readFixedRows env (v + 1) bs with
      | mk t1 res =>
        rw [hr] at h
        split at h
        · cases hg : getRow b.file s with
          | error e1 =>
            rw [hg] at h
            simp only [Prod.mk.injEq, Except.error.injEq] at h
            right; rw [← h.2]; exact getRow_error hg
          | ok row =>
            rw [hg] at h
            cases res with
            | error e1 =>
              simp only [Prod.mk.injEq, Except.error.injEq] at h
              rw [← h.2]; exact ih _ _ _ hr
            | ok rows => simp at h
        · cases res with
          | error e1 =>
            simp only [Prod.mk.injEq, Except.error.injEq] at h
            rw [← h.2]; exact ih _ _ _ hr
          | ok rows => simp at h

theorem readRows_error {α : Type} (i : Nat) :
    ∀ (vars : List (BoundVar α)) (v : Nat) (inputRows : List (List α)) (t : List (Event α))
      (e : Failure),
      readRows i v vars inputRows = (t, .error e) → e = .badVectorIndex ∨ e = .badRowIndex := by
  intro vars
  induction vars with
  | nil => intro v inputRows t e h; simp [readRows] at h
  | cons b bs ih =>
    intro v inputRows t e h
    simp only [readRows] at h
    cases hs : vectorAt b.selectInfo 1 with
    | error e1 =>
      rw [hs] at h
      simp only [Prod.mk.injEq, Except.error.injEq] at h
      left; rw [← h.2]; exact vectorAt_error hs
    | ok s =>
      rw [hs] at h
      simp only at h
      cases hr : readRows i (v + 1) bs inputRows.tail with
      | mk t1 res =>
        rw [hr] at h
        split at h
        · cases hg : getRow b.file (i : Int) with
          | error e1 =>
            rw [hg] at h
            simp only [Prod.mk.injEq, Except.error.injEq] at h
            right; rw [← h.2]; exact getRow_error hg
          | ok row =>
            rw [hg] at h
            cases res with
            | error e1 =>
              simp only [Prod.mk.injEq, Except.error.injEq] at h
              rw [← h.2]; exact ih _ _ _ _ hr
            | ok rows => simp at h
        · cases res with
          | error e1 =>
            simp only [Prod.mk.injEq, Except.error.injEq] at h
            rw [← h.2]; exact ih _ _ _ _ hr
          | ok rows => simp at h

theorem gatherValues_error {α : Type} (j : Nat) :
    ∀ (vars : List (BoundVar α)) (inputRows : List (List α)) (e : Failure),
      gatherValues j vars inputRows = .error e → e = .badVectorIndex := by
  intro vars
  induction vars with
  | nil => intro inputRows e h; simp [gatherValues] at h
  | cons b bs ih =>
    intro inputRows e h
    simp only [gatherValues] at h
    cases hs : vectorAt b.selectInfo 0 with
    | error e1 =>
      rw [hs] at h
      simp only [Except.error.injEq] at h
      rw [← h]; exact vectorAt_error hs
    | ok s =>
      rw [hs] at h
      simp only at h
      cases hx : vectorAt (inputRows.headD []) (if s = -1 then (j : Int) else s) with
      | error e1 =>
        rw [hx] at h
        simp only [Except.error.injEq] at h
        rw [← h]; exact vectorAt_error hx
      | ok x =>
        rw [hx] at h
        simp only at h
        cases hr : gatherValues j bs inputRows.tail with
        | error e1 =>
          rw [hr] at h
          simp only [Except.error.injEq] at h
          rw [← h]; exact ih _ _ hr
        | ok xs => rw [hr] at h; simp at h

theorem computeRow_error {α : Type} (env : Env α) (p : Params α)
    (vars : List (BoundVar α)) (inputRows : List (List α)) :
    ∀ (cols : List Nat) (e : Failure),
      computeRow env p vars inputRows cols = .error e → e = .badVectorIndex := by
  intro cols
  induction cols with
  | nil => intro e h; simp [computeRow] at h
  | cons j js ih =>
    intro e h
    simp only [computeRow] at h
    cases hg : gatherValues j vars inputRows with
    | error e1 =>
      rw [hg] at h
      simp only [Except.error.injEq] at h
      rw [← h]; exact gatherValues_error j _ _ _ hg
    | ok values =>
      rw [hg] at h
      simp only at h
      cases hc : computeRow env p vars inputRows js with
      | error e1 =>
        rw [hc] at h
        simp only [Except.error.injEq] at h
        rw [← h]; exact ih _ hc
      | ok rest => rw [hc] at h; simp at h

theorem streamRows_error {α : Type} (env : Env α) (p : Params α)
    (vars : List (BoundVar α)) (numOutCols : Nat) :
    ∀ (rows : List Nat) (inputRows : List (List α)) (t : List (Event α)) (e : Failure),
      streamRows env p vars numOutCols rows inputRows = (t, .error e) →
      e = .badVectorIndex ∨ e = .badRowIndex := by
  intro rows
  induction rows with
  | nil => intro inputRows t e h; simp [streamRows] at h
  | cons i is ih =>
    intro inputRows t e h
    simp only [streamRows] at h
    cases hr : readRows i 0 vars inputRows with
    | mk t1 res =>
      rw [hr] at h
      cases res with
      | error e1 =>
        simp only [Prod.mk.injEq, Except.error.injEq] at h
        rw [← h.2]; exact readRows_error i _ _ _ _ _ hr
      | ok inputRows1 =>
        simp only at h
        cases hc : computeRow env p vars inputRows1 (List.range numOutCols) with
        | error e1 =>
          rw [hc] at h
          simp only [Prod.mk.injEq, Except.error.injEq] at h
          left; rw [← h.2]; exact computeRow_error env p _ _ _ _ hc
        | ok scratchRow =>
          rw [hc] at h
          simp only at h
          cases hs : streamRows env p vars numOutCols is inputRows1 with
          | mk t2 r2 =>
            rw [hs] at h
            simp only [Prod.mk.injEq] at h
            rw [h.2] at hs
            exact ih _ _ _ hs

/-- The streaming loop throws no `OperationException`. -/
theorem stream_error {α : Type} (env : Env α) (p : Params α) (plan : Plan α)
    (t : List (Event α)) (e : Failure) (h : stream env p plan = (t, .error e)) :
    e = .badVectorIndex ∨ e = .badRowIndex := by
  unfold stream at h
  simp only at h
  cases hr : readFixedRows env 0 plan.vars with
  | mk t1 res =>
    rw [hr] at h
    cases res with
    | error e1 =>
      simp only [Prod.mk.injEq, Except.error.injEq] at h
      rw [← h.2]; exact readFixedRows_error env _ _ _ _ hr
    | ok inputRows =>
      simp only at h
      cases hs : streamRows env p plan.vars (getDimensionLength plan.outXML 0).toNat
          (List.range (getDimensionLength plan.outXML 1).toNat) inputRows with
      | mk t2 r2 =>
        rw [hs] at h
        simp only [Prod.mk.injEq] at h
        rw [h.2] at hs
        exact streamRows_error env p _ _ _ _ _ _ hs

/-- A run that ends in an `OperationException` ended in validation. -/
theorem useParameters_fatal {α : Type} {env : Env α} {p : Params α} {t : List (Event α)}
    {x : OperationException} (h : useParameters env p = (t, .error (.fatal x))) :
    validate env p = (t, .error (.fatal x)) := by
  unfold useParameters at h
  cases hv : validate env p with
  | mk w res =>
    rw [hv] at h
    cases res with
    | error e =>
      simp only [Prod.mk.injEq, Except.error.injEq] at h
      rw [h.1, h.2]
    | ok plan =>
      simp only at h
      cases hs : stream env p plan with
      | mk t1 r =>
        rw [hs] at h
        simp only [Prod.mk.injEq] at h
        rw [h.2] at hs
        rcases stream_error env p plan _ _ hs with h1 | h1 <;> simp at h1

/-! ## The resolution of one of the two matrix axes -/

theorem tempXML_axis {α : Type} (first f : CiftiFile α) (j : Nat) (hj : j < 2) :
    (readTempXML first f)[j]? = some (axisMap first f j) ∧
    (axisMap first f j).length ≠ -1 ∧
    axisLength first f j = (axisMap first f j).length := by
  have : j = 0 ∨ j = 1 := by omega
  rcases this with rfl | rfl
  · refine ⟨by simp [readTempXML, axisMap], ?_, by simp [axisLength, getDimensionLength,
      readTempXML, axisMap]⟩
    simp only [axisMap, readTempXML, List.getD_cons_zero]
    exact shimLength_length_ne _ _
  · refine ⟨by simp [readTempXML, axisMap], ?_, by simp [axisLength, getDimensionLength,
      readTempXML, axisMap]⟩
    simp only [axisMap, readTempXML, List.getD_cons_succ, List.getD_cons_zero]
    exact shimLength_length_ne _ _

/-- The body of the loop over the axes on an axis the file has, when the
variable leaves the axis unselected. -/
theorem dimBody_unselected {α : Type} (env : Env α) (ov : Bool) (name : String)
    (tx : List CiftiMap) (j : Nat) (od : Int) (om : Option CiftiMap) (sel : Int) (rep : Bool)
    (m : CiftiMap) (hs : sel = -1) (hm : tx[j]? = some m) :
    dimBody env ov name tx j od om sel rep =
      if od = -1 then .ok (m.length, some m)
      else if od ≠ m.length then .error (.fatal (.lengthMismatch name j))
      else match om with
        | none => .ok (od, some m)
        | some x =>
          if !ov && !env.approximateMatch x m then .error (.fatal (.mappingMismatch name j))
          else .ok (od, om) := by
  subst hs
  unfold dimBody
  simp only [hm, if_true]

/-- The body of the loop over the axes when the variable selects on the
axis. -/
theorem dimBody_selected {α : Type} (env : Env α) (ov : Bool) (name : String)
    (tx : List CiftiMap) (j : Nat) (od : Int) (om : Option CiftiMap) (sel : Int) (rep : Bool)
    (hs : sel ≠ -1) :
    dimBody env ov name tx j od om sel rep =
      if rep then .ok (od, om)
      else if od = -1 then .ok (1, om)
      else if od ≠ 1 then .error (.fatal (.selectConflict name j))
      else .ok (od, om) := by
  unfold dimBody
  simp only [hs, if_false]
  cases rep <;> simp

theorem alignAxis_append {α : Type} {env : Env α} {ov : Bool} {first : CiftiFile α}
    {j : Nat} :
    ∀ (l1 l2 : List (VarOpt α)) (s s1 : Int × Option CiftiMap),
      alignAxis env ov first j (l1 ++ l2) s = .ok s1 →
      ∃ s2, alignAxis env ov first j l1 s = .ok s2 ∧ alignAxis env ov first j l2 s2 = .ok s1 := by
  intro l1
  induction l1 with
  | nil => intro l2 s s1 h; exact ⟨s, rfl, h⟩
  | cons vo rest ih =>
    intro l2 s s1 h
    simp only [List.cons_append, alignAxis] at h ⊢
    cases hd : dimBody env ov vo.name (readTempXML first vo.cifti) j s.1 s.2
        (selOf vo j) (repOf vo j) with
    | error e => rw [hd] at h; simp at h
    | ok s3 =>
      rw [hd] at h
      simp only at h ⊢
      exact ih l2 s3 s1 h

/-- What a successful resolution of axis 0 or 1 implies: a known length is
never changed, the length stays unknown only while the map is unset, every
variable that leaves the axis unselected has the resolved length, and every
variable that selects without `-repeat` forces the resolved length 1. -/
theorem alignAxis_final {α : Type} {env : Env α} {ov : Bool} {first : CiftiFile α}
    {j : Nat} (hj : j < 2) :
    ∀ (vars : List (VarOpt α)) (s s1 : Int × Option CiftiMap),
      alignAxis env ov first j vars s = .ok s1 →
      (s.1 ≠ -1 → s1.1 = s.1) ∧
      (∀ vo ∈ vars, (selOf vo j = -1 → axisLength first vo.cifti j = s1.1) ∧
        (selOf vo j ≠ -1 → repOf vo j = false → s1.1 = 1)) ∧
      (s1.1 = -1 → s.1 = -1 ∧ ∀ vo ∈ vars, selOf vo j ≠ -1 ∧ repOf vo j = true) := by
  intro vars
  induction vars with
  | nil =>
    intro s s1 h
    simp only [alignAxis, Except.ok.injEq] at h
    subst h
    exact ⟨fun _ => rfl, by simp, fun h => ⟨h, by simp⟩⟩
  | cons vo rest ih =>
    intro s s1 h
    simp only [alignAxis] at h
    obtain ⟨hm, hne, hlen⟩ := tempXML_axis first vo.cifti j hj
    cases hd : dimBody env ov vo.name (readTempXML first vo.cifti) j s.1 s.2
        (selOf vo j) (repOf vo j) with
    | error e => rw [hd] at h; simp at h
    | ok s2 =>
      rw [hd] at h
      simp only at h
      obtain ⟨i1, i2, i3⟩ := ih s2 s1 h
      by_cases hsel : selOf vo j = -1
      · rw [dimBody_unselected env ov vo.name _ j s.1 s.2 _ _ _ hsel hm] at hd
        have hs2 : s2.1 = (axisMap first vo.cifti j).length ∧
            (s.1 = -1 ∨ s.1 = (axisMap first vo.cifti j).length) := by
          split at hd
          · rename_i h1
            simp only [Except.ok.injEq] at hd
            rw [← hd]; exact ⟨rfl, Or.inl h1⟩
          · split at hd
            · simp at hd
            · rename_i h1 h2
              have h3 : s.1 = (axisMap first vo.cifti j).length := by
                by_contra hc; exact h2 hc
              split at hd
              · simp only [Except.ok.injEq] at hd
                rw [← hd]; exact ⟨h3, Or.inr h3⟩
              · split at hd
                · simp at hd
                · simp only [Except.ok.injEq] at hd
                  rw [← hd]; exact ⟨h3, Or.inr h3⟩
        have hs2ne : s2.1 ≠ -1 := by rw [hs2.1]; exact hne
        have hfin : s1.1 = (axisMap first vo.cifti j).length := by rw [i1 hs2ne, hs2.1]
        refine ⟨?_, ?_, ?_⟩
        · intro hs
          rcases hs2.2 with h1 | h1
          · exact absurd h1 hs
          · rw [hfin, h1]
        · intro vo1 hvo1
          rcases List.mem_cons.1 hvo1 with rfl | hvo1
          · exact ⟨fun _ => by rw [hlen, hfin], fun h1 => absurd hsel h1⟩
          · exact i2 vo1 hvo1
        · intro h1
          rw [hfin] at h1
          exact absurd h1 hne
      · rw [dimBody_selected env ov vo.name _ j s.1 s.2 _ _ hsel] at hd
        cases hrep : repOf vo j with
        | true =>
          rw [hrep] at hd
          simp only [if_true, Except.ok.injEq] at hd
          subst hd
          refine ⟨i1, ?_, ?_⟩
          · intro vo1 hvo1
            rcases List.mem_cons.1 hvo1 with rfl | hvo1
            · exact ⟨fun h1 => absurd h1 hsel, fun _ h2 => by rw [hrep] at h2; simp at h2⟩
            · exact i2 vo1 hvo1
          · intro h1
            obtain ⟨h2, h3⟩ := i3 h1
            refine ⟨h2, ?_⟩
            intro vo1 hvo1
            rcases List.mem_cons.1 hvo1 with rfl | hvo1
            · exact ⟨hsel, hrep⟩
            · exact h3 vo1 hvo1
        | false =>
          rw [hrep] at hd
          simp only [Bool.false_eq_true, if_false] at hd
          have hs2 : s2.1 = 1 ∧ (s.1 = -1 ∨ s.1 = 1) := by
            split at hd
            · rename_i h1
              simp only [Except.ok.injEq] at hd
              rw [← hd]; exact ⟨rfl, Or.inl h1⟩
            · split at hd
              · simp at hd
              · rename_i h1 h2
                have h3 : s.1 = 1 := by
                  by_contra hc; exact h2 hc
                simp only [Except.ok.injEq] at hd
                rw [← hd]; exact ⟨h3, Or.inr h3⟩
          have hfin : s1.1 = 1 := by rw [i1 (by rw [hs2.1]; norm_num), hs2.1]
          refine ⟨?_, ?_, ?_⟩
          · intro hs
            rcases hs2.2 with h1 | h1
            · exact absurd h1 hs
            · rw [hfin, h1]
          · intro vo1 hvo1
            rcases List.mem_cons.1 hvo1 with rfl | hvo1
            · exact ⟨fun h1 => absurd h1 hsel, fun _ _ => hfin⟩
            · exact i2 vo1 hvo1
          · intro h1
            rw [hfin] at h1
            norm_num at h1

/-- Sufficient conditions for axis 0 or 1 to resolve to the length `d`: the
length so far is unknown (with no map) or `d`, every variable that leaves the
axis unselected has length `d`, a selection without `-repeat` occurs only when
`d` is 1, and the maps that get compared match (or the check is overridden). -/
theorem alignAxis_total {α : Type} {env : Env α} {ov : Bool} {first : CiftiFile α}
    {j : Nat} (hj : j < 2) (d : Int) (hd : d ≠ -1) :
    ∀ (vars : List (VarOpt α)) (s : Int × Option CiftiMap),
      ((s.1 = -1 ∧ s.2 = none) ∨ s.1 = d) →
      (∀ vo ∈ vars, (selOf vo j = -1 → axisLength first vo.cifti j = d) ∧
        (selOf vo j ≠ -1 → repOf vo j = false → d = 1)) →
      (ov = true ∨ (MapsMatch env first j vars ∧
        ∀ x, s.2 = some x → ∀ vo ∈ vars, selOf vo j = -1 →
          env.approximateMatch x (axisMap first vo.cifti j) = true)) →
      ∃ s1, alignAxis env ov first j vars s = .ok s1 ∧ (s.1 = d → s1.1 = d) ∧
        ((∃ vo ∈ vars, selOf vo j = -1 ∨ repOf vo j = false) → s1.1 = d) := by
  intro vars
  induction vars with
  | nil =>
    intro s _ _ _
    exact ⟨s, rfl, fun h => h, by simp⟩
  | cons vo rest ih =>
    intro s hs hall hmap
    obtain ⟨hm, hne, hlen⟩ := tempXML_axis first vo.cifti j hj
    obtain ⟨hu, hsl⟩ := hall vo (List.mem_cons_self _ _)
    have hall' : ∀ vo1 ∈ rest, (selOf vo1 j = -1 → axisLength first vo1.cifti j = d) ∧
        (selOf vo1 j ≠ -1 → repOf vo1 j = false → d = 1) :=
      fun vo1 hvo1 => hall vo1 (List.mem_cons_of_mem _ hvo1)
    -- it is enough to find the state after `vo`, with length `d` or unchanged
    have step : ∀ s2 : Int × Option CiftiMap,
        dimBody env ov vo.name (readTempXML first vo.cifti) j s.1 s.2
          (selOf vo j) (repOf vo j) = .ok s2 →
        ((s2.1 = -1 ∧ s2.2 = none) ∨ s2.1 = d) →
        ((s.1 = d ∨ selOf vo j = -1 ∨ repOf vo j = false) → s2.1 = d) →
        (ov = true ∨ (MapsMatch env first j rest ∧
          ∀ x, s2.2 = some x → ∀ vo1 ∈ rest, selOf vo1 j = -1 →
            env.approximateMatch x (axisMap first vo1.cifti j) = true)) →
        ∃ s1, alignAxis env ov first j (vo :: rest) s = .ok s1 ∧ (s.1 = d → s1.1 = d) ∧
          ((∃ vo1 ∈ vo :: rest, selOf vo1 j = -1 ∨ repOf vo1 j = false) → s1.1 = d) := by
      intro s2 hd2 hs2 hset hmap2
      obtain ⟨s1, h1, h2, h3⟩ := ih s2 hs2 hall' hmap2
      refine ⟨s1, by simp only [alignAxis, hd2, h1], ?_, ?_⟩
      · intro h; exact h2 (hset (Or.inl h))
      · rintro ⟨vo1, hvo1, hc⟩
        rcases List.mem_cons.1 hvo1 with rfl | hvo1
        · exact h2 (hset (Or.inr hc))
        · exact h3 ⟨vo1, hvo1, hc⟩
    by_cases hsel : selOf vo j = -1
    · have hlend : (axisMap first vo.cifti j).length = d := by rw [← hlen]; exact hu hsel
      have hbody := dimBody_unselected env ov vo.name _ j s.1 s.2 (selOf vo j) (repOf vo j)
        _ hsel hm
      rcases hs with ⟨h1, h2⟩ | h1
      · -- unknown so far: this variable defines the axis
        apply step (d, some (axisMap first vo.cifti j))
        · rw [hbody, if_pos h1, hlend]
        · right; rfl
        · intro _; rfl
        · rcases hmap with h3 | ⟨h3, _⟩
          · left; exact h3
          · right
            unfold MapsMatch at h3
            rw [List.pairwise_cons] at h3
            refine ⟨h3.2, ?_⟩
            intro x hx vo1 hvo1 hs1
            simp only [Option.some.injEq] at hx
            rw [← hx]
            exact h3.1 vo1 hvo1 hsel hs1
      · cases hom : s.2 with
        | none =>
          apply step (d, some (axisMap first vo.cifti j))
          · rw [hbody, if_neg (by rw [h1]; exact hd), if_neg (by rw [h1, hlend]; simp), hom,
              h1]
          · right; rfl
          · intro _; rfl
          · rcases hmap with h3 | ⟨h3, _⟩
            · left; exact h3
            · right
              unfold MapsMatch at h3
              rw [List.pairwise_cons] at h3
              refine ⟨h3.2, ?_⟩
              intro x hx vo1 hvo1 hs1
              simp only [Option.some.injEq] at hx
              rw [← hx]
              exact h3.1 vo1 hvo1 hsel hs1
        | some x =>
          apply step (d, some x)
          · rw [hbody, if_neg (by rw [h1]; exact hd), if_neg (by rw [h1, hlend]; simp), hom]
            simp only
            have hcheck : (!ov && !env.approximateMatch x (axisMap first vo.cifti j)) = false := by
              rcases hmap with h3 | ⟨_, h3⟩
              · rw [h3]; rfl
              · rw [h3 x hom vo (List.mem_cons_self _ _) hsel]; simp
            rw [hcheck]
            simp only [Bool.false_eq_true, if_false, h1]
          · right; rfl
          · intro _; rfl
          · rcases hmap with h3 | ⟨h3, h4⟩
            · left; exact h3
            · right
              unfold MapsMatch at h3
              rw [List.pairwise_cons] at h3
              refine ⟨h3.2, ?_⟩
              intro y hy vo1 hvo1 hs1
              simp only [Option.some.injEq] at hy
              rw [← hy]
              exact h4 x hom vo1 (List.mem_cons_of_mem _ hvo1) hs1
    · have hbody := dimBody_selected env ov vo.name (readTempXML first vo.cifti) j s.1 s.2
        (selOf vo j) (repOf vo j) hsel
      have hmap' : ov = true ∨ (MapsMatch env first j rest ∧
          ∀ x, s.2 = some x → ∀ vo1 ∈ rest, selOf vo1 j = -1 →
            env.approximateMatch x (axisMap first vo1.cifti j) = true) := by
        rcases hmap with h3 | ⟨h3, h4⟩
        · left; exact h3
        · right
          unfold MapsMatch at h3
          rw [List.pairwise_cons] at h3
          exact ⟨h3.2, fun x hx vo1 hvo1 hs1 => h4 x hx vo1 (List.mem_cons_of_mem _ hvo1) hs1⟩
      cases hrep : repOf vo j with
      | true =>
        apply step s
        · rw [hbody, hrep]; rfl
        · exact hs
        · intro h
          rcases h with h | h | h
          · exact h
          · exact absurd h hsel
          · rw [hrep] at h; simp at h
        · exact hmap'
      | false =>
        have hd1 : d = 1 := hsl hsel hrep
        rcases hs with ⟨h1, h2⟩ | h1
        · apply step (1, s.2)
          · rw [hbody, hrep]
            simp only [Bool.false_eq_true, if_false, if_pos h1]
          · right; exact hd1.symm
          · intro _; exact hd1.symm
          · exact hmap'
        · apply step s
          · rw [hbody, hrep]
            simp only [Bool.false_eq_true, if_false]
            rw [if_neg (by rw [h1]; exact hd), if_neg (by rw [h1, hd1]; simp)]
          · right; exact h1
          · intro _; exact h1
          · exact hmap'

/-- A map that axis 0 or 1 has received has the resolved length, which is
known; an axis with a known length and no map has length 1. -/
theorem alignAxis_map_inv {α : Type} {env : Env α} {ov : Bool} {first : CiftiFile α}
    {j : Nat} (hj : j < 2) :
    ∀ (vars : List (VarOpt α)) (s s1 : Int × Option CiftiMap),
      alignAxis env ov first j vars s = .ok s1 →
      ((∀ x, s.2 = some x → x.length = s.1 ∧ s.1 ≠ -1) ∧
        (s.2 = none → s.1 = -1 ∨ s.1 = 1)) →
      (∀ x, s1.2 = some x → x.length = s1.1 ∧ s1.1 ≠ -1) ∧
        (s1.2 = none → s1.1 = -1 ∨ s1.1 = 1) := by
  intro vars
  induction vars with
  | nil =>
    intro s s1 h hinv
    simp only [alignAxis, Except.ok.injEq] at h
    subst h; exact hinv
  | cons vo rest ih =>
    intro s s1 h hinv
    simp only [alignAxis] at h
    obtain ⟨hm, hne, hlen⟩ := tempXML_axis first vo.cifti j hj
    cases hd : dimBody env ov vo.name (readTempXML first vo.cifti) j s.1 s.2
        (selOf vo j) (repOf vo j) with
    | error e => rw [hd] at h; simp at h
    | ok s2 =>
      rw [hd] at h
      simp only at h
      apply ih s2 s1 h
      by_cases hsel : selOf vo j = -1
      · rw [dimBody_unselected env ov vo.name _ j s.1 s.2 _ _ _ hsel hm] at hd
        split at hd
        · simp only [Except.ok.injEq] at hd
          subst hd
          exact ⟨fun x hx => by
            simp only [Option.some.injEq] at hx
            subst hx; exact ⟨rfl, hne⟩, fun hx => by simp at hx⟩
        · split at hd
          · simp at hd
          · rename_i h1 h2
            have h3 : s.1 = (axisMap first vo.cifti j).length := by
              by_contra hc; exact h2 hc
            split at hd
            · simp only [Except.ok.injEq] at hd
              subst hd
              exact ⟨fun x hx => by
                simp only [Option.some.injEq] at hx
                subst hx; exact ⟨h3.symm, h1⟩, fun hx => by simp at hx⟩
            · split at hd
              · simp at hd
              · simp only [Except.ok.injEq] at hd
                subst hd; exact hinv
      · rw [dimBody_selected env ov vo.name _ j s.1 s.2 _ _ hsel] at hd
        split at hd
        · simp only [Except.ok.injEq] at hd
          subst hd; exact hinv
        · split at hd
          · rename_i h1
            simp only [Except.ok.injEq] at hd
            subst hd
            refine ⟨fun x hx => ?_, fun _ => Or.inr rfl⟩
            have := (hinv.1 x hx).2
            exact absurd h1 this
          · split at hd
            · simp at hd
            · simp only [Except.ok.injEq] at hd
              subst hd; exact hinv

/-- Variables that all select on the axis leave its map as it is, and a
known length as it is. -/
theorem alignAxis_selected_only {α : Type} {env : Env α} {ov : Bool} {first : CiftiFile α}
    {j : Nat} :
    ∀ (vars : List (VarOpt α)) (s s1 : Int × Option CiftiMap),
      (∀ vo ∈ vars, selOf vo j ≠ -1) →
      alignAxis env ov first j vars s = .ok s1 →
      s1.2 = s.2 ∧ (s.1 ≠ -1 → s1.1 = s.1) := by
  intro vars
  induction vars with
  | nil =>
    intro s s1 _ h
    simp only [alignAxis, Except.ok.injEq] at h
    subst h; exact ⟨rfl, fun _ => rfl⟩
  | cons vo rest ih =>
    intro s s1 hall h
    simp only [alignAxis] at h
    have hsel := hall vo (List.mem_cons_self _ _)
    cases hd : dimBody env ov vo.name (readTempXML first vo.cifti) j s.1 s.2
        (selOf vo j) (repOf vo j) with
    | error e => rw [hd] at h; simp at h
    | ok s2 =>
      rw [hd] at h
      simp only at h
      obtain ⟨i1, i2⟩ := ih s2 s1 (fun vo1 hvo1 => hall vo1 (List.mem_cons_of_mem _ hvo1)) h
      rw [dimBody_selected env ov vo.name _ j s.1 s.2 _ _ hsel] at hd
      split at hd
      · simp only [Except.ok.injEq] at hd
        subst hd; exact ⟨i1, i2⟩
      · split at hd
        · rename_i h1
          simp only [Except.ok.injEq] at hd
          subst hd
          exact ⟨i1, fun h2 => absurd h1 h2⟩
        · split at hd
          · simp at hd
          · simp only [Except.ok.injEq] at hd
            subst hd; exact ⟨i1, i2⟩

/-- The selection a `-var` option makes on each axis, read off its `-select`
options, once their parse goes through. -/
theorem selOf_repOf {α : Type} {vo : VarOpt α}
    (h : applySelects vo.name vo.selects (startVectors vo) = .ok (selectVectors vo))
    (j : Nat) :
    selOf vo j = (selectedIndex vo ((j : Int) + 1)).getD (-1) ∧
    repOf vo j = ((lastSelect vo.selects ((j : Int) + 1)).map (fun s => s.rep)).getD false :=
  selectVectors_getD h j

/-- In the two-axis setting the parse of the `-select` options goes through. -/
theorem applySelects_of_twoAxes {α : Type} {vo : VarOpt α}
    (hs : ∀ s ∈ vo.selects, s.dim = 1 ∨ s.dim = 2) :
    applySelects vo.name vo.selects (startVectors vo) = .ok (selectVectors vo) := by
  obtain ⟨r, hr⟩ := applySelects_total vo.name vo.selects (startVectors vo)
    (by simp [startVectors]) (by
      intro s hs1
      simp only [startVectors, List.length_replicate]
      rcases hs s hs1 with h1 | h1 <;> rw [h1] <;> omega)
  rw [selectVectors_of_ok hr]; exact hr

/-- What a successful validation says about the two axes: the pass along
each axis went through and left the length and the map of the plan. -/
theorem validate_axes {α : Type} {env : Env α} {p : Params α} {w : List (Event α)}
    {plan : Plan α} (h : validate env p = (w, .ok plan)) :
    ∃ v0 rest, p.vars = v0 :: rest ∧ plan.outDims.length = 2 ∧ plan.outXML.length = 2 ∧
      (∀ vo ∈ p.vars, vo.cifti.higher = [] ∧
        applySelects vo.name vo.selects (startVectors vo) = .ok (selectVectors vo)) ∧
      ∀ j, j < 2 → ∃ m, alignAxis env p.overrideMapCheck v0.cifti j p.vars (-1, none)
          = .ok (plan.outDims.getD j (-1), m) ∧
        plan.outDims.getD j (-1) ≠ -1 ∧ plan.outXML[j]? = some (m.getD dummyMap) := by
  obtain ⟨v0, rest, st, hv, ha, hf⟩ := validate_ok h
  have hl0 : (initState p).outXML.length = (initState p).outDims.length := rfl
  obtain ⟨a1, _, a3, _, a5, a6⟩ := alignVars_ok p.vars _ st w ha hl0
  obtain ⟨_, f2, f3, f4, f5⟩ := finalize_ok hf a1
  obtain ⟨g1, g2⟩ := fillMaps_ok _ _ _ _ f2 a1
  refine ⟨v0, rest, hv, by rw [f3]; exact f4, f5, ?_, ?_⟩
  · intro vo hvo
    refine ⟨?_, (a5 vo hvo).2⟩
    have h1 := a3 vo hvo
    have h2 := (selectVectors_length vo).2
    exact List.length_eq_zero.1 (by omega)
  · intro j hj
    have := a6 j (Or.inl hj)
    simp only [initState, List.getD_nil] at this
    refine ⟨st.outXML.getD j none, by rw [f3]; exact this, ?_, ?_⟩
    · rw [f3]; exact (g2 j (by omega)).1
    · exact (g2 j (by omega)).2

/-- In the two-axis setting with the names in order, validation succeeds as
soon as axis `j` resolves to a known length and the other axis resolves; the
plan and the output header then carry that length on axis `j`. -/
theorem validate_of_axis {α : Type} {env : Env α} {p : Params α} {v0 : VarOpt α}
    {rest : List (VarOpt α)} (hvars : p.vars = v0 :: rest) (h2 : TwoAxes p)
    (hn : NamesOK env p) {j : Nat} (hj : j < 2) {d : Int} {m : Option CiftiMap}
    (hax : alignAxis env p.overrideMapCheck v0.cifti j p.vars (-1, none) = .ok (d, m))
    (hd : d ≠ -1) (hother : AxisResolves env p (1 - j)) :
    ∃ w plan, validate env p = (w, .ok plan) ∧ plan.outDims.getD j 0 = d ∧
      getDimensionLength plan.outXML j = d := by
  obtain ⟨v0', rest', d', m', hv', hax', hd'⟩ := hother
  rw [hvars] at hv'
  simp only [List.cons.injEq] at hv'
  obtain ⟨hv0, _⟩ := hv'
  subst hv0
  have hinv := alignAxis_map_inv hj p.vars _ _ hax
    ⟨fun x hx => by simp at hx, fun _ => Or.inl rfl⟩
  have hlen : (m.getD dummyMap).length = d := by
    cases hm : m with
    | none =>
      have := hinv.2 hm
      simp only at this
      simp only [Option.getD_none, dummyMap]
      omega
    | some x =>
      simp only [Option.getD_some]
      exact (hinv.1 x hm).1
  have hcase : j = 0 ∨ j = 1 := by omega
  rcases hcase with rfl | rfl
  · obtain ⟨w, plan, hval, hod, hox, _⟩ := validate_total hvars h2 hn hax hax' hd hd'
    refine ⟨w, plan, hval, by rw [hod]; rfl, ?_⟩
    rw [hox]; simpa [getDimensionLength] using hlen
  · obtain ⟨w, plan, hval, hod, hox, _⟩ := validate_total hvars h2 hn hax' hax hd' hd
    refine ⟨w, plan, hval, by rw [hod]; rfl, ?_⟩
    rw [hox]; simpa [getDimensionLength] using hlen

/-! ## The override of the mapping check -/

theorem dimBody_override {α : Type} (env env1 : Env α) (name : String)
    (tx : List CiftiMap) (j : Nat) (od : Int) (om : Option CiftiMap) (sel : Int) (rep : Bool) :
    dimBody env true name tx j od om sel rep = dimBody env1 true name tx j od om sel rep := by
  unfold dimBody
  simp

theorem dimLoop_override {α : Type} (env env1 : Env α) (name : String)
    (tx : List CiftiMap) (tsi : List Int) (tr : List Bool) :
    ∀ (fuel j : Nat) (od : List Int) (ox : List (Option CiftiMap)),
      dimLoop env true name tx tsi tr fuel j od ox =
        dimLoop env1 true name tx tsi tr fuel j od ox := by
  intro fuel
  induction fuel with
  | zero => intro j od ox; rfl
  | succ n ih =>
    intro j od ox
    simp only [dimLoop]
    rw [dimBody_override env env1]
    cases dimBody env1 true name tx j
        ((if j ≥ od.length then od ++ [-1] else od).getD j (-1))
        ((if j ≥ od.length then resize ox (j + 1) none else ox).getD j none)
        (tsi.getD j (-1)) (tr.getD j false) with
    | error e => rfl
    | ok dm =>
      obtain ⟨d, m⟩ := dm
      simp only
      exact ih _ _ _

theorem alignVar_override {α : Type} (env env1 : Env α) (p : Params α)
    (hc : env1.getNamedConstant = env.getNamedConstant) (ho : p.overrideMapCheck = true)
    (first : CiftiFile α) (vo : VarOpt α) (st : AlignState α) :
    alignVar env p first vo st = alignVar env1 p first vo st := by
  unfold alignVar
  rw [hc, ho]
  simp only [dimLoop_override env env1]

theorem alignVars_override {α : Type} (env env1 : Env α) (p : Params α)
    (hc : env1.getNamedConstant = env.getNamedConstant) (ho : p.overrideMapCheck = true)
    (first : CiftiFile α) :
    ∀ (vars : List (VarOpt α)) (st : AlignState α),
      alignVars env p first vars st = alignVars env1 p first vars st := by
  intro vars
  induction vars with
  | nil => intro st; rfl
  | cons vo rest ih =>
    intro st
    simp only [alignVars]
    rw [alignVar_override env env1 p hc ho]
    cases alignVar env1 p first vo st with
    | mk w res =>
      cases res with
      | error e => rfl
      | ok st1 => simp only [ih st1]

/-- With the override flag the outcome of validation does not depend on
`approximateMatch`. -/
theorem validate_override {α : Type} (env env1 : Env α) (p : Params α)
    (hc : env1.getNamedConstant = env.getNamedConstant) (ho : p.overrideMapCheck = true) :
    validate env p = validate env1 p := by
  unfold validate
  cases p.vars with
  | nil => rfl
  | cons v0 rest =>
    simp only
    rw [alignVars_override env env1 p hc ho]

/-- The pass along axis 0 or 1 over variables that come after an unselected
one: the map the axis has stays the one it had. -/
theorem alignAxis_keeps_map {α : Type} {env : Env α} {ov : Bool} {first : CiftiFile α}
    {j : Nat} (hj : j < 2) :
    ∀ (vars : List (VarOpt α)) (s s1 : Int × Option CiftiMap) (x : CiftiMap),
      s.2 = some x → s.1 ≠ -1 →
      alignAxis env ov first j vars s = .ok s1 → s1.2 = some x ∧ s1.1 = s.1 := by
  intro vars
  induction vars with
  | nil =>
    intro s s1 x hx _ h
    simp only [alignAxis, Except.ok.injEq] at h
    subst h; exact ⟨hx, rfl⟩
  | cons vo rest ih =>
    intro s s1 x hx hs h
    simp only [alignAxis] at h
    obtain ⟨hm, hne, hlen⟩ := tempXML_axis first vo.cifti j hj
    cases hd : dimBody env ov vo.name (readTempXML first vo.cifti) j s.1 s.2
        (selOf vo j) (repOf vo j) with
    | error e => rw [hd] at h; simp at h
    | ok s2 =>
      rw [hd] at h
      simp only at h
      have hs2 : s2 = s := by
        by_cases hsel : selOf vo j = -1
        · rw [dimBody_unselected env ov vo.name _ j s.1 s.2 _ _ _ hsel hm, if_neg hs] at hd
          split at hd
          · simp at hd
          · rw [hx] at hd
            simp only at hd
            split at hd
            · simp at hd
            · simp only [Except.ok.injEq] at hd
              rw [← hd, ← hx]
        · rw [dimBody_selected env ov vo.name _ j s.1 s.2 _ _ hsel] at hd
          split at hd
          · simp only [Except.ok.injEq] at hd; exact hd.symm
          · split at hd
            · simp at hd
            · simp only [Except.ok.injEq] at hd; exact hd.symm
      subst hs2
      exact ih _ _ x hx hs h

/-- The pass along axis 0 or 1, with the mapping check on: when the first
variable to leave the axis unselected and a later unselected variable both get
through, the map of the first approximately matches the map of the later. -/
theorem alignAxis_compares {α : Type} {env : Env α} {first : CiftiFile α} {j : Nat}
    (hj : j < 2) (pre mid post : List (VarOpt α)) (v1 v2 : VarOpt α)
    (s1 : Int × Option CiftiMap)
    (h : alignAxis env false first j (pre ++ v1 :: (mid ++ v2 :: post)) (-1, none) = .ok s1)
    (hpre : ∀ vo ∈ pre, selOf vo j ≠ -1) (h1 : selOf v1 j = -1) (h2 : selOf v2 j = -1) :
    env.approximateMatch (axisMap first v1.cifti j) (axisMap first v2.cifti j) = true := by
  obtain ⟨sa, ha, hb⟩ := alignAxis_append pre _ _ _ h
  obtain ⟨a1, _⟩ := alignAxis_selected_only pre _ _ hpre ha
  simp only at a1
  simp only [alignAxis] at hb
  obtain ⟨hm1, hne1, _⟩ := tempXML_axis first v1.cifti j hj
  cases hd1 : dimBody env false v1.name (readTempXML first v1.cifti) j
      sa.1 sa.2 (selOf v1 j) (repOf v1 j) with
  | error e => rw [hd1] at hb; simp at hb
  | ok sb =>
    rw [hd1] at hb
    simp only at hb
    have hsb : sb.2 = some (axisMap first v1.cifti j) ∧ sb.1 ≠ -1 := by
      rw [dimBody_unselected env _ v1.name _ j sa.1 sa.2 _ _ _ h1 hm1, a1] at hd1
      split at hd1
      · simp only [Except.ok.injEq] at hd1
        rw [← hd1]; exact ⟨rfl, hne1⟩
      · rename_i hne
        split at hd1
        · simp at hd1
        · simp only [Except.ok.injEq] at hd1
          rw [← hd1]; exact ⟨rfl, hne⟩
    obtain ⟨sc, hc, hd⟩ := alignAxis_append mid _ _ _ hb
    obtain ⟨c1, c2⟩ := alignAxis_keeps_map hj mid _ _ _ hsb.1 hsb.2 hc
    simp only [alignAxis] at hd
    obtain ⟨hm2, _, _⟩ := tempXML_axis first v2.cifti j hj
    cases hd2 : dimBody env false v2.name (readTempXML first v2.cifti) j
        sc.1 sc.2 (selOf v2 j) (repOf v2 j) with
    | ok sd =>
      rw [dimBody_unselected env _ v2.name _ j sc.1 sc.2 _ _ _ h2 hm2, c1,
        if_neg (by rw [c2]; exact hsb.2)] at hd2
      split at hd2
      · simp at hd2
      · simp only at hd2
        split at hd2
        · simp at hd2
        · rename_i hcheck
          simpa using hcheck
    | error e => rw [hd2] at hd; simp at hd

/-- A list with a variable that leaves axis `j` unselected splits at the
first such variable. -/
theorem first_unselected {α : Type} (j : Nat) :
    ∀ (pre : List (VarOpt α)) (v1 : VarOpt α), selOf v1 j = -1 →
      (∀ vo ∈ pre, selOf vo j ≠ -1) ∨
      ∃ a vd b, pre = a ++ vd :: b ∧ (∀ vo ∈ a, selOf vo j ≠ -1) ∧ selOf vd j = -1 := by
  intro pre
  induction pre with
  | nil => intro v1 _; left; simp
  | cons u us ih =>
    intro v1 h1
    by_cases hu : selOf u j = -1
    · right; exact ⟨[], u, us, rfl, by simp, hu⟩
    · rcases ih v1 h1 with h | ⟨a, vd, b, hab, ha, hvd⟩
      · left
        intro vo hvo
        rcases List.mem_cons.1 hvo with rfl | hvo
        · exact hu
        · exact h vo hvo
      · right
        refine ⟨u :: a, vd, b, by rw [hab]; rfl, ?_, hvd⟩
        intro vo hvo
        rcases List.mem_cons.1 hvo with rfl | hvo
        · exact hu
        · exact ha vo hvo

/-! ## Lengths of the output header -/

/-- After a successful validation the output header has, on each of its two
axes, the resolved length. -/
theorem validate_header_length {α : Type} {env : Env α} {p : Params α}
    {w : List (Event α)} {plan : Plan α} (h : validate env p = (w, .ok plan))
    (j : Nat) (hj : j < 2) :
    getDimensionLength plan.outXML j = plan.outDims.getD j (-1) ∧
    plan.outDims.getD j 0 = plan.outDims.getD j (-1) := by
  obtain ⟨v0, rest, _, hl, _, _, hax⟩ := validate_axes h
  obtain ⟨m, hm, _, hx⟩ := hax j hj
  have hinv := alignAxis_map_inv hj p.vars _ _ hm
    ⟨fun x hx => by simp at hx, fun _ => Or.inl rfl⟩
  simp only at hinv
  constructor
  · unfold getDimensionLength
    rw [hx]
    simp only
    cases hmm : m with
    | none =>
      have := hinv.2 hmm
      simp only [Option.getD_none, dummyMap]
      omega
    | some x =>
      simp only [Option.getD_some]
      exact (hinv.1 x hmm).1
  · simp only [List.getD_eq_getElem?_getD]
    rw [List.getElem?_eq_getElem (by omega)]
    rfl

theorem selOf_nil {α : Type} (vo : VarOpt α) (h : vo.selects = []) (j : Nat) :
    selOf vo j = -1 := by
  unfold selOf
  rw [selectVectors_nil vo h]
  exact (startVectors_getD vo j).1

/-! ## Invocations that never validate -/

/-- An invocation that validation never accepts ends in an error with the
events of validation only: no output header, no row read, no row written; and
the error is an `OperationException` whenever every `-select` names a
dimension of at least 1. -/
theorem failure_of_no_plan {α : Type} (env : Env α) (p : Params α)
    (h : ∀ w plan, validate env p ≠ (w, .ok plan)) :
    ∃ t e, useParameters env p = (t, .error e) ∧ validate env p = (t, .error e) ∧
      (∀ i row, Event.setRow i row ∉ t) ∧ (∀ k r, Event.getRow k r ∉ t) ∧
      (∀ m, Event.setCiftiXML m ∉ t) ∧
      ((∀ vo ∈ p.vars, ∀ s ∈ vo.selects, 1 ≤ s.dim) → ∃ x, e = .fatal x) := by
  cases hv : validate env p with
  | mk w res =>
    cases res with
    | ok plan => exact absurd hv (h w plan)
    | error e =>
      have ht := validate_trace env p
      rw [hv] at ht
      refine ⟨w, e, ?_, rfl, ?_, ?_, ?_, ?_⟩
      · unfold useParameters; rw [hv]
      · intro i row hm; obtain ⟨n, hn⟩ := ht _ hm; simp at hn
      · intro k r hm; obtain ⟨n, hn⟩ := ht _ hm; simp at hn
      · intro m hm; obtain ⟨n, hn⟩ := ht _ hm; simp at hn
      · intro hall
        rcases validate_error_kind hv with h1 | ⟨_, vo1, hvo1, s, hs, hd⟩
        · exact h1
        · have := hall vo1 hvo1 s hs
          omega

/-- The last `-select` for a dimension is one of the list and names that
dimension. -/
theorem lastSelect_mem :
    ∀ (sels : List SelectOpt) (d : Int) (s : SelectOpt),
      lastSelect sels d = some s → s ∈ sels ∧ s.dim = d := by
  intro sels
  induction sels with
  | nil => intro d s h; simp [lastSelect] at h
  | cons a rest ih =>
    intro d s h
    unfold lastSelect at h
    cases hr : lastSelect rest d with
    | some t =>
      rw [hr] at h
      simp only [Option.some.injEq] at h
      subst h
      obtain ⟨h1, h2⟩ := ih d t hr
      exact ⟨List.mem_cons_of_mem _ h1, h2⟩
    | none =>
      rw [hr] at h
      by_cases hd : a.dim = d
      · simp only [hd, if_true, Option.some.injEq] at h
        subst h
        exact ⟨List.mem_cons_self _ _, hd⟩
      · simp [hd] at h

/-- A list of `-select` options in which some option names the dimension has
a last one for it. -/
theorem lastSelect_of_mem :
    ∀ (sels : List SelectOpt) (s : SelectOpt), s ∈ sels →
      ∃ t, lastSelect sels s.dim = some t := by
  intro sels
  induction sels with
  | nil => intro s h; simp at h
  | cons a rest ih =>
    intro s h
    unfold lastSelect
    cases hr : lastSelect rest s.dim with
    | some t => exact ⟨t, rfl⟩
    | none =>
      rcases List.mem_cons.1 h with h1 | h1
      · subst h1; exact ⟨s, by simp⟩
      · obtain ⟨t, ht⟩ := ih s h1
        rw [hr] at ht; simp at ht

/-- Along an axis on which every `-var` option has a selection with
`-repeat`, the pass leaves an unknown length unknown, and the map untouched. -/
theorem alignAxis_all_repeat {α : Type} {env : Env α} {ov : Bool} {first : CiftiFile α}
    {j : Nat} :
    ∀ (vars : List (VarOpt α)) (s : Int × Option CiftiMap), s.1 = -1 →
      (∀ vo ∈ vars, selOf vo j ≠ -1 ∧ repOf vo j = true) →
      alignAxis env ov first j vars s = .ok s := by
  intro vars
  induction vars with
  | nil => intro s _ _; rfl
  | cons vo rest ih =>
    intro s hs hall
    obtain ⟨h1, h2⟩ := hall vo (List.mem_cons_self _ _)
    unfold alignAxis
    have hb : dimBody env ov vo.name (readTempXML first vo.cifti) j s.1 s.2
        (selOf vo j) (repOf vo j) = .ok s := by
      unfold dimBody
      rw [if_pos hs, if_neg h1, h2]
      simp
    rw [hb]
    exact ih s hs (fun v hv => hall v (List.mem_cons_of_mem _ hv))

/-- The loop of lines 240-248 throws at the first axis of unknown length. -/
theorem fillMaps_unknown :
    ∀ (ox : List (Option CiftiMap)) (i : Nat) (od : List Int) (j : Nat),
      ox.length = od.length → j < ox.length → od.getD j (-1) = -1 →
      ∃ k, k ≤ j ∧ fillMaps i od ox = .error (.fatal (.unknownLength (i + k))) := by
  intro ox
  induction ox with
  | nil => intro i od j _ hj _; simp at hj
  | cons m ms ih =>
    intro i od j hl hj hd
    cases od with
    | nil => simp at hl
    | cons d ds =>
      unfold fillMaps
      by_cases h0 : d = -1
      · refine ⟨0, Nat.zero_le _, ?_⟩
        simp [h0]
      · cases j with
        | zero => simp at hd; exact absurd hd h0
        | succ j1 =>
          have hl1 : ms.length = ds.length := by simpa using hl
          have hj1 : j1 < ms.length := by simpa using hj
          have hd1 : ds.getD j1 (-1) = -1 := by simpa using hd
          obtain ⟨k, hk, hf⟩ := ih (i + 1) ds j1 hl1 hj1 hd1
          refine ⟨k + 1, by omega, ?_⟩
          have hne : ¬ ((d :: ds).head? = some (-1)) := by simpa using h0
          rw [if_neg hne]
          simp only [List.tail_cons]
          rw [hf]
          have : i + 1 + k = i + (k + 1) := by omega
          rw [this]

/-- A `-var` option whose last `-select` for an axis has an index other than
0 and carries `-repeat` is read as selected with `-repeat` on that axis. -/
theorem selOf_repOf_of_last {α : Type} {vo : VarOpt α} {j : Nat} {s : SelectOpt}
    (h : applySelects vo.name vo.selects (startVectors vo) = .ok (selectVectors vo))
    (hs : lastSelect vo.selects ((j : Int) + 1) = some s) :
    selOf vo j = s.index - 1 ∧ repOf vo j = s.rep := by
  obtain ⟨h1, h2⟩ := selOf_repOf h j
  rw [h1, h2]
  simp [selectedIndex, hs]

/-! ## A `-select` that a later one overwrites -/

/-- Growing a vector commutes with a write at an index it already has. -/
theorem resize_set {β : Type} (l : List β) (n e : Nat) (d x : β)
    (he : e < l.length) (hn : l.length ≤ n) :
    resize (l.set e x) n d = (resize l n d).set e x := by
  unfold resize
  rw [List.take_of_length_le (by simpa using hn), List.take_of_length_le hn,
    List.length_set, List.set_append_left _ _ he]

/-- One `-select` on two pairs of vectors that differ in the entries of
index `e` only: when the option names dimension `e + 1` both runs agree, and
otherwise both throw the same or both go on to pairs that differ in the
entries of index `e` only. -/
theorem applySelect_overwritten {name : String} {st st2 : List Int × List Bool}
    {e : Nat} {x : Int} {y : Bool} (t : SelectOpt)
    (hl : st.2.length = st.1.length) (he : e < st.1.length)
    (h1 : st2.1 = st.1.set e x) (h2 : st2.2 = st.2.set e y) :
    (t.dim = (e : Int) + 1 → applySelect name st2 t = applySelect name st t) ∧
    (t.dim ≠ (e : Int) + 1 →
      (∃ err, applySelect name st2 t = .error err ∧ applySelect name st t = .error err) ∨
      ∃ r r2, applySelect name st t = .ok r ∧ applySelect name st2 t = .ok r2 ∧
        r.2.length = r.1.length ∧ e < r.1.length ∧
        r2.1 = r.1.set e x ∧ r2.2 = r.2.set e y) := by
  have hlen : st2.1.length = st.1.length := by rw [h1, List.length_set]
  have he2 : e < st.2.length := by omega
  constructor
  · intro hd
    unfold applySelect
    simp only [hlen]
    have hge : ¬ (t.dim - 1 ≥ (st.1.length : Int)) := by omega
    have hneg : ¬ (t.dim - 1 < 0) := by omega
    have hto : (t.dim - 1).toNat = e := by omega
    rw [if_neg hge, if_neg hneg, if_neg hge, if_neg hneg, hto, h1, h2,
      List.set_set, List.set_set]
  · intro hd
    unfold applySelect
    simp only [hlen]
    by_cases hge : t.dim - 1 ≥ (st.1.length : Int)
    · rw [if_pos hge, if_pos hge]
      by_cases hi : t.index - 1 ≠ 0
      · left
        rw [if_pos hi, if_pos hi]
        exact ⟨_, rfl, rfl⟩
      · right
        rw [if_neg hi, if_neg hi]
        have hne : (t.dim - 1).toNat ≠ e := by omega
        have hn1 : st.1.length ≤ (t.dim - 1).toNat + 1 := by omega
        have hn2 : st.2.length ≤ (t.dim - 1).toNat + 1 := by omega
        refine ⟨_, _, rfl, rfl, ?_, ?_, ?_, ?_⟩
        · simp only [List.length_set, resize_length]
        · simp only [List.length_set, resize_length]; omega
        · simp only []
          rw [h1, resize_set _ _ _ _ _ he hn1, List.set_comm _ _ _ (Ne.symm hne)]
        · simp only []
          rw [h2, resize_set _ _ _ _ _ he2 hn2, List.set_comm _ _ _ (Ne.symm hne)]
    · rw [if_neg hge, if_neg hge]
      by_cases hneg : t.dim - 1 < 0
      · left
        rw [if_pos hneg, if_pos hneg]
        exact ⟨_, rfl, rfl⟩
      · right
        rw [if_neg hneg, if_neg hneg]
        have hne : (t.dim - 1).toNat ≠ e := by omega
        refine ⟨_, _, rfl, rfl, ?_, ?_, ?_, ?_⟩
        · simp only [List.length_set]; exact hl
        · simp only [List.length_set]; exact he
        · simp only []
          rw [h1, List.set_comm _ _ _ (Ne.symm hne)]
        · simp only []
          rw [h2, List.set_comm _ _ _ (Ne.symm hne)]

/-- The `-select` options after an overwritten entry: when one of them names
dimension `e + 1`, the loop of lines 134-146 ends the same from two pairs of
vectors that differ in the entries of index `e` only. -/
theorem applySelects_overwritten {name : String} {e : Nat} {x : Int} {y : Bool} :
    ∀ (rest : List SelectOpt) (st st2 : List Int × List Bool),
      st.2.length = st.1.length → e < st.1.length →
      st2.1 = st.1.set e x → st2.2 = st.2.set e y →
      (∃ t, lastSelect rest ((e : Int) + 1) = some t) →
      applySelects name rest st2 = applySelects name rest st := by
  intro rest
  induction rest with
  | nil => intro st st2 _ _ _ _ h; obtain ⟨t, ht⟩ := h; simp [lastSelect] at ht
  | cons t r ih =>
    intro st st2 hl he h1 h2 hlast
    obtain ⟨c1, c2⟩ := @applySelect_overwritten name st st2 e x y t hl he h1 h2
    unfold applySelects
    by_cases hd : t.dim = (e : Int) + 1
    · rw [c1 hd]
    · have hlast2 : ∃ u, lastSelect r ((e : Int) + 1) = some u := by
        obtain ⟨u, hu⟩ := hlast
        unfold lastSelect at hu
        cases hr : lastSelect r ((e : Int) + 1) with
        | some v => exact ⟨v, rfl⟩
        | none => rw [hr] at hu; simp [hd] at hu
      rcases c2 hd with ⟨err, e1, e2⟩ | ⟨r1, r2, e1, e2, g1, g2, g3, g4⟩
      · rw [e1, e2]
      · rw [e1, e2]
        exact ih r1 r2 g1 g2 g3 g4 hlast2

/-- The loop of lines 134-146 over a list of `-select` options in two parts. -/
theorem applySelects_append {name : String} :
    ∀ (a b : List SelectOpt) (st : List Int × List Bool),
      applySelects name (a ++ b) st =
        match applySelects name a st with
        | .error e => .error e
        | .ok st1 => applySelects name b st1 := by
  intro a
  induction a with
  | nil => intro b st; rfl
  | cons s a ih =>
    intro b st
    show (match applySelect name st s with
      | .error e => Except.error e
      | .ok st2 => applySelects name (a ++ b) st2) =
      match (match applySelect name st s with
        | .error e => Except.error e
        | .ok st2 => applySelects name a st2) with
      | .error e => Except.error e
      | .ok st1 => applySelects name b st1
    cases hs : applySelect name st s with
    | error e => rfl
    | ok st1 => simp only []; exact ih b st1

/-- A `-select` on an axis of the file that a later `-select` of the same
`-var` option names again has no effect on the vectors the loop of lines
134-146 ends with, nor on whether the loop throws. -/
theorem applySelects_drop_earlier {name : String} (sels1 sels2 : List SelectOpt)
    (s : SelectOpt) (n : Nat) (hn1 : 1 ≤ s.dim) (hn2 : s.dim ≤ (n : Int))
    (hlater : ∃ t, lastSelect sels2 s.dim = some t) :
    applySelects name (sels1 ++ s :: sels2) (List.replicate n (-1), List.replicate n false)
      = applySelects name (sels1 ++ sels2)
          (List.replicate n (-1), List.replicate n false) := by
  rw [applySelects_append, applySelects_append]
  cases h1 : applySelects name sels1 (List.replicate n (-1), List.replicate n false) with
  | error e => rfl
  | ok st =>
    simp only []
    obtain ⟨_, a2, a3, _⟩ := applySelects_ok sels1 _ st h1 (by simp)
    have hlen : n ≤ st.1.length := by simpa using a3
    have he : (s.dim - 1).toNat < st.1.length := by omega
    have hdim : ((s.dim - 1).toNat : Int) + 1 = s.dim := by omega
    have hstep : applySelect name st s =
        .ok (st.1.set (s.dim - 1).toNat (s.index - 1), st.2.set (s.dim - 1).toNat s.rep) := by
      unfold applySelect
      have hge : ¬ (s.dim - 1 ≥ (st.1.length : Int)) := by omega
      have hneg : ¬ (s.dim - 1 < 0) := by omega
      rw [if_neg hge, if_neg hneg]
    conv_lhs => unfold applySelects
    rw [hstep]
    simp only []
    exact applySelects_overwritten sels2 st _ a2 he rfl rfl (by rw [hdim]; exact hlater)

/-- The body of the loop of lines 108-232 reads a `-var` option through its
name, its file and the outcome of the loop over its `-select` options, and
the invocation through the variable names, the number of `-var` options and
the flag. -/
theorem alignVar_congr {α : Type} (env : Env α) {p p2 : Params α} (first : CiftiFile α)
    {vo vo2 : VarOpt α} (st : AlignState α)
    (hp1 : p2.varNames = p.varNames) (hp2 : p2.vars.length = p.vars.length)
    (hp3 : p2.overrideMapCheck = p.overrideMapCheck)
    (hn : vo2.name = vo.name) (hc : vo2.cifti = vo.cifti)
    (hs : applySelects vo.name vo2.selects (startVectors vo) =
      applySelects vo.name vo.selects (startVectors vo)) :
    alignVar env p2 first vo2 st = alignVar env p first vo st := by
  unfold alignVar
  simp only [startVectors] at hs
  have hlen : (readTempXML first vo.cifti).length = 2 + vo.cifti.higher.length :=
    readTempXML_length first vo.cifti
  rw [hp1, hp2, hp3, hn, hc]
  simp only [hlen, hs]

/-- The loop of lines 108-232 over the same `-var` options in two invocations
that agree but for their lists of `-var` options, of the same length. -/
theorem alignVars_congr {α : Type} (env : Env α) {p p2 : Params α} (first : CiftiFile α)
    (hp1 : p2.varNames = p.varNames) (hp2 : p2.vars.length = p.vars.length)
    (hp3 : p2.overrideMapCheck = p.overrideMapCheck) :
    ∀ (vars : List (VarOpt α)) (st : AlignState α),
      alignVars env p2 first vars st = alignVars env p first vars st := by
  intro vars
  induction vars with
  | nil => intro st; rfl
  | cons vo rest ih =>
    intro st
    unfold alignVars
    rw [alignVar_congr env first st hp1 hp2 hp3 rfl rfl rfl]
    cases h : alignVar env p first vo st with
    | mk w r =>
      cases r with
      | error e => rfl
      | ok st1 => simp only [ih st1]

/-- The loop of lines 108-232 over two lists of `-var` options that differ
in one option, the two options having the same name, the same file and the
same outcome of the loop over the `-select` options. -/
theorem alignVars_congr_one {α : Type} (env : Env α) {p p2 : Params α}
    (first : CiftiFile α) {vo vo2 : VarOpt α} (post : List (VarOpt α))
    (hp1 : p2.varNames = p.varNames) (hp2 : p2.vars.length = p.vars.length)
    (hp3 : p2.overrideMapCheck = p.overrideMapCheck)
    (hn : vo2.name = vo.name) (hc : vo2.cifti = vo.cifti)
    (hs : applySelects vo.name vo2.selects (startVectors vo) =
      applySelects vo.name vo.selects (startVectors vo)) :
    ∀ (pre : List (VarOpt α)) (st : AlignState α),
      alignVars env p2 first (pre ++ vo2 :: post) st =
        alignVars env p first (pre ++ vo :: post) st := by
  intro pre
  induction pre with
  | nil =>
    intro st
    simp only [List.nil_append]
    unfold alignVars
    rw [alignVar_congr env first st hp1 hp2 hp3 hn hc hs]
    cases h : alignVar env p first vo st with
    | mk w r =>
      cases r with
      | error e => rfl
      | ok st1 => simp only [alignVars_congr env first hp1 hp2 hp3 post st1]
  | cons v pre ih =>
    intro st
    simp only [List.cons_append]
    unfold alignVars
    rw [alignVar_congr env first st hp1 hp2 hp3 rfl rfl rfl]
    cases h : alignVar env p first v st with
    | mk w r =>
      cases r with
      | error e => rfl
      | ok st1 => simp only [ih st1]

/-- The loop of lines 284-300 reads the invocation through the expression
and the `-fixnan` value. -/
theorem computeRow_congr {α : Type} (env : Env α) {p p2 : Params α}
    (he : p2.evaluate = p.evaluate) (hf : p2.fixnan = p.fixnan)
    (vars : List (BoundVar α)) (inputRows : List (List α)) :
    ∀ cols, computeRow env p2 vars inputRows cols = computeRow env p vars inputRows cols := by
  intro cols
  induction cols with
  | nil => rfl
  | cons j js ih =>
    unfold computeRow
    rw [ih, he, hf]

/-- The loop of lines 275-302 reads the invocation through the expression
and the `-fixnan` value. -/
theorem streamRows_congr {α : Type} (env : Env α) {p p2 : Params α}
    (he : p2.evaluate = p.evaluate) (hf : p2.fixnan = p.fixnan)
    (vars : List (BoundVar α)) (numOutCols : Nat) :
    ∀ rows inputRows, streamRows env p2 vars numOutCols rows inputRows =
      streamRows env p vars numOutCols rows inputRows := by
  intro rows
  induction rows with
  | nil => intro _; rfl
  | cons i is ih =>
    intro inputRows
    unfold streamRows
    cases h : readRows i 0 vars inputRows with
    | mk t r =>
      cases r with
      | error e => rfl
      | ok rows1 =>
        simp only [computeRow_congr env he hf, ih]

/-- Two invocations that agree but for one `-var` option, the two options
having the same name, the same file and the same outcome of the loop over
the `-select` options, run the same. -/
theorem useParameters_congr_one {α : Type} (env : Env α) {p p2 : Params α}
    {vo vo2 : VarOpt α} (pre post : List (VarOpt α))
    (hv : p.vars = pre ++ vo :: post) (hv2 : p2.vars = pre ++ vo2 :: post)
    (hp1 : p2.varNames = p.varNames) (hp3 : p2.overrideMapCheck = p.overrideMapCheck)
    (he : p2.evaluate = p.evaluate) (hf : p2.fixnan = p.fixnan)
    (hn : vo2.name = vo.name) (hc : vo2.cifti = vo.cifti)
    (hs : applySelects vo.name vo2.selects (startVectors vo) =
      applySelects vo.name vo.selects (startVectors vo)) :
    validate env p2 = validate env p ∧ useParameters env p2 = useParameters env p := by
  have hp2 : p2.vars.length = p.vars.length := by rw [hv, hv2]; simp
  have hval : validate env p2 = validate env p := by
    unfold validate
    have hfin : ∀ st, finalize p2 st = finalize p st := by
      intro st; unfold finalize; rw [hp1]
    have hinit : initState p2 = initState p := by unfold initState; rw [hp1]
    rw [hv, hv2, hinit]
    cases pre with
    | nil =>
      simp only [List.nil_append]
      have := alignVars_congr_one env vo.cifti post hp1 hp2 hp3 hn hc hs []
        (initState p)
      simp only [List.nil_append] at this
      rw [hc, this]
      simp only [hfin]
    | cons v pre1 =>
      simp only [List.cons_append]
      have := alignVars_congr_one env v.cifti post hp1 hp2 hp3 hn hc hs (v :: pre1)
        (initState p)
      simp only [List.cons_append] at this
      rw [this]
      simp only [hfin]
  refine ⟨hval, ?_⟩
  unfold useParameters
  rw [hval]
  have hst : ∀ plan, stream env p2 plan = stream env p plan := by
    intro plan; unfold stream
    simp only [streamRows_congr env he hf]
  simp only [hst]

/-! ## The names of the `-var` options -/

/-- When lines 147-158 raise nothing over the `-var` options, no variable
name of the expression is carried by two of them. -/
theorem bindAll_count {α : Type} {names : List String} :
    ∀ (vars : List (VarOpt α)) (bound b : List (Option (BoundVar α))),
      bindAll names vars bound = .ok b → bound.length = names.length →
      ∀ n ∈ names, (vars.map (fun vo => vo.name)).count n ≤ 1 := by
  intro vars
  induction vars with
  | nil => intro _ _ _ _ n _; simp
  | cons vo rest ih =>
    intro bound b h hl n hn
    unfold bindAll at h
    cases hb : bindVariable names vo.name (boundVarOf vo) bound with
    | error e => rw [hb] at h; simp at h
    | ok r =>
      obtain ⟨found, bound1⟩ := r
      rw [hb] at h
      simp only [] at h
      obtain ⟨b1, _, _, b4⟩ := bindVariable_ok hb
      have hl1 : bound1.length = names.length := by rw [b1, hl]
      have hrest := ih bound1 b h hl1 n hn
      simp only [List.map_cons, List.count_cons]
      by_cases hname : vo.name = n
      · have hzero : (rest.map (fun vo => vo.name)).count n = 0 := by
          rw [List.count_eq_zero]
          intro hmem
          obtain ⟨v, hv, hvn⟩ := List.mem_map.1 hmem
          have hidx : names.indexOf v.name < names.length := by
            rw [hvn]; exact List.indexOf_lt_length.2 hn
          obtain ⟨_, c2, _⟩ := bindAll_ok rest bound1 b h hl1
          have h1 := c2 v hv hidx
          have h2 := b4 (names.indexOf v.name)
          rw [hvn, ← hname] at h1 h2
          have hk : names.indexOf vo.name < names.length := by
            rw [hname]; exact List.indexOf_lt_length.2 hn
          rw [if_pos ⟨rfl, hk, by omega⟩] at h2
          rw [h2] at h1
          simp at h1
        simp [hname, hzero]
      · have : (vo.name == n) = false := by simpa using hname
        simp only [this]
        simpa using hrest

/-- When the loop of lines 108-232 raises nothing, every `-var` option whose
name is not a variable of the expression has logged the warning of line 161,
unless it is the only `-var` option of a constant expression. -/
theorem alignVars_warning {α : Type} {env : Env α} {p : Params α} {first : CiftiFile α} :
    ∀ (vars : List (VarOpt α)) (st st1 : AlignState α) (w : List (Event α)),
      alignVars env p first vars st = (w, .ok st1) →
      st.outXML.length = st.outDims.length →
      ∀ vo ∈ vars, vo.name ∉ p.varNames → (p.varNames.length ≠ 0 ∨ p.vars.length ≠ 1) →
        Event.warning vo.name ∈ w := by
  intro vars
  induction vars with
  | nil => intro _ _ _ _ _ vo hvo; simp at hvo
  | cons v rest ih =>
    intro st st1 w h hl vo hvo hn hc
    obtain ⟨w1, w2, st2, h1, h2, hw⟩ := alignVars_cons_ok h
    obtain ⟨_, _, ⟨found, hb, hw1⟩, a4, _⟩ := alignVar_ok h1 hl
    rw [hw]
    rcases List.mem_cons.1 hvo with heq | hmem
    · subst heq
      obtain ⟨_, _, b3, _⟩ := bindVariable_ok hb
      have hfalse : found = false := by rw [b3]; simpa using hn
      have hcond : (!found && (p.varNames.length != 0 || p.vars.length != 1)) = true := by
        rw [hfalse]
        rcases hc with hc | hc
        · simp [hc]
        · simp [hc]
      rw [if_pos hcond] at hw1
      rw [hw1]
      simp
    · exact List.mem_append_right _ (ih st2 st1 w2 h2 a4 vo hmem hn hc)

/-- When validation succeeds, every variable name of the expression is the
name of exactly one `-var` option. -/
theorem validate_count {α : Type} {env : Env α} {p : Params α} {w : List (Event α)}
    {plan : Plan α} (h : validate env p = (w, .ok plan)) :
    ∀ n ∈ p.varNames, (p.vars.map (fun vo => vo.name)).count n = 1 ∧
      ∃ vo, varOptFor p n = some vo ∧ vo ∈ p.vars ∧ vo.name = n := by
  intro n hn
  obtain ⟨v0, rest, st, _, ha, _⟩ := validate_ok h
  have hl0 : (initState p).outXML.length = (initState p).outDims.length := rfl
  have hb := alignVars_bindAll p.vars _ st w ha hl0
  have hle := bindAll_count p.vars _ _ hb (by simp [initState]) n hn
  obtain ⟨hmap, _⟩ := validate_bound h
  have hmem : varOptFor p n ∈ p.varNames.map (varOptFor p) := List.mem_map_of_mem _ hn
  rw [hmap] at hmem
  obtain ⟨vo, _, hvo⟩ := List.mem_map.1 hmem
  have hfind : p.vars.find? (fun vo => decide (vo.name = n)) = some vo := by
    have := hvo.symm; unfold varOptFor at this; exact this
  have hname : vo.name = n := by simpa using List.find?_some hfind
  have hin : vo ∈ p.vars := List.mem_of_find?_eq_some hfind
  have hpos : 0 < (p.vars.map (fun vo => vo.name)).count n :=
    List.count_pos_iff.2 (List.mem_map.2 ⟨vo, hin, hname⟩)
  exact ⟨by omega, vo, hvo.symm, hin, hname⟩



/-- When lines 147-158 raise nothing and a variable name of the expression
is the name of no `-var` option, the loop of lines 234-237 throws. -/
theorem checkBound_missing {α : Type} {names : List String} {vars : List (VarOpt α)}
    {b : List (Option (BoundVar α))}
    (hb : bindAll names vars (List.replicate names.length none) = .ok b)
    {n : String} (hn : n ∈ names) (hmiss : ∀ vo ∈ vars, vo.name ≠ n) :
    ∃ m, checkBound names b = .error (.fatal (.missingVariable m)) := by
  cases hc : checkBound names b with
  | error e =>
    obtain ⟨m, hm⟩ := checkBound_error _ _ _ hc
    exact ⟨m, by rw [hm]⟩
  | ok bs =>
    exfalso
    obtain ⟨c1, c2⟩ := checkBound_ok _ _ _ hc
    obtain ⟨_, _, b3⟩ := bindAll_ok vars _ b hb (by simp)
    have hk : names.indexOf n < names.length := List.indexOf_lt_length.2 hn
    have h1 := c2 _ hk
    have h2 := b3 _ hk
    cases hf : vars.find? (fun vo => decide (names.indexOf vo.name = names.indexOf n)) with
    | some vo =>
      have hin : vo ∈ vars := List.mem_of_find?_eq_some hf
      have hidx : names.indexOf vo.name = names.indexOf n := by
        simpa using List.find?_some hf
      have hlt : names.indexOf vo.name < names.length := by rw [hidx]; exact hk
      have e1 : names[names.indexOf vo.name] = vo.name := List.getElem_indexOf hlt
      have e2 : names[names.indexOf n] = n := List.getElem_indexOf hk
      have : vo.name = n := by
        rw [← e1, ← e2]; simp only [hidx]
      exact hmiss vo hin this
    | none =>
      rw [hf] at h2
      simp only [] at h2
      rw [h1] at h2
      have hlt : names.indexOf n < bs.length := by omega
      simp [List.getElem?_eq_getElem hlt, List.getElem?_replicate, hk] at h2

/-! ## The exact trace of the streaming loop -/

/-- A read `v[k]` that succeeds gives the entry of index `k`. -/
theorem vectorAt_eq_ok {β : Type} {v : List β} {k : Int} {x : β} (d : β)
    (h : vectorAt v k = .ok x) : 0 ≤ k ∧ k.toNat < v.length ∧ x = v.getD k.toNat d := by
  unfold vectorAt at h
  by_cases hk : k < 0
  · rw [if_pos hk] at h; simp at h
  · rw [if_neg hk] at h
    cases hv : v[k.toNat]? with
    | none => rw [hv] at h; simp at h
    | some y =>
      rw [hv] at h
      simp only [Except.ok.injEq] at h
      obtain ⟨hlt, hy⟩ := List.getElem?_eq_some_iff.1 hv
      refine ⟨by omega, hlt, ?_⟩
      rw [← h, List.getD_eq_getElem _ _ hlt, hy]

/-- The loop of lines 267-274, when it raises nothing, makes the reads of the
selected rows, in the order of the variables. -/
theorem readFixedRows_exact {α : Type} (env : Env α) :
    ∀ (vos : List (VarOpt α)) (v : Nat) (t : List (Event α)) (rows : List (List α)),
      (∀ vo ∈ vos, RowSelectionStored vo) →
      readFixedRows env v (vos.map boundVarOf) = (t, .ok rows) →
      t = specFixedReads v vos := by
  intro vos
  induction vos with
  | nil => intro v t rows _ h; simp [readFixedRows] at h; simp [specFixedReads, h.1]
  | cons vo rest ih =>
    intro v t rows hall h
    obtain ⟨hs1, hs2⟩ := hall vo (List.mem_cons_self _ _)
    have hrest := fun x hx => hall x (List.mem_cons_of_mem _ hx)
    simp only [List.map_cons] at h
    unfold readFixedRows at h
    cases hv : vectorAt (boundVarOf vo).selectInfo 1 with
    | error e => rw [hv] at h; simp at h
    | ok s =>
      rw [hv] at h
      simp only [] at h
      obtain ⟨_, _, hs⟩ := vectorAt_eq_ok (-1) hv
      have hs' : s = (selectedIndex vo 2).getD (-1) := by
        rw [hs]; exact hs1
      unfold specFixedReads
      cases hsel : selectedIndex vo 2 with
      | none =>
        rw [hsel] at hs'
        simp only [Option.getD_none] at hs'
        rw [if_neg (by simp [hs'])] at h
        cases hr : readFixedRows env (v + 1) (rest.map boundVarOf) with
        | mk t1 r1 =>
          rw [hr] at h
          cases r1 with
          | error e => simp at h
          | ok rows1 =>
            simp only [Prod.mk.injEq] at h
            rw [← h.1]
            exact ih (v + 1) t1 rows1 hrest hr
      | some r =>
        rw [hsel] at hs' hs2
        simp only [Option.getD_some] at hs'
        have hne : s ≠ -1 := by
          rw [hs']; intro hc; exact hs2 (by rw [hc])
        rw [if_pos hne] at h
        cases hg : getRow (boundVarOf vo).file s with
        | error e => rw [hg] at h; simp at h
        | ok row =>
          rw [hg] at h
          simp only [] at h
          cases hr : readFixedRows env (v + 1) (rest.map boundVarOf) with
          | mk t1 r1 =>
            rw [hr] at h
            cases r1 with
            | error e => simp at h
            | ok rows1 =>
              simp only [Prod.mk.injEq] at h
              rw [← h.1, hs', ih (v + 1) t1 rows1 hrest hr]

/-- The loop of lines 277-283 for output row `i`, when it raises nothing,
makes the reads of row `i` by the variables without a selected row, in the
order of the variables. -/
theorem readRows_exact {α : Type} (i : Nat) :
    ∀ (vos : List (VarOpt α)) (v : Nat) (inputRows : List (List α)) (t : List (Event α))
      (rows : List (List α)),
      (∀ vo ∈ vos, RowSelectionStored vo) →
      readRows i v (vos.map boundVarOf) inputRows = (t, .ok rows) →
      t = specRowReads i v vos := by
  intro vos
  induction vos with
  | nil => intro v ir t rows _ h; simp [readRows] at h; simp [specRowReads, h.1]
  | cons vo rest ih =>
    intro v ir t rows hall h
    obtain ⟨hs1, hs2⟩ := hall vo (List.mem_cons_self _ _)
    have hrest := fun x hx => hall x (List.mem_cons_of_mem _ hx)
    simp only [List.map_cons] at h
    unfold readRows at h
    cases hv : vectorAt (boundVarOf vo).selectInfo 1 with
    | error e => rw [hv] at h; simp at h
    | ok s =>
      rw [hv] at h
      simp only [] at h
      obtain ⟨_, _, hs⟩ := vectorAt_eq_ok (-1) hv
      have hs' : s = (selectedIndex vo 2).getD (-1) := by
        rw [hs]; exact hs1
      unfold specRowReads
      cases hsel : selectedIndex vo 2 with
      | none =>
        rw [hsel] at hs'
        simp only [Option.getD_none] at hs'
        rw [if_pos hs'] at h
        cases hg : getRow (boundVarOf vo).file (i : Int) with
        | error e => rw [hg] at h; simp at h
        | ok row =>
          rw [hg] at h
          simp only [] at h
          cases hr : readRows i (v + 1) (rest.map boundVarOf) ir.tail with
          | mk t1 r1 =>
            rw [hr] at h
            cases r1 with
            | error e => simp at h
            | ok rows1 =>
              simp only [Prod.mk.injEq] at h
              rw [← h.1, ih (v + 1) ir.tail t1 rows1 hrest hr]
      | some r =>
        rw [hsel] at hs' hs2
        simp only [Option.getD_some] at hs'
        have hne : s ≠ -1 := by
          rw [hs']; intro hc; exact hs2 (by rw [hc])
        rw [if_neg hne] at h
        cases hr : readRows i (v + 1) (rest.map boundVarOf) ir.tail with
        | mk t1 r1 =>
          rw [hr] at h
          cases r1 with
          | error e => simp at h
          | ok rows1 =>
            simp only [Prod.mk.injEq] at h
            rw [← h.1]
            exact ih (v + 1) ir.tail t1 rows1 hrest hr

/-- The loop of lines 275-302, when it raises nothing, makes for each output
row in turn the reads of that row and then one write of the row. -/
theorem streamRows_exact {α : Type} (env : Env α) (p : Params α) (vos : List (VarOpt α))
    (numOutCols : Nat) (hall : ∀ vo ∈ vos, RowSelectionStored vo) :
    ∀ (rows : List Nat) (inputRows : List (List α)) (t : List (Event α)),
      streamRows env p (vos.map boundVarOf) numOutCols rows inputRows = (t, .ok ()) →
      ∃ outs : List (List α), outs.length = rows.length ∧
        t = specRowLoop vos (rows.zip outs) := by
  intro rows
  induction rows with
  | nil =>
    intro ir t h
    simp [streamRows] at h
    exact ⟨[], rfl, by simp [specRowLoop, h]⟩
  | cons i is ih =>
    intro ir t h
    unfold streamRows at h
    cases hr : readRows i 0 (vos.map boundVarOf) ir with
    | mk t1 r1 =>
      rw [hr] at h
      cases r1 with
      | error e => simp at h
      | ok rows1 =>
        simp only [] at h
        have ht1 := readRows_exact i vos 0 ir t1 rows1 hall hr
        cases hc : computeRow env p (vos.map boundVarOf) rows1 (List.range numOutCols) with
        | error e => rw [hc] at h; simp at h
        | ok scratchRow =>
          rw [hc] at h
          simp only [] at h
          cases hs : streamRows env p (vos.map boundVarOf) numOutCols is rows1 with
          | mk t2 r2 =>
            rw [hs] at h
            simp only [Prod.mk.injEq] at h
            rw [h.2] at hs
            obtain ⟨outs, hlen, ht2⟩ := ih rows1 t2 hs
            refine ⟨scratchRow :: outs, by simp [hlen], ?_⟩
            rw [← h.1, ht1, ht2]
            rfl

/-- Lines 264-302, when they raise nothing, make the reads of the selected
rows and then, row by row, the reads of the row and its write. -/
theorem stream_exact {α : Type} (env : Env α) (p : Params α) (plan : Plan α)
    (vos : List (VarOpt α)) (hvars : plan.vars = vos.map boundVarOf)
    (hall : ∀ vo ∈ vos, RowSelectionStored vo) (t : List (Event α))
    (h : stream env p plan = (t, .ok ())) :
    ∃ outs : List (List α), outs.length = plan.numRows ∧
      t = specFixedReads 0 vos ++ specRowLoop vos ((List.range plan.numRows).zip outs) := by
  unfold stream at h
  rw [hvars] at h
  cases hf : readFixedRows env 0 (vos.map boundVarOf) with
  | mk t1 r1 =>
    rw [hf] at h
    cases r1 with
    | error e => simp at h
    | ok inputRows =>
      simp only [] at h
      have ht1 := readFixedRows_exact env vos 0 t1 inputRows hall hf
      cases hs : streamRows env p (vos.map boundVarOf) (getDimensionLength plan.outXML 0).toNat
          (List.range (getDimensionLength plan.outXML 1).toNat) inputRows with
      | mk t2 r2 =>
        rw [hs] at h
        simp only [Prod.mk.injEq] at h
        rw [h.2] at hs
        obtain ⟨outs, hlen, ht2⟩ := streamRows_exact env p vos _ hall _ _ _ hs
        refine ⟨outs, by simpa [Plan.numRows] using hlen, ?_⟩
        rw [← h.1, ht1, ht2]
        rfl

/-- A run that ends well is a validation that succeeds, the output header,
and a streaming loop that ends well. -/
theorem useParameters_ok {α : Type} {env : Env α} {p : Params α} {t : List (Event α)}
    (h : useParameters env p = (t, .ok ())) :
    ∃ w plan ts, validate env p = (w, .ok plan) ∧ stream env p plan = (ts, .ok ()) ∧
      t = w ++ Event.setCiftiXML plan.outXML :: ts := by
  unfold useParameters at h
  cases hv : validate env p with
  | mk w r =>
    rw [hv] at h
    cases r with
    | error e => simp at h
    | ok plan =>
      simp only [] at h
      cases hs : stream env p plan with
      | mk ts r2 =>
        rw [hs] at h
        simp only [Prod.mk.injEq] at h
        exact ⟨w, plan, ts, rfl, by rw [hs, h.2], h.1.symm⟩

/-- The reads of a variable in a trace in two parts. -/
theorem readsOf_append {α : Type} (k : Nat) :
    ∀ (a b : List (Event α)), readsOf k (a ++ b) = readsOf k a ++ readsOf k b := by
  intro a
  induction a with
  | nil => intro b; rfl
  | cons ev a ih =>
    intro b
    cases ev with
    | getRow v r =>
      simp only [List.cons_append, readsOf]
      by_cases hv : v = k
      · simp [hv, ih]
      · simp [hv, ih]
    | warning n => simp only [List.cons_append, readsOf]; exact ih b
    | setCiftiXML m => simp only [List.cons_append, readsOf]; exact ih b
    | setRow i row => simp only [List.cons_append, readsOf]; exact ih b

/-- Warnings read nothing. -/
theorem readsOf_warnings {α : Type} (k : Nat) :
    ∀ (w : List (Event α)), (∀ ev ∈ w, ∃ n, ev = Event.warning n) → readsOf k w = [] := by
  intro w
  induction w with
  | nil => intro _; rfl
  | cons ev w ih =>
    intro h
    obtain ⟨n, hn⟩ := h ev (List.mem_cons_self _ _)
    rw [hn]
    simp only [readsOf]
    exact ih (fun e he => h e (List.mem_cons_of_mem _ he))

/-- Among the reads before the loop, a variable with a selected row has the
one read of that row, and a variable without has none. -/
theorem readsOf_specFixedReads {α : Type} (k : Nat) :
    ∀ (vos : List (VarOpt α)) (v : Nat),
      readsOf k (specFixedReads v vos) =
        match (if v ≤ k then vos[k - v]? else none) with
        | some vo =>
          (match selectedIndex vo 2 with
            | some r => [r]
            | none => [])
        | none => [] := by
  intro vos
  induction vos with
  | nil => intro v; by_cases h : v ≤ k <;> simp [specFixedReads, readsOf, h]
  | cons vo rest ih =>
    intro v
    have hrest := ih (v + 1)
    unfold specFixedReads
    by_cases hvk : v = k
    · subst hvk
      have hno : ¬ (v + 1 ≤ v) := by omega
      rw [if_neg hno] at hrest
      simp only [le_refl, if_true, Nat.sub_self, List.getElem?_cons_zero]
      cases hsel : selectedIndex vo 2 with
      | none => simp only []; exact hrest
      | some r => simp only [readsOf, if_true, hrest]
    · have hhead : ∀ r, readsOf k (Event.getRow v r :: specFixedReads (v + 1) rest)
          = readsOf k (specFixedReads (v + 1) rest) := by
        intro r; simp only [readsOf, if_neg hvk]
      have hstep : readsOf k (match selectedIndex vo 2 with
          | some r => Event.getRow v r :: specFixedReads (v + 1) rest
          | none => specFixedReads (v + 1) rest) = readsOf k (specFixedReads (v + 1) rest) := by
        cases selectedIndex vo 2 with
        | none => rfl
        | some r => exact hhead r
      refine Eq.trans hstep ?_
      rw [hrest]
      by_cases hle : v ≤ k
      · have h1 : v + 1 ≤ k := by omega
        have h2 : k - v = (k - (v + 1)) + 1 := by omega
        rw [if_pos hle, if_pos h1, h2, List.getElem?_cons_succ]
      · have h1 : ¬ (v + 1 ≤ k) := by omega
        rw [if_neg hle, if_neg h1]

/-- Among the reads for output row `i`, a variable without a selected row has
the one read of row `i`, and a variable with a selected row has none. -/
theorem readsOf_specRowReads {α : Type} (k i : Nat) :
    ∀ (vos : List (VarOpt α)) (v : Nat),
      readsOf k (specRowReads i v vos) =
        match (if v ≤ k then vos[k - v]? else none) with
        | some vo =>
          (match selectedIndex vo 2 with
            | some _ => []
            | none => [(i : Int)])
        | none => [] := by
  intro vos
  induction vos with
  | nil => intro v; by_cases h : v ≤ k <;> simp [specRowReads, readsOf, h]
  | cons vo rest ih =>
    intro v
    have hrest := ih (v + 1)
    unfold specRowReads
    by_cases hvk : v = k
    · subst hvk
      have hno : ¬ (v + 1 ≤ v) := by omega
      rw [if_neg hno] at hrest
      simp only [le_refl, if_true, Nat.sub_self, List.getElem?_cons_zero]
      cases hsel : selectedIndex vo 2 with
      | none => simp only [readsOf, if_true, hrest]
      | some r => simp only []; exact hrest
    · have hhead : readsOf k (Event.getRow v (i : Int) :: specRowReads i (v + 1) rest)
          = readsOf k (specRowReads i (v + 1) rest) := by
        simp only [readsOf, if_neg hvk]
      have hstep : readsOf k (match selectedIndex vo 2 with
          | some _ => specRowReads i (v + 1) rest
          | none => Event.getRow v (i : Int) :: specRowReads i (v + 1) rest)
            = readsOf k (specRowReads i (v + 1) rest) := by
        cases selectedIndex vo 2 with
        | none => exact hhead
        | some r => rfl
      refine Eq.trans hstep ?_
      rw [hrest]
      by_cases hle : v ≤ k
      · have h1 : v + 1 ≤ k := by omega
        have h2 : k - v = (k - (v + 1)) + 1 := by omega
        rw [if_pos hle, if_pos h1, h2, List.getElem?_cons_succ]
      · have h1 : ¬ (v + 1 ≤ k) := by omega
        rw [if_neg hle, if_neg h1]

/-- In the loop over the output rows, a variable without a selected row reads
each output row once, in order, and a variable with a selected row reads
nothing. -/
theorem readsOf_specRowLoop {α : Type} (k : Nat) (vos : List (VarOpt α)) :
    ∀ (l : List (Nat × List α)),
      readsOf k (specRowLoop vos l) =
        match vos[k]? with
        | some vo =>
          (match selectedIndex vo 2 with
            | some _ => []
            | none => l.map (fun io => (io.1 : Int)))
        | none => [] := by
  intro l
  induction l with
  | nil =>
    simp only [specRowLoop, readsOf, List.map_nil]
    cases vos[k]? with
    | none => rfl
    | some vo => dsimp only; cases selectedIndex vo 2 <;> rfl
  | cons io rest ih =>
    obtain ⟨i, row⟩ := io
    have h1 := readsOf_specRowReads k i vos 0
    simp only [Nat.zero_le, if_true, Nat.sub_zero] at h1
    have h2 : readsOf k (Event.setRow i row :: specRowLoop vos rest)
        = readsOf k (specRowLoop vos rest) := rfl
    unfold specRowLoop
    rw [readsOf_append, h2, ih, h1]
    cases vos[k]? with
    | none => rfl
    | some vo => dsimp only; cases selectedIndex vo 2 <;> rfl

/-- A trace of reads writes no row. -/
theorem writtenRows_specReads {α : Type} :
    ∀ (vos : List (VarOpt α)) (v : Nat),
      writtenRows (specFixedReads v vos) = [] ∧
      ∀ i, writtenRows (specRowReads i v vos) = ([] : List (Nat × List α)) := by
  intro vos
  induction vos with
  | nil => intro v; exact ⟨rfl, fun _ => rfl⟩
  | cons vo rest ih =>
    intro v
    obtain ⟨h1, h2⟩ := ih (v + 1)
    unfold specFixedReads specRowReads
    cases selectedIndex vo 2 with
    | none => exact ⟨h1, fun i => by simp only [writtenRows]; exact h2 i⟩
    | some r => exact ⟨by simp only [writtenRows]; exact h1, h2⟩

/-- The loop over the output rows writes each output row once, in order. -/
theorem writtenRows_specRowLoop {α : Type} (vos : List (VarOpt α)) :
    ∀ (l : List (Nat × List α)), writtenRows (specRowLoop vos l) = l := by
  intro l
  induction l with
  | nil => rfl
  | cons io rest ih =>
    obtain ⟨i, row⟩ := io
    unfold specRowLoop
    rw [writtenRows_append, (writtenRows_specReads vos 0).2 i]
    simp only [List.nil_append, writtenRows, ih]

/-- When validation succeeds and no `-select` has the index 0, every bound
`-var` option stores its selection on dimension 2 as the specification reads
it. -/
theorem validate_rowSelection {α : Type} {env : Env α} {p : Params α}
    {w : List (Event α)} {plan : Plan α} (h : validate env p = (w, .ok plan))
    (hidx : ∀ vo ∈ p.vars, ∀ s ∈ vo.selects, s.index ≠ 0) :
    ∀ vo ∈ boundOpts p, RowSelectionStored vo := by
  intro vo hvo
  have hin := mem_boundOpts hvo
  obtain ⟨_, _, _, _, _, hsel, _⟩ := validate_axes h
  obtain ⟨_, hap⟩ := hsel vo hin
  refine ⟨(selectVectors_getD hap 1).1, ?_⟩
  intro hc
  unfold selectedIndex at hc
  cases hl : lastSelect vo.selects 2 with
  | none => rw [hl] at hc; simp at hc
  | some s =>
    rw [hl] at hc
    simp only [Option.map_some', Option.some.injEq] at hc
    have := hidx vo hin s (lastSelect_mem _ _ _ hl).1
    omega

/-! ## The maps of the output header -/

/-- When validation succeeds, the first `-var` option that leaves one of the
two axes unselected gives the output header its map on that axis, and the
length of the axis. -/
theorem validate_first_unselected {α : Type} {env : Env α} {p : Params α}
    {w : List (Event α)} {plan : Plan α} (h : validate env p = (w, .ok plan))
    {j : Nat} (hj : j < 2) (pre post : List (VarOpt α)) (vd : VarOpt α)
    (hvars : p.vars = pre ++ vd :: post)
    (hpre : ∀ vo ∈ pre, selOf vo j ≠ -1) (hvd : selOf vd j = -1) :
    ∃ v0 rest, p.vars = v0 :: rest ∧
      plan.outXML[j]? = some (axisMap v0.cifti vd.cifti j) ∧
      plan.outDims.getD j (-1) = (axisMap v0.cifti vd.cifti j).length ∧
      getDimensionLength plan.outXML j = (axisMap v0.cifti vd.cifti j).length := by
  obtain ⟨v0, rest, hv0, _, _, _, hax⟩ := validate_axes h
  obtain ⟨m, ha, hd, hm⟩ := hax j hj
  refine ⟨v0, rest, hv0, ?_⟩
  rw [hvars] at ha
  obtain ⟨s2, ha1, ha2⟩ := alignAxis_append pre (vd :: post) _ _ ha
  obtain ⟨hs2, _⟩ := alignAxis_selected_only pre _ _ hpre ha1
  simp only [] at hs2
  obtain ⟨s3, hb, ha3⟩ := alignAxis_cons_ok ha2
  obtain ⟨t1, t2, _⟩ := tempXML_axis v0.cifti vd.cifti j hj
  have hsel : (selectVectors vd).1.getD j (-1) = -1 := hvd
  rw [dimBody_unselected env _ _ _ j s2.1 s2.2 _ _ _ hsel t1, hs2] at hb
  have hs3 : s3 = ((axisMap v0.cifti vd.cifti j).length, some (axisMap v0.cifti vd.cifti j)) := by
    by_cases h1 : s2.1 = -1
    · rw [if_pos h1] at hb
      simp only [Except.ok.injEq] at hb
      exact hb.symm
    · rw [if_neg h1] at hb
      by_cases h2 : s2.1 ≠ (axisMap v0.cifti vd.cifti j).length
      · rw [if_pos h2] at hb; simp at hb
      · rw [if_neg h2] at hb
        simp only [Except.ok.injEq] at hb
        have h3 : s2.1 = (axisMap v0.cifti vd.cifti j).length := by
          by_contra hc; exact h2 hc
        rw [← hb, h3]
  rw [hs3] at ha3
  obtain ⟨k1, k2⟩ := alignAxis_keeps_map hj post _ _ (axisMap v0.cifti vd.cifti j) rfl
    (by simpa using t2) ha3
  simp only [] at k1 k2
  have hlen := (validate_header_length h j hj).1
  refine ⟨?_, k2, ?_⟩
  · rw [hm, k1]; rfl
  · rw [hlen, k2]

/-- When validation succeeds and every `-var` option has a selection on one
of the two axes, the axis has length 1 and the empty length-1 scalar map. -/
theorem validate_all_selected {α : Type} {env : Env α} {p : Params α}
    {w : List (Event α)} {plan : Plan α} (h : validate env p = (w, .ok plan))
    {j : Nat} (hj : j < 2) (hall : ∀ vo ∈ p.vars, selOf vo j ≠ -1) :
    plan.outDims.getD j (-1) = 1 ∧ plan.outXML[j]? = some dummyMap := by
  obtain ⟨v0, rest, hv0, _, _, _, hax⟩ := validate_axes h
  obtain ⟨m, ha, hd, hm⟩ := hax j hj
  obtain ⟨hs, _⟩ := alignAxis_selected_only p.vars _ _ hall ha
  simp only [] at hs
  obtain ⟨_, hinv⟩ := alignAxis_map_inv hj p.vars _ _ ha
    ⟨by intro x hx; simp at hx, by intro _; left; rfl⟩
  simp only [] at hinv
  constructor
  · rcases hinv hs with h1 | h1
    · exact absurd h1 hd
    · exact h1
  · rw [hm, hs]; rfl

/-- A `-var` option whose last `-select` for an axis has an index other than
0 has a selection stored for the axis, and one without a `-select` for the
axis has none. -/
theorem selOf_of_lastSelect {α : Type} {vo : VarOpt α} (j : Nat)
    (h : applySelects vo.name vo.selects (startVectors vo) = .ok (selectVectors vo)) :
    (lastSelect vo.selects ((j : Int) + 1) = none → selOf vo j = -1) ∧
    (∀ s, lastSelect vo.selects ((j : Int) + 1) = some s → s.index ≠ 0 → selOf vo j ≠ -1) := by
  constructor
  · intro hl
    rw [(selOf_repOf h j).1]
    simp [selectedIndex, hl]
  · intro s hl hi
    rw [(selOf_repOf_of_last h hl).1]
    omega

/-! ## The warnings of a validation that succeeds -/

/-- When the loop of lines 108-232 raises nothing, the warnings it logs are
those of the `-var` options whose name is not a variable of the expression,
in declaration order, and there is none when the expression has no variable
and there is just one `-var` option. -/
theorem alignVars_warnings_exact {α : Type} {env : Env α} {p : Params α}
    {first : CiftiFile α} :
    ∀ (vars : List (VarOpt α)) (st st1 : AlignState α) (w : List (Event α)),
      alignVars env p first vars st = (w, .ok st1) →
      st.outXML.length = st.outDims.length →
      w = (vars.filter (fun vo => !decide (vo.name ∈ p.varNames) &&
            (p.varNames.length != 0 || p.vars.length != 1))).map
          (fun vo => Event.warning vo.name) := by
  intro vars
  induction vars with
  | nil =>
    intro st st1 w h _
    simp only [alignVars, Prod.mk.injEq] at h
    rw [← h.1]; rfl
  | cons v rest ih =>
    intro st st1 w h hl
    obtain ⟨w1, w2, st2, h1, h2, hw⟩ := alignVars_cons_ok h
    obtain ⟨_, _, ⟨found, hb, hw1⟩, a4, _⟩ := alignVar_ok h1 hl
    obtain ⟨_, _, b3, _⟩ := bindVariable_ok hb
    have hrest := ih st2 st1 w2 h2 a4
    rw [hw, hrest, hw1, b3]
    simp only [List.filter_cons]
    by_cases hc : (!decide (v.name ∈ p.varNames) &&
        (p.varNames.length != 0 || p.vars.length != 1)) = true
    · rw [if_pos hc, if_pos hc]; rfl
    · rw [if_neg hc, if_neg hc]; rfl

/-- When validation succeeds, its events are the warnings for the `-var`
options whose name is not a variable of the expression. -/
theorem validate_warnings_exact {α : Type} {env : Env α} {p : Params α}
    {w : List (Event α)} {plan : Plan α} (h : validate env p = (w, .ok plan)) :
    w = (p.vars.filter (fun vo => !decide (vo.name ∈ p.varNames) &&
          (p.varNames.length != 0 || p.vars.length != 1))).map
        (fun vo => Event.warning vo.name) := by
  obtain ⟨v0, rest, st, _, ha, _⟩ := validate_ok h
  exact alignVars_warnings_exact p.vars _ st w ha rfl

/-! ## What a validation that succeeds needs, and the order of the `-var` options -/

/-- When validation succeeds, the variable names of the expression are
distinct: a name that stands twice in the list is bound at its first place
only, and the second place fails the check of lines 234-237. -/
theorem validate_nodup {α : Type} {env : Env α} {p : Params α} {w : List (Event α)}
    {plan : Plan α} (h : validate env p = (w, .ok plan)) : p.varNames.Nodup := by
  obtain ⟨v0, rest, st, _, ha, hf⟩ := validate_ok h
  have hl0 : (initState p).outXML.length = (initState p).outDims.length := rfl
  have hb := alignVars_bindAll p.vars _ st w ha hl0
  obtain ⟨a1, _⟩ := alignVars_ok p.vars _ st w ha hl0
  obtain ⟨hc, _⟩ := finalize_ok hf a1
  obtain ⟨c1, c2⟩ := checkBound_ok _ _ _ hc
  obtain ⟨_, _, b3⟩ := bindAll_ok p.vars _ st.bound hb (by simp [initState])
  have hidx : ∀ k (hk : k < p.varNames.length), p.varNames.indexOf p.varNames[k] = k := by
    intro k hk
    have h1 := c2 k hk
    have h2 := b3 k hk
    have hk2 : k < plan.vars.length := by omega
    rw [List.getElem?_eq_getElem hk2] at h1
    cases hfind : p.vars.find? (fun vo => decide (p.varNames.indexOf vo.name = k)) with
    | none =>
      rw [hfind] at h2
      simp only [] at h2
      rw [h1] at h2
      simp [initState, List.getElem?_replicate, hk] at h2
    | some vo =>
      have hi : p.varNames.indexOf vo.name = k := by simpa using List.find?_some hfind
      have hlt : p.varNames.indexOf vo.name < p.varNames.length := by omega
      have e1 : p.varNames[p.varNames.indexOf vo.name] = vo.name := List.getElem_indexOf hlt
      have e2 : p.varNames[k] = vo.name := by
        rw [← e1]; simp only [hi]
      rw [e2]; exact hi
  rw [List.nodup_iff_injective_get]
  intro i j hij
  have hi := hidx i.1 i.2
  have hj := hidx j.1 j.2
  have hij' : p.varNames[i.1] = p.varNames[j.1] := hij
  rw [hij'] at hi
  exact Fin.ext (by omega)

/-- When validation succeeds, the names of the invocation are in order. -/
theorem validate_namesOK {α : Type} {env : Env α} {p : Params α} {w : List (Event α)}
    {plan : Plan α} (h : validate env p = (w, .ok plan)) : NamesOK env p := by
  obtain ⟨v0, rest, st, _, ha, _⟩ := validate_ok h
  have hl0 : (initState p).outXML.length = (initState p).outDims.length := rfl
  obtain ⟨_, _, _, _, a5, _⟩ := alignVars_ok p.vars _ st w ha hl0
  exact ⟨fun vo hvo => (a5 vo hvo).1, validate_nodup h,
    fun n hn => (validate_count h n hn).1⟩

/-- When validation succeeds, every file has just the two matrix axes and
every `-select` names dimension 1 or 2. -/
theorem validate_twoAxes {α : Type} {env : Env α} {p : Params α} {w : List (Event α)}
    {plan : Plan α} (h : validate env p = (w, .ok plan)) : TwoAxes p := by
  obtain ⟨_, _, _, _, _, hsel, _⟩ := validate_axes h
  intro vo hvo
  obtain ⟨hh, hap⟩ := hsel vo hvo
  refine ⟨hh, ?_⟩
  intro s hs
  obtain ⟨c1, _, _, c4, _⟩ := applySelects_ok vo.selects _ _ hap (by simp [startVectors])
  have hlen : (selectVectors vo).1.length ≤ 2 := by
    have h2 := (selectVectors_length vo).2
    obtain ⟨v0, rest, st, _, ha, hf⟩ := validate_ok h
    have hl0 : (initState p).outXML.length = (initState p).outDims.length := rfl
    obtain ⟨a1, _, a3, _⟩ := alignVars_ok p.vars _ st w ha hl0
    obtain ⟨_, _, _, hl, _⟩ := finalize_ok hf a1
    have := a3 vo hvo
    omega
  have := c1 s hs
  omega

/-- A pass along one of the two matrix axes that ends with a known length
has a length that fits the axis. -/
theorem axisFits_of_alignAxis {α : Type} {env : Env α} {ov : Bool} {first : CiftiFile α}
    {j : Nat} (hj : j < 2) {vars : List (VarOpt α)} {d : Int} {m : Option CiftiMap}
    (h : alignAxis env ov first j vars (-1, none) = .ok (d, m)) (hd : d ≠ -1) :
    AxisFits first j d vars := by
  obtain ⟨_, hfin, _⟩ := alignAxis_final hj vars _ _ h
  refine ⟨hfin, ?_⟩
  by_contra hno
  have hall : ∀ vo ∈ vars, selOf vo j ≠ -1 ∧ repOf vo j = true := by
    intro vo hvo
    constructor
    · intro hs; exact hno ⟨vo, hvo, Or.inl hs⟩
    · cases hr : repOf vo j with
      | true => rfl
      | false => exact absurd ⟨vo, hvo, Or.inr hr⟩ hno
  rw [alignAxis_all_repeat vars (-1, none) rfl hall] at h
  simp only [Except.ok.injEq, Prod.mk.injEq] at h
  exact hd h.1.symm

/-- With the mapping check overridden, the pass along one of the two matrix
axes ends with every known length that fits the axis. -/
theorem alignAxis_of_axisFits {α : Type} (env : Env α) {first : CiftiFile α}
    {j : Nat} (hj : j < 2) {vars : List (VarOpt α)} {d : Int} (hd : d ≠ -1)
    (h : AxisFits first j d vars) :
    ∃ m, alignAxis env true first j vars (-1, none) = .ok (d, m) := by
  obtain ⟨s1, h1, _, h3⟩ := alignAxis_total hj d hd vars (-1, none) (Or.inl ⟨rfl, rfl⟩)
    h.1 (Or.inl rfl)
  refine ⟨s1.2, ?_⟩
  rw [h1, ← h3 h.2]

/-- The length of a file whose header lengths are at least 1 does not depend
on the reference file. -/
theorem axisLength_of_known {α : Type} (first first2 f : CiftiFile α) (j : Nat)
    (h : 1 ≤ f.alongRow.length ∧ 1 ≤ f.alongColumn.length) :
    axisLength first f j = axisLength first2 f j := by
  have key : ∀ (m : CiftiMap) (a b : Nat), 1 ≤ m.length → shimLength m a = shimLength m b := by
    intro m a b hm
    unfold shimLength
    rw [if_neg (by omega), if_neg (by omega)]
  unfold axisLength readTempXML
  rw [key f.alongRow first.numberOfColumns first2.numberOfColumns h.1,
    key f.alongColumn first.numberOfRows first2.numberOfRows h.2]

/-- A length that fits an axis fits it for every order of the `-var` options
and for every reference file, when the header lengths are at least 1. -/
theorem axisFits_perm {α : Type} {first first2 : CiftiFile α} {j : Nat} {d : Int}
    {vars vars2 : List (VarOpt α)} (hperm : vars2.Perm vars)
    (hlen : ∀ vo ∈ vars, 1 ≤ vo.cifti.alongRow.length ∧ 1 ≤ vo.cifti.alongColumn.length)
    (h : AxisFits first j d vars) : AxisFits first2 j d vars2 := by
  obtain ⟨h1, vo, hvo, h2⟩ := h
  refine ⟨?_, vo, hperm.mem_iff.2 hvo, h2⟩
  intro v hv
  have hv1 := hperm.mem_iff.1 hv
  obtain ⟨a, b⟩ := h1 v hv1
  refine ⟨?_, b⟩
  intro hs
  rw [axisLength_of_known first2 first v.cifti j (hlen v hv1)]
  exact a hs

/-- The conditions on the files and on the names of an invocation do not
depend on the order of the `-var` options. -/
theorem twoAxes_namesOK_perm {α : Type} {env : Env α} {p p2 : Params α}
    (hperm : p2.vars.Perm p.vars) (hnames : p2.varNames = p.varNames)
    (h2 : TwoAxes p) (hn : NamesOK env p) : TwoAxes p2 ∧ NamesOK env p2 := by
  refine ⟨fun vo hvo => h2 vo (hperm.mem_iff.1 hvo), ?_, ?_, ?_⟩
  · exact fun vo hvo => hn.1 vo (hperm.mem_iff.1 hvo)
  · rw [hnames]; exact hn.2.1
  · intro n hn1
    rw [hnames] at hn1
    rw [(hperm.map (fun vo => vo.name)).count_eq]
    exact hn.2.2 n hn1

/-- With the mapping check overridden and header lengths of at least 1, a
validation that succeeds also succeeds, with the same output lengths, for
every other order of the `-var` options. -/
theorem validate_perm {α : Type} (env : Env α) {p p2 : Params α}
    (hperm : p2.vars.Perm p.vars) (hnames : p2.varNames = p.varNames)
    (hov2 : p2.overrideMapCheck = true)
    (hlen : ∀ vo ∈ p.vars, 1 ≤ vo.cifti.alongRow.length ∧ 1 ≤ vo.cifti.alongColumn.length)
    {w : List (Event α)} {plan : Plan α} (h : validate env p = (w, .ok plan)) :
    ∃ w2 plan2, validate env p2 = (w2, .ok plan2) ∧ plan2.outDims = plan.outDims := by
  obtain ⟨v0, rest, hv0, hl, _, _, hax⟩ := validate_axes h
  obtain ⟨t2, tn⟩ := twoAxes_namesOK_perm hperm hnames (validate_twoAxes h)
    (validate_namesOK h)
  obtain ⟨u0, rest2, hu0⟩ : ∃ u0 rest2, p2.vars = u0 :: rest2 := by
    cases hp2 : p2.vars with
    | nil =>
      rw [hp2] at hperm
      have := hperm.length_eq
      rw [hv0] at this
      simp at this
    | cons u0 rest2 => exact ⟨u0, rest2, rfl⟩
  have step : ∀ j, j < 2 → ∃ m, alignAxis env p2.overrideMapCheck u0.cifti j p2.vars
      (-1, none) = .ok (plan.outDims.getD j (-1), m) ∧ plan.outDims.getD j (-1) ≠ -1 := by
    intro j hj
    obtain ⟨m, ha, hd, _⟩ := hax j hj
    have hfit : AxisFits u0.cifti j (plan.outDims.getD j (-1)) p2.vars :=
      axisFits_perm hperm hlen (axisFits_of_alignAxis hj ha hd)
    obtain ⟨m2, hm2⟩ := alignAxis_of_axisFits env hj hd hfit
    exact ⟨m2, by rw [hov2]; exact hm2, hd⟩
  obtain ⟨m0, ha0, hd0⟩ := step 0 (by omega)
  obtain ⟨m1, ha1, hd1⟩ := step 1 (by omega)
  obtain ⟨w2, plan2, hv2, hdims, _⟩ := validate_total hu0 t2 tn ha0 ha1 hd0 hd1
  refine ⟨w2, plan2, hv2, ?_⟩
  rw [hdims]
  exact (list_eq_of_length_two plan.outDims (-1) hl).symm

/-! ## A file of lower dimensionality than the output -/

/-- The part of C1 that holds, for reads that validation happens to leave
inside the input files: for an invocation that passes validation and whose
reads all fall inside the input files, the run ends well, every variable of
the expression is bound to the `-var` option with its name, and the value
written at row `i` and column `j` is the expression applied to the tuple, in
the order of the expression's variables, of the entries `file_v[r][c]`, where
`r` is the selected row if the variable has a `-select` on dimension 2 and `i`
otherwise, and `c` is the selected column if it has a `-select` on dimension 1
and `j` otherwise, with the NaN replacement applied afterwards. -/
theorem useParameters_cell_formula {α : Type} (env : Env α) (p : Params α)
    (w : List (Event α)) (plan : Plan α) (hv : validate env p = (w, .ok plan))
    (hin : ∀ vo ∈ boundOpts p, InFile vo plan.numRows plan.numOutCols) :
    p.varNames.map (varOptFor p) = (boundOpts p).map some ∧
    ∃ t, useParameters env p = (t, .ok ()) ∧
      writtenRows t = (List.range plan.numRows).map (fun i =>
        (i, (List.range plan.numOutCols).map (fun j =>
          fixNaN env p.fixnan
            (p.evaluate ((boundOpts p).map (fun vo => specCell vo i j)))))) := by
  obtain ⟨t, ht, hw⟩ := useParameters_spec hv hin
  exact ⟨(validate_bound hv).1, _, ht, hw⟩

/-- Instance of `useParameters_cell_formula`: `A=[1,2,3,4,5]`,
`B=[10,20,30,40,50]` and the expression `A+B` give the one output row
`[11,22,33,44,55]`. -/
theorem useParameters_cell_formula_witness :
    validate intEnv sumParams = ([], .ok sumPlan) ∧
    ∃ t, useParameters intEnv sumParams = (t, .ok ()) ∧
      writtenRows t = [(0, [11, 22, 33, 44, 55])] := by
  have hv : validate intEnv sumParams = ([], .ok sumPlan) := by rfl
  refine ⟨hv, ?_⟩
  have h := (useParameters_cell_formula intEnv sumParams [] sumPlan hv (by
    intro vo hvo
    have hb : boundOpts sumParams = sumParams.vars := by rfl
    rw [hb] at hvo
    simp only [sumParams, List.mem_cons, List.mem_singleton, List.not_mem_nil, or_false] at hvo
    rcases hvo with rfl | rfl <;>
      simp [InFile, selectedIndex, lastSelect, matrixFile, Plan.numRows, Plan.numOutCols,
        sumPlan, getDimensionLength])).2
  obtain ⟨t, ht, hw⟩ := h
  exact ⟨t, ht, by rw [hw]; rfl⟩

/-- The part of C5 that holds, for a `-select` with an index of at least 1:
for two two-axis variables, in either declaration order, of which one
selects on axis `j` with `-repeat` and the other leaves axis `j` unselected
(the names in order and the other axis resolving): processing the repeated
variable leaves whatever output length and map are recorded for the axis as
they are, validation succeeds, and the resolved output length on axis `j`, in
the plan and in the output header, is the length `L` of the unselected
variable on that axis. -/
theorem repeat_keeps_length {α : Type} (env : Env α) (p : Params α)
    (v0 : VarOpt α) (rest : List (VarOpt α)) (hvars : p.vars = v0 :: rest)
    (h2 : TwoAxes p) (hn : NamesOK env p) (j : Nat) (hj : j < 2)
    (hother : AxisResolves env p (1 - j))
    (vr vu : VarOpt α) (horder : p.vars = [vr, vu] ∨ p.vars = [vu, vr])
    (s : SelectOpt) (hlast : lastSelect vr.selects ((j : Int) + 1) = some s)
    (hidx : 1 ≤ s.index) (hrep : s.rep = true)
    (hu : lastSelect vu.selects ((j : Int) + 1) = none) :
    (∀ od om, dimBody env p.overrideMapCheck vr.name (readTempXML v0.cifti vr.cifti) j od om
      (selOf vr j) (repOf vr j) = .ok (od, om)) ∧
    ∃ w plan, validate env p = (w, .ok plan) ∧
      plan.outDims.getD j 0 = axisLength v0.cifti vu.cifti j ∧
      getDimensionLength plan.outXML j = axisLength v0.cifti vu.cifti j := by
  have hmr : vr ∈ p.vars := by rcases horder with h | h <;> rw [h] <;> simp
  have hmu : vu ∈ p.vars := by rcases horder with h | h <;> rw [h] <;> simp
  have hmem : ∀ vo ∈ p.vars, vo = vr ∨ vo = vu := by
    intro vo hvo
    rcases horder with h | h <;> rw [h] at hvo <;> simp at hvo <;> tauto
  have hselr := selOf_repOf (applySelects_of_twoAxes (h2 vr hmr).2) j
  simp only [selectedIndex, hlast, Option.map_some', Option.getD_some] at hselr
  have hselu := selOf_repOf (applySelects_of_twoAxes (h2 vu hmu).2) j
  simp only [selectedIndex, hu, Option.map_none', Option.getD_none] at hselu
  have hner : selOf vr j ≠ -1 := by rw [hselr.1]; omega
  have hrepr : repOf vr j = true := by rw [hselr.2, hrep]
  obtain ⟨_, hLne, hLlen⟩ := tempXML_axis v0.cifti vu.cifti j hj
  constructor
  · intro od om
    rw [dimBody_selected env p.overrideMapCheck vr.name _ j od om _ _ hner, hrepr]
    rfl
  · obtain ⟨s1, hax, _, hlen⟩ := @alignAxis_total _ env p.overrideMapCheck v0.cifti j hj
      (axisLength v0.cifti vu.cifti j) (by rw [hLlen]; exact hLne) p.vars (-1, none)
      (Or.inl ⟨rfl, rfl⟩)
      (by
        intro vo hvo
        rcases hmem vo hvo with rfl | rfl
        · exact ⟨fun h => absurd h hner, fun _ h => by rw [hrepr] at h; simp at h⟩
        · exact ⟨fun _ => rfl, fun h => absurd hselu.1 h⟩)
      (by
        right
        refine ⟨?_, fun x hx => by simp at hx⟩
        unfold MapsMatch
        rcases horder with h | h <;> rw [h] <;>
          simp only [List.pairwise_cons, List.mem_singleton, forall_eq, List.not_mem_nil,
            IsEmpty.forall_iff, implies_true, List.Pairwise.nil, and_true]
        · intro h1; exact absurd h1 hner
        · intro _ h1; exact absurd h1 hner)
    have h1 : s1.1 = axisLength v0.cifti vu.cifti j := hlen ⟨vu, hmu, Or.inl hselu.1⟩
    have hax' : alignAxis env p.overrideMapCheck v0.cifti j p.vars (-1, none) =
        .ok (axisLength v0.cifti vu.cifti j, s1.2) := by
      rw [hax, ← h1]
    exact validate_of_axis hvars h2 hn hj hax' (by rw [hLlen]; exact hLne) hother

/-- Instance of `repeat_keeps_length`: a 3-row file with `-select 2 3 -repeat`
and an unselected 3-row file give a 3-row output that adds row 2 of the first
file to every row of the second. -/
theorem repeat_keeps_length_witness :
    ((∀ od om, dimBody intEnv false "A"
        (readTempXML (matrixFile [[1, 2], [3, 4], [5, 6]] 2)
          (matrixFile [[1, 2], [3, 4], [5, 6]] 2)) 1 od om 2 true = .ok (od, om)) ∧
      ∃ w plan, validate intEnv repeatParams = (w, .ok plan) ∧ plan.outDims.getD 1 0 = 3 ∧
        getDimensionLength plan.outXML 1 = 3) ∧
    (useParameters intEnv repeatParams).2 = .ok () ∧
    writtenRows (useParameters intEnv repeatParams).1 =
      [(0, [6, 8]), (1, [8, 10]), (2, [10, 12])] := by
  refine ⟨?_, rfl, rfl⟩
  apply repeat_keeps_length intEnv repeatParams
    ⟨"A", matrixFile [[1, 2], [3, 4], [5, 6]] 2, [⟨2, 3, true⟩]⟩
    [⟨"B", matrixFile [[1, 2], [3, 4], [5, 6]] 2, []⟩] rfl ?_ ?_ 1 (by norm_num) ?_
    ⟨"A", matrixFile [[1, 2], [3, 4], [5, 6]] 2, [⟨2, 3, true⟩]⟩
    ⟨"B", matrixFile [[1, 2], [3, 4], [5, 6]] 2, []⟩ (Or.inl rfl)
    ⟨2, 3, true⟩ rfl (by norm_num) rfl rfl
  · intro vo hvo
    simp only [repeatParams, List.mem_cons, List.mem_singleton, List.not_mem_nil, or_false] at hvo
    rcases hvo with rfl | rfl <;> simp [matrixFile]
  · refine ⟨fun _ _ => rfl, by decide, ?_⟩
    intro n hn
    simp only [repeatParams, List.mem_cons, List.mem_singleton, List.not_mem_nil, or_false] at hn
    rcases hn with rfl | rfl <;> rfl
  · exact ⟨_, _, 2, some ⟨1, 2⟩, rfl, rfl, by norm_num⟩

/-- The part of C8 that holds, for the lengths as validation reads them: in
an invocation without any `-select`, whenever validation succeeds
every input file has just the two matrix axes and the output length of each
axis, in the plan and in the output header, is the length every input has on
that axis; and whenever two of the input files have different lengths on an
axis that both have, validation fails with an `OperationException`.  The
lengths are those the pass reads, after the series-length substitution of
lines 116-129. -/
theorem no_select_common_length {α : Type} (env : Env α) (p : Params α)
    (hns : ∀ vo ∈ p.vars, vo.selects = []) :
    (∀ w plan, validate env p = (w, .ok plan) →
      ∃ v0 rest, p.vars = v0 :: rest ∧
        ∀ vo ∈ p.vars, vo.cifti.higher = [] ∧
          ∀ j, j < 2 → plan.outDims.getD j 0 = axisLength v0.cifti vo.cifti j ∧
            getDimensionLength plan.outXML j = axisLength v0.cifti vo.cifti j) ∧
    (∀ (v0 : VarOpt α) (rest : List (VarOpt α)) (vo1 vo2 : VarOpt α) (j : Nat),
      p.vars = v0 :: rest → vo1 ∈ p.vars → vo2 ∈ p.vars →
      j < 2 + vo1.cifti.higher.length → j < 2 + vo2.cifti.higher.length →
      axisLength v0.cifti vo1.cifti j ≠ axisLength v0.cifti vo2.cifti j →
      ∃ w x, validate env p = (w, .error (.fatal x))) := by
  have key : ∀ w plan, validate env p = (w, .ok plan) →
      ∃ v0 rest, p.vars = v0 :: rest ∧
        ∀ vo ∈ p.vars, vo.cifti.higher = [] ∧
          ∀ j, j < 2 → plan.outDims.getD j 0 = axisLength v0.cifti vo.cifti j ∧
            getDimensionLength plan.outXML j = axisLength v0.cifti vo.cifti j := by
    intro w plan hv
    obtain ⟨v0, rest, hvars, _, _, hsel, hax⟩ := validate_axes hv
    refine ⟨v0, rest, hvars, ?_⟩
    intro vo hvo
    refine ⟨(hsel vo hvo).1, ?_⟩
    intro j hj
    obtain ⟨m, hm, _, _⟩ := hax j hj
    obtain ⟨_, hfin, _⟩ := alignAxis_final hj p.vars _ _ hm
    have h1 := (hfin vo hvo).1 (selOf_nil vo (hns vo hvo) j)
    simp only at h1
    obtain ⟨h2, h3⟩ := validate_header_length hv j hj
    exact ⟨by rw [h3, h1], by rw [h2, h1]⟩
  refine ⟨key, ?_⟩
  intro v0 rest vo1 vo2 j hvars h1 h2 hj1 hj2 hne
  cases hv : validate env p with
  | mk w res =>
    cases res with
    | ok plan =>
      exfalso
      obtain ⟨v0', rest', hv', hall⟩ := key w plan hv
      rw [hvars] at hv'
      simp only [List.cons.injEq] at hv'
      obtain ⟨hv0, _⟩ := hv'
      subst hv0
      have hh := (hall vo1 h1).1
      rw [hh] at hj1
      simp only [List.length_nil, Nat.add_zero] at hj1
      have e1 := ((hall vo1 h1).2 j hj1).1
      have e2 := ((hall vo2 h2).2 j hj1).1
      exact hne (by rw [← e1, ← e2])
    | error e =>
      rcases validate_error_kind hv with ⟨x, hx⟩ | ⟨_, vo, hvo, t, ht, _⟩
      · exact ⟨w, x, by rw [hx]⟩
      · rw [hns vo hvo] at ht
        simp at ht

/-- Instance of `no_select_common_length`: a 3-row file and a 1-row file
without `-select` fail validation with the length mismatch on axis 1; two
files of one row of five columns validate to the lengths 5 and 1. -/
theorem no_select_common_length_witness :
    (∃ w x, validate intEnv conflictParams = (w, .error (.fatal x))) ∧
    (∃ v0 rest, sumParams.vars = v0 :: rest ∧
      ∀ vo ∈ sumParams.vars, vo.cifti.higher = [] ∧
        ∀ j, j < 2 → sumPlan.outDims.getD j 0 = axisLength v0.cifti vo.cifti j ∧
          getDimensionLength sumPlan.outXML j = axisLength v0.cifti vo.cifti j) :=
  ⟨(no_select_common_length intEnv conflictParams (by
      intro vo hvo
      simp only [conflictParams, List.mem_cons, List.mem_singleton, List.not_mem_nil,
        or_false] at hvo
      rcases hvo with rfl | rfl <;> rfl)).2
      ⟨"A", matrixFile [[1, 2], [3, 4], [5, 6]] 2, []⟩ [⟨"C", matrixFile [[10, 20]] 2, []⟩]
      ⟨"A", matrixFile [[1, 2], [3, 4], [5, 6]] 2, []⟩ ⟨"C", matrixFile [[10, 20]] 2, []⟩ 1
      rfl (by simp [conflictParams]) (by simp [conflictParams]) (by simp [matrixFile])
      (by simp [matrixFile]) (by decide),
   (no_select_common_length intEnv sumParams (by
      intro vo hvo
      simp only [sumParams, List.mem_cons, List.mem_singleton, List.not_mem_nil,
        or_false] at hvo
      rcases hvo with rfl | rfl <;> rfl)).1 [] sumPlan rfl⟩

/-- The part of C11 that holds, for indices other than 0: if on some axis
every `-var` option has a `-select` (with an index other than 0, which is
stored as the marker of no selection) together with `-repeat`, the operation
fails: validation ends in an error, which is an `OperationException` whenever
every `-select` names a dimension of at least 1, and nothing is read or
written. On the axes 0 and 1, whenever the pass over the `-var` options raises
nothing it leaves the length of that axis unknown (`-1`), and the final checks
then throw, for a variable without file or for the unknown length of that axis
or of the one before it. -/
theorem all_select_repeat_fails {α : Type} (env : Env α) (p : Params α) (j : Nat)
    (h : ∀ vo ∈ p.vars, ∃ s, lastSelect vo.selects ((j : Int) + 1) = some s ∧
      s.index ≠ 0 ∧ s.rep = true) :
    (∃ t e, useParameters env p = (t, .error e) ∧ validate env p = (t, .error e) ∧
      (∀ i row, Event.setRow i row ∉ t) ∧ (∀ k r, Event.getRow k r ∉ t) ∧
      (∀ m, Event.setCiftiXML m ∉ t) ∧
      ((∀ vo ∈ p.vars, ∀ s ∈ vo.selects, 1 ≤ s.dim) → ∃ x, e = .fatal x)) ∧
    (j < 2 → ∀ v0 rest w st, p.vars = v0 :: rest →
      alignVars env p v0.cifti p.vars (initState p) = (w, .ok st) →
      st.outDims.getD j (-1) = -1 ∧
      ((∃ n, finalize p st = .error (.fatal (.missingVariable n))) ∨
        ∃ k, k ≤ j ∧ finalize p st = .error (.fatal (.unknownLength k)))) := by
  have key : ∀ v0 rest w st, p.vars = v0 :: rest →
      alignVars env p v0.cifti p.vars (initState p) = (w, .ok st) →
      st.outXML.length = st.outDims.length ∧ 2 ≤ st.outDims.length ∧
      (j < 2 → st.outDims.getD j (-1) = -1) ∧ (2 ≤ j → 3 ≤ st.outDims.length) := by
    intro v0 rest w st hvars ha
    have hl0 : (initState p).outXML.length = (initState p).outDims.length := rfl
    obtain ⟨a1, _, a3, _, a5, a6⟩ := alignVars_ok p.vars _ st w ha hl0
    have hv0 : v0 ∈ p.vars := by rw [hvars]; exact List.mem_cons_self _ _
    have hlen := a3 v0 hv0
    have h2 := (selectVectors_length v0).2
    refine ⟨a1, by omega, ?_, ?_⟩
    · intro hj
      have hax := a6 j (Or.inl hj)
      have hall : ∀ vo ∈ p.vars, selOf vo j ≠ -1 ∧ repOf vo j = true := by
        intro vo hvo
        obtain ⟨s, hs, hi, hr⟩ := h vo hvo
        obtain ⟨e1, e2⟩ := selOf_repOf_of_last (a5 vo hvo).2 hs
        rw [e1, e2]
        exact ⟨by omega, hr⟩
      have hst : ((initState p).outDims.getD j (-1), (initState p).outXML.getD j none)
          = ((-1 : Int), (none : Option CiftiMap)) := by
        simp [initState]
      rw [hst, alignAxis_all_repeat p.vars (-1, none) rfl hall] at hax
      have := congrArg (fun r => match r with
        | Except.ok (x : Int × Option CiftiMap) => x.1
        | Except.error _ => (0 : Int)) hax
      simpa using this.symm
    · intro hj
      obtain ⟨s, hs, _, _⟩ := h v0 hv0
      obtain ⟨hmem, hdim⟩ := lastSelect_mem _ _ _ hs
      obtain ⟨c1, _⟩ := applySelects_ok v0.selects _ _ (a5 v0 hv0).2
        (by simp [startVectors])
      have := (c1 s hmem).2
      omega
  refine ⟨failure_of_no_plan env p ?_, ?_⟩
  · intro w plan hv
    obtain ⟨v0, rest, st, hvars, ha, hf⟩ := validate_ok hv
    obtain ⟨k1, k2, k3, k4⟩ := key v0 rest w st hvars ha
    obtain ⟨_, hfill, _, hlen, _⟩ := finalize_ok hf k1
    by_cases hj : j < 2
    · obtain ⟨_, hall⟩ := fillMaps_ok _ _ _ _ hfill k1
      exact (hall j (by omega)).1 (k3 hj)
    · have := k4 (by omega)
      omega
  · intro hj v0 rest w st hvars ha
    obtain ⟨k1, k2, k3, _⟩ := key v0 rest w st hvars ha
    refine ⟨k3 hj, ?_⟩
    unfold finalize
    cases hc : checkBound p.varNames st.bound with
    | error e =>
      obtain ⟨n, hn⟩ := checkBound_error _ _ _ hc
      left; exact ⟨n, by simp [hn]⟩
    | ok vars =>
      right
      obtain ⟨k, hk, hfm⟩ := fillMaps_unknown st.outXML 0 st.outDims j k1 (by omega) (k3 hj)
      refine ⟨k, hk, ?_⟩
      simp only [hfm, Nat.zero_add]

/-- Instance of `all_select_repeat_fails`: with `-select 2 1 -repeat` and
`-select 2 3 -repeat` on the two variables of `A+B`, the run ends in the error
that the length of dimension 2 is unknown. -/
theorem all_select_repeat_fails_witness :
    useParameters intEnv allRepeatParams = ([], .error (.fatal (.unknownLength 1))) ∧
    ((∃ t e, useParameters intEnv allRepeatParams = (t, .error e) ∧
      validate intEnv allRepeatParams = (t, .error e) ∧
      (∀ i row, Event.setRow i row ∉ t) ∧ (∀ k r, Event.getRow k r ∉ t) ∧
      (∀ m, Event.setCiftiXML m ∉ t) ∧
      ((∀ vo ∈ allRepeatParams.vars, ∀ s ∈ vo.selects, 1 ≤ s.dim) → ∃ x, e = .fatal x)) ∧
    ((1 : Nat) < 2 → ∀ v0 rest w st, allRepeatParams.vars = v0 :: rest →
      alignVars intEnv allRepeatParams v0.cifti allRepeatParams.vars
        (initState allRepeatParams) = (w, .ok st) →
      st.outDims.getD 1 (-1) = -1 ∧
      ((∃ n, finalize allRepeatParams st = .error (.fatal (.missingVariable n))) ∨
        ∃ k, k ≤ 1 ∧ finalize allRepeatParams st = .error (.fatal (.unknownLength k))))) :=
  ⟨rfl, all_select_repeat_fails intEnv allRepeatParams 1 (by
    intro vo hvo
    simp only [allRepeatParams, List.mem_cons, List.mem_singleton, List.not_mem_nil,
      or_false] at hvo
    rcases hvo with rfl | rfl
    · exact ⟨⟨2, 1, true⟩, rfl, by decide, rfl⟩
    · exact ⟨⟨2, 3, true⟩, rfl, by decide, rfl⟩)⟩

/-- The part of C21 that holds: the I/O trace of a run that ends well, when no
`-select` has the index 0. After the warnings of validation and the output
header come the reads of the selected rows, one per variable with a `-select`
on dimension 2, in the order of the variables; then, for `i = 0, 1, ..., R -
1` in this order, the reads of row `i` by the variables without a `-select` on
dimension 2 and then the one write of output row `i`. Nothing else is read or
written: the rows written are the rows `0` to `R - 1` once each, a variable
with a selected row reads just that row, once, and every other variable reads
the rows `0` to `R - 1` once each. -/
theorem io_trace {α : Type} (env : Env α) (p : Params α) (t : List (Event α))
    (hrun : useParameters env p = (t, .ok ()))
    (hidx : ∀ vo ∈ p.vars, ∀ s ∈ vo.selects, s.index ≠ 0) :
    ∃ w plan outs, validate env p = (w, .ok plan) ∧ outs.length = plan.numRows ∧
      (∀ ev ∈ w, ∃ n, ev = Event.warning n) ∧
      t = w ++ Event.setCiftiXML plan.outXML ::
        (specFixedReads 0 (boundOpts p) ++
          specRowLoop (boundOpts p) ((List.range plan.numRows).zip outs)) ∧
      writtenRows t = (List.range plan.numRows).zip outs ∧
      ∀ k vo, (boundOpts p)[k]? = some vo →
        readsOf k t =
          match selectedIndex vo 2 with
          | some r => [r]
          | none => (List.range plan.numRows).map (fun (i : Nat) => (i : Int)) := by
  obtain ⟨w, plan, ts, hv, hs, ht⟩ := useParameters_ok hrun
  have hall := validate_rowSelection hv hidx
  obtain ⟨_, hplan⟩ := validate_bound hv
  obtain ⟨outs, hlen, hts⟩ := stream_exact env p plan (boundOpts p) hplan hall ts hs
  have hw : ∀ ev ∈ w, ∃ n, ev = Event.warning n := by
    have := validate_trace env p
    rw [hv] at this
    exact this
  have hzip : ((List.range plan.numRows).zip outs).map (fun io => (io.1 : Int))
      = (List.range plan.numRows).map (fun (i : Nat) => (i : Int)) := by
    have : ((List.range plan.numRows).zip outs).map Prod.fst = List.range plan.numRows := by
      rw [← List.unzip_fst, List.unzip_zip_left]
      simp [hlen]
    conv_rhs => rw [← this]
    rw [List.map_map]
    rfl
  refine ⟨w, plan, outs, hv, hlen, hw, by rw [ht, hts], ?_, ?_⟩
  · rw [ht, hts, writtenRows_append, writtenRows_warnings w hw]
    simp only [List.nil_append, writtenRows]
    rw [writtenRows_append, (writtenRows_specReads _ 0).1, List.nil_append,
      writtenRows_specRowLoop]
  · intro k vo hk
    have h1 := readsOf_specFixedReads k (boundOpts p) 0
    simp only [Nat.zero_le, if_true, Nat.sub_zero, hk] at h1
    have h2 := readsOf_specRowLoop k (boundOpts p) ((List.range plan.numRows).zip outs)
    simp only [hk, hzip] at h2
    have h3 : ∀ x : List (Event α), readsOf k (Event.setCiftiXML plan.outXML :: x)
        = readsOf k x := fun _ => rfl
    rw [ht, hts, readsOf_append, readsOf_warnings k w hw, List.nil_append, h3,
      readsOf_append, h1, h2]
    cases selectedIndex vo 2 <;> rfl

/-- Instance of `io_trace`: in the run of `A+B` with `-select 2 3 -repeat` on
`A` and the 3-row file `B` unselected, `A` reads its row 2 once, ahead of the
loop, and for each of the 3 output rows `B` reads the row, which is then
written. -/
theorem io_trace_witness :
    useParameters intEnv repeatParams =
      ([.setCiftiXML [⟨1, 2⟩, ⟨2, 3⟩], .getRow 0 2,
        .getRow 1 0, .setRow 0 [6, 8], .getRow 1 1, .setRow 1 [8, 10],
        .getRow 1 2, .setRow 2 [10, 12]], .ok ()) ∧
    ∃ w plan outs, validate intEnv repeatParams = (w, .ok plan) ∧
      outs.length = plan.numRows ∧ (∀ ev ∈ w, ∃ n, ev = Event.warning n) ∧
      [.setCiftiXML [⟨1, 2⟩, ⟨2, 3⟩], .getRow 0 2,
        .getRow 1 0, .setRow 0 [6, 8], .getRow 1 1, .setRow 1 [8, 10],
        .getRow 1 2, .setRow 2 [10, 12]] = w ++ Event.setCiftiXML plan.outXML ::
        (specFixedReads 0 (boundOpts repeatParams) ++
          specRowLoop (boundOpts repeatParams) ((List.range plan.numRows).zip outs)) ∧
      writtenRows [.setCiftiXML [⟨1, 2⟩, ⟨2, 3⟩], .getRow 0 2,
        .getRow 1 0, .setRow 0 [6, 8], .getRow 1 1, .setRow 1 [8, 10],
        .getRow 1 2, .setRow 2 [(10 : Int), 12]] = (List.range plan.numRows).zip outs ∧
      ∀ k vo, (boundOpts repeatParams)[k]? = some vo →
        readsOf k [.setCiftiXML [⟨1, 2⟩, ⟨2, 3⟩], .getRow 0 2,
          .getRow 1 0, .setRow 0 [6, 8], .getRow 1 1, .setRow 1 [8, 10],
          .getRow 1 2, .setRow 2 [(10 : Int), 12]] =
          match selectedIndex vo 2 with
          | some r => [r]
          | none => (List.range plan.numRows).map (fun (i : Nat) => (i : Int)) :=
  ⟨rfl, io_trace intEnv repeatParams _ rfl (by
    intro vo hvo s hs
    simp only [repeatParams, List.mem_cons, List.mem_singleton, List.not_mem_nil,
      or_false] at hvo
    rcases hvo with rfl | rfl
    · simp only [List.mem_singleton] at hs; rw [hs]; decide
    · simp at hs)⟩

/-- The part of C22 that holds, for indices other than 0: when validation
succeeds, on each of the two output axes `j` the
first `-var` option in declaration order that has no `-select` for the axis
(every option before it has one, with an index other than 0) gives the output
header its map: the header's map for axis `j` is the map of that option's file
as the pass reads it (after lines 116-129), and the output length of the axis
is the length of that map. -/
theorem first_unselected_defines_map {α : Type} (env : Env α) (p : Params α)
    (w : List (Event α)) (plan : Plan α) (h : validate env p = (w, .ok plan))
    (j : Nat) (hj : j < 2) (pre post : List (VarOpt α)) (vd : VarOpt α)
    (hvars : p.vars = pre ++ vd :: post)
    (hpre : ∀ vo ∈ pre, ∃ s, lastSelect vo.selects ((j : Int) + 1) = some s ∧ s.index ≠ 0)
    (hvd : lastSelect vd.selects ((j : Int) + 1) = none) :
    ∃ v0 rest, p.vars = v0 :: rest ∧
      plan.outXML[j]? = some (axisMap v0.cifti vd.cifti j) ∧
      plan.outDims.getD j (-1) = (axisMap v0.cifti vd.cifti j).length ∧
      getDimensionLength plan.outXML j = (axisMap v0.cifti vd.cifti j).length := by
  obtain ⟨_, _, _, _, _, hsel, _⟩ := validate_axes h
  have hmem : ∀ vo, vo ∈ pre ∨ vo = vd → vo ∈ p.vars := by
    intro vo hvo
    rw [hvars]
    rcases hvo with h1 | h1
    · exact List.mem_append_left _ h1
    · rw [h1]; exact List.mem_append_right _ (List.mem_cons_self _ _)
  refine validate_first_unselected h hj pre post vd hvars ?_ ?_
  · intro vo hvo
    obtain ⟨s, hs, hi⟩ := hpre vo hvo
    exact (selOf_of_lastSelect j (hsel vo (hmem vo (Or.inl hvo))).2).2 s hs hi
  · exact (selOf_of_lastSelect j (hsel vd (hmem vd (Or.inr rfl))).2).1 hvd

/-- Instance of `first_unselected_defines_map`: in the run of `A+B` with
`-select 2 1` on the 3-row file `A` and the 1-row file `B` unselected, the
header's map along the column is the map of `B`, of length 1. -/
theorem first_unselected_defines_map_witness :
    validate intEnv selectParams =
      ([], .ok ⟨[⟨matrixFile [[1, 2], [3, 4], [5, 6]] 2, [-1, 0]⟩,
        ⟨matrixFile [[10, 20]] 2, [-1, -1]⟩], [2, 1], [⟨1, 2⟩, ⟨2, 1⟩]⟩) ∧
    ∃ v0 rest, selectParams.vars = v0 :: rest ∧
      ([⟨1, 2⟩, ⟨2, 1⟩] : List CiftiMap)[1]? =
        some (axisMap v0.cifti (matrixFile [[10, 20]] 2) 1) ∧
      ([2, 1] : List Int).getD 1 (-1) = (axisMap v0.cifti (matrixFile [[10, 20]] 2) 1).length ∧
      getDimensionLength [⟨1, 2⟩, ⟨2, 1⟩] 1
        = (axisMap v0.cifti (matrixFile [[10, 20]] 2) 1).length :=
  ⟨rfl, first_unselected_defines_map intEnv selectParams [] _ rfl 1 (by decide)
    [⟨"A", matrixFile [[1, 2], [3, 4], [5, 6]] 2, [⟨2, 1, false⟩]⟩] []
    ⟨"B", matrixFile [[10, 20]] 2, []⟩ rfl
    (by
      intro vo hvo
      simp only [List.mem_singleton] at hvo
      rw [hvo]
      exact ⟨⟨2, 1, false⟩, rfl, by decide⟩)
    rfl⟩

/-! # The claims on `OperationCiftiMath::useParameters` -/

/-- C1, failing inputs: the cell formula does not hold of every invocation
that passes validation, because validation does not check the index of a
`-select`.  With `-select 2 0` on the one variable of the identity expression
on a file of 3 rows, validation passes and the variable has a `-select` on
dimension 2, so that the row `r` of the formula is its selected row, the same
for every output row (and here `-1`, no row of the file); the run writes the
three rows of the file, row `i` at output row `i`.  With `-select 1 9` on the
same file of 2 columns, validation passes and the run writes no value: it
ends in the read of element 8 of a row of 2.  The scenario of the claim,
`A+B` on `[1,2,3,4,5]` and `[10,20,30,40,50]`, gives `[11,22,33,44,55]`. -/
theorem cell_formula_unchecked_index :
    (validate intEnv (selectIndexParams [⟨2, 0, false⟩])).2.toOption.map
        (fun plan => plan.outDims) = some [2, 3] ∧
    (boundOpts (selectIndexParams [⟨2, 0, false⟩])).map
        (fun vo => (selectedIndex vo 2, specRow vo 0, specRow vo 1, specRow vo 2))
      = [(some (-1), -1, -1, -1)] ∧
    (useParameters intEnv (selectIndexParams [⟨2, 0, false⟩])).2 = .ok () ∧
    writtenRows (useParameters intEnv (selectIndexParams [⟨2, 0, false⟩])).1
      = [(0, [1, 2]), (1, [3, 4]), (2, [5, 6])] ∧
    (validate intEnv (selectIndexParams [⟨1, 9, false⟩])).2.toOption.map
        (fun plan => plan.outDims) = some [1, 3] ∧
    (boundOpts (selectIndexParams [⟨1, 9, false⟩])).map
        (fun vo => (selectedIndex vo 1, vo.cifti.numberOfColumns)) = [(some 8, 2)] ∧
    (useParameters intEnv (selectIndexParams [⟨1, 9, false⟩])).2 = .error .badVectorIndex ∧
    writtenRows (useParameters intEnv (selectIndexParams [⟨1, 9, false⟩])).1 = [] ∧
    writtenRows (useParameters intEnv sumParams).1 = [(0, [11, 22, 33, 44, 55])] :=
  ⟨rfl, rfl, rfl, rfl, rfl, rfl, rfl, rfl, rfl⟩

/-- C2: the identity expression on one variable bound to a matrix file, with
no `-select` and no `-fixnan`, succeeds; the output header has the file's
numbers of columns and rows, and every output row equals the input row. -/
theorem identity_round_trip {α : Type} (env : Env α) (p : Params α) (vo : VarOpt α)
    (hvars : p.vars = [vo]) (hnames : p.varNames = [vo.name])
    (hid : ∀ x, p.evaluate [x] = x) (hsel : vo.selects = []) (hfix : p.fixnan = none)
    (hconst : env.getNamedConstant vo.name = false) (hhigh : vo.cifti.higher = [])
    (hrow : vo.cifti.alongRow.length < 1 ∨
      vo.cifti.alongRow.length = (vo.cifti.numberOfColumns : Int))
    (hcol : vo.cifti.alongColumn.length < 1 ∨
      vo.cifti.alongColumn.length = (vo.cifti.numberOfRows : Int)) :
    ∃ w maps t, useParameters env p = (w ++ Event.setCiftiXML maps :: t, .ok ()) ∧
      maps.length = 2 ∧
      getDimensionLength maps 0 = (vo.cifti.numberOfColumns : Int) ∧
      getDimensionLength maps 1 = (vo.cifti.numberOfRows : Int) ∧
      writtenRows (w ++ Event.setCiftiXML maps :: t) =
        (List.range vo.cifti.numberOfRows).map (fun i =>
          (i, (List.range vo.cifti.numberOfColumns).map (fun j => vo.cifti.data i j))) := by
  have h2 : TwoAxes p := by
    intro vo1 hvo1
    rw [hvars] at hvo1
    simp only [List.mem_singleton] at hvo1
    subst hvo1
    exact ⟨hhigh, by simp [hsel]⟩
  have hn : NamesOK env p := by
    refine ⟨?_, by simp [hnames], ?_⟩
    · intro vo1 hvo1
      rw [hvars] at hvo1
      simp only [List.mem_singleton] at hvo1
      subst hvo1; exact hconst
    · intro n hn
      rw [hnames] at hn
      simp only [List.mem_singleton] at hn
      subst hn
      simp [hvars]
  have hsv := selectVectors_nil vo hsel
  have hax : ∀ j, alignAxis env p.overrideMapCheck vo.cifti j p.vars (-1, none) =
      dimBody env p.overrideMapCheck vo.name (readTempXML vo.cifti vo.cifti) j (-1) none
        (-1) false := by
    intro j
    rw [hvars]
    simp only [alignAxis, selOf, repOf, hsv, (startVectors_getD vo j).1, (startVectors_getD vo j).2]
    cases dimBody env p.overrideMapCheck vo.name (readTempXML vo.cifti vo.cifti) j (-1) none
      (-1) false <;> rfl
  have hax0 : alignAxis env p.overrideMapCheck vo.cifti 0 p.vars (-1, none) =
      .ok ((shimLength vo.cifti.alongRow vo.cifti.numberOfColumns).length,
        some (shimLength vo.cifti.alongRow vo.cifti.numberOfColumns)) := by
    rw [hax 0]; simp [dimBody, readTempXML]
  have hax1 : alignAxis env p.overrideMapCheck vo.cifti 1 p.vars (-1, none) =
      .ok ((shimLength vo.cifti.alongColumn vo.cifti.numberOfRows).length,
        some (shimLength vo.cifti.alongColumn vo.cifti.numberOfRows)) := by
    rw [hax 1]; simp [dimBody, readTempXML]
  obtain ⟨w, plan, hv, _, hxml, _⟩ := validate_total hvars h2 hn hax0 hax1
    (shimLength_length_ne _ _) (shimLength_length_ne _ _)
  simp only [Option.getD_some] at hxml
  have hC : getDimensionLength plan.outXML 0 = (vo.cifti.numberOfColumns : Int) := by
    rw [hxml]; simp [getDimensionLength, shimLength_consistent _ _ hrow]
  have hR : getDimensionLength plan.outXML 1 = (vo.cifti.numberOfRows : Int) := by
    rw [hxml]; simp [getDimensionLength, shimLength_consistent _ _ hcol]
  have hnr : plan.numRows = vo.cifti.numberOfRows := by
    unfold Plan.numRows; rw [hR]; simp
  have hnc : plan.numOutCols = vo.cifti.numberOfColumns := by
    unfold Plan.numOutCols; rw [hC]; simp
  have hbo : boundOpts p = [vo] := by
    simp [boundOpts, varOptFor, hnames, hvars]
  have hsi : ∀ d, selectedIndex vo d = none := by
    intro d; simp [selectedIndex, hsel, lastSelect]
  obtain ⟨t, ht, hw⟩ := useParameters_spec hv (by
    intro vo1 hvo1
    rw [hbo] at hvo1
    simp only [List.mem_singleton] at hvo1
    subst hvo1
    simp only [InFile, hsi, hnr, hnc]
    exact ⟨le_refl _, le_refl _⟩)
  refine ⟨w, plan.outXML, t, ht, by rw [hxml]; rfl, hC, hR, ?_⟩
  rw [hw, hnr, hnc]
  apply List.map_congr_left
  intro i _
  congr 1
  apply List.map_congr_left
  intro j _
  simp [specValue, hbo, hfix, fixNaN, hid, specCell, specRow, specCol, hsi]

/-- Witness of C2: the identity expression on a file of the two rows `[1,2]`
and `[3,4]` writes these two rows. -/
theorem identity_round_trip_witness :
    ∃ t, useParameters intEnv identityParams = (t, .ok ()) ∧
      writtenRows t = [(0, [1, 2]), (1, [3, 4])] := by
  obtain ⟨w, maps, t, h1, _, _, _, h5⟩ := identity_round_trip intEnv identityParams
    ⟨"A", matrixFile [[1, 2], [3, 4]] 2, []⟩ rfl rfl (fun _ => rfl) rfl rfl rfl rfl
    (Or.inr rfl) (Or.inr rfl)
  exact ⟨_, h1, by rw [h5]; rfl⟩

/-- C3: every value of every row the run writes is the result of the
expression on some tuple of values, after the NaN policy: with `-fixnan` a NaN
result is written as the replacement value and any other result unchanged, so
that with a replacement value that is no NaN no written value is a NaN;
without `-fixnan` every result, NaN or not, is written unchanged. -/
theorem nan_policy {α : Type} (env : Env α) (p : Params α) (i : Nat) (row : List α)
    (x : α) (hev : Event.setRow i row ∈ (useParameters env p).1) (hx : x ∈ row) :
    ∃ values,
      (∀ r, p.fixnan = some r → env.isNaN (p.evaluate values) = true → x = r) ∧
      (∀ r, p.fixnan = some r → env.isNaN (p.evaluate values) = false →
        x = p.evaluate values) ∧
      (∀ r, p.fixnan = some r → env.isNaN r = false → env.isNaN x = false) ∧
      (p.fixnan = none → x = p.evaluate values) := by
  rcases useParameters_trace env p _ hev with ⟨n, h⟩ | ⟨m, h⟩ | ⟨k, r, h⟩ | ⟨i1, row1, h, hrow⟩
  · simp at h
  · simp at h
  · simp at h
  · simp only [Event.setRow.injEq] at h
    obtain ⟨values, hval⟩ := hrow x (by rw [← h.2]; exact hx)
    refine ⟨values, ?_, ?_, ?_, ?_⟩
    · intro r hr hnan
      rw [hval, hr]; simp [fixNaN, hnan]
    · intro r hr hnan
      rw [hval, hr]; simp [fixNaN, hnan]
    · intro r hr hnan
      rw [hval, hr]
      simp only [fixNaN]
      split
      · exact hnan
      · rename_i hn; simpa using hn
    · intro hr
      rw [hval, hr]; rfl

/-- Witness of C3: with `-fixnan 0`, the identity expression on the row
`[7, NaN]` writes `[7, 0]`, and the replaced cell obeys the policy. -/
theorem nan_policy_witness :
    Event.setRow 0 [some 7, some 0] ∈ (useParameters nanEnv nanParams).1 ∧
    ∃ values : List (Option Int),
      (∀ r, nanParams.fixnan = some r → nanEnv.isNaN (nanParams.evaluate values) = true →
        some 0 = r) ∧
      (∀ r, nanParams.fixnan = some r → nanEnv.isNaN (nanParams.evaluate values) = false →
        some 0 = nanParams.evaluate values) ∧
      (∀ r, nanParams.fixnan = some r → nanEnv.isNaN r = false →
        nanEnv.isNaN (some (0 : Int)) = false) ∧
      (nanParams.fixnan = none → some 0 = nanParams.evaluate values) := by
  have hmem : Event.setRow 0 [some 7, some 0] ∈ (useParameters nanEnv nanParams).1 := by
    have ht : (useParameters nanEnv nanParams).1 =
        [Event.setCiftiXML [⟨1, 2⟩, ⟨2, 1⟩], Event.getRow 0 0,
          Event.setRow 0 [some 7, some 0]] := by rfl
    rw [ht]; simp
  exact ⟨hmem, nan_policy nanEnv nanParams 0 [some 7, some 0] (some 0) hmem (by simp)⟩

/-- C4: in an invocation on two-axis files with the names in order, let a
variable select on axis `j` with a 1-based index of at least 1 and without
`-repeat`, and let every other variable that leaves axis `j` unselected have
length 1 there (so that no other variable requires another length), the maps
that get compared on axis `j` matching and the other axis resolving.  Then
validation succeeds and the output length on axis `j` is 1, in the plan and
in the output header, whatever the length of axis `j` in the selected
variable's own file. -/
theorem select_without_repeat_collapses {α : Type} (env : Env α) (p : Params α)
    (v0 : VarOpt α) (rest : List (VarOpt α)) (hvars : p.vars = v0 :: rest)
    (h2 : TwoAxes p) (hn : NamesOK env p) (j : Nat) (hj : j < 2)
    (hother : AxisResolves env p (1 - j))
    (pre post : List (VarOpt α)) (vo : VarOpt α) (hvo : p.vars = pre ++ vo :: post)
    (s : SelectOpt) (hlast : lastSelect vo.selects ((j : Int) + 1) = some s)
    (hidx : 1 ≤ s.index) (hrep : s.rep = false)
    (hothers : ∀ vo1 ∈ pre ++ post, selOf vo1 j = -1 →
      axisLength v0.cifti vo1.cifti j = 1)
    (hmaps : p.overrideMapCheck = true ∨ MapsMatch env v0.cifti j p.vars) :
    ∃ w plan, validate env p = (w, .ok plan) ∧ plan.outDims.getD j 0 = 1 ∧
      getDimensionLength plan.outXML j = 1 := by
  have hmem : vo ∈ p.vars := by rw [hvo]; simp
  have hsel := selOf_repOf (applySelects_of_twoAxes (h2 vo hmem).2) j
  simp only [selectedIndex, hlast, Option.map_some', Option.getD_some] at hsel
  have hne : selOf vo j ≠ -1 := by rw [hsel.1]; omega
  obtain ⟨s1, hax, _, hlen⟩ := @alignAxis_total _ env p.overrideMapCheck v0.cifti j hj 1
    (by norm_num) p.vars (-1, none) (Or.inl ⟨rfl, rfl⟩)
    (by
      intro vo1 hvo1
      refine ⟨?_, fun _ _ => rfl⟩
      intro hs1
      rw [hvo] at hvo1
      rcases List.mem_append.1 hvo1 with h | h
      · exact hothers vo1 (List.mem_append.2 (Or.inl h)) hs1
      · rcases List.mem_cons.1 h with rfl | h
        · exact absurd hs1 hne
        · exact hothers vo1 (List.mem_append.2 (Or.inr h)) hs1)
    (by
      rcases hmaps with h | h
      · left; exact h
      · right; exact ⟨h, fun x hx => by simp at hx⟩)
  have h1 : s1.1 = 1 := hlen ⟨vo, hmem, Or.inr (by rw [hsel.2, hrep])⟩
  have hax' : alignAxis env p.overrideMapCheck v0.cifti j p.vars (-1, none) = .ok (1, s1.2) := by
    rw [hax, ← h1]
  exact validate_of_axis hvars h2 hn hj hax' (by norm_num) hother

/-- Witness of C4: a 3-row file with `-select 2 1` and no `-repeat`, combined
with a 1-row unselected variable, gives a 1-row output whose cells combine
row 0 of the first file with the row of the second. -/
theorem select_without_repeat_collapses_witness :
    (∃ w plan, validate intEnv selectParams = (w, .ok plan) ∧ plan.outDims.getD 1 0 = 1 ∧
      getDimensionLength plan.outXML 1 = 1) ∧
    (useParameters intEnv selectParams).2 = .ok () ∧
    writtenRows (useParameters intEnv selectParams).1 = [(0, [11, 22])] := by
  refine ⟨?_, rfl, rfl⟩
  apply select_without_repeat_collapses intEnv selectParams
    ⟨"A", matrixFile [[1, 2], [3, 4], [5, 6]] 2, [⟨2, 1, false⟩]⟩
    [⟨"B", matrixFile [[10, 20]] 2, []⟩] rfl ?_ ?_ 1 (by norm_num) ?_
    [] [⟨"B", matrixFile [[10, 20]] 2, []⟩]
    ⟨"A", matrixFile [[1, 2], [3, 4], [5, 6]] 2, [⟨2, 1, false⟩]⟩ rfl
    ⟨2, 1, false⟩ rfl (by norm_num) rfl ?_ (Or.inr ?_)
  · intro vo hvo
    simp only [selectParams, List.mem_cons, List.mem_singleton, List.not_mem_nil, or_false] at hvo
    rcases hvo with rfl | rfl <;> simp [matrixFile]
  · refine ⟨fun _ _ => rfl, by decide, ?_⟩
    intro n hn
    simp only [selectParams, List.mem_cons, List.mem_singleton, List.not_mem_nil, or_false] at hn
    rcases hn with rfl | rfl <;> rfl
  · exact ⟨_, _, 2, some ⟨1, 2⟩, rfl, rfl, by norm_num⟩
  · intro vo1 hvo1 _
    simp only [List.nil_append, List.mem_singleton] at hvo1
    subst hvo1
    rfl
  · unfold MapsMatch
    simp only [selectParams, List.pairwise_cons, List.mem_singleton, forall_eq,
      List.not_mem_nil, IsEmpty.forall_iff, implies_true, List.Pairwise.nil, and_true]
    intro h
    exact absurd h (by decide)

/-- C5, failing input: `A+B` with `-select 2 0 -repeat` on the 2-row file `A`
and the 3-row file `B` unselected.  The index 0 is stored as `-1`, the marker
of no selection, so `A` is processed as unselected: processing it changes the
output length recorded for the axis from unknown to its own 2 rows, and
validation fails with the error of the length in both declaration orders,
where the claim gives the output length 3.  With `-select 2 1 -repeat`
validation gives the length 3 in both orders. -/
theorem repeat_index_zero_sets_length :
    selectVectors (⟨"A", matrixFile [[1, 2], [3, 4]] 2, [⟨2, 0, true⟩]⟩ : VarOpt Int)
      = ([-1, -1], [false, true]) ∧
    dimBody intEnv false "A"
      (readTempXML (matrixFile [[1, 2], [3, 4]] 2) (matrixFile [[1, 2], [3, 4]] 2)) 1
      (-1) none (-1) true = .ok (2, some ⟨2, 2⟩) ∧
    validate intEnv (pairParams (matrixFile [[1, 2], [3, 4]] 2)
        (matrixFile [[1, 2], [3, 4], [5, 6]] 2) [⟨2, 0, true⟩] [] false)
      = ([], .error (.fatal (.lengthMismatch "B" 1))) ∧
    validate intEnv (swapVars (pairParams (matrixFile [[1, 2], [3, 4]] 2)
        (matrixFile [[1, 2], [3, 4], [5, 6]] 2) [⟨2, 0, true⟩] [] false))
      = ([], .error (.fatal (.lengthMismatch "A" 1))) ∧
    (validate intEnv (pairParams (matrixFile [[1, 2], [3, 4]] 2)
        (matrixFile [[1, 2], [3, 4], [5, 6]] 2) [⟨2, 1, true⟩] [] false)).2.toOption.map
        (fun plan => plan.outDims) = some [2, 3] ∧
    (validate intEnv (swapVars (pairParams (matrixFile [[1, 2], [3, 4]] 2)
        (matrixFile [[1, 2], [3, 4], [5, 6]] 2) [⟨2, 1, true⟩] [] false))).2.toOption.map
        (fun plan => plan.outDims) = some [2, 3] :=
  ⟨rfl, rfl, rfl, rfl, rfl, rfl⟩

/-- C6, counterexample: a 3-row file with `-select 2 1` and no `-repeat`
together with an unselected 3-row file (`L = 3 > 1`) does not validate, in
either declaration order: with the selected variable first the unselected one
raises the length mismatch, with the unselected variable first the selected
one raises the select conflict. -/
theorem unselected_length_wins_counterexample :
    validate intEnv pinParams = ([], .error (.fatal (.lengthMismatch "B" 1))) ∧
    validate intEnv pinParamsSwapped = ([], .error (.fatal (.selectConflict "A" 1))) ∧
    (useParameters intEnv pinParams).2 = .error (.fatal (.lengthMismatch "B" 1)) ∧
    (useParameters intEnv pinParamsSwapped).2 = .error (.fatal (.selectConflict "A" 1)) :=
  ⟨rfl, rfl, rfl, rfl⟩

/-- C6, amended: when one variable selects on one of the two matrix axes `j`
with a 1-based index of at least 1 and without `-repeat`, and another
variable leaves axis `j` unselected with a length other than 1, validation
fails, wherever the two stand among the `-var` options (so in either
declaration order), and the failure is an `OperationException` whenever every
`-select` names a dimension of at least 1. -/
theorem select_without_repeat_conflicts {α : Type} (env : Env α) (p : Params α)
    (v0 : VarOpt α) (rest : List (VarOpt α)) (hvars : p.vars = v0 :: rest)
    (j : Nat) (hj : j < 2) (vs vu : VarOpt α) (hvs : vs ∈ p.vars) (hvu : vu ∈ p.vars)
    (s : SelectOpt) (hlast : lastSelect vs.selects ((j : Int) + 1) = some s)
    (hidx : 1 ≤ s.index) (hrep : s.rep = false)
    (hu : lastSelect vu.selects ((j : Int) + 1) = none)
    (hL : axisLength v0.cifti vu.cifti j ≠ 1) :
    ∃ w e, validate env p = (w, .error e) ∧
      ((∀ vo ∈ p.vars, ∀ t ∈ vo.selects, 1 ≤ t.dim) → ∃ x, e = .fatal x) := by
  cases hv : validate env p with
  | mk w res =>
    cases res with
    | ok plan =>
      exfalso
      obtain ⟨v0', rest', hv', _, _, hsel, hax⟩ := validate_axes hv
      rw [hvars] at hv'
      simp only [List.cons.injEq] at hv'
      obtain ⟨hv0, _⟩ := hv'
      subst hv0
      obtain ⟨m, hm, _, _⟩ := hax j hj
      obtain ⟨_, hfin, _⟩ := alignAxis_final hj p.vars _ _ hm
      have hselr := selOf_repOf (hsel vs hvs).2 j
      simp only [selectedIndex, hlast, Option.map_some', Option.getD_some] at hselr
      have hselu := selOf_repOf (hsel vu hvu).2 j
      simp only [selectedIndex, hu, Option.map_none', Option.getD_none] at hselu
      have h1 := (hfin vs hvs).2 (by rw [hselr.1]; omega) (by rw [hselr.2, hrep])
      have h2 := (hfin vu hvu).1 hselu.1
      simp only at h1 h2
      exact hL (by rw [h2, h1])
    | error e =>
      refine ⟨w, e, rfl, ?_⟩
      intro hall
      rcases validate_error_kind hv with h1 | ⟨_, vo1, hvo1, t, ht, hd⟩
      · exact h1
      · have := hall vo1 hvo1 t ht
        omega

/-- Witness of C6, amended: the 3-row file with `-select 2 1` and the
unselected 3-row file. -/
theorem select_without_repeat_conflicts_witness :
    ∃ w e, validate intEnv pinParams = (w, .error e) ∧
      ((∀ vo ∈ pinParams.vars, ∀ t ∈ vo.selects, 1 ≤ t.dim) → ∃ x, e = .fatal x) :=
  select_without_repeat_conflicts intEnv pinParams
    ⟨"A", matrixFile [[1, 2], [3, 4], [5, 6]] 2, [⟨2, 1, false⟩]⟩
    [⟨"B", matrixFile [[1, 2], [3, 4], [5, 6]] 2, []⟩] rfl 1 (by norm_num)
    ⟨"A", matrixFile [[1, 2], [3, 4], [5, 6]] 2, [⟨2, 1, false⟩]⟩
    ⟨"B", matrixFile [[1, 2], [3, 4], [5, 6]] 2, []⟩
    (by simp [pinParams]) (by simp [pinParams])
    ⟨2, 1, false⟩ rfl (by norm_num) rfl rfl (by decide)

/-- C7: let two `-var` options leave one of the two matrix axes `j`
unselected, and let the override flag not be set and the first file's map for
axis `j` not approximately match the second's.  If the first of the two is
the first `-var` option to leave the axis unselected (so that the two maps
get compared), or if `approximateMatch` is symmetric and transitive,
validation fails, with an `OperationException` whenever every `-select` names
a dimension of at least 1, whether or not the lengths are equal.  If the flag
is set, the outcome of validation is the same for every `approximateMatch`,
and the check of an unselected variable against a known output length on an
axis of its file goes through exactly when the lengths are equal. -/
theorem mapping_check {α : Type} (env : Env α) (p : Params α) :
    (∀ (v0 : VarOpt α) (rest pre mid post : List (VarOpt α)) (v1 v2 : VarOpt α) (j : Nat),
      p.vars = v0 :: rest → p.vars = pre ++ v1 :: (mid ++ v2 :: post) → j < 2 →
      selOf v1 j = -1 → selOf v2 j = -1 →
      p.overrideMapCheck = false →
      env.approximateMatch (axisMap v0.cifti v1.cifti j) (axisMap v0.cifti v2.cifti j)
        = false →
      ((∀ vo ∈ pre, selOf vo j ≠ -1) ∨
        ((∀ a b, env.approximateMatch a b = true → env.approximateMatch b a = true) ∧
         (∀ a b c, env.approximateMatch a b = true → env.approximateMatch b c = true →
            env.approximateMatch a c = true))) →
      ∃ w e, validate env p = (w, .error e) ∧
        ((∀ vo ∈ p.vars, ∀ t ∈ vo.selects, 1 ≤ t.dim) → ∃ x, e = .fatal x)) ∧
    (p.overrideMapCheck = true →
      (∀ am, validate { env with approximateMatch := am } p = validate env p) ∧
      ∀ (name : String) (tx : List CiftiMap) (j : Nat) (od : Int) (om : Option CiftiMap)
        (rep : Bool) (m : CiftiMap), tx[j]? = some m → od ≠ -1 →
        ((∃ s, dimBody env true name tx j od om (-1) rep = .ok s) ↔ od = m.length)) := by
  constructor
  · intro v0 rest pre mid post v1 v2 j hvars hsplit hj h1 h2 hov hmis hcase
    cases hv : validate env p with
    | mk w res =>
      cases res with
      | ok plan =>
        exfalso
        obtain ⟨v0', rest', hv', _, _, _, hax⟩ := validate_axes hv
        rw [hvars] at hv'
        simp only [List.cons.injEq] at hv'
        obtain ⟨hv0, _⟩ := hv'
        subst hv0
        obtain ⟨m, hm, _, _⟩ := hax j hj
        rw [hsplit, hov] at hm
        have hdirect : (∀ vo ∈ pre, selOf vo j ≠ -1) → False := by
          intro hpre
          have := alignAxis_compares hj pre mid post v1 v2 _ hm hpre h1 h2
          rw [hmis] at this
          simp at this
        rcases hcase with hpre | ⟨hsymm, htrans⟩
        · exact hdirect hpre
        · rcases first_unselected j pre v1 h1 with hpre | ⟨a, vd, b, hab, ha, hvd⟩
          · exact hdirect hpre
          · have e1 : pre ++ v1 :: (mid ++ v2 :: post) =
                a ++ vd :: (b ++ v1 :: (mid ++ v2 :: post)) := by
              rw [hab]; simp
            have e2 : pre ++ v1 :: (mid ++ v2 :: post) =
                a ++ vd :: ((b ++ v1 :: mid) ++ v2 :: post) := by
              rw [hab]; simp
            have c1 := alignAxis_compares hj a b (mid ++ v2 :: post) vd v1 _
              (by rw [← e1]; exact hm) ha hvd h1
            have c2 := alignAxis_compares hj a (b ++ v1 :: mid) post vd v2 _
              (by rw [← e2]; exact hm) ha hvd h2
            have := htrans _ _ _ (hsymm _ _ c1) c2
            rw [hmis] at this
            simp at this
      | error e =>
        refine ⟨w, e, rfl, ?_⟩
        intro hall
        rcases validate_error_kind hv with h3 | ⟨_, vo1, hvo1, t, ht, hd⟩
        · exact h3
        · have := hall vo1 hvo1 t ht
          omega
  · intro hov
    constructor
    · intro am
      exact (validate_override env { env with approximateMatch := am } p rfl hov).symm
    · intro name tx j od om rep m hm hod
      rw [dimBody_unselected env true name tx j od om (-1) rep m rfl hm, if_neg hod]
      constructor
      · rintro ⟨s, hs⟩
        split at hs
        · simp at hs
        · rename_i h; by_contra hc; exact h hc
      · intro h
        rw [if_neg (by simpa using h)]
        cases om with
        | none => exact ⟨_, rfl⟩
        | some x => exact ⟨(od, some x), by simp⟩

/-- Witness of C7: two 2-row files whose maps along the column differ in
kind fail validation with the mapping mismatch; with the override flag the
same invocation runs to its end, and its validation does not depend on
`approximateMatch`. -/
theorem mapping_check_witness :
    validate intEnv mismatchParams = ([], .error (.fatal (.mappingMismatch "B" 1))) ∧
    (∃ w e, validate intEnv mismatchParams = (w, .error e) ∧
      ((∀ vo ∈ mismatchParams.vars, ∀ t ∈ vo.selects, 1 ≤ t.dim) → ∃ x, e = .fatal x)) ∧
    (useParameters intEnv { mismatchParams with overrideMapCheck := true }).2 = .ok () ∧
    (∀ am, validate { intEnv with approximateMatch := am }
        { mismatchParams with overrideMapCheck := true } =
      validate intEnv { mismatchParams with overrideMapCheck := true }) :=
  ⟨rfl,
   (mapping_check intEnv mismatchParams).1
     ⟨"A", matrixFileOfKind 2 [[1, 2], [3, 4]] 2, []⟩
     [⟨"B", matrixFileOfKind 7 [[10, 20], [30, 40]] 2, []⟩] [] [] []
     ⟨"A", matrixFileOfKind 2 [[1, 2], [3, 4]] 2, []⟩
     ⟨"B", matrixFileOfKind 7 [[10, 20], [30, 40]] 2, []⟩ 1 rfl rfl (by norm_num)
     rfl rfl rfl rfl (Or.inl (by simp)),
   rfl,
   ((mapping_check intEnv { mismatchParams with overrideMapCheck := true }).2 rfl).1⟩

/-- C8, failing input: `A+B` without any `-select` on a file `A` of 5 columns
and a series file `B` of 3 columns whose header leaves the length along the
row unset.  Lines 118-123 give `B` the number of columns of the first `-var`
option, so validation passes with 5 output columns where the claim has it
fail, and the run ends in the read of element 3 of the row of `B`.  When the
header of `A` leaves the length unset too, validation passes in both
declaration orders: with `A` first as before, and with `B` first the output
has 3 columns and the run writes `[11, 22, 33]`.  With both lengths recorded
in the headers validation fails with the error of the length. -/
theorem unset_series_length_not_compared :
    (pairParams (matrixFile [[1, 2, 3, 4, 5]] 5) (seriesFile [[10, 20, 30]] 3) [] []
        false).vars.map (fun vo => (vo.cifti.numberOfColumns, vo.cifti.alongRow.length,
          vo.selects)) = [(5, 5, []), (3, 0, [])] ∧
    axisLength (matrixFile [[1, 2, 3, 4, 5]] 5) (seriesFile [[10, 20, 30]] 3) 0 = 5 ∧
    (validate intEnv (pairParams (matrixFile [[1, 2, 3, 4, 5]] 5)
        (seriesFile [[10, 20, 30]] 3) [] [] false)).2.toOption.map
        (fun plan => plan.outDims) = some [5, 1] ∧
    useParameters intEnv (pairParams (matrixFile [[1, 2, 3, 4, 5]] 5)
        (seriesFile [[10, 20, 30]] 3) [] [] false)
      = ([.setCiftiXML [⟨1, 5⟩, ⟨2, 1⟩], .getRow 0 0, .getRow 1 0], .error .badVectorIndex) ∧
    (validate intEnv (pairParams (seriesFile [[1, 2, 3, 4, 5]] 5)
        (seriesFile [[10, 20, 30]] 3) [] [] false)).2.toOption.map
        (fun plan => plan.outDims) = some [5, 1] ∧
    (validate intEnv (swapVars (pairParams (seriesFile [[1, 2, 3, 4, 5]] 5)
        (seriesFile [[10, 20, 30]] 3) [] [] false))).2.toOption.map
        (fun plan => plan.outDims) = some [3, 1] ∧
    useParameters intEnv (swapVars (pairParams (seriesFile [[1, 2, 3, 4, 5]] 5)
        (seriesFile [[10, 20, 30]] 3) [] [] false))
      = ([.setCiftiXML [⟨1, 3⟩, ⟨2, 1⟩], .getRow 0 0, .getRow 1 0, .setRow 0 [11, 22, 33]],
          .ok ()) ∧
    validate intEnv (pairParams (matrixFile [[1, 2, 3, 4, 5]] 5)
        (matrixFile [[10, 20, 30]] 3) [] [] false)
      = ([], .error (.fatal (.lengthMismatch "B" 0))) :=
  ⟨rfl, rfl, rfl, rfl, rfl, rfl, rfl, rfl⟩

/-- C9: a run that leaves `useParameters` through a validation error (any
`OperationException` of the operation is one) has made no I/O: its trace
holds warnings only, so no `getRow`, no `setRow` and no `setCiftiXML`; and
every failure of validation, whatever its kind, ends the run with just the
events of validation. -/
theorem validation_error_before_io {α : Type} (env : Env α) (p : Params α) :
    (∀ t x, useParameters env p = (t, .error (.fatal x)) →
      validate env p = (t, .error (.fatal x)) ∧
      (∀ k r, Event.getRow k r ∉ t) ∧ (∀ i row, Event.setRow i row ∉ t) ∧
      (∀ m, Event.setCiftiXML m ∉ t)) ∧
    (∀ w e, validate env p = (w, .error e) →
      useParameters env p = (w, .error e) ∧
      (∀ k r, Event.getRow k r ∉ w) ∧ (∀ i row, Event.setRow i row ∉ w) ∧
      (∀ m, Event.setCiftiXML m ∉ w)) := by
  have key : ∀ w e, validate env p = (w, .error e) →
      (∀ k r, Event.getRow k r ∉ w) ∧ (∀ i row, Event.setRow i row ∉ w) ∧
      (∀ m, Event.setCiftiXML m ∉ w) := by
    intro w e h
    have ht := validate_trace env p
    rw [h] at ht
    refine ⟨?_, ?_, ?_⟩
    · intro k r hm; obtain ⟨n, hn⟩ := ht _ hm; simp at hn
    · intro i row hm; obtain ⟨n, hn⟩ := ht _ hm; simp at hn
    · intro m hm; obtain ⟨n, hn⟩ := ht _ hm; simp at hn
  constructor
  · intro t x h
    have hv := useParameters_fatal h
    exact ⟨hv, key t _ hv⟩
  · intro w e h
    refine ⟨?_, key w e h⟩
    unfold useParameters
    rw [h]

/-- Witness of C9: a 3-row file and an unused 1-row file; the run logs the
warning for the unused variable and ends in the length conflict, with no I/O
event in its trace. -/
theorem validation_error_before_io_witness :
    useParameters intEnv conflictParams =
      ([Event.warning "C"], .error (.fatal (.lengthMismatch "C" 1))) ∧
    validate intEnv conflictParams =
      ([Event.warning "C"], .error (.fatal (.lengthMismatch "C" 1))) ∧
    (∀ k r, Event.getRow k r ∉ [(Event.warning "C" : Event Int)]) ∧
    (∀ i row, Event.setRow i row ∉ [(Event.warning "C" : Event Int)]) ∧
    (∀ m, Event.setCiftiXML m ∉ [(Event.warning "C" : Event Int)]) := by
  have hu : useParameters intEnv conflictParams =
      ([Event.warning "C"], .error (.fatal (.lengthMismatch "C" 1))) := by rfl
  exact ⟨hu, (validation_error_before_io intEnv conflictParams).1 _ _ hu⟩

/-- C10: an invocation with an input file of more than two axes, or with a
`-select` that names dimension 3 or higher, never succeeds: validation fails,
the run ends with the events of validation only, so it writes no output row
(and does no other I/O), and the failure is an `OperationException` whenever
every `-select` names a dimension of at least 1. -/
theorem more_than_two_axes_fails {α : Type} (env : Env α) (p : Params α)
    (h : ∃ vo ∈ p.vars, vo.cifti.higher ≠ [] ∨ ∃ s ∈ vo.selects, 3 ≤ s.dim) :
    ∃ t e, useParameters env p = (t, .error e) ∧ validate env p = (t, .error e) ∧
      (∀ i row, Event.setRow i row ∉ t) ∧ (∀ k r, Event.getRow k r ∉ t) ∧
      (∀ m, Event.setCiftiXML m ∉ t) ∧
      ((∀ vo ∈ p.vars, ∀ s ∈ vo.selects, 1 ≤ s.dim) → ∃ x, e = .fatal x) := by
  obtain ⟨vo, hvo, hcase⟩ := h
  cases hv : validate env p with
  | mk w res =>
    cases res with
    | ok plan =>
      exfalso
      obtain ⟨v0, rest, st, _, ha, hf⟩ := validate_ok hv
      have hl0 : (initState p).outXML.length = (initState p).outDims.length := rfl
      obtain ⟨a1, _, a3, _, a5, _⟩ := alignVars_ok p.vars _ st w ha hl0
      obtain ⟨_, _, _, hlen, _⟩ := finalize_ok hf a1
      have h1 := a3 vo hvo
      rcases hcase with hh | ⟨s, hs, hdim⟩
      · have h2 := (selectVectors_length vo).2
        have : vo.cifti.higher.length = 0 := by omega
        exact hh (List.length_eq_zero.1 this)
      · obtain ⟨c1, _⟩ := applySelects_ok vo.selects _ _ (a5 vo hvo).2
          (by simp [startVectors])
        have := (c1 s hs).2
        omega
    | error e =>
      have ht := validate_trace env p
      rw [hv] at ht
      refine ⟨w, e, ?_, rfl, ?_, ?_, ?_, ?_⟩
      · unfold useParameters; rw [hv]
      · intro i row hm; obtain ⟨n, hn⟩ := ht _ hm; simp at hn
      · intro k r hm; obtain ⟨n, hn⟩ := ht _ hm; simp at hn
      · intro m hm; obtain ⟨n, hn⟩ := ht _ hm; simp at hn
      · intro hall
        rcases validate_error_kind hv with h1 | ⟨_, vo1, hvo1, s, hs, hd⟩
        · exact h1
        · have := hall vo1 hvo1 s hs
          omega

/-- Witness of C10: a `-select 3 1` on a two-axis file ends the run in the
error that the output must have exactly 2 dimensions. -/
theorem more_than_two_axes_fails_witness :
    useParameters intEnv thirdAxisParams = ([], .error (.fatal .notTwoDimensions)) ∧
    ∃ t e, useParameters intEnv thirdAxisParams = (t, .error e) ∧
      validate intEnv thirdAxisParams = (t, .error e) ∧
      (∀ i row, Event.setRow i row ∉ t) ∧ (∀ k r, Event.getRow k r ∉ t) ∧
      (∀ m, Event.setCiftiXML m ∉ t) ∧
      ((∀ vo ∈ thirdAxisParams.vars, ∀ s ∈ vo.selects, 1 ≤ s.dim) → ∃ x, e = .fatal x) :=
  ⟨rfl, more_than_two_axes_fails intEnv thirdAxisParams
    ⟨⟨"A", matrixFile [[1, 2], [3, 4]] 2, [⟨3, 1, false⟩]⟩, by simp [thirdAxisParams],
      Or.inr ⟨⟨3, 1, false⟩, by simp, by norm_num⟩⟩⟩

/-- C11, failing input: `A+B` on two 3-row files that both carry `-select 2 0
-repeat`.  Every `-var` option uses `-select` with `-repeat` on dimension 2,
and the operation does not fail: the index 0 is stored as `-1`, the marker of
no selection, the files supply the length 3 and the run ends well, writing 3
rows. -/
theorem all_repeat_index_zero_runs :
    (pairParams (matrixFile [[1, 2], [3, 4], [5, 6]] 2)
        (matrixFile [[1, 2], [3, 4], [5, 6]] 2) [⟨2, 0, true⟩] [⟨2, 0, true⟩] false).vars.map
        (fun vo => (lastSelect vo.selects 2).map (fun s => (s.index, s.rep)))
      = [some (0, true), some (0, true)] ∧
    (validate intEnv (pairParams (matrixFile [[1, 2], [3, 4], [5, 6]] 2)
        (matrixFile [[1, 2], [3, 4], [5, 6]] 2) [⟨2, 0, true⟩] [⟨2, 0, true⟩]
        false)).2.toOption.map
        (fun plan => (plan.outDims, plan.vars.map (fun b => b.selectInfo)))
      = some ([2, 3], [[-1, -1], [-1, -1]]) ∧
    useParameters intEnv (pairParams (matrixFile [[1, 2], [3, 4], [5, 6]] 2)
        (matrixFile [[1, 2], [3, 4], [5, 6]] 2) [⟨2, 0, true⟩] [⟨2, 0, true⟩] false)
      = ([.setCiftiXML [⟨1, 2⟩, ⟨2, 3⟩], .getRow 0 0, .getRow 1 0, .setRow 0 [2, 4],
          .getRow 0 1, .getRow 1 1, .setRow 1 [6, 8],
          .getRow 0 2, .getRow 1 2, .setRow 2 [10, 12]], .ok ()) :=
  ⟨rfl, rfl, rfl⟩

/-- C12, counterexample: the identity expression on a 3-row file with
`-select 2 1` followed by `-select 2 3`, two `-select` options of the same
`-var` on the same axis, validates and runs to the end: it writes the third
row of the file. -/
theorem double_select_counterexample :
    (∃ vo ∈ doubleSelectParams.vars, vo.selects = [⟨2, 1, false⟩, ⟨2, 3, false⟩]) ∧
    useParameters intEnv doubleSelectParams =
      ([.setCiftiXML [⟨1, 2⟩, ⟨0, 1⟩], .getRow 0 2, .setRow 0 [5, 6]], .ok ()) :=
  ⟨⟨_, List.mem_cons_self _ _, rfl⟩, rfl⟩

/-- C12, amended: two `-select` options of the same `-var` that target the
same axis of the file are not an error, the later one replaces the earlier
one: the invocation validates and runs exactly as the invocation without the
earlier of the two, whatever the other `-select` and `-var` options are. -/
theorem later_select_replaces {α : Type} (env : Env α) (p p2 : Params α)
    (pre post : List (VarOpt α)) (name : String) (file : CiftiFile α)
    (sels1 sels2 : List SelectOpt) (s : SelectOpt)
    (hv : p.vars = pre ++ ⟨name, file, sels1 ++ s :: sels2⟩ :: post)
    (hp2 : p2 = { p with vars := pre ++ ⟨name, file, sels1 ++ sels2⟩ :: post })
    (hdim : 1 ≤ s.dim ∧ s.dim ≤ 2 + (file.higher.length : Int))
    (hlater : ∃ t ∈ sels2, t.dim = s.dim) :
    validate env p = validate env p2 ∧ useParameters env p = useParameters env p2 := by
  subst hp2
  obtain ⟨t, ht, htd⟩ := hlater
  obtain ⟨u, hu⟩ := lastSelect_of_mem sels2 t ht
  rw [htd] at hu
  have hs := @applySelects_drop_earlier name sels1 sels2 s (2 + file.higher.length)
    hdim.1 (by push_cast; exact hdim.2) ⟨u, hu⟩
  have := @useParameters_congr_one α env p
    { p with vars := pre ++ ⟨name, file, sels1 ++ sels2⟩ :: post }
    ⟨name, file, sels1 ++ s :: sels2⟩ ⟨name, file, sels1 ++ sels2⟩ pre post hv rfl rfl rfl
    rfl rfl rfl rfl hs.symm
  exact ⟨this.1.symm, this.2.symm⟩

/-- Witness of C12: the run with `-select 2 1 -select 2 3` is the run with
`-select 2 3` alone. -/
theorem later_select_replaces_witness :
    validate intEnv doubleSelectParams =
      validate intEnv { doubleSelectParams with
        vars := [] ++ ⟨"A", matrixFile [[1, 2], [3, 4], [5, 6]] 2, [] ++ [⟨2, 3, false⟩]⟩
          :: [] } ∧
    useParameters intEnv doubleSelectParams =
      useParameters intEnv { doubleSelectParams with
        vars := [] ++ ⟨"A", matrixFile [[1, 2], [3, 4], [5, 6]] 2, [] ++ [⟨2, 3, false⟩]⟩
          :: [] } :=
  later_select_replaces intEnv doubleSelectParams _ [] [] "A"
    (matrixFile [[1, 2], [3, 4], [5, 6]] 2) [] [⟨2, 3, false⟩] ⟨2, 1, false⟩ rfl rfl
    (by decide) ⟨⟨2, 3, false⟩, List.mem_cons_self _ _, rfl⟩

/-- C13: a `-select` that names an axis at or beyond the axis count of its
file (its 1-based dimension exceeds the count) with a 1-based index other
than 1 makes the operation fail, wherever it stands among the `-select`
options of its `-var` option: validation ends in an error, which is an
`OperationException` whenever every `-select` names a dimension of at least 1,
and nothing is read or written.  When the loop of lines 134-146 reaches it
with vectors shorter than its dimension, line 140 throws for it. -/
theorem select_beyond_axes_fails {α : Type} (env : Env α) (p : Params α)
    (vo : VarOpt α) (hvo : vo ∈ p.vars) (s : SelectOpt) (hs : s ∈ vo.selects)
    (hdim : 2 + (vo.cifti.higher.length : Int) < s.dim) (hidx : s.index ≠ 1) :
    (∃ t e, useParameters env p = (t, .error e) ∧ validate env p = (t, .error e) ∧
      (∀ i row, Event.setRow i row ∉ t) ∧ (∀ k r, Event.getRow k r ∉ t) ∧
      (∀ m, Event.setCiftiXML m ∉ t) ∧
      ((∀ v ∈ p.vars, ∀ u ∈ v.selects, 1 ≤ u.dim) → ∃ x, e = .fatal x)) ∧
    (∀ st : List Int × List Bool, (st.1.length : Int) < s.dim →
      applySelect vo.name st s = .error (.fatal (.selectNonexistent vo.name))) := by
  refine ⟨failure_of_no_plan env p ?_, ?_⟩
  · intro w plan hv
    obtain ⟨v0, rest, st, _, ha, hf⟩ := validate_ok hv
    have hl0 : (initState p).outXML.length = (initState p).outDims.length := rfl
    obtain ⟨a1, _, a3, _, a5, _⟩ := alignVars_ok p.vars _ st w ha hl0
    obtain ⟨_, _, _, hlen, _⟩ := finalize_ok hf a1
    have h1 := a3 vo hvo
    obtain ⟨c1, _⟩ := applySelects_ok vo.selects _ _ (a5 vo hvo).2
      (by simp [startVectors])
    have := (c1 s hs).2
    omega
  · intro st hst
    unfold applySelect
    have hge : s.dim - 1 ≥ (st.1.length : Int) := by omega
    have hi : s.index - 1 ≠ 0 := by omega
    rw [if_pos hge, if_pos hi]

/-- Witness of C13: on a two-axis file, `-select 3 2` alone is thrown by line
140, and `-select 3 2` after `-select 3 1` ends the run in the error that the
output must have exactly 2 dimensions. -/
theorem select_beyond_axes_fails_witness :
    useParameters intEnv (beyondAxisParams [⟨3, 2, false⟩]) =
      ([], .error (.fatal (.selectNonexistent "A"))) ∧
    useParameters intEnv (beyondAxisParams [⟨3, 1, false⟩, ⟨3, 2, false⟩]) =
      ([], .error (.fatal .notTwoDimensions)) ∧
    ((∃ t e, useParameters intEnv (beyondAxisParams [⟨3, 1, false⟩, ⟨3, 2, false⟩])
        = (t, .error e) ∧
      validate intEnv (beyondAxisParams [⟨3, 1, false⟩, ⟨3, 2, false⟩]) = (t, .error e) ∧
      (∀ i row, Event.setRow i row ∉ t) ∧ (∀ k r, Event.getRow k r ∉ t) ∧
      (∀ m, Event.setCiftiXML m ∉ t) ∧
      ((∀ v ∈ (beyondAxisParams [⟨3, 1, false⟩, ⟨3, 2, false⟩]).vars,
        ∀ u ∈ v.selects, 1 ≤ u.dim) → ∃ x, e = .fatal x)) ∧
    (∀ st : List Int × List Bool, (st.1.length : Int) < 3 →
      applySelect "A" st ⟨3, 2, false⟩ = .error (.fatal (.selectNonexistent "A")))) :=
  ⟨rfl, rfl, select_beyond_axes_fails intEnv (beyondAxisParams [⟨3, 1, false⟩, ⟨3, 2, false⟩])
    ⟨"A", matrixFile [[1, 2], [3, 4]] 2, [⟨3, 1, false⟩, ⟨3, 2, false⟩]⟩
    (List.mem_cons_self _ _) ⟨3, 2, false⟩ (by simp) (by decide) (by decide)⟩

/-- C14, counterexample: the identity expression on `A` with two more `-var`
options that both carry the name `C`, which the expression does not use,
validates and runs to the end; the two options are only reported by the
warning that the variable is not used. -/
theorem duplicate_unused_counterexample :
    duplicateUnusedParams.vars.map (fun vo => vo.name) = ["A", "C", "C"] ∧
    useParameters intEnv duplicateUnusedParams =
      ([.warning "C", .warning "C", .setCiftiXML [⟨1, 2⟩, ⟨2, 1⟩], .getRow 0 0,
        .setRow 0 [1, 2]], .ok ()) :=
  ⟨rfl, rfl⟩

/-- C14, amended: two `-var` options that carry the same name make the
operation fail when the expression uses that name: validation ends in an
error, which is an `OperationException` whenever every `-select` names a
dimension of at least 1, and nothing is read or written.  When the expression
does not use the name, lines 147-158 raise nothing for either option, whatever
is bound so far, and every validation that succeeds has logged the warning
that the variable is not used. -/
theorem duplicate_variable_name {α : Type} (env : Env α) (p : Params α)
    (pre mid post : List (VarOpt α)) (v1 v2 : VarOpt α)
    (hvars : p.vars = pre ++ v1 :: (mid ++ v2 :: post)) (hname : v2.name = v1.name) :
    (v1.name ∈ p.varNames →
      ∃ t e, useParameters env p = (t, .error e) ∧ validate env p = (t, .error e) ∧
        (∀ i row, Event.setRow i row ∉ t) ∧ (∀ k r, Event.getRow k r ∉ t) ∧
        (∀ m, Event.setCiftiXML m ∉ t) ∧
        ((∀ vo ∈ p.vars, ∀ s ∈ vo.selects, 1 ≤ s.dim) → ∃ x, e = .fatal x)) ∧
    (v1.name ∉ p.varNames →
      (∀ (b : BoundVar α) (bound : List (Option (BoundVar α))),
        bindVariable p.varNames v1.name b bound = .ok (false, bound) ∧
        bindVariable p.varNames v2.name b bound = .ok (false, bound)) ∧
      ∀ w plan, validate env p = (w, .ok plan) → Event.warning v1.name ∈ w) := by
  constructor
  · intro hn
    refine failure_of_no_plan env p ?_
    intro w plan hv
    have h1 := (validate_count hv v1.name hn).1
    rw [hvars] at h1
    simp [List.count_append, List.count_cons, hname] at h1
    omega
  · intro hn
    constructor
    · intro b bound
      have hidx : ¬ p.varNames.indexOf v1.name < p.varNames.length := by
        rw [List.indexOf_lt_length]; exact hn
      rw [hname]
      unfold bindVariable
      simp only [if_neg hidx, and_self]
    · intro w plan hv
      obtain ⟨v0, rest, st, _, ha, _⟩ := validate_ok hv
      have hl0 : (initState p).outXML.length = (initState p).outDims.length := rfl
      refine alignVars_warning p.vars _ st w ha hl0 v1 ?_ hn (Or.inr ?_)
      · rw [hvars]; simp
      · rw [hvars]; simp only [List.length_append, List.length_cons]; omega

/-- Witness of C14: two `-var` options for the variable `A` of the identity
expression end the run in the error that the variable is specified more than
once. -/
theorem duplicate_variable_name_witness :
    useParameters intEnv duplicateUsedParams =
      ([], .error (.fatal (.duplicateVariable "A"))) ∧
    (("A" ∈ duplicateUsedParams.varNames →
      ∃ t e, useParameters intEnv duplicateUsedParams = (t, .error e) ∧
        validate intEnv duplicateUsedParams = (t, .error e) ∧
        (∀ i row, Event.setRow i row ∉ t) ∧ (∀ k r, Event.getRow k r ∉ t) ∧
        (∀ m, Event.setCiftiXML m ∉ t) ∧
        ((∀ vo ∈ duplicateUsedParams.vars, ∀ s ∈ vo.selects, 1 ≤ s.dim) →
          ∃ x, e = .fatal x)) ∧
    ("A" ∉ duplicateUsedParams.varNames →
      (∀ (b : BoundVar Int) (bound : List (Option (BoundVar Int))),
        bindVariable duplicateUsedParams.varNames "A" b bound = .ok (false, bound) ∧
        bindVariable duplicateUsedParams.varNames "A" b bound = .ok (false, bound)) ∧
      ∀ w plan, validate intEnv duplicateUsedParams = (w, .ok plan) →
        Event.warning "A" ∈ w)) :=
  ⟨rfl, duplicate_variable_name intEnv duplicateUsedParams [] [] []
    ⟨"A", matrixFile [[1, 2]] 2, []⟩ ⟨"A", matrixFile [[10, 20]] 2, []⟩ rfl rfl⟩

/-- C15: an invocation with no `-var` option fails with the
`OperationException` of line 102, whatever the expression is (also a constant
expression, which has no variable), before anything is logged, read or
written. -/
theorem no_var_fails {α : Type} (env : Env α) (p : Params α) (h : p.vars = []) :
    useParameters env p = ([], .error (.fatal .noInput)) ∧
    validate env p = ([], .error (.fatal .noInput)) := by
  have hv : validate env p = ([], .error (.fatal .noInput)) := by
    unfold validate; rw [h]
  refine ⟨?_, hv⟩
  unfold useParameters
  rw [hv]

/-- Witness of C15: the constant expression `7` with no `-var` option. -/
theorem no_var_fails_witness :
    noVarParams.varNames = [] ∧
    useParameters intEnv noVarParams = ([], .error (.fatal .noInput)) ∧
    validate intEnv noVarParams = ([], .error (.fatal .noInput)) :=
  ⟨rfl, no_var_fails intEnv noVarParams rfl⟩

/-- C16: if some variable name of the expression is the name of no `-var`
option, the operation fails: validation ends in an error, which is an
`OperationException` whenever every `-select` names a dimension of at least 1,
nothing is read or written, and when the pass over the `-var` options raises
nothing the error is that of line 236, no `-var` option for a variable.
Conversely, when validation succeeds, every variable name of the expression
is the name of exactly one `-var` option, and the variable is bound to the
file of that option. -/
theorem variables_bound_by_name {α : Type} (env : Env α) (p : Params α) :
    ((∃ n ∈ p.varNames, ∀ vo ∈ p.vars, vo.name ≠ n) →
      (∃ t e, useParameters env p = (t, .error e) ∧ validate env p = (t, .error e) ∧
        (∀ i row, Event.setRow i row ∉ t) ∧ (∀ k r, Event.getRow k r ∉ t) ∧
        (∀ m, Event.setCiftiXML m ∉ t) ∧
        ((∀ vo ∈ p.vars, ∀ s ∈ vo.selects, 1 ≤ s.dim) → ∃ x, e = .fatal x)) ∧
      ∀ v0 rest w st, p.vars = v0 :: rest →
        alignVars env p v0.cifti p.vars (initState p) = (w, .ok st) →
        ∃ m, validate env p = (w, .error (.fatal (.missingVariable m)))) ∧
    (∀ w plan, validate env p = (w, .ok plan) →
      plan.vars.length = p.varNames.length ∧
      ∀ k (hk : k < p.varNames.length), ∃ vo ∈ p.vars,
        vo.name = p.varNames[k] ∧
        (p.vars.map (fun v => v.name)).count p.varNames[k] = 1 ∧
        plan.vars[k]? = some (boundVarOf vo) ∧ (boundVarOf vo).file = vo.cifti) := by
  constructor
  · rintro ⟨n, hn, hmiss⟩
    constructor
    · refine failure_of_no_plan env p ?_
      intro w plan hv
      obtain ⟨_, vo, _, hin, hname⟩ := validate_count hv n hn
      exact hmiss vo hin hname
    · intro v0 rest w st hvars ha
      have hl0 : (initState p).outXML.length = (initState p).outDims.length := rfl
      have hb := alignVars_bindAll p.vars _ st w ha hl0
      obtain ⟨m, hm⟩ := checkBound_missing hb hn hmiss
      refine ⟨m, ?_⟩
      unfold validate
      rw [hvars] at ha ⊢
      simp only []
      rw [ha]
      simp only [finalize, hm]
  · intro w plan hv
    obtain ⟨hmap, hplan⟩ := validate_bound hv
    have hlen : (boundOpts p).length = p.varNames.length := by
      have := congrArg List.length hmap
      simpa using this.symm
    refine ⟨by rw [hplan, List.length_map, hlen], ?_⟩
    intro k hk
    obtain ⟨hcount, vo, hvo, hin, hname⟩ := validate_count hv p.varNames[k]
      (List.getElem_mem hk)
    refine ⟨vo, hin, hname, hcount, ?_, rfl⟩
    have hk2 : k < (boundOpts p).length := by omega
    have h1 : (p.varNames.map (varOptFor p))[k]? = ((boundOpts p).map some)[k]? := by
      rw [hmap]
    simp only [List.getElem?_map, List.getElem?_eq_getElem hk, List.getElem?_eq_getElem hk2,
      Option.map_some'] at h1
    rw [hvo] at h1
    rw [hplan, List.getElem?_map, List.getElem?_eq_getElem hk2, Option.map_some']
    simp only [Option.some.injEq] at h1
    rw [← h1]

/-- Witness of C16: the expression `A+B` with a `-var` option for `A` only
ends in the error that `B` has no `-var` option, and in the run of `A+B` on
its two files the two variables are bound to the files of `A` and of `B`. -/
theorem variables_bound_by_name_witness :
    useParameters intEnv missingVarParams = ([], .error (.fatal (.missingVariable "B"))) ∧
    (validate intEnv sumParams).2.toOption.map
        (fun plan => plan.vars.map (fun b => b.file.data 0 0)) = some [1, 10] ∧
    (((∃ n ∈ missingVarParams.varNames, ∀ vo ∈ missingVarParams.vars, vo.name ≠ n) →
      (∃ t e, useParameters intEnv missingVarParams = (t, .error e) ∧
        validate intEnv missingVarParams = (t, .error e) ∧
        (∀ i row, Event.setRow i row ∉ t) ∧ (∀ k r, Event.getRow k r ∉ t) ∧
        (∀ m, Event.setCiftiXML m ∉ t) ∧
        ((∀ vo ∈ missingVarParams.vars, ∀ s ∈ vo.selects, 1 ≤ s.dim) → ∃ x, e = .fatal x)) ∧
      ∀ v0 rest w st, missingVarParams.vars = v0 :: rest →
        alignVars intEnv missingVarParams v0.cifti missingVarParams.vars
          (initState missingVarParams) = (w, .ok st) →
        ∃ m, validate intEnv missingVarParams = (w, .error (.fatal (.missingVariable m)))) ∧
    (∀ w plan, validate intEnv missingVarParams = (w, .ok plan) →
      plan.vars.length = missingVarParams.varNames.length ∧
      ∀ k (hk : k < missingVarParams.varNames.length), ∃ vo ∈ missingVarParams.vars,
        vo.name = missingVarParams.varNames[k] ∧
        (missingVarParams.vars.map (fun v => v.name)).count missingVarParams.varNames[k] = 1 ∧
        plan.vars[k]? = some (boundVarOf vo) ∧ (boundVarOf vo).file = vo.cifti)) :=
  ⟨rfl, rfl, variables_bound_by_name intEnv missingVarParams⟩

/-- C21, failing input: `A+B` with `-select 2 0` on the 3-row file `A` and
the 3-row file `B` unselected.  The run ends well, and `A`, which has a
`-select` on dimension 2, does not read one selected row once ahead of the
loop, as the specification has it: it reads the rows 0, 1 and 2, one in each
turn of the loop, because the index 0 is stored as `-1`, the marker of no
selection. -/
theorem select_index_zero_reads_every_row :
    (boundOpts (pairParams (matrixFile [[1, 2], [3, 4], [5, 6]] 2)
        (matrixFile [[1, 2], [3, 4], [5, 6]] 2) [⟨2, 0, false⟩] [] false)).map
        (fun vo => selectedIndex vo 2) = [some (-1), none] ∧
    specFixedReads 0 (boundOpts (pairParams (matrixFile [[1, 2], [3, 4], [5, 6]] 2)
        (matrixFile [[1, 2], [3, 4], [5, 6]] 2) [⟨2, 0, false⟩] [] false))
      = [(.getRow 0 (-1) : Event Int)] ∧
    useParameters intEnv (pairParams (matrixFile [[1, 2], [3, 4], [5, 6]] 2)
        (matrixFile [[1, 2], [3, 4], [5, 6]] 2) [⟨2, 0, false⟩] [] false)
      = ([.setCiftiXML [⟨1, 2⟩, ⟨2, 3⟩], .getRow 0 0, .getRow 1 0, .setRow 0 [2, 4],
          .getRow 0 1, .getRow 1 1, .setRow 1 [6, 8],
          .getRow 0 2, .getRow 1 2, .setRow 2 [10, 12]], .ok ()) ∧
    readsOf 0 (useParameters intEnv (pairParams (matrixFile [[1, 2], [3, 4], [5, 6]] 2)
        (matrixFile [[1, 2], [3, 4], [5, 6]] 2) [⟨2, 0, false⟩] [] false)).1 = [0, 1, 2] :=
  ⟨rfl, rfl, rfl, rfl⟩

/-- C22, failing input: `A+B` with `-select 2 0` on the 3-row file `A`, whose
map along the column has kind 2, and the 3-row file `B` unselected, whose map
has kind 7.  The first `-var` option that leaves dimension 2 unselected is
`B`, but the output header has the map of `A` along the column when the
mapping check is overridden, and validation fails with the error of the
mapping for `B` when it is not: the index 0 is stored as `-1`, the marker of
no selection, so `A` is taken to define the axis. -/
theorem select_index_zero_defines_map :
    (pairParams (matrixFileOfKind 2 [[1, 2], [3, 4], [5, 6]] 2)
        (matrixFileOfKind 7 [[1, 2], [3, 4], [5, 6]] 2) [⟨2, 0, false⟩] [] true).vars.map
        (fun vo => (vo.name, (lastSelect vo.selects 2).isSome, vo.cifti.alongColumn))
      = [("A", true, ⟨2, 3⟩), ("B", false, ⟨7, 3⟩)] ∧
    (validate intEnv (pairParams (matrixFileOfKind 2 [[1, 2], [3, 4], [5, 6]] 2)
        (matrixFileOfKind 7 [[1, 2], [3, 4], [5, 6]] 2) [⟨2, 0, false⟩] []
        true)).2.toOption.map (fun plan => (plan.outDims, plan.outXML))
      = some ([2, 3], [⟨1, 2⟩, ⟨2, 3⟩]) ∧
    validate intEnv (pairParams (matrixFileOfKind 2 [[1, 2], [3, 4], [5, 6]] 2)
        (matrixFileOfKind 7 [[1, 2], [3, 4], [5, 6]] 2) [⟨2, 0, false⟩] [] false)
      = ([], .error (.fatal (.mappingMismatch "B" 1))) :=
  ⟨rfl, rfl, rfl⟩

/-- C23: when validation succeeds, the output has the two axes 0 and 1; an
axis for which every `-var` option has a `-select` (with an index other than
0), so that no input gives it a map, has the output length 1 and the empty
length-1 scalar map; and on every axis the header has a map whose length is
the output length of the axis. -/
theorem axis_without_map_is_scalar {α : Type} (env : Env α) (p : Params α)
    (w : List (Event α)) (plan : Plan α) (h : validate env p = (w, .ok plan)) :
    (plan.outDims.length = 2 ∧ plan.outXML.length = 2) ∧
    (∀ j : Nat, j < 2 →
      (∀ vo ∈ p.vars, ∃ s, lastSelect vo.selects ((j : Int) + 1) = some s ∧ s.index ≠ 0) →
      plan.outDims.getD j (-1) = 1 ∧ plan.outXML[j]? = some dummyMap ∧
        dummyMap.length = 1) ∧
    (∀ j : Nat, j < 2 → ∃ m, plan.outXML[j]? = some m ∧ m.length = plan.outDims.getD j (-1) ∧
      m.length ≠ -1) := by
  obtain ⟨v0, rest, hv0, hl1, hl2, hsel, hax⟩ := validate_axes h
  refine ⟨⟨hl1, hl2⟩, ?_, ?_⟩
  · intro j hj hall
    have hs : ∀ vo ∈ p.vars, selOf vo j ≠ -1 := by
      intro vo hvo
      obtain ⟨s, hs, hi⟩ := hall vo hvo
      exact (selOf_of_lastSelect j (hsel vo hvo).2).2 s hs hi
    obtain ⟨h1, h2⟩ := validate_all_selected h hj hs
    exact ⟨h1, h2, rfl⟩
  · intro j hj
    obtain ⟨m, _, hd, hm⟩ := hax j hj
    have hlen := (validate_header_length h j hj).1
    refine ⟨m.getD dummyMap, hm, ?_, ?_⟩
    · unfold getDimensionLength at hlen
      rw [hm] at hlen
      exact hlen
    · unfold getDimensionLength at hlen
      rw [hm] at hlen
      simp only [] at hlen
      rw [hlen]; exact hd

/-- Witness of C23: in the run with `-select 2 1 -select 2 3` on the one
variable, the axis along the column has no map from an input: its length is 1
and its map is the empty length-1 scalar map. -/
theorem axis_without_map_is_scalar_witness :
    validate intEnv doubleSelectParams =
      ([], .ok ⟨[⟨matrixFile [[1, 2], [3, 4], [5, 6]] 2, [-1, 2]⟩], [2, 1],
        [⟨1, 2⟩, dummyMap]⟩) ∧
    ((([2, 1] : List Int).length = 2 ∧ ([⟨1, 2⟩, dummyMap] : List CiftiMap).length = 2) ∧
    (∀ j : Nat, j < 2 →
      (∀ vo ∈ doubleSelectParams.vars,
        ∃ s, lastSelect vo.selects ((j : Int) + 1) = some s ∧ s.index ≠ 0) →
      ([2, 1] : List Int).getD j (-1) = 1 ∧
        ([⟨1, 2⟩, dummyMap] : List CiftiMap)[j]? = some dummyMap ∧ dummyMap.length = 1) ∧
    (∀ j : Nat, j < 2 → ∃ m, ([⟨1, 2⟩, dummyMap] : List CiftiMap)[j]? = some m ∧
      m.length = ([2, 1] : List Int).getD j (-1) ∧ m.length ≠ -1)) :=
  ⟨rfl, axis_without_map_is_scalar intEnv doubleSelectParams [] _ rfl⟩

/-- C24: a `-var` option whose name is not a variable of the expression does
not make the operation fail by being unused: lines 147-158 raise nothing for
it, whatever is bound so far, and an invocation whose files, names and axes
are in order validates with it.  Its file takes part in the dimension checks:
when validation succeeds, on each axis it leaves unselected its length is the
output length.  And when validation succeeds, the warning that the variable
is not used is logged for it exactly when it is not the case that the
expression has no variable and there is exactly one `-var` option; the
warnings logged are those of the unused `-var` options, in declaration
order. -/
theorem unused_variable {α : Type} (env : Env α) (p : Params α) (vo : VarOpt α)
    (hvo : vo ∈ p.vars) (hn : vo.name ∉ p.varNames) :
    (∀ (b : BoundVar α) (bound : List (Option (BoundVar α))),
      bindVariable p.varNames vo.name b bound = .ok (false, bound)) ∧
    (TwoAxes p → NamesOK env p → AxisResolves env p 0 → AxisResolves env p 1 →
      ∃ w plan, validate env p = (w, .ok plan)) ∧
    (∀ w plan, validate env p = (w, .ok plan) →
      (Event.warning vo.name ∈ w ↔ ¬ (p.varNames.length = 0 ∧ p.vars.length = 1)) ∧
      w = (p.vars.filter (fun v => !decide (v.name ∈ p.varNames) &&
            (p.varNames.length != 0 || p.vars.length != 1))).map
          (fun v => Event.warning v.name) ∧
      ∃ v0 rest, p.vars = v0 :: rest ∧ ∀ j, j < 2 → selOf vo j = -1 →
        axisLength v0.cifti vo.cifti j = plan.outDims.getD j (-1)) := by
  refine ⟨?_, ?_, ?_⟩
  · intro b bound
    have hidx : ¬ p.varNames.indexOf vo.name < p.varNames.length := by
      rw [List.indexOf_lt_length]; exact hn
    unfold bindVariable
    simp only [if_neg hidx]
  · intro h2 hnm ⟨v0, rest, d0, m0, hv0, ha0, hd0⟩ ⟨v1, rest1, d1, m1, hv1, ha1, hd1⟩
    have : v1 = v0 := by
      rw [hv0] at hv1; simp only [List.cons.injEq] at hv1; exact hv1.1.symm
    rw [this] at ha1
    obtain ⟨w, plan, hv, _⟩ := validate_total hv0 h2 hnm ha0 ha1 hd0 hd1
    exact ⟨w, plan, hv⟩
  · intro w plan hv
    have hw := validate_warnings_exact hv
    refine ⟨?_, hw, ?_⟩
    · constructor
      · intro hmem
        rw [hw] at hmem
        obtain ⟨v, hv1, hv2⟩ := List.mem_map.1 hmem
        have hc := (List.mem_filter.1 hv1).2
        simp only [Bool.and_eq_true, Bool.or_eq_true, bne_iff_ne, ne_eq] at hc
        intro hboth
        rcases hc.2 with h1 | h1
        · exact h1 hboth.1
        · exact h1 hboth.2
      · intro hc
        obtain ⟨v0, rest, st, _, ha, _⟩ := validate_ok hv
        refine alignVars_warning p.vars _ st w ha rfl vo hvo hn ?_
        by_cases h1 : p.varNames.length = 0
        · right; intro h2; exact hc ⟨h1, h2⟩
        · left; exact h1
    · obtain ⟨v0, rest, hv0, _, _, _, hax⟩ := validate_axes hv
      refine ⟨v0, rest, hv0, ?_⟩
      intro j hj hs
      obtain ⟨m, ha, _, _⟩ := hax j hj
      obtain ⟨_, hfin, _⟩ := alignAxis_final hj p.vars _ _ ha
      exact (hfin vo hvo).1 hs

/-- Witness of C24: the two unused `-var` options `C` of the identity
expression on `A` are each reported by a warning and the run ends well; an
unused 1-row file `C` beside the 3-row file `A` fails the check of the
lengths; and the one `-var` option of a constant expression is not reported. -/
theorem unused_variable_witness :
    useParameters intEnv duplicateUnusedParams =
      ([.warning "C", .warning "C", .setCiftiXML [⟨1, 2⟩, ⟨2, 1⟩], .getRow 0 0,
        .setRow 0 [1, 2]], .ok ()) ∧
    validate intEnv conflictParams =
      ([.warning "C"], .error (.fatal (.lengthMismatch "C" 1))) ∧
    (validate intEnv { noVarParams with vars := [⟨"x", matrixFile [[1, 2]] 2, []⟩] }).1 = [] ∧
    ((∀ (b : BoundVar Int) (bound : List (Option (BoundVar Int))),
      bindVariable duplicateUnusedParams.varNames "C" b bound = .ok (false, bound)) ∧
    (TwoAxes duplicateUnusedParams → NamesOK intEnv duplicateUnusedParams →
      AxisResolves intEnv duplicateUnusedParams 0 →
      AxisResolves intEnv duplicateUnusedParams 1 →
      ∃ w plan, validate intEnv duplicateUnusedParams = (w, .ok plan)) ∧
    (∀ w plan, validate intEnv duplicateUnusedParams = (w, .ok plan) →
      (Event.warning "C" ∈ w ↔ ¬ (duplicateUnusedParams.varNames.length = 0 ∧
        duplicateUnusedParams.vars.length = 1)) ∧
      w = (duplicateUnusedParams.vars.filter (fun v =>
            !decide (v.name ∈ duplicateUnusedParams.varNames) &&
            (duplicateUnusedParams.varNames.length != 0 ||
              duplicateUnusedParams.vars.length != 1))).map
          (fun v => Event.warning v.name) ∧
      ∃ v0 rest, duplicateUnusedParams.vars = v0 :: rest ∧ ∀ j, j < 2 →
        selOf (⟨"C", matrixFile [[10, 20]] 2, []⟩ : VarOpt Int) j = -1 →
        axisLength v0.cifti (matrixFile [[10, 20]] 2) j = plan.outDims.getD j (-1))) :=
  ⟨rfl, rfl, rfl, unused_variable intEnv duplicateUnusedParams
    ⟨"C", matrixFile [[10, 20]] 2, []⟩ (by simp [duplicateUnusedParams])
    (by simp [duplicateUnusedParams])⟩

/-- C25: the selection stored for a `-select` is its index minus 1, whatever
the index is.  For the index 0 this is `-1`, the marker of no selection: with
`-select 2 0` on a file of 3 rows the axis is treated as unselected, its
length 3 and its map are taken from the file and all 3 rows are read and
written, where `-select 2 1` gives the one selected row.  For the index `-1`
the stored selection is `-2`, and the run asks the file for the row `-2`. -/
theorem select_index_zero_is_marker :
    selOf (⟨"A", matrixFile [[1, 2], [3, 4], [5, 6]] 2, [⟨2, 0, false⟩]⟩ : VarOpt Int) 1 = -1 ∧
    useParameters intEnv (selectIndexParams [⟨2, 0, false⟩]) =
      ([.setCiftiXML [⟨1, 2⟩, ⟨2, 3⟩], .getRow 0 0, .setRow 0 [1, 2],
        .getRow 0 1, .setRow 1 [3, 4], .getRow 0 2, .setRow 2 [5, 6]], .ok ()) ∧
    useParameters intEnv (selectIndexParams [⟨2, 1, false⟩]) =
      ([.setCiftiXML [⟨1, 2⟩, ⟨0, 1⟩], .getRow 0 0, .setRow 0 [1, 2]], .ok ()) ∧
    selOf (⟨"A", matrixFile [[1, 2], [3, 4], [5, 6]] 2, [⟨2, -1, false⟩]⟩ : VarOpt Int) 1
      = -2 ∧
    useParameters intEnv (selectIndexParams [⟨2, -1, false⟩]) =
      ([.setCiftiXML [⟨1, 2⟩, ⟨0, 1⟩], .getRow 0 (-2)], .error .badRowIndex) :=
  ⟨rfl, rfl, rfl, rfl, rfl⟩

/-- C26: the lengths a `-var` option has in validation, along the row and
along the column, are those of the header that lines 116-129 leave: the
file's own length when it is at least 1, and otherwise the number of columns,
respectively of rows, of the reference file; a map whose length is at least 1
is not changed, the kind of a map and the higher axes never are.  The
reference file is the file of the first `-var` option: when validation
succeeds, every `-var` option has, on each axis it leaves unselected, the
output length as its length with respect to that file.  Validation makes no
row I/O: its events are warnings, and in a whole run the header and every
read and write of a row come after them. -/
theorem series_length_shim {α : Type} (env : Env α) (p : Params α) :
    (∀ first f : CiftiFile α,
      axisLength first f 0 =
        (if 1 ≤ f.alongRow.length then f.alongRow.length else (first.numberOfColumns : Int)) ∧
      axisLength first f 1 =
        (if 1 ≤ f.alongColumn.length then f.alongColumn.length
          else (first.numberOfRows : Int)) ∧
      (1 ≤ f.alongRow.length → axisMap first f 0 = f.alongRow) ∧
      (1 ≤ f.alongColumn.length → axisMap first f 1 = f.alongColumn) ∧
      (axisMap first f 0).kind = f.alongRow.kind ∧
      (axisMap first f 1).kind = f.alongColumn.kind ∧
      readTempXML first f = axisMap first f 0 :: axisMap first f 1 :: f.higher) ∧
    (∀ w plan, validate env p = (w, .ok plan) →
      ∃ v0 rest, p.vars = v0 :: rest ∧
        ∀ vo ∈ p.vars, ∀ j, j < 2 → selOf vo j = -1 →
          plan.outDims.getD j (-1) = axisLength v0.cifti vo.cifti j) ∧
    (∀ ev ∈ (validate env p).1, ∃ n, ev = Event.warning n) ∧
    (∃ t, (useParameters env p).1 = (validate env p).1 ++ t) := by
  refine ⟨?_, ?_, validate_trace env p, ?_⟩
  · intro first f
    have key : ∀ (m : CiftiMap) (len : Nat),
        (shimLength m len).length = (if 1 ≤ m.length then m.length else (len : Int)) ∧
        (1 ≤ m.length → shimLength m len = m) ∧ (shimLength m len).kind = m.kind := by
      intro m len
      unfold shimLength
      by_cases h : m.length < 1
      · rw [if_pos h, if_neg (by omega)]
        exact ⟨rfl, fun h1 => absurd h1 (by omega), rfl⟩
      · rw [if_neg h, if_pos (by omega)]
        exact ⟨rfl, fun _ => rfl, rfl⟩
    obtain ⟨a1, a2, a3⟩ := key f.alongRow first.numberOfColumns
    obtain ⟨b1, b2, b3⟩ := key f.alongColumn first.numberOfRows
    refine ⟨?_, ?_, ?_, ?_, ?_, ?_, rfl⟩
    · simpa [axisLength, getDimensionLength, readTempXML] using a1
    · simpa [axisLength, getDimensionLength, readTempXML] using b1
    · intro h; simpa [axisMap, readTempXML] using a2 h
    · intro h; simpa [axisMap, readTempXML] using b2 h
    · simpa [axisMap, readTempXML] using a3
    · simpa [axisMap, readTempXML] using b3
  · intro w plan hv
    obtain ⟨v0, rest, hv0, _, _, _, hax⟩ := validate_axes hv
    refine ⟨v0, rest, hv0, ?_⟩
    intro vo hvo j hj hs
    obtain ⟨m, ha, _, _⟩ := hax j hj
    obtain ⟨_, hfin, _⟩ := alignAxis_final hj p.vars _ _ ha
    exact ((hfin vo hvo).1 hs).symm
  · unfold useParameters
    cases hv : validate env p with
    | mk w r =>
      cases r with
      | error e => exact ⟨[], by simp⟩
      | ok plan =>
        cases hs : stream env p plan with
        | mk ts r2 => exact ⟨Event.setCiftiXML plan.outXML :: ts, by simp only [hs]⟩

/-- Witness of C26: a series file `B` of unset length beside the file `A` of
5 columns is read with the length 5 of `A`, the first `-var` option, and the
run of `A+B` writes the row of 5 sums. -/
theorem series_length_shim_witness :
    axisLength (matrixFile [[1, 2, 3, 4, 5]] 5) (seriesFile [[10, 20, 30, 40, 50]] 5) 0 = 5 ∧
    useParameters intEnv (seriesParams [10, 20, 30, 40, 50]) =
      ([.setCiftiXML [⟨1, 5⟩, ⟨2, 1⟩], .getRow 0 0, .getRow 1 0,
        .setRow 0 [11, 22, 33, 44, 55]], .ok ()) ∧
    (∀ w plan, validate intEnv (seriesParams [10, 20, 30, 40, 50]) = (w, .ok plan) →
      ∃ v0 rest, (seriesParams [10, 20, 30, 40, 50]).vars = v0 :: rest ∧
        ∀ vo ∈ (seriesParams [10, 20, 30, 40, 50]).vars, ∀ j, j < 2 → selOf vo j = -1 →
          plan.outDims.getD j (-1) = axisLength v0.cifti vo.cifti j) :=
  ⟨rfl, rfl, (series_length_shim intEnv (seriesParams [10, 20, 30, 40, 50])).2.1⟩

/-- C27: order independence of the aligner.  When the header lengths of every
input file are at least 1 and the mapping check is overridden, then for every
reordering of the `-var` options validation succeeds for the reordered list
exactly when it succeeds for the original list, and when it succeeds the
output lengths are the same, in the plan and in the header.  (That the files
have two axes and the `-select` options name dimension 1 or 2 is not needed:
validation fails in every order when they do not.) -/
theorem order_independence {α : Type} (env : Env α) (p p2 : Params α)
    (hperm : p2.vars.Perm p.vars) (hnames : p2.varNames = p.varNames)
    (hov : p.overrideMapCheck = true) (hov2 : p2.overrideMapCheck = true)
    (hlen : ∀ vo ∈ p.vars, 1 ≤ vo.cifti.alongRow.length ∧ 1 ≤ vo.cifti.alongColumn.length) :
    ((∃ w plan, validate env p = (w, .ok plan)) ↔
      ∃ w2 plan2, validate env p2 = (w2, .ok plan2)) ∧
    ∀ w plan w2 plan2, validate env p = (w, .ok plan) → validate env p2 = (w2, .ok plan2) →
      plan2.outDims = plan.outDims ∧
      ∀ j, j < 2 → getDimensionLength plan2.outXML j = getDimensionLength plan.outXML j := by
  have hlen2 : ∀ vo ∈ p2.vars,
      1 ≤ vo.cifti.alongRow.length ∧ 1 ≤ vo.cifti.alongColumn.length :=
    fun vo hvo => hlen vo (hperm.mem_iff.1 hvo)
  refine ⟨⟨?_, ?_⟩, ?_⟩
  · rintro ⟨w, plan, hv⟩
    obtain ⟨w2, plan2, hv2, _⟩ := validate_perm env hperm hnames hov2 hlen hv
    exact ⟨w2, plan2, hv2⟩
  · rintro ⟨w2, plan2, hv2⟩
    obtain ⟨w, plan, hv, _⟩ := validate_perm env hperm.symm hnames.symm hov hlen2 hv2
    exact ⟨w, plan, hv⟩
  · intro w plan w2 plan2 hv hv2
    obtain ⟨w3, plan3, hv3, hd⟩ := validate_perm env hperm hnames hov2 hlen hv
    rw [hv2] at hv3
    simp only [Prod.mk.injEq, Except.ok.injEq] at hv3
    rw [← hv3.2] at hd
    refine ⟨hd, ?_⟩
    intro j hj
    rw [(validate_header_length hv j hj).1, (validate_header_length hv2 j hj).1, hd]

/-- Witness of C27: the invocation of `A+B` with `-select 2 3 -repeat` on `A`,
with the mapping check overridden, validates in both declaration orders, with
the output lengths 2 and 3. -/
theorem order_independence_witness :
    (validate intEnv overrideParams).2.toOption.map (fun plan => plan.outDims)
      = some [2, 3] ∧
    (validate intEnv overrideParamsSwapped).2.toOption.map (fun plan => plan.outDims)
      = some [2, 3] ∧
    (((∃ w plan, validate intEnv overrideParams = (w, .ok plan)) ↔
      ∃ w2 plan2, validate intEnv overrideParamsSwapped = (w2, .ok plan2)) ∧
    ∀ w plan w2 plan2, validate intEnv overrideParams = (w, .ok plan) →
      validate intEnv overrideParamsSwapped = (w2, .ok plan2) →
      plan2.outDims = plan.outDims ∧
      ∀ j, j < 2 → getDimensionLength plan2.outXML j = getDimensionLength plan.outXML j) :=
  ⟨rfl, rfl, order_independence intEnv overrideParams overrideParamsSwapped
    (List.reverse_perm _) rfl rfl rfl (by
      intro vo hvo
      simp only [overrideParams, repeatParams, List.mem_cons, List.mem_singleton,
        List.not_mem_nil, or_false] at hvo
      rcases hvo with rfl | rfl <;> decide)⟩

/-- C28: validation does not compare the index of a `-select` with the size
of the file, nor the number of columns of a series file of unset length with
the output.  On a file of 3 rows and 2 columns, `-select 1 9` passes
validation and the loop then reads element 8 of a row buffer of 2 floats, and
`-select 2 9` passes validation and the run then asks the file for row 8;
with a first file of 5 columns, a series file of unset length that has 3
columns passes validation with the output length 5, and the loop reads
element 3 of its row buffer of 3 floats. -/
theorem select_index_not_checked :
    (validate intEnv (selectIndexParams [⟨1, 9, false⟩])).2.toOption.map
        (fun plan => (plan.outDims, plan.vars.map (fun b => b.selectInfo)))
      = some ([1, 3], [[8, -1]]) ∧
    useParameters intEnv (selectIndexParams [⟨1, 9, false⟩]) =
      ([.setCiftiXML [⟨0, 1⟩, ⟨2, 3⟩], .getRow 0 0], .error .badVectorIndex) ∧
    (validate intEnv (selectIndexParams [⟨2, 9, false⟩])).2.toOption.map
        (fun plan => (plan.outDims, plan.vars.map (fun b => b.selectInfo)))
      = some ([2, 1], [[-1, 8]]) ∧
    useParameters intEnv (selectIndexParams [⟨2, 9, false⟩]) =
      ([.setCiftiXML [⟨1, 2⟩, ⟨0, 1⟩], .getRow 0 8], .error .badRowIndex) ∧
    (validate intEnv (seriesParams [10, 20, 30])).2.toOption.map
        (fun plan => (plan.outDims, plan.vars.map (fun b => b.file.numberOfColumns)))
      = some ([5, 1], [5, 3]) ∧
    useParameters intEnv (seriesParams [10, 20, 30]) =
      ([.setCiftiXML [⟨1, 5⟩, ⟨2, 1⟩], .getRow 0 0, .getRow 1 0], .error .badVectorIndex) :=
  ⟨rfl, rfl, rfl, rfl, rfl, rfl⟩

end CiftiMath

/-! # The claim on `OperationConvertAffine::useParameters` -/

namespace ConvertAffine

/-- The loop of lines 96-99 makes the write calls of the instances it reaches,
in order, and makes all of them when it returns. -/
theorem writeFlirts_spec {A : Type} (env : AffineFile A) (a : A) :
    ∀ (opts : List FlirtOpt),
      (∀ ev ∈ (writeFlirts env a opts).1, ev.isWrite = true) ∧
      ((writeFlirts env a opts).2 = .ok () →
        (writeFlirts env a opts).1 = opts.map (Event.writeFlirt a)) ∧
      (∀ e, (writeFlirts env a opts).2 = .error e → e = .affineFile) ∧
      ((∀ opt ∈ opts, env.writeFlirt a opt = true) → (writeFlirts env a opts).2 = .ok ()) := by
  intro opts
  induction opts with
  | nil => simp [writeFlirts]
  | cons opt rest ih =>
    obtain ⟨i1, i2, i3, i4⟩ := ih
    unfold writeFlirts
    by_cases hw : env.writeFlirt a opt = true
    · rw [if_pos hw]
      cases hr : writeFlirts env a rest with
      | mk t r =>
        rw [hr] at i1 i2 i3 i4
        simp only [] at i1 i2 i3 i4 ⊢
        refine ⟨?_, ?_, i3, ?_⟩
        · intro ev hev
          rcases List.mem_cons.1 hev with h | h
          · rw [h]; rfl
          · exact i1 ev h
        · intro h; rw [i2 h]; rfl
        · intro h
          exact i4 (fun o ho => h o (List.mem_cons_of_mem _ ho))
    · rw [if_neg hw]
      refine ⟨?_, ?_, ?_, ?_⟩
      · intro ev hev
        simp only [List.mem_singleton] at hev
        rw [hev]; rfl
      · intro h; simp at h
      · intro e h; simp only [Except.error.injEq] at h; exact h.symm
      · intro h; exact absurd (h opt (List.mem_cons_self _ _)) hw

/-- Lines 89-99 make the expected writes when they return, throw only out of
`AffineFile`, and return when no write throws. -/
theorem writeOutputs_spec {A : Type} (env : AffineFile A) (p : Params) (a : A) :
    (∀ ev ∈ (writeOutputs env p a).1, ev.isWrite = true) ∧
    ((writeOutputs env p a).2 = .ok () → (writeOutputs env p a).1 = expectedWrites p a) ∧
    (∀ e, (writeOutputs env p a).2 = .error e → e = .affineFile) ∧
    ((∀ path, env.writeWorld a path = true) → (∀ opt, env.writeFlirt a opt = true) →
      (writeOutputs env p a).2 = .ok ()) := by
  obtain ⟨i1, i2, i3, i4⟩ := writeFlirts_spec env a p.toFlirt
  unfold writeOutputs expectedWrites
  cases hw : p.toWorld with
  | none =>
    simp only [Option.toList, List.map_nil, List.nil_append]
    exact ⟨i1, i2, i3, fun _ h => i4 (fun o _ => h o)⟩
  | some path =>
    simp only [Option.toList, List.map_cons, List.map_nil, List.singleton_append]
    by_cases hc : env.writeWorld a path = true
    · rw [if_pos hc]
      cases hr : writeFlirts env a p.toFlirt with
      | mk t r =>
        rw [hr] at i1 i2 i3 i4
        simp only [] at i1 i2 i3 i4 ⊢
        refine ⟨?_, ?_, i3, ?_⟩
        · intro ev hev
          rcases List.mem_cons.1 hev with h | h
          · rw [h]; rfl
          · exact i1 ev h
        · intro h; rw [i2 h]
        · intro _ h; exact i4 (fun o _ => h o)
    · rw [if_neg hc]
      refine ⟨?_, ?_, ?_, ?_⟩
      · intro ev hev
        simp only [List.mem_singleton] at hev
        rw [hev]; rfl
      · intro h; simp at h
      · intro e h; simp only [Except.error.injEq] at h; exact h.symm
      · intro h _; exact absurd (h path) hc

/-- Lines 73-88 make no write, give an affine only when exactly one `-from`
option is present, throw whenever the number of `-from` options present is
not one, and otherwise throw only out of `AffineFile`. -/
theorem readInput_spec {A : Type} (env : AffineFile A) (p : Params) :
    (∀ ev ∈ (readInput env p).1, ev.isWrite = false) ∧
    (∀ a, (readInput env p).2 = .ok a → fromCount p = 1) ∧
    (fromCount p ≠ 1 → ∃ e, (readInput env p).2 = .error e) ∧
    (∀ e, (readInput env p).2 = .error e → fromCount p ≠ 1 ∨ e = .affineFile) ∧
    ((∀ path, (env.readWorld path).isSome = true) → (∀ opt, (env.readFlirt opt).isSome = true) →
      fromCount p = 1 → ∃ a, (readInput env p).2 = .ok a) := by
  unfold readInput fromCount
  cases hw : p.fromWorld with
  | none =>
    cases hf : p.fromFlirt with
    | none => simp
    | some opt =>
      dsimp only
      cases hr : env.readFlirt opt with
      | none =>
        refine ⟨by simp [Event.isWrite], by simp, by simp, by simp, ?_⟩
        intro _ h; have := h opt; rw [hr] at this; simp at this
      | some a => simp [Event.isWrite]
  | some path =>
    dsimp only
    cases hr : env.readWorld path with
    | none =>
      refine ⟨by simp [Event.isWrite], by simp, by simp, by simp, ?_⟩
      intro h; have := h path; rw [hr] at this; simp at this
    | some a =>
      cases hf : p.fromFlirt with
      | none => simp [Event.isWrite]
      | some opt => simp [Event.isWrite]

/-- C17: `OperationConvertAffine::useParameters` fails whenever the number of
`-from` options present is not one, and then makes no write call; when it
fails with exactly one `-from` option present, the exception comes out of a
call of `AffineFile` (the two `OperationException`s arise only when the number
is not one), and with an `AffineFile` that never throws it returns; whenever it
returns, exactly one `-from` option is present and its write calls are the
world affine when `-to-world` is present, then one flirt matrix per
`-to-flirt` instance, in order, all of the affine that was read. -/
theorem from_option_count {A : Type} (env : AffineFile A) (p : Params) :
    (fromCount p ≠ 1 →
      ∃ t e, useParameters env p = (t, .error e) ∧ ∀ ev ∈ t, ev.isWrite = false) ∧
    (∀ t e, useParameters env p = (t, .error e) → fromCount p ≠ 1 ∨ e = .affineFile) ∧
    (∀ t, useParameters env p = (t, .ok ()) →
      fromCount p = 1 ∧ ∃ a, (readInput env p).2 = .ok a ∧
        t.filter Event.isWrite = expectedWrites p a) ∧
    (fromCount p = 1 → (∀ path, (env.readWorld path).isSome = true) →
      (∀ opt, (env.readFlirt opt).isSome = true) →
      (∀ a path, env.writeWorld a path = true) → (∀ a opt, env.writeFlirt a opt = true) →
      ∃ t, useParameters env p = (t, .ok ())) := by
  obtain ⟨r1, r2, r3, r4, r5⟩ := readInput_spec env p
  unfold useParameters
  cases hr : readInput env p with
  | mk t0 res =>
    rw [hr] at r1 r2 r3 r4 r5
    simp only [] at r1 r2 r3 r4 r5
    cases res with
    | error e0 =>
      refine ⟨fun _ => ⟨t0, e0, rfl, r1⟩, ?_, ?_, ?_⟩
      · intro t e h
        simp only [Prod.mk.injEq, Except.error.injEq] at h
        rw [← h.2]; exact r4 e0 rfl
      · intro t h; simp at h
      · intro h1 h2 h3 _ _
        obtain ⟨a, ha⟩ := r5 h2 h3 h1
        simp at ha
    | ok a =>
      obtain ⟨w1, w2, w3, w4⟩ := writeOutputs_spec env p a
      have hc := r2 a rfl
      cases hw : writeOutputs env p a with
      | mk t2 res2 =>
        rw [hw] at w1 w2 w3 w4
        simp only [] at w1 w2 w3 w4 ⊢
        refine ⟨fun h => absurd hc h, ?_, ?_, ?_⟩
        · intro t e h
          simp only [hw, Prod.mk.injEq] at h
          exact Or.inr (w3 e h.2)
        · intro t h
          simp only [hw, Prod.mk.injEq] at h
          refine ⟨hc, a, rfl, ?_⟩
          rw [← h.1, List.filter_append, ← w2 h.2]
          have e1 : t0.filter Event.isWrite = [] := by
            rw [List.filter_eq_nil_iff]
            intro ev hev; rw [r1 ev hev]; simp
          have e2 : t2.filter Event.isWrite = t2 := by
            rw [List.filter_eq_self]
            exact w1
          rw [e1, e2, List.nil_append]
        · intro _ _ _ h4 h5
          exact ⟨t0 ++ t2, by rw [hw, w4 (h4 a) (h5 a)]⟩

/-- Witness of C17: with one `-from-world` the run reads the affine and writes
the world affine and the two flirt matrices in order; with a `-from-flirt`
too it throws after the read, with no `-from` option at once, and in both
cases it writes nothing. -/
theorem from_option_count_witness :
    useParameters nameAffine worldParams =
      ([.readWorld "in.world", .writeWorld "in.world" "out.world",
        .writeFlirt "in.world" ⟨"a.mat", "src1", "trg1"⟩,
        .writeFlirt "in.world" ⟨"b.mat", "src2", "trg2"⟩], .ok ()) ∧
    useParameters nameAffine bothFromParams =
      ([.readWorld "in.world"], .error .onlyOneFrom) ∧
    useParameters nameAffine noFromParams = ([], .error .noFrom) ∧
    (∃ t e, useParameters nameAffine bothFromParams = (t, .error e) ∧
      ∀ ev ∈ t, ev.isWrite = false) :=
  ⟨rfl, rfl, rfl, (from_option_count nameAffine bothFromParams).1 (by decide)⟩
end ConvertAffine

/-! # The claims on `CiftiFiberOrientationFile` -/

namespace FiberOrientationFile

/-- The loop of lines 474-488 calls the constructor once per row, in order
and with the given number of fibers, and appends the valid results. -/
theorem loadRows_spec (env : Env) (ciftiFile : CiftiFile) (numberOfFibers : Int) :
    ∀ (rows : List Nat) (acc : List FiberOrientation),
      constructorCalls (loadRows env ciftiFile numberOfFibers rows acc).1
        = rows.map (fun (i : Nat) => (numberOfFibers, i)) ∧
      (loadRows env ciftiFile numberOfFibers rows acc).2
        = acc ++ (rows.map (fun (i : Nat) =>
            env.newFiberOrientation numberOfFibers (ciftiFile.getRow (i : Int)))).filter
              (fun fo => fo.m_valid) := by
  intro rows
  induction rows with
  | nil => intro acc; simp [loadRows, constructorCalls]
  | cons i rest ih =>
    intro acc
    unfold loadRows
    by_cases hv : (env.newFiberOrientation numberOfFibers (ciftiFile.getRow (i : Int))).m_valid
        = true
    · obtain ⟨h1, h2⟩ := ih (acc ++ [env.newFiberOrientation numberOfFibers
        (ciftiFile.getRow (i : Int))])
      simp only [hv, if_true]
      refine ⟨by simp [constructorCalls, h1], ?_⟩
      rw [h2]
      simp [List.filter_cons, hv]
    · obtain ⟨h1, h2⟩ := ih acc
      simp only [hv]
      refine ⟨by simp [constructorCalls, h1], ?_⟩
      simp only [Bool.false_eq_true, if_false]
      rw [h2]
      simp [List.filter_cons, hv]

/-- The check of lines 456-466 on a positive number of columns passes exactly
on the numbers `3 + 7 * n` with `n ≥ 0`, and `n` is then the number of fibers
of line 456. -/
theorem column_check (numCols : Int) (h : 0 < numCols) :
    ((Int.tdiv (numCols - NUMBER_OF_ELEMENTS_IN_FILE) NUMBER_OF_ELEMENTS_PER_FIBER_IN_FILE
        * NUMBER_OF_ELEMENTS_PER_FIBER_IN_FILE + NUMBER_OF_ELEMENTS_IN_FILE = numCols) ↔
      ∃ n : Int, 0 ≤ n ∧ numCols = 3 + 7 * n) ∧
    ∀ n : Int, 0 ≤ n → numCols = 3 + 7 * n →
      Int.tdiv (numCols - NUMBER_OF_ELEMENTS_IN_FILE) NUMBER_OF_ELEMENTS_PER_FIBER_IN_FILE
        = n := by
  have hn : ∀ n : Int, 0 ≤ n → numCols = 3 + 7 * n →
      Int.tdiv (numCols - NUMBER_OF_ELEMENTS_IN_FILE) NUMBER_OF_ELEMENTS_PER_FIBER_IN_FILE
        = n := by
    intro n h0 hc
    unfold NUMBER_OF_ELEMENTS_IN_FILE NUMBER_OF_ELEMENTS_PER_FIBER_IN_FILE
    rw [Int.tdiv_eq_ediv (by omega) (by norm_num)]
    omega
  refine ⟨⟨?_, ?_⟩, hn⟩
  · intro he
    unfold NUMBER_OF_ELEMENTS_IN_FILE NUMBER_OF_ELEMENTS_PER_FIBER_IN_FILE at he
    refine ⟨Int.tdiv (numCols - 3) 7, ?_, by omega⟩
    omega
  · rintro ⟨n, h0, hc⟩
    rw [hn n h0 hc]
    unfold NUMBER_OF_ELEMENTS_IN_FILE NUMBER_OF_ELEMENTS_PER_FIBER_IN_FILE
    omega

/-- C18: `getFiberOrientationNearestCoordinate` compares the squared distance
with `maximumDistance`, and allows any distance for `maximumDistance = 0`.
With one fiber orientation stored at `(2, 0, 0)` and `xyz = (0, 0, 0)`: for
`maximumDistance = 3` the result is `NULL` although the stored orientation
lies at distance 2 (squared distance 4, at most `3 * 3`); for
`maximumDistance = 0` the result is the stored orientation although it does
not lie within distance 0. -/
theorem nearest_compares_squared_distance :
    getFiberOrientationNearestCoordinate oneFiberFile (0, 0, 0) 3 = none ∧
    (∃ fo ∈ oneFiberFile.m_fiberOrientations,
      distanceSquared3D (0, 0, 0) fo.m_xyz = 2 * 2 ∧
        distanceSquared3D (0, 0, 0) fo.m_xyz ≤ 3 * 3) ∧
    getFiberOrientationNearestCoordinate oneFiberFile (0, 0, 0) 0
      = some (simpleEnv.newFiberOrientation 0 [2, 0, 0]) ∧
    (∀ fo ∈ oneFiberFile.m_fiberOrientations,
      ¬ distanceSquared3D (0, 0, 0) fo.m_xyz ≤ 0 * 0) := by
  refine ⟨?_, ?_, ?_, ?_⟩
  · simp [getFiberOrientationNearestCoordinate, oneFiberFile, nearestLoop, distanceSquared3D,
      simpleEnv, FLT_MAX]
    norm_num
  · refine ⟨simpleEnv.newFiberOrientation 0 [2, 0, 0], by simp [oneFiberFile], ?_, ?_⟩
    · simp [distanceSquared3D, simpleEnv]
    · simp [distanceSquared3D, simpleEnv]; norm_num
  · simp [getFiberOrientationNearestCoordinate, oneFiberFile, nearestLoop, distanceSquared3D,
      simpleEnv, FLT_MAX]
    norm_num
  · intro fo hfo
    simp only [oneFiberFile, List.mem_singleton] at hfo
    rw [hfo]
    simp [distanceSquared3D, simpleEnv]

/-- C19: `isEmpty` returns `true` for every file, also for one that holds
fiber orientations: after `initializeWithTestData` the file holds two more
fiber orientations than before, and after the read of a file of 3 rows and 10
columns it holds 2, and `isEmpty` is `true` in both cases. -/
theorem isEmpty_always_true (env : Env) (self : CiftiFiberOrientationFile) :
    isEmpty self = true ∧
    isEmpty (initializeWithTestData env self) = true ∧
    getNumberOfFiberOrientations (initializeWithTestData env self)
      = getNumberOfFiberOrientations self + 2 ∧
    (readFile simpleEnv self (some tenColumnFile)).2.2 = .ok () ∧
    getNumberOfFiberOrientations (readFile simpleEnv self (some tenColumnFile)).2.1 = 2 ∧
    isEmpty (readFile simpleEnv self (some tenColumnFile)).2.1 = true := by
  refine ⟨rfl, rfl, ?_, rfl, rfl, rfl⟩
  simp [getNumberOfFiberOrientations, initializeWithTestData]

/-- C20: `readFile` rejects an opened file with no rows or no columns by a
`DataFileException` and leaves no fiber orientation; a file with rows and
columns passes the check of the column count, and then `readFile` returns,
exactly when its number of columns is `3 + 7 * n` for some `n ≥ 0`; the
constructor is then called once per row, in the order of the rows, each time
with `n` fibers, the file holds the valid ones of the results, and their
number is at most the number of rows.  The two arrays of
`initializeWithTestData` have `3 + 7 * 3` floats and are decoded with 3
fibers. -/
theorem readFile_validation (env : Env) (self : CiftiFiberOrientationFile)
    (ciftiFile : CiftiFile) :
    ((ciftiFile.numberOfRows ≤ 0 ∨ ciftiFile.numberOfColumns ≤ 0) →
      ∃ e, readFile env self (some ciftiFile) = ([], emptyFile, .error e) ∧
        (e = .noRows ∨ e = .noColumns)) ∧
    (0 < ciftiFile.numberOfRows → 0 < ciftiFile.numberOfColumns →
      (((∃ t s, readFile env self (some ciftiFile) = (t, s, .ok ())) ↔
        ∃ n : Int, 0 ≤ n ∧ ciftiFile.numberOfColumns = 3 + 7 * n) ∧
      ((∃ a b, readFile env self (some ciftiFile) = ([], emptyFile, .error (.columnCount a b))) ↔
        ¬ ∃ n : Int, 0 ≤ n ∧ ciftiFile.numberOfColumns = 3 + 7 * n))) ∧
    (∀ n : Int, 0 ≤ n → ciftiFile.numberOfColumns = 3 + 7 * n → 0 < ciftiFile.numberOfRows →
      ∃ t s, readFile env self (some ciftiFile) = (t, s, .ok ()) ∧
        constructorCalls t = (List.range ciftiFile.numberOfRows.toNat).map (fun (i : Nat) => (n, i)) ∧
        s.m_fiberOrientations = ((List.range ciftiFile.numberOfRows.toNat).map (fun (i : Nat) =>
          env.newFiberOrientation n (ciftiFile.getRow (i : Int)))).filter
            (fun fo => fo.m_valid) ∧
        getNumberOfFiberOrientations s ≤ ciftiFile.numberOfRows) ∧
    ((testData1 env).length = 3 + 7 * 3 ∧ (testData2 env).length = 3 + 7 * 3 ∧
      (initializeWithTestData env emptyFile).m_fiberOrientations =
        [env.newFiberOrientation 3 (testData1 env),
          env.newFiberOrientation 3 (testData2 env)]) := by
  have hok : ∀ n : Int, 0 ≤ n → ciftiFile.numberOfColumns = 3 + 7 * n →
      0 < ciftiFile.numberOfRows →
      ∃ t s, readFile env self (some ciftiFile) = (t, s, .ok ()) ∧
        constructorCalls t = (List.range ciftiFile.numberOfRows.toNat).map (fun (i : Nat) => (n, i)) ∧
        s.m_fiberOrientations = ((List.range ciftiFile.numberOfRows.toNat).map (fun (i : Nat) =>
          env.newFiberOrientation n (ciftiFile.getRow (i : Int)))).filter
            (fun fo => fo.m_valid) ∧
        getNumberOfFiberOrientations s ≤ ciftiFile.numberOfRows := by
    intro n h0 hc hr
    have hcols : 0 < ciftiFile.numberOfColumns := by omega
    obtain ⟨c1, c2⟩ := column_check ciftiFile.numberOfColumns hcols
    have hpass := c1.2 ⟨n, h0, hc⟩
    obtain ⟨l1, l2⟩ := loadRows_spec env ciftiFile n
      (List.range ciftiFile.numberOfRows.toNat) []
    refine ⟨(loadRows env ciftiFile n (List.range ciftiFile.numberOfRows.toNat) []).1,
      ⟨(loadRows env ciftiFile n (List.range ciftiFile.numberOfRows.toNat) []).2⟩,
      ?_, l1, ?_, ?_⟩
    · unfold readFile
      simp only [clear]
      rw [if_neg (by omega), if_neg (by omega), if_neg (by simpa using hpass), c2 n h0 hc]
    · simp only []
      rw [l2, List.nil_append]
    · unfold getNumberOfFiberOrientations
      simp only []
      rw [l2, List.nil_append]
      have := List.length_filter_le (fun fo : FiberOrientation => fo.m_valid)
        ((List.range ciftiFile.numberOfRows.toNat).map (fun (i : Nat) =>
          env.newFiberOrientation n (ciftiFile.getRow (i : Int))))
      simp only [List.length_map, List.length_range] at this
      omega
  refine ⟨?_, ?_, hok, ?_⟩
  · intro h
    unfold readFile
    simp only [clear, emptyFile]
    by_cases hr : ciftiFile.numberOfRows ≤ 0
    · exact ⟨.noRows, by rw [if_pos hr], Or.inl rfl⟩
    · have hc : ciftiFile.numberOfColumns ≤ 0 := by
        rcases h with h | h
        · exact absurd h hr
        · exact h
      exact ⟨.noColumns, by rw [if_neg hr, if_pos hc], Or.inr rfl⟩
  · intro hr hc
    obtain ⟨c1, _⟩ := column_check ciftiFile.numberOfColumns hc
    have hbad : (¬ ∃ n : Int, 0 ≤ n ∧ ciftiFile.numberOfColumns = 3 + 7 * n) →
        ∃ a b, readFile env self (some ciftiFile)
          = ([], emptyFile, .error (.columnCount a b)) := by
      intro hno
      have hfail := fun he => hno (c1.1 he)
      refine ⟨Int.tdiv (ciftiFile.numberOfColumns - NUMBER_OF_ELEMENTS_IN_FILE)
          NUMBER_OF_ELEMENTS_PER_FIBER_IN_FILE * NUMBER_OF_ELEMENTS_PER_FIBER_IN_FILE
          + NUMBER_OF_ELEMENTS_IN_FILE, ciftiFile.numberOfColumns, ?_⟩
      unfold readFile
      simp only [clear, emptyFile]
      rw [if_neg (by omega), if_neg (by omega), if_pos hfail]
    constructor
    · constructor
      · rintro ⟨t, s, hrun⟩
        by_contra hno
        obtain ⟨a, b, hb⟩ := hbad hno
        rw [hb] at hrun
        simp at hrun
      · rintro ⟨n, h0, hn⟩
        obtain ⟨t, s, hrun, _⟩ := hok n h0 hn hr
        exact ⟨t, s, hrun⟩
    · constructor
      · rintro ⟨a, b, hb⟩ ⟨n, h0, hn⟩
        obtain ⟨t, s, hrun, _⟩ := hok n h0 hn hr
        rw [hb] at hrun
        simp at hrun
      · exact hbad
  · exact ⟨rfl, rfl, rfl⟩

/-- Witness of C20: the read of a file of 3 rows and 10 columns calls the
constructor with 1 fiber for the rows 0, 1 and 2 and stores the two valid
results; 9 columns fail the validation of the column count, and so do 2
columns, for which the division of line 456 truncates to 0 fibers. -/
theorem readFile_validation_witness :
    (readFile simpleEnv emptyFile (some tenColumnFile)).1 =
      [.newFiberOrientation 1 0, .newFiberOrientation 1 1, .logSevere 1,
        .newFiberOrientation 1 2] ∧
    (readFile simpleEnv emptyFile (some { tenColumnFile with numberOfColumns := 9 })).2.2
      = .error (.columnCount 3 9) ∧
    (readFile simpleEnv emptyFile (some { tenColumnFile with numberOfColumns := 2 })).2.2
      = .error (.columnCount 3 2) ∧
    (∃ t s, readFile simpleEnv emptyFile (some tenColumnFile) = (t, s, .ok ()) ∧
        constructorCalls t = (List.range tenColumnFile.numberOfRows.toNat).map
          (fun (i : Nat) => ((1 : Int), i)) ∧
        s.m_fiberOrientations = ((List.range tenColumnFile.numberOfRows.toNat).map (fun (i : Nat) =>
          simpleEnv.newFiberOrientation 1 (tenColumnFile.getRow (i : Int)))).filter
            (fun fo => fo.m_valid) ∧
        getNumberOfFiberOrientations s ≤ tenColumnFile.numberOfRows) :=
  ⟨rfl, rfl, rfl,
    (readFile_validation simpleEnv emptyFile tenColumnFile).2.2.1 1 (by decide) (by decide)
      (by decide)⟩
end FiberOrientationFile

/-! # The claim on `AnnotationOneDimensionalShape` -/

namespace AnnotationOneDimensionalShape

open AnnotationSizingHandleTypeEnum

/-- A finite value is its multiple of `2^g` times `2^g`. -/
theorem units_mul_zpow (s : Bool) (m : Nat) (e g : Int) (h : g ≤ e) :
    ((float.units s m e g : Int) : ℚ) * (2 : ℚ) ^ g = (float.finite s m e).toRat := by
  unfold float.units float.toRat
  have h2 : ((2 : ℚ) ^ (e - g).toNat) * (2 : ℚ) ^ g = (2 : ℚ) ^ e := by
    rw [← zpow_natCast, Int.toNat_of_nonneg (by omega), ← zpow_add₀ (by norm_num)]
    congr 1; omega
  cases s <;> simp only [Bool.false_eq_true, if_false, if_true] <;> push_cast <;>
    rw [← h2] <;> ring

/-- The comparison of two finite values is the comparison of their
numbers. -/
theorem le_finite_iff (s : Bool) (m : Nat) (e : Int) (t : Bool) (n : Nat) (f : Int) :
    float.le (.finite s m e) (.finite t n f) = true ↔
      (float.finite s m e).toRat ≤ (float.finite t n f).toRat := by
  have hp : (0 : ℚ) < (2 : ℚ) ^ (min e f) := zpow_pos (by norm_num) _
  rw [← units_mul_zpow s m e (min e f) (min_le_left _ _),
    ← units_mul_zpow t n f (min e f) (min_le_right _ _)]
  simp only [float.le, decide_eq_true_eq]
  rw [mul_le_mul_right hp]
  exact Int.cast_le.symm

/-- The number of the constant `100.0f`. -/
theorem toRat_hundred : float.hundred.toRat = 100 := by
  simp only [float.hundred, float.toRat]
  norm_num

/-- The number of the constant `0.0f`. -/
theorem toRat_zero : float.zero.toRat = 0 := by
  simp [float.zero, float.toRat]

/-- The test of lines 633-640 holds of a coordinate exactly when it is a
finite number of `[0, 100]`. -/
theorem inRange_iff (x : float) : inRange x = true ↔ x.InPercentRange := by
  unfold inRange float.InPercentRange
  rw [Bool.and_eq_true]
  cases x with
  | finite s m e =>
    have h0 := le_finite_iff false 0 (-149) s m e
    have h1 := le_finite_iff s m e false 13107200 (-17)
    have e0 : (float.finite false 0 (-149)).toRat = 0 := toRat_zero
    have e1 : (float.finite false 13107200 (-17)).toRat = 100 := toRat_hundred
    rw [e0] at h0
    rw [e1] at h1
    show (float.le (.finite false 0 (-149)) (.finite s m e) = true ∧
      float.le (.finite s m e) (.finite false 13107200 (-17)) = true) ↔ _
    rw [h0, h1]
    exact ⟨fun h => ⟨⟨s, m, e, rfl⟩, h⟩, fun h => h.2⟩
  | infinite s =>
    cases s <;> simp [float.le, float.zero, float.hundred]
  | nan => simp [float.le, float.zero]

/-- The operator `!=` against `0.0f` is false exactly for the zeros. -/
theorem ne_zero_eq_false_iff (x : float) :
    float.ne x float.zero = false ↔ x.isZero = true := by
  unfold float.ne
  rw [Bool.not_eq_false', Bool.and_eq_true]
  cases x with
  | finite s m e =>
    have h0 := le_finite_iff false 0 (-149) s m e
    have h1 := le_finite_iff s m e false 0 (-149)
    have e0 : (float.finite false 0 (-149)).toRat = 0 := toRat_zero
    rw [e0] at h0 h1
    show (float.le (.finite s m e) (.finite false 0 (-149)) = true ∧
      float.le (.finite false 0 (-149)) (.finite s m e) = true) ↔ _
    rw [h0, h1]
    have hp : (0 : ℚ) < (2 : ℚ) ^ e := zpow_pos (by norm_num) _
    constructor
    · rintro ⟨a, b⟩
      have hz : (float.finite s m e).toRat = 0 := le_antisymm a b
      simp only [float.toRat, mul_eq_zero] at hz
      rcases hz with (hz | hz) | hz
      · cases s <;> simp at hz
      · have : m = 0 := by exact_mod_cast hz
        simp [float.isZero, this]
      · exact absurd hz (ne_of_gt hp)
    · intro h
      have hm : m = 0 := by simpa [float.isZero] using h
      subst hm
      simp [float.toRat]
  | infinite s =>
    cases s <;> simp [float.le, float.zero, float.isZero]
  | nan => simp [float.le, float.zero, float.isZero]

/-- The constant `spaceDX` is the percentage of the specification in `float`
arithmetic. -/
theorem spaceDX_eq (sm : AnnotationSpatialModification) :
    spaceDX sm = specDelta sm.m_mouseDX sm.m_viewportWidth := by
  unfold spaceDX specDelta
  by_cases h : float.ne sm.m_viewportWidth float.zero = true
  · rw [if_pos h, if_pos h]
  · rw [if_neg h, if_neg h]; rfl

/-- The constant `spaceDY` is the percentage of the specification in `float`
arithmetic. -/
theorem spaceDY_eq (sm : AnnotationSpatialModification) :
    spaceDY sm = specDelta sm.m_mouseDY sm.m_viewportHeight := by
  unfold spaceDY specDelta
  by_cases h : float.ne sm.m_viewportHeight float.zero = true
  · rw [if_pos h, if_pos h]
  · rw [if_neg h, if_neg h]; rfl

/-- What the function does once the switch has set `validFlag` and the new
coordinates are those of the shape `t`. -/
theorem apply_of_moveHandle (rotated : Shape → AnnotationSpatialModification → NewXY)
    (self t : Shape) (sm : AnnotationSpatialModification)
    (hm : moveHandle rotated self sm = (true,
      ⟨t.m_startCoordinate.m_xyz.1, t.m_startCoordinate.m_xyz.2.1,
        t.m_endCoordinate.m_xyz.1, t.m_endCoordinate.m_xyz.2.1⟩))
    (hz1 : t.m_startCoordinate.m_xyz.2.2 = self.m_startCoordinate.m_xyz.2.2)
    (hz2 : t.m_endCoordinate.m_xyz.2.2 = self.m_endCoordinate.m_xyz.2.2) :
    (InRange t → applySpatialModificationTabOrWindowSpace rotated self sm = (true, t)) ∧
    (¬ InRange t → applySpatialModificationTabOrWindowSpace rotated self sm = (false, self)) := by
  unfold applySpatialModificationTabOrWindowSpace
  rw [hm]
  have hiff : (inRange t.m_startCoordinate.m_xyz.1 && inRange t.m_startCoordinate.m_xyz.2.1 &&
      inRange t.m_endCoordinate.m_xyz.1 && inRange t.m_endCoordinate.m_xyz.2.1) = true ↔
      InRange t := by
    unfold InRange
    simp only [Bool.and_eq_true, inRange_iff]
    tauto
  constructor
  · intro hr
    dsimp only
    rw [if_pos (hiff.2 hr)]
    obtain ⟨⟨⟨x1, y1, z1⟩⟩, ⟨⟨x2, y2, z2⟩⟩⟩ := t
    simp only [AnnotationCoordinate.setXYZ, AnnotationCoordinate.getXYZ] at *
    rw [← hz1, ← hz2]
  · intro hr
    dsimp only
    rw [if_neg (fun h => hr (hiff.1 h))]

/-- The switch on one of the three handles of the claim gives the coordinates
of the specification, in `float` arithmetic. -/
theorem moveHandle_line (rotated : Shape → AnnotationSpatialModification → NewXY)
    (self : Shape) (sm : AnnotationSpatialModification)
    (hh : sm.m_sizingHandleType = ANNOTATION_SIZING_HANDLE_LINE_START ∨
      sm.m_sizingHandleType = ANNOTATION_SIZING_HANDLE_LINE_END ∨
      sm.m_sizingHandleType = ANNOTATION_SIZING_HANDLE_NONE) :
    moveHandle rotated self sm = (true,
      ⟨(specMoved (movesStart sm.m_sizingHandleType) (movesEnd sm.m_sizingHandleType)
          self sm).m_startCoordinate.m_xyz.1,
        (specMoved (movesStart sm.m_sizingHandleType) (movesEnd sm.m_sizingHandleType)
          self sm).m_startCoordinate.m_xyz.2.1,
        (specMoved (movesStart sm.m_sizingHandleType) (movesEnd sm.m_sizingHandleType)
          self sm).m_endCoordinate.m_xyz.1,
        (specMoved (movesStart sm.m_sizingHandleType) (movesEnd sm.m_sizingHandleType)
          self sm).m_endCoordinate.m_xyz.2.1⟩) := by
  unfold moveHandle
  rw [spaceDX_eq, spaceDY_eq]
  rcases hh with h | h | h <;> rw [h] <;>
    simp [specMoved, movesStart, movesEnd, AnnotationCoordinate.getXYZ]

set_option maxRecDepth 100000 in
/-- C30, counterexample: the end of the line is at x = 100 and the end handle
is moved by `2^-15` in a viewport of width 1024.  Over exact arithmetic the
percentage is `100 / 2^25` and the moved x lies above 100, so the call would
return false; the function, in `float` arithmetic, returns true: the sum of
100 and the percentage is rounded to 100, and the x it stores is not the old
x plus the percentage. -/
theorem exact_arithmetic_counterexample :
    applySpatialModificationTabOrWindowSpace noRotation borderShape tinyMove
      = (true, borderShape) ∧
    spaceDX tinyMove = float.finite false 13107200 (-42) ∧
    (spaceDX tinyMove).toRat
      = exactDelta tinyMove.m_mouseDX.toRat tinyMove.m_viewportWidth.toRat ∧
    exactDelta tinyMove.m_mouseDX.toRat tinyMove.m_viewportWidth.toRat = 100 / 2 ^ 25 ∧
    borderShape.m_endCoordinate.m_xyz.1.toRat = 100 ∧
    ¬ (borderShape.m_endCoordinate.m_xyz.1.toRat +
      exactDelta tinyMove.m_mouseDX.toRat tinyMove.m_viewportWidth.toRat ≤ 100) ∧
    float.add borderShape.m_endCoordinate.m_xyz.1 (spaceDX tinyMove)
      = borderShape.m_endCoordinate.m_xyz.1 := by
  have hdx : tinyMove.m_mouseDX = float.finite false 8388608 (-38) := by decide
  have hw : tinyMove.m_viewportWidth = float.finite false 8388608 (-13) := by decide
  have hs : spaceDX tinyMove = float.finite false 13107200 (-42) := by rfl
  have hd : exactDelta tinyMove.m_mouseDX.toRat tinyMove.m_viewportWidth.toRat
      = 100 / 2 ^ 25 := by
    rw [hdx, hw]
    simp only [exactDelta, float.toRat]
    norm_num
  have he : borderShape.m_endCoordinate.m_xyz.1.toRat = 100 := toRat_hundred
  refine ⟨by rfl, hs, ?_, hd, he, ?_, by rfl⟩
  · rw [hd, hs]
    simp only [float.toRat]
    norm_num
  · rw [hd, he]
    norm_num

/-- C30, amended: with the handle of the start of the line, of its end, or
none, in `float` arithmetic, each operation rounded to `float`: the
percentages `spaceDX` and `spaceDY` are `100.0f * (mouseDX / viewportWidth)`
and `100.0f * (mouseDY / viewportHeight)`, and 0 when that viewport size is a
zero; the call either returns false and leaves the shape as it was, or
returns true, and then the x and y of both end points are finite numbers of
`[0, 100]` and the shape is the old one with the percentages added, each sum
rounded to `float`, to the x and y of the end points that the handle moves
(the start for the start handle, the end for the end handle, both for none;
the other coordinates stay); and it returns true exactly when the coordinates
so moved are finite numbers of `[0, 100]`. -/
theorem line_handles_move_within_range
    (rotated : Shape → AnnotationSpatialModification → NewXY)
    (self : Shape) (sm : AnnotationSpatialModification)
    (hh : sm.m_sizingHandleType = ANNOTATION_SIZING_HANDLE_LINE_START ∨
      sm.m_sizingHandleType = ANNOTATION_SIZING_HANDLE_LINE_END ∨
      sm.m_sizingHandleType = ANNOTATION_SIZING_HANDLE_NONE) :
    spaceDX sm = (if sm.m_viewportWidth.isZero then float.zero
      else float.mul float.hundred (float.div sm.m_mouseDX sm.m_viewportWidth)) ∧
    spaceDY sm = (if sm.m_viewportHeight.isZero then float.zero
      else float.mul float.hundred (float.div sm.m_mouseDY sm.m_viewportHeight)) ∧
    (applySpatialModificationTabOrWindowSpace rotated self sm = (false, self) ∨
      ((applySpatialModificationTabOrWindowSpace rotated self sm).1 = true ∧
        InRange (applySpatialModificationTabOrWindowSpace rotated self sm).2 ∧
        (applySpatialModificationTabOrWindowSpace rotated self sm).2 =
          specMoved (movesStart sm.m_sizingHandleType) (movesEnd sm.m_sizingHandleType)
            self sm)) ∧
    ((applySpatialModificationTabOrWindowSpace rotated self sm).1 = true ↔
      InRange (specMoved (movesStart sm.m_sizingHandleType)
        (movesEnd sm.m_sizingHandleType) self sm)) ∧
    specMoved (movesStart sm.m_sizingHandleType) (movesEnd sm.m_sizingHandleType) self sm =
      { m_startCoordinate :=
          ⟨(if sm.m_sizingHandleType = ANNOTATION_SIZING_HANDLE_LINE_END
              then self.m_startCoordinate.m_xyz.1
              else float.add self.m_startCoordinate.m_xyz.1 (spaceDX sm),
            if sm.m_sizingHandleType = ANNOTATION_SIZING_HANDLE_LINE_END
              then self.m_startCoordinate.m_xyz.2.1
              else float.add self.m_startCoordinate.m_xyz.2.1 (spaceDY sm),
            self.m_startCoordinate.m_xyz.2.2)⟩
        m_endCoordinate :=
          ⟨(if sm.m_sizingHandleType = ANNOTATION_SIZING_HANDLE_LINE_START
              then self.m_endCoordinate.m_xyz.1
              else float.add self.m_endCoordinate.m_xyz.1 (spaceDX sm),
            if sm.m_sizingHandleType = ANNOTATION_SIZING_HANDLE_LINE_START
              then self.m_endCoordinate.m_xyz.2.1
              else float.add self.m_endCoordinate.m_xyz.2.1 (spaceDY sm),
            self.m_endCoordinate.m_xyz.2.2)⟩ } := by
  have hdelta : ∀ d v : float, specDelta d v = (if v.isZero
      then float.zero else float.mul float.hundred (float.div d v)) := by
    intro d v
    unfold specDelta
    by_cases hz : v.isZero = true
    · rw [if_pos hz, if_neg]
      rw [(ne_zero_eq_false_iff v).2 hz]; simp
    · rw [if_neg hz, if_pos]
      cases hn : float.ne v float.zero
      · exact absurd ((ne_zero_eq_false_iff v).1 hn) hz
      · rfl
  have hap := apply_of_moveHandle rotated self _ sm (moveHandle_line rotated self sm hh) rfl rfl
  refine ⟨by rw [spaceDX_eq]; exact hdelta _ _, by rw [spaceDY_eq]; exact hdelta _ _, ?_, ?_, ?_⟩
  · by_cases hr : InRange (specMoved (movesStart sm.m_sizingHandleType)
        (movesEnd sm.m_sizingHandleType) self sm)
    · rw [hap.1 hr]; exact Or.inr ⟨rfl, hr, rfl⟩
    · rw [hap.2 hr]; exact Or.inl rfl
  · by_cases hr : InRange (specMoved (movesStart sm.m_sizingHandleType)
        (movesEnd sm.m_sizingHandleType) self sm)
    · rw [hap.1 hr]; exact ⟨fun _ => hr, fun _ => rfl⟩
    · rw [hap.2 hr]; exact ⟨fun h => by simp at h, fun h => absurd h hr⟩
  · rw [spaceDX_eq, spaceDY_eq]
    rcases hh with h | h | h <;> rw [h] <;> simp [specMoved, movesStart, movesEnd]

/-- Witness of C30: the start handle moves the start of the line from
`(10, 20)` to `(35, 45)`; the end handle would move the end from `(60, 80)` to
`(85, 105)`, so the call returns false and the line stays. -/
theorem line_handles_move_within_range_witness :
    applySpatialModificationTabOrWindowSpace noRotation lineShape
      (mouseMove ANNOTATION_SIZING_HANDLE_LINE_START) =
        (true, ⟨⟨(float.ofNat 35, float.ofNat 45, float.zero)⟩,
          ⟨(float.ofNat 60, float.ofNat 80, float.zero)⟩⟩) ∧
    applySpatialModificationTabOrWindowSpace noRotation lineShape
      (mouseMove ANNOTATION_SIZING_HANDLE_LINE_END) = (false, lineShape) ∧
    spaceDX (mouseMove ANNOTATION_SIZING_HANDLE_LINE_START) = float.ofNat 25 ∧
    (applySpatialModificationTabOrWindowSpace noRotation lineShape
        (mouseMove ANNOTATION_SIZING_HANDLE_LINE_START) = (false, lineShape) ∨
      ((applySpatialModificationTabOrWindowSpace noRotation lineShape
          (mouseMove ANNOTATION_SIZING_HANDLE_LINE_START)).1 = true ∧
        InRange (applySpatialModificationTabOrWindowSpace noRotation lineShape
          (mouseMove ANNOTATION_SIZING_HANDLE_LINE_START)).2 ∧
        (applySpatialModificationTabOrWindowSpace noRotation lineShape
          (mouseMove ANNOTATION_SIZING_HANDLE_LINE_START)).2 =
          specMoved true false lineShape (mouseMove ANNOTATION_SIZING_HANDLE_LINE_START))) :=
  ⟨rfl, rfl, rfl,
    (line_handles_move_within_range noRotation lineShape
      (mouseMove ANNOTATION_SIZING_HANDLE_LINE_START) (Or.inl rfl)).2.2.1⟩

end AnnotationOneDimensionalShape
